import Mathlib

/-!
# Multi-factor caching demo: device throughput log, MFWA read engine, monitor, device queue

A shallow embedding of

* the device throughput log of `contexts/ul-exp/src/cache/cache-obj.c` and
  `contexts/ul-exp/src/core/core-obj.c` (a ring of `(finish_time_ms, bytes)`
  entries with `head` / `tail` indices),
* the read path of `src/engine/engine_mfwa.c`,
* the adaptive monitor thread of `src/engine/mf_monitor.c`, and
* the submission queue and worker thread of `contexts/ul-exp/src/cache/cache-vol.c`.

Modelling conventions.

* C `double` values are modelled by rationals (exact arithmetic, no rounding).
* C `int` indices are modelled by `Int`; the C remainder operator is `Int.tmod`.
* An array access outside `[0, CACHE_LOG_SIZE)` is undefined behaviour in C and
  makes the model return `none`; the `do ... while` scan of the query runs on
  fuel `CACHE_LOG_SIZE`, and returns `none` when the fuel is used up.
* The `malloc`-ed array is not initialised by the setup code, so the fresh log
  is parameterised by arbitrary initial memory.
* The unbounded loops of the monitor run on fuel; what the monitor observes from
  outside (throughput, miss ratio, stop flag) is given by an environment indexed by
  the number of observations made so far.
* Concurrency (the device queue, pushes and queries on one log under its rwlock) is
  modelled by interleavings of atomic steps; each access to a shared variable is a
  step of its own.
-/

namespace NhcDemo

/-! ## Device throughput log -/

/-- Entry of the device log: `struct cache_log_entry` / `struct core_log_entry`. -/
structure cache_log_entry where
  finish_time_ms : ℚ
  bytes : Nat
deriving DecidableEq

/-- Capacity of the cache device log: `#define CACHE_LOG_SIZE (120000)`. -/
def CACHE_LOG_SIZE : Int := 120000

/-- Capacity of the core device log: `#define CORE_LOG_SIZE (120000)`. -/
def CORE_LOG_SIZE : Int := 120000

/-- The three file-level variables of a device log: the entry array and the
`head` and `tail` indices. -/
structure DeviceLog where
  log : Int → cache_log_entry
  head : Int
  tail : Int

/-- State left by the log part of `cache_obj_setup` / `core_obj_setup`: the
array comes from `malloc` (contents `mem` arbitrary), `head = tail = -1`. -/
def log_setup (mem : Int → cache_log_entry) : DeviceLog :=
  { log := mem, head := -1, tail := -1 }

/-- The function `cache_log_push_entry` of `cache-obj.c`. -/
def cache_log_push_entry (s : DeviceLog) (finish_time_ms : ℚ) (bytes : Nat) :
    Option DeviceLog :=
  let pos := Int.tmod (s.tail + 1) CACHE_LOG_SIZE
  if 0 ≤ pos ∧ pos < CACHE_LOG_SIZE then
    let log := Function.update s.log pos ⟨finish_time_ms, bytes⟩
    let tail := pos
    let head :=
      if tail = s.head then Int.tmod (s.head + 1) CACHE_LOG_SIZE else s.head
    let head := if head < 0 then 0 else head
    some { log := log, head := head, tail := tail }
  else none

/-- The `do ... while (i != cache_log_head)` scan of `cache_log_query_throughput`;
`i` is the index before the decrement at the top of the body, `kilobytes` the
running sum. -/
def cache_log_query_loop (s : DeviceLog) (begin_time_ms end_time_ms : ℚ) :
    Nat → Int → ℚ → Option ℚ
  | 0, _, _ => none
  | fuel + 1, i, kilobytes =>
    let i := if i = 0 then CACHE_LOG_SIZE - 1 else i - 1
    if 0 ≤ i ∧ i < CACHE_LOG_SIZE then
      if (s.log i).finish_time_ms ≤ begin_time_ms then some kilobytes
      else
        let kilobytes :=
          if (s.log i).finish_time_ms ≤ end_time_ms then
            kilobytes + ((s.log i).bytes : ℚ) / 1024
          else kilobytes
        if i ≠ s.head then
          cache_log_query_loop s begin_time_ms end_time_ms fuel i kilobytes
        else some kilobytes
    else none

/-- The function `cache_log_query_throughput` of `cache-obj.c`. -/
def cache_log_query_throughput (s : DeviceLog) (begin_time_ms end_time_ms : ℚ) :
    Option ℚ :=
  let kilobytes :=
    if 0 ≤ s.head then
      cache_log_query_loop s begin_time_ms end_time_ms CACHE_LOG_SIZE.toNat
        (s.tail + 1) 0
    else some 0
  kilobytes.map fun k => (k * 1000) / (end_time_ms - begin_time_ms)

/-- The function `core_log_push_entry` of `core-obj.c`. -/
def core_log_push_entry (s : DeviceLog) (finish_time_ms : ℚ) (bytes : Nat) :
    Option DeviceLog :=
  let pos := Int.tmod (s.tail + 1) CORE_LOG_SIZE
  if 0 ≤ pos ∧ pos < CORE_LOG_SIZE then
    let log := Function.update s.log pos ⟨finish_time_ms, bytes⟩
    let tail := pos
    let head :=
      if tail = s.head then Int.tmod (s.head + 1) CORE_LOG_SIZE else s.head
    let head := if head < 0 then 0 else head
    some { log := log, head := head, tail := tail }
  else none

/-- The `do ... while (i != core_log_head)` scan of `core_log_query_throughput`. -/
def core_log_query_loop (s : DeviceLog) (begin_time_ms end_time_ms : ℚ) :
    Nat → Int → ℚ → Option ℚ
  | 0, _, _ => none
  | fuel + 1, i, kilobytes =>
    let i := if i = 0 then CORE_LOG_SIZE - 1 else i - 1
    if 0 ≤ i ∧ i < CORE_LOG_SIZE then
      if (s.log i).finish_time_ms ≤ begin_time_ms then some kilobytes
      else
        let kilobytes :=
          if (s.log i).finish_time_ms ≤ end_time_ms then
            kilobytes + ((s.log i).bytes : ℚ) / 1024
          else kilobytes
        if i ≠ s.head then
          core_log_query_loop s begin_time_ms end_time_ms fuel i kilobytes
        else some kilobytes
    else none

/-- The function `core_log_query_throughput` of `core-obj.c`. -/
def core_log_query_throughput (s : DeviceLog) (begin_time_ms end_time_ms : ℚ) :
    Option ℚ :=
  let kilobytes :=
    if 0 ≤ s.head then
      core_log_query_loop s begin_time_ms end_time_ms CORE_LOG_SIZE.toNat
        (s.tail + 1) 0
    else some 0
  kilobytes.map fun k => (k * 1000) / (end_time_ms - begin_time_ms)

/-- A sequence of pushes onto the cache log, oldest first. -/
def cache_log_push_all (s : DeviceLog) : List cache_log_entry → Option DeviceLog
  | [] => some s
  | e :: es =>
    (cache_log_push_entry s e.finish_time_ms e.bytes).bind fun t =>
      cache_log_push_all t es

/-- A sequence of pushes onto the core log, oldest first. -/
def core_log_push_all (s : DeviceLog) : List cache_log_entry → Option DeviceLog
  | [] => some s
  | e :: es =>
    (core_log_push_entry s e.finish_time_ms e.bytes).bind fun t =>
      core_log_push_all t es

/-- Entries of `es` whose finish time lies in the window `(t0, t1]`. -/
def in_window (t0 t1 : ℚ) (es : List cache_log_entry) : List cache_log_entry :=
  es.filter fun e => decide (t0 < e.finish_time_ms ∧ e.finish_time_ms ≤ t1)

/-- Sum of the byte counts of the entries of `es` inside the window `(t0, t1]`. -/
def window_bytes (t0 t1 : ℚ) (es : List cache_log_entry) : Nat :=
  ((in_window t0 t1 es).map fun e => e.bytes).sum

/-- Sum of `bytes / 1024` over the entries of `es` inside the window `(t0, t1]`. -/
def window_kilobytes (t0 t1 : ℚ) (es : List cache_log_entry) : ℚ :=
  ((in_window t0 t1 es).map fun e => (e.bytes : ℚ) / 1024).sum

/-- The most recent `min (length es) CACHE_LOG_SIZE` entries of a push sequence. -/
def retained (es : List cache_log_entry) : List cache_log_entry :=
  es.drop (es.length - CACHE_LOG_SIZE.toNat)

/-- Finish times are non-decreasing along the push sequence. -/
def monotone_times (es : List cache_log_entry) : Prop :=
  es.Pairwise fun a b => a.finish_time_ms ≤ b.finish_time_ms

/-- Ring invariant linking the log state to the sequence `es` of pushes made
since setup (oldest first). -/
def ring_inv (s : DeviceLog) (es : List cache_log_entry) : Prop :=
  (es = [] → s.head = -1 ∧ s.tail = -1) ∧
  (es ≠ [] → s.tail = ((es.length : Int) - 1) % 120000 ∧
    s.head = if (es.length : Int) ≤ 120000 then 0 else (es.length : Int) % 120000) ∧
  ∀ (k : Nat) (x : cache_log_entry), (k : Int) < 120000 → es.reverse[k]? = some x →
    s.log (((es.length : Int) - 1 - k) % 120000) = x

/-- Newest-first scan over a list of entries: what the body of the query loop
computes on the entries it visits, in the order it visits them. -/
def scan_entries (t0 t1 : ℚ) : List cache_log_entry → ℚ → ℚ
  | [], kb => kb
  | x :: rest, kb =>
    if x.finish_time_ms ≤ t0 then kb
    else scan_entries t0 t1 rest
      (if x.finish_time_ms ≤ t1 then kb + (x.bytes : ℚ) / 1024 else kb)

/-- Set up a fresh cache log over memory `mem`, push the entries `es` in order,
then call `cache_log_query_throughput t0 t1`. -/
def cache_log_query_after (mem : Int → cache_log_entry) (es : List cache_log_entry)
    (t0 t1 : ℚ) : Option ℚ :=
  (cache_log_push_all (log_setup mem) es).bind fun s => cache_log_query_throughput s t0 t1

/-- Set up a fresh core log over memory `mem`, push the entries `es` in order,
then call `core_log_query_throughput t0 t1`. -/
def core_log_query_after (mem : Int → cache_log_entry) (es : List cache_log_entry)
    (t0 t1 : ℚ) : Option ℚ :=
  (core_log_push_all (log_setup mem) es).bind fun s => core_log_query_throughput s t0 t1

/-- Initial memory with every slot zero, used for concrete runs. -/
def zero_mem : Int → cache_log_entry := fun _ => ⟨0, 0⟩

/-- A push sequence one longer than the capacity: 120001 entries of 1024 bytes, all
finishing at time 1. -/
def overfull_pushes : List cache_log_entry := List.replicate 120001 ⟨1, 1024⟩

/-- The array indices used by the scan of `cache_log_query_throughput`, in the order of
the iterations: the value of `i` after the decrement at the top of each iteration of the
`do ... while` loop (same control flow as `cache_log_query_loop`). -/
def cache_log_query_visits (s : DeviceLog) (begin_time_ms : ℚ) : Nat → Int → List Int
  | 0, _ => []
  | fuel + 1, i =>
    let i := if i = 0 then CACHE_LOG_SIZE - 1 else i - 1
    i :: (if 0 ≤ i ∧ i < CACHE_LOG_SIZE then
            if (s.log i).finish_time_ms ≤ begin_time_ms then []
            else if i ≠ s.head then cache_log_query_visits s begin_time_ms fuel i
            else []
          else [])

/-- The array index written by `cache_log_push_entry`: `(tail + 1) % CACHE_LOG_SIZE`. -/
def cache_log_push_index (s : DeviceLog) : Int := Int.tmod (s.tail + 1) CACHE_LOG_SIZE

/-- The array indices read by `cache_log_query_throughput`, in order: none when
`head < 0`, else those of the scan started at `tail + 1`.  `fuel` bounds the number of
iterations followed. -/
def cache_log_query_indices (s : DeviceLog) (begin_time_ms : ℚ) (fuel : Nat) : List Int :=
  if 0 ≤ s.head then cache_log_query_visits s begin_time_ms fuel (s.tail + 1) else []

/-! ## MFWA read engine (`src/engine/engine_mfwa.c`)

The engine is modelled as functions from the request (and the outcomes of the
external calls) to the updated request and the list of calls made, in program
order.  Calls of the engine's own helpers `_ocf_read_mfwa_submit_to_cache` and
`_ocf_read_mfwa_submit_to_core` are recorded as well, so that the routing decision
of `_ocf_read_mfwa_do` is visible in the trace. -/

/-- Lock types requested from the mapping layer: `enum ocf_engine_lock_type`. -/
inductive ocf_engine_lock_type where
  | ocf_engine_lock_none
  | ocf_engine_lock_write
  | ocf_engine_lock_read
deriving DecidableEq, Repr

/-- The three completion callbacks the engine passes to the submission layer. -/
inductive Cmpl where
  | to_cache_cmpl
  | to_core_cmpl_do_promote
  | to_core_cmpl_no_promote
deriving DecidableEq, Repr

/-- Calls made by the engine, named after the C functions. -/
inductive Call where
  | ocf_io_start
  | pt_read
  | ocf_req_get
  | ocf_req_put
  | monitor_query_data_admit
  | monitor_query_load_admit
  | rand
  | ocf_engine_prepare_clines
  | ocf_req_clear
  | complete (error : Int)
  | ocf_req_hash_lock_wr
  | ocf_part_move
  | ocf_req_hash_unlock_wr
  | ocf_req_hash_lock_rd
  | ocf_req_hash_unlock_rd
  | ocf_set_valid_map_info
  | ocf_engine_clean
  | ocf_read_pt_do
  | submit_to_cache
  | submit_to_core (promote : Bool)
  | ocf_submit_cache_reqs (count : Nat) (cmpl : Cmpl)
  | ocf_submit_volume_req (cmpl : Cmpl)
  | ctx_data_alloc
  | ctx_data_mlock
  | ctx_data_free (non_null : Bool)
  | ctx_data_cpy
  | ocf_req_unlock
  | inc_fallback_pt_error_counter
  | ocf_core_stats_cache_error_update
  | ocf_core_stats_core_error_update
  | ocf_engine_push_req_front_pt
  | ocf_engine_invalidate
  | ocf_engine_backfill
  | ocf_engine_update_request_stats
  | ocf_engine_update_block_stats
deriving DecidableEq, Repr

/-- Fields of `struct ocf_request` read or written by the engine.  `hit` is the value
of `ocf_engine_is_hit(req)`, `io_count` the value of `ocf_engine_io_count(req)`,
`rd_locked` is `req->map->rd_locked`, `cp_data` tells whether `req->cp_data` is
non-NULL. -/
structure ocf_request where
  hit : Bool
  re_part : Bool
  dirty_any : Bool
  mapping_error : Bool
  core_error : Bool
  rd_locked : Bool
  io_count : Nat
  data_admit_allowed : Bool
  load_admit_allowed : Bool
  req_remaining : Int
  error : Int
  cp_data : Bool
deriving DecidableEq, Repr

/-- Constants of the C library and of the OCF headers that the engine uses and that
this repository does not define. -/
structure Consts where
  RAND_MAX : Nat
  OCF_ERR_NO_MEM : Int
  OCF_LOCK_ACQUIRED : Int

/-- Outcomes of the external calls made while one read request is handled;
`data_admit_switch` and `load_admit_switch` are the values returned by
`monitor_query_data_admit()` and `monitor_query_load_admit()`. -/
structure Outcomes where
  pending_read_misses_list_blocked : Bool
  data_admit_switch : Bool
  load_admit_switch : ℚ
  rand : Nat
  hit : Bool
  re_part : Bool
  dirty_any : Bool
  mapping_error : Bool
  rd_locked : Bool
  io_count : Nat
  lock : Int
  alloc_ok : Bool
  mlock_ret : Int
  cache_error : Nat → Int
  core_error : Int

/-- The function `data_admit_allow`: the published `data_admit` switch. -/
def data_admit_allow (data_admit_switch : Bool) : Bool := data_admit_switch

/-- The function `load_admit_allow`:
`(((double) rand()) / RAND_MAX) <= load_admit`. -/
def load_admit_allow (c : Consts) (load_admit_switch : ℚ) (rand : Nat) : Bool :=
  decide ((rand : ℚ) / (c.RAND_MAX : ℚ) ≤ load_admit_switch)

/-- The function `_ocf_read_mfwa_to_cache_cmpl`. -/
def _ocf_read_mfwa_to_cache_cmpl (req : ocf_request) (error : Int) :
    ocf_request × List Call :=
  let req := if error ≠ 0 then { req with error := Int.lor req.error error } else req
  let c1 := if req.error ≠ 0 then [Call.inc_fallback_pt_error_counter] else []
  let req := { req with req_remaining := req.req_remaining - 1 }
  if req.req_remaining = 0 then
    if req.error ≠ 0 then
      (req, c1 ++ [Call.ocf_core_stats_cache_error_update, Call.ocf_engine_push_req_front_pt])
    else
      (req, c1 ++ [Call.ocf_req_unlock, Call.complete req.error, Call.ocf_req_put])
  else (req, c1)

/-- The function `_ocf_read_mfwa_submit_to_cache`. -/
def _ocf_read_mfwa_submit_to_cache (req : ocf_request) : ocf_request × List Call :=
  let req := { req with req_remaining := (req.io_count : Int) }
  (req, [Call.submit_to_cache, Call.ocf_submit_cache_reqs req.io_count Cmpl.to_cache_cmpl])

/-- The function `_ocf_read_mfwa_to_core_cmpl_do_promote`. -/
def _ocf_read_mfwa_to_core_cmpl_do_promote (req : ocf_request) (error : Int) :
    ocf_request × List Call :=
  let req := if error ≠ 0 then { req with error := error } else req
  let req := { req with req_remaining := req.req_remaining - 1 }
  if req.req_remaining = 0 then
    if req.error ≠ 0 then
      ({ req with core_error := true, cp_data := false },
        [Call.complete req.error, Call.ocf_core_stats_core_error_update,
          Call.ctx_data_free req.cp_data, Call.ocf_engine_invalidate])
    else
      (req, [Call.ctx_data_cpy, Call.complete req.error, Call.ocf_engine_backfill])
  else (req, [])

/-- The function `_ocf_read_mfwa_to_core_cmpl_no_promote`. -/
def _ocf_read_mfwa_to_core_cmpl_no_promote (req : ocf_request) (error : Int) :
    ocf_request × List Call :=
  let req := if error ≠ 0 then { req with error := error } else req
  let req := { req with req_remaining := req.req_remaining - 1 }
  if req.req_remaining = 0 then
    if req.error ≠ 0 then
      ({ req with core_error := true, cp_data := false },
        [Call.complete req.error, Call.ocf_core_stats_core_error_update,
          Call.ctx_data_free req.cp_data, Call.ocf_engine_invalidate])
    else
      (req, [Call.complete req.error, Call.ocf_req_put])
  else (req, [])

/-- The function `_ocf_read_mfwa_submit_to_core`; `alloc_ok` tells whether
`ctx_data_alloc` returned a buffer, `mlock_ret` is the value of `ctx_data_mlock`. -/
def _ocf_read_mfwa_submit_to_core (c : Consts) (alloc_ok : Bool) (mlock_ret : Int)
    (req : ocf_request) (promote : Bool) : ocf_request × List Call :=
  let req := { req with req_remaining := 1 }
  if promote then
    let req := { req with cp_data := alloc_ok }
    if !req.cp_data then
      let r := _ocf_read_mfwa_to_core_cmpl_do_promote req (-c.OCF_ERR_NO_MEM)
      (r.1, [Call.submit_to_core true, Call.ctx_data_alloc] ++ r.2)
    else if mlock_ret ≠ 0 then
      let r := _ocf_read_mfwa_to_core_cmpl_do_promote req (-c.OCF_ERR_NO_MEM)
      (r.1, [Call.submit_to_core true, Call.ctx_data_alloc, Call.ctx_data_mlock] ++ r.2)
    else
      (req, [Call.submit_to_core true, Call.ctx_data_alloc, Call.ctx_data_mlock,
        Call.ocf_submit_volume_req Cmpl.to_core_cmpl_do_promote])
  else
    (req, [Call.submit_to_core false,
      Call.ocf_submit_volume_req Cmpl.to_core_cmpl_no_promote])

/-- First calls of `_ocf_read_mfwa_do`: `ocf_req_get`, then the re-partition block
when `req->info.re_part` is set. -/
def do_entry (req : ocf_request) : List Call :=
  [Call.ocf_req_get] ++
    (if req.re_part then
      [Call.ocf_req_hash_lock_wr, Call.ocf_part_move, Call.ocf_req_hash_unlock_wr]
    else [])

/-- Last calls of `_ocf_read_mfwa_do` on the paths that reach its end: the two
statistics updates and `ocf_req_put`. -/
def do_tail : List Call :=
  [Call.ocf_engine_update_request_stats, Call.ocf_engine_update_block_stats,
    Call.ocf_req_put]

/-- The function `_ocf_read_mfwa_do`. -/
def _ocf_read_mfwa_do (c : Consts) (alloc_ok : Bool) (mlock_ret : Int)
    (req : ocf_request) : ocf_request × List Call :=
  if req.hit then
    if req.load_admit_allowed then
      let r := _ocf_read_mfwa_submit_to_cache req
      (r.1, do_entry req ++ r.2 ++ do_tail)
    else
      let r := _ocf_read_mfwa_submit_to_core c alloc_ok mlock_ret req false
      (r.1, do_entry req ++ r.2 ++ do_tail)
  else
    if req.data_admit_allowed then
      if req.rd_locked then
        (req, do_entry req ++ [Call.ocf_read_pt_do])
      else if req.dirty_any then
        (req, do_entry req ++ [Call.ocf_req_hash_lock_rd, Call.ocf_engine_clean,
          Call.ocf_req_hash_unlock_rd, Call.ocf_req_put])
      else
        let r := _ocf_read_mfwa_submit_to_core c alloc_ok mlock_ret req true
        (r.1, do_entry req ++ [Call.ocf_req_hash_lock_rd, Call.ocf_set_valid_map_info,
          Call.ocf_req_hash_unlock_rd] ++ r.2 ++ do_tail)
    else
      let r := _ocf_read_mfwa_submit_to_core c alloc_ok mlock_ret req false
      (r.1, do_entry req ++ r.2 ++ do_tail)

/-- The function `ocf_read_mfwa_get_lock_type`. -/
def ocf_read_mfwa_get_lock_type (req : ocf_request) : ocf_engine_lock_type :=
  if req.hit then
    if req.load_admit_allowed then ocf_engine_lock_type.ocf_engine_lock_read
    else ocf_engine_lock_type.ocf_engine_lock_none
  else
    if req.data_admit_allowed then ocf_engine_lock_type.ocf_engine_lock_write
    else ocf_engine_lock_type.ocf_engine_lock_none

/-- The two captured decisions of `ocf_read_mfwa`:
`req->data_admit_allowed = data_admit_allow()` and
`req->load_admit_allowed = load_admit_allow()`. -/
def capture_admission (c : Consts) (o : Outcomes) (req : ocf_request) : ocf_request :=
  let req := { req with data_admit_allowed := data_admit_allow o.data_admit_switch }
  { req with load_admit_allowed := load_admit_allow c o.load_admit_switch o.rand }

/-- Mapping information that `ocf_engine_prepare_clines` leaves on the request. -/
def prepare_clines_info (o : Outcomes) (req : ocf_request) : ocf_request :=
  { req with
    hit := o.hit, re_part := o.re_part, dirty_any := o.dirty_any,
    mapping_error := o.mapping_error, rd_locked := o.rd_locked, io_count := o.io_count }

/-- Calls of `ocf_read_mfwa` up to and including `ocf_engine_prepare_clines`, when the
request is not bypassed. -/
def entry_calls : List Call :=
  [Call.ocf_io_start, Call.ocf_req_get, Call.monitor_query_data_admit,
    Call.monitor_query_load_admit, Call.rand, Call.ocf_engine_prepare_clines]

/-- The function `ocf_read_mfwa`.  The mapping information that
`ocf_engine_prepare_clines` leaves on the request and the lock status it returns
are taken from the outcomes `o`. -/
def ocf_read_mfwa (c : Consts) (o : Outcomes) (req : ocf_request) :
    ocf_request × List Call :=
  if o.pending_read_misses_list_blocked then
    (req, [Call.ocf_io_start, Call.pt_read])
  else
    let req := prepare_clines_info o (capture_admission c o req)
    if !req.mapping_error then
      if o.lock ≥ 0 then
        if o.lock ≠ c.OCF_LOCK_ACQUIRED then
          (req, entry_calls ++ [Call.ocf_req_put])
        else
          let r := _ocf_read_mfwa_do c o.alloc_ok o.mlock_ret req
          (r.1, entry_calls ++ r.2 ++ [Call.ocf_req_put])
      else
        (req, entry_calls ++ [Call.complete o.lock, Call.ocf_req_put, Call.ocf_req_put])
    else
      (req, entry_calls ++ [Call.ocf_req_clear, Call.pt_read, Call.ocf_req_put])

/-- Invocation of a completion callback by the submission layer. -/
def run_cmpl : Cmpl → ocf_request → Int → ocf_request × List Call
  | Cmpl.to_cache_cmpl => _ocf_read_mfwa_to_cache_cmpl
  | Cmpl.to_core_cmpl_do_promote => _ocf_read_mfwa_to_core_cmpl_do_promote
  | Cmpl.to_core_cmpl_no_promote => _ocf_read_mfwa_to_core_cmpl_no_promote

/-- The `n` sub-request completions of one `ocf_submit_cache_reqs`, numbered from `k`;
the `j`-th completes with status `err j`. -/
def deliver_n (cmpl : Cmpl) (err : Nat → Int) :
    Nat → Nat → ocf_request → ocf_request × List Call
  | 0, _, req => (req, [])
  | n + 1, k, req =>
    let r1 := run_cmpl cmpl req (err k)
    let r2 := deliver_n cmpl err n (k + 1) r1.1
    (r2.1, r1.2 ++ r2.2)

/-- Completions that the submission layer delivers for the submissions recorded in
a list of calls: `count` completions for `ocf_submit_cache_reqs`, one for
`ocf_submit_volume_req`. -/
def deliver (o : Outcomes) : List Call → ocf_request → ocf_request × List Call
  | [], req => (req, [])
  | Call.ocf_submit_cache_reqs n cmpl :: cs, req =>
    let r1 := deliver_n cmpl o.cache_error n 0 req
    let r2 := deliver o cs r1.1
    (r2.1, r1.2 ++ r2.2)
  | Call.ocf_submit_volume_req cmpl :: cs, req =>
    let r1 := run_cmpl cmpl req o.core_error
    let r2 := deliver o cs r1.1
    (r2.1, r1.2 ++ r2.2)
  | _ :: cs, req => deliver o cs req

/-- Handling of `_ocf_read_mfwa_do` followed by the completions of what it
submitted. -/
def do_and_complete (c : Consts) (o : Outcomes) (req : ocf_request) :
    ocf_request × List Call :=
  let r1 := _ocf_read_mfwa_do c o.alloc_ok o.mlock_ret req
  let r2 := deliver o r1.2 r1.1
  (r2.1, r1.2 ++ r2.2)

/-- Whole handling of one read by the engine: `ocf_read_mfwa`; when the lock was not
acquired at once, the later resume of the request, which runs `_ocf_read_mfwa_do`;
then the completions of what was submitted. -/
def handle_read (c : Consts) (o : Outcomes) (req : ocf_request) :
    ocf_request × List Call :=
  let r1 := ocf_read_mfwa c o req
  let waiting := !o.pending_read_misses_list_blocked && !o.mapping_error &&
    decide (o.lock ≥ 0) && decide (o.lock ≠ c.OCF_LOCK_ACQUIRED)
  let r2 := if waiting then _ocf_read_mfwa_do c o.alloc_ok o.mlock_ret r1.1 else (r1.1, [])
  let r3 := deliver o (r1.2 ++ r2.2) r2.1
  (r3.1, r1.2 ++ r2.2 ++ r3.2)

/-- Number of calls in a trace that satisfy `p`. -/
def count_calls (p : Call → Bool) (cs : List Call) : Nat := cs.countP p

/-- Invocations of the caller's completion `req->complete`. -/
def is_complete : Call → Bool
  | Call.complete _ => true
  | _ => false

/-- Reads submitted to the cache device. -/
def is_cache_submit : Call → Bool
  | Call.ocf_submit_cache_reqs _ _ => true
  | _ => false

/-- Reads submitted to the core volume by the engine. -/
def is_core_submit : Call → Bool
  | Call.ocf_submit_volume_req _ => true
  | _ => false

/-- Hand-overs to the pass-through path, which serves the read from the core. -/
def is_pass_through : Call → Bool
  | Call.pt_read => true
  | Call.ocf_read_pt_do => true
  | Call.ocf_engine_push_req_front_pt => true
  | _ => false

/-- Routing actions of `_ocf_read_mfwa_do`. -/
def is_route : Call → Bool
  | Call.submit_to_cache => true
  | Call.submit_to_core _ => true
  | Call.ocf_read_pt_do => true
  | Call.ocf_engine_clean => true
  | _ => false

/-- Routing table of `do(R)` as the design states it, as a function of the five
flags: the routing action to take. -/
def route_table (hit load_admit_allowed data_admit_allowed rd_locked dirty_any : Bool) :
    Call :=
  if hit then
    if load_admit_allowed then Call.submit_to_cache else Call.submit_to_core false
  else if data_admit_allowed then
    if rd_locked then Call.ocf_read_pt_do
    else if dirty_any then Call.ocf_engine_clean
    else Call.submit_to_core true
  else Call.submit_to_core false

/-- Number of read sub-requests that a call submits to the cache device: the `count`
argument of `ocf_submit_cache_reqs`. -/
def cache_read_size : Call → Nat
  | Call.ocf_submit_cache_reqs n _ => n
  | _ => 0

/-- Number of read sub-requests submitted to the cache device in a trace. -/
def cache_reads (cs : List Call) : Nat := (cs.map cache_read_size).sum

/-- Sample values of the external constants for concrete runs: `RAND_MAX` of glibc,
a positive error number and lock status 0 for "acquired". -/
def sample_consts : Consts :=
  { RAND_MAX := 2147483647, OCF_ERR_NO_MEM := 1000003, OCF_LOCK_ACQUIRED := 0 }

/-- A request as the upper layer creates it: all flags clear, no error. -/
def fresh_req : ocf_request :=
  { hit := false, re_part := false, dirty_any := false, mapping_error := false,
    core_error := false, rd_locked := false, io_count := 0, data_admit_allowed := false,
    load_admit_allowed := false, req_remaining := 0, error := 0, cp_data := false }

/-- Sample outcomes for concrete runs: a one-line hit with the lock acquired, both
switches open, every sub-request succeeding. -/
def sample_outcomes : Outcomes :=
  { pending_read_misses_list_blocked := false, data_admit_switch := true, load_admit_switch := 1,
    rand := 5, hit := true, re_part := false, dirty_any := false, mapping_error := false,
    rd_locked := false, io_count := 1, lock := 0, alloc_ok := true, mlock_ret := 0,
    cache_error := fun _ => 0, core_error := 0 }

/-- Calls of `ocf_set_valid_map_info`. -/
def is_set_valid_map : Call → Bool
  | Call.ocf_set_valid_map_info => true
  | _ => false

/-- Allocations of a promotion buffer (`ctx_data_alloc`). -/
def is_alloc : Call → Bool
  | Call.ctx_data_alloc => true
  | _ => false

/-- Calls of `ocf_engine_backfill`. -/
def is_backfill : Call → Bool
  | Call.ocf_engine_backfill => true
  | _ => false

/-- Calls of `ocf_req_get`. -/
def is_req_get : Call → Bool
  | Call.ocf_req_get => true
  | _ => false

/-- Calls of `ocf_req_put`. -/
def is_req_put : Call → Bool
  | Call.ocf_req_put => true
  | _ => false

/-- Calls of `ocf_engine_clean`. -/
def is_clean : Call → Bool
  | Call.ocf_engine_clean => true
  | _ => false

/-- Traces of a sequence of reads, one list of outcomes per read, each handled from a
request in state `req`. -/
def handle_reads (c : Consts) (os : List Outcomes) (req : ocf_request) : List Call :=
  match os with
  | [] => []
  | o :: rest => (handle_read c o req).2 ++ handle_reads c rest req

/-- Outcomes of a one-line hit with `load_admit` published as 0.0 and `rand()`
returning 0. -/
def zero_admit_outcomes : Outcomes :=
  { sample_outcomes with load_admit_switch := 0, rand := 0 }

/-- Outcomes of a one-line hit admitted to the cache whose cache read fails with
status -5. -/
def cache_error_outcomes : Outcomes :=
  { sample_outcomes with cache_error := fun _ => -5 }

/-- Outcomes of a one-line hit with `load_admit` published as 0.0 and `rand()`
returning 1. -/
def spilled_hit_outcomes : Outcomes :=
  { sample_outcomes with load_admit_switch := 0, rand := 1 }

/-- What the scenario asks of the outcomes of a read that is a hit and reaches
`do(R)` with `load_admit` published as 0.0: `rand()` returned a value in
`1 .. RAND_MAX`, the request is not bypassed, and the mapping layer reports neither a
mapping error nor a lock error. -/
def spilled_hit (c : Consts) (o : Outcomes) : Prop :=
  o.load_admit_switch = 0 ∧ 1 ≤ o.rand ∧ o.rand ≤ c.RAND_MAX ∧ o.hit = true ∧
    o.pending_read_misses_list_blocked = false ∧ o.mapping_error = false ∧ 0 ≤ o.lock

/-- Calls by which a core completion finishes a request: the caller's completion, the
release of the promotion buffer, metadata invalidation, the copy into the promotion
buffer and the backfill. -/
def is_core_outcome : Call → Bool
  | Call.complete _ => true
  | Call.ctx_data_free _ => true
  | Call.ocf_engine_invalidate => true
  | Call.ctx_data_cpy => true
  | Call.ocf_engine_backfill => true
  | _ => false

/-- Terminal calls of the cache completion: unlock, caller's completion, reference
drop, recording of the cache read error, push to the front of the pass-through
queue. -/
def is_cache_terminal : Call → Bool
  | Call.ocf_req_unlock => true
  | Call.complete _ => true
  | Call.ocf_req_put => true
  | Call.ocf_core_stats_cache_error_update => true
  | Call.ocf_engine_push_req_front_pt => true
  | _ => false

/-- Calls of `monitor_query_data_admit`. -/
def is_data_query : Call → Bool
  | Call.monitor_query_data_admit => true
  | _ => false

/-- Calls of `monitor_query_load_admit`. -/
def is_load_query : Call → Bool
  | Call.monitor_query_load_admit => true
  | _ => false

/-- Return value of `ocf_read_mfwa`: the function has two `return 0` statements, one
on the bypass path and one at its end. -/
def ocf_read_mfwa_return (o : Outcomes) : Int :=
  if o.pending_read_misses_list_blocked then 0 else 0

/-- Outcomes of a promoting miss (one line, `data_admit` on, lock acquired) whose core
read fails with status -5. -/
def promote_error_outcomes : Outcomes :=
  { sample_outcomes with hit := false, core_error := -5 }

/-! ## Adaptive monitor (`src/engine/mf_monitor.c`)

The monitor thread is modelled as functions on an explicit state: the two published
switches, a counter `tick` of the external observations made so far (throughput
queries and miss-ratio samples), the time slept, and the list of events in program
order.  The values observed at observation `k` are given by the environment.  The
unbounded loops run on fuel.  `double` values are rationals.  The `iteration`
counter of `monitor_tune_load_admit`, used for logging only, is left out. -/

/-- Constant `WAIT_STABLE_THRESHOLD = 0.0015`. -/
def WAIT_STABLE_THRESHOLD : ℚ := 15 / 10000

/-- Constant `WAIT_STABLE_SLEEP_INTERVAL_US = 100000`. -/
def WAIT_STABLE_SLEEP_INTERVAL_US : Nat := 100000

/-- Constant `WORKLOAD_CHANGE_THRESHOLD = 0.2`. -/
def WORKLOAD_CHANGE_THRESHOLD : ℚ := 2 / 10

/-- Constant `LOAD_ADMIT_TUNING_STEP = 0.01`. -/
def LOAD_ADMIT_TUNING_STEP : ℚ := 1 / 100

/-- Constant `MEASURE_THROUGHPUT_INTERVAL_US = 25000`. -/
def MEASURE_THROUGHPUT_INTERVAL_US : Nat := 25000

/-- What the monitor observes from outside at its `k`-th observation: the value of
`_get_throughput()`, the value of `ocf_core_get_read_miss_ratio(core)`, and whether
`should_stop` is set. -/
structure MonEnv where
  throughput : Nat → ℚ
  miss_ratio : Nat → ℚ
  should_stop : Nat → Bool

/-- Caller of `_get_miss_ratio`. -/
inductive Site where
  | wait_stable
  | tune
deriving DecidableEq, Repr

/-- Events of the monitor thread.  Observations carry their tick and the values of the
two switches at that moment. -/
inductive MonEvent where
  | set_data (b : Bool)
  | set_load (v : ℚ)
  | usleep (us : Nat)
  | probe (tick : Nat) (data : Bool) (load : ℚ) (value : ℚ)
  | sample (site : Site) (tick : Nat) (data : Bool) (load : ℚ) (value : ℚ)
  | intensity_check (load : ℚ)
  | thread_exit
deriving DecidableEq

/-- State of the monitor thread: `global_data_admit`, `global_load_admit`, the number of
observations made, the time slept in microseconds, and the events so far. -/
structure MonState where
  global_data_admit : Bool
  global_load_admit : ℚ
  tick : Nat
  slept_us : Nat
  events : List MonEvent

/-- Outcome of a monitor function: it returned `a`, or the thread exited inside
`_get_miss_ratio`, or the fuel of the model ran out. -/
inductive MonResult (α : Type) where
  | done (a : α) (s : MonState)
  | exited (s : MonState)
  | no_fuel (s : MonState)

/-- State carried by an outcome. -/
def MonResult.state {α : Type} : MonResult α → MonState
  | MonResult.done _ s => s
  | MonResult.exited s => s
  | MonResult.no_fuel s => s

/-- The function `monitor_set_data_admit`. -/
def monitor_set_data_admit (s : MonState) (b : Bool) : MonState :=
  { s with global_data_admit := b, events := s.events ++ [MonEvent.set_data b] }

/-- The function `monitor_set_load_admit`. -/
def monitor_set_load_admit (s : MonState) (v : ℚ) : MonState :=
  { s with global_load_admit := v, events := s.events ++ [MonEvent.set_load v] }

/-- The function `monitor_query_load_admit` as called by the monitor itself. -/
def monitor_query_load_admit (s : MonState) : ℚ := s.global_load_admit

/-- The library call `usleep`. -/
def usleep (s : MonState) (us : Nat) : MonState :=
  { s with slept_us := s.slept_us + us, events := s.events ++ [MonEvent.usleep us] }

/-- The function `_get_miss_ratio`: when `should_stop` is set the thread exits, else the
miss ratio is read.  `site` records the caller in the trace. -/
def _get_miss_ratio (env : MonEnv) (site : Site) (s : MonState) : MonResult ℚ :=
  if env.should_stop s.tick then
    MonResult.exited
      { s with tick := s.tick + 1, events := s.events ++ [MonEvent.thread_exit] }
  else
    MonResult.done (env.miss_ratio s.tick)
      { s with tick := s.tick + 1,
               events := s.events ++ [MonEvent.sample site s.tick s.global_data_admit
                 s.global_load_admit (env.miss_ratio s.tick)] }

/-- The function `_get_throughput`. -/
def _get_throughput (env : MonEnv) (s : MonState) : ℚ × MonState :=
  (env.throughput s.tick,
    { s with tick := s.tick + 1,
             events := s.events ++ [MonEvent.probe s.tick s.global_data_admit
               s.global_load_admit (env.throughput s.tick)] })

/-- The loop of `monitor_wait_stable`; `last` and `m` are `last_miss_ratio` and
`miss_ratio`. -/
def wait_stable_loop (env : MonEnv) : Nat → MonState → ℚ → ℚ → MonResult ℚ
  | 0, s, _, _ => MonResult.no_fuel s
  | fuel + 1, s, last, m =>
    if m < last - WAIT_STABLE_THRESHOLD ∨ m > last + WAIT_STABLE_THRESHOLD then
      match _get_miss_ratio env Site.wait_stable (usleep s WAIT_STABLE_SLEEP_INTERVAL_US) with
      | MonResult.done m2 s2 => wait_stable_loop env fuel s2 m m2
      | MonResult.exited s2 => MonResult.exited s2
      | MonResult.no_fuel s2 => MonResult.no_fuel s2
    else MonResult.done m s

/-- The function `monitor_wait_stable`. -/
def monitor_wait_stable (env : MonEnv) (fuel : Nat) (s : MonState) : MonResult ℚ :=
  match _get_miss_ratio env Site.wait_stable s with
  | MonResult.done m s1 => wait_stable_loop env fuel s1 (-(1 / 10)) m
  | MonResult.exited s1 => MonResult.exited s1
  | MonResult.no_fuel s1 => MonResult.no_fuel s1

/-- The function `monitor_measure_throughput`. -/
def monitor_measure_throughput (env : MonEnv) (s : MonState) (la : ℚ) : ℚ × MonState :=
  _get_throughput env (usleep ( monitor_set_load_admit s la) MEASURE_THROUGHPUT_INTERVAL_US)

/-- A neighbour probe: `la > 1.0 ? -0.1 : monitor_measure_throughput(la)` for the upper
neighbour. -/
def probe_upper (env : MonEnv) (s : MonState) (la : ℚ) : ℚ × MonState :=
  if la > 1 then (-(1 / 10), s) else monitor_measure_throughput env s la

/-- A neighbour probe: `la < 0.0 ? -0.1 : monitor_measure_throughput(la)` for the lower
neighbour. -/
def probe_lower (env : MonEnv) (s : MonState) (la : ℚ) : ℚ × MonState :=
  if la < 0 then (-(1 / 10), s) else monitor_measure_throughput env s la

/-- How the slope-following loop ends: `break` (go to the intensity check) or `return`
(workload change). -/
inductive SlopeExit where
  | brk
  | ret
deriving DecidableEq, Repr

/-- The slope-following loop of `monitor_tune_load_admit` (the inner `while (1)`). -/
def slope_loop (env : MonEnv) (base_miss_ratio : ℚ) :
    Nat → MonState → ℚ → ℚ → ℚ → ℚ → ℚ → ℚ → MonResult SlopeExit
  | 0, s, _, _, _, _, _, _ => MonResult.no_fuel s
  | fuel + 1, s, la1, la2, la3, tp1, tp2, tp3 =>
    match _get_miss_ratio env Site.tune s with
    | MonResult.exited s1 => MonResult.exited s1
    | MonResult.no_fuel s1 => MonResult.no_fuel s1
    | MonResult.done miss_ratio s1 =>
      if miss_ratio > base_miss_ratio + WORKLOAD_CHANGE_THRESHOLD then
        MonResult.done SlopeExit.ret s1
      else if tp2 ≥ tp1 ∧ tp2 ≥ tp3 then
        MonResult.done SlopeExit.brk ( monitor_set_load_admit s1 la2)
      else if tp3 ≥ tp1 ∧ tp3 ≥ tp2 then
        if la3 ≥ 1 then
          MonResult.done SlopeExit.brk ( monitor_set_load_admit s1 1)
        else
          let p := probe_upper env s1 (la3 + LOAD_ADMIT_TUNING_STEP)
          slope_loop env base_miss_ratio fuel p.2 la2 la3 (la3 + LOAD_ADMIT_TUNING_STEP)
            tp2 tp3 p.1
      else if tp1 ≥ tp2 ∧ tp1 ≥ tp3 then
        if la1 ≤ 0 then
          MonResult.done SlopeExit.brk ( monitor_set_load_admit s1 0)
        else
          let p := probe_lower env s1 (la1 - LOAD_ADMIT_TUNING_STEP)
          slope_loop env base_miss_ratio fuel p.2 (la1 - LOAD_ADMIT_TUNING_STEP) la1 la2
            p.1 tp1 tp2
      else
        slope_loop env base_miss_ratio fuel s1 la1 la2 la3 tp1 tp2 tp3

/-- Which `return` statement of `monitor_tune_load_admit` was taken. -/
inductive TuneExit where
  | workload_change
  | intensity
deriving DecidableEq, Repr

/-- The first part of an outer pass of `monitor_tune_load_admit`: the three probes and
the restore of `load_admit`; returns `(la1, la2, la3, tp1, tp2, tp3)` and the state. -/
def tune_probes (env : MonEnv) (s : MonState) : (ℚ × ℚ × ℚ × ℚ × ℚ × ℚ) × MonState :=
  let la2 := monitor_query_load_admit s
  let p2 := monitor_measure_throughput env s la2
  let la3 := la2 + LOAD_ADMIT_TUNING_STEP
  let p3 := probe_upper env p2.2 la3
  let la1 := la2 - LOAD_ADMIT_TUNING_STEP
  let p1 := probe_lower env p3.2 la1
  ((la1, la2, la3, p1.1, p2.1, p3.1), monitor_set_load_admit p1.2 la2)

/-- The outer `while (1)` of `monitor_tune_load_admit`. -/
def tune_loop (env : MonEnv) (base_miss_ratio : ℚ) :
    Nat → MonState → Bool → MonResult TuneExit
  | 0, s, _ => MonResult.no_fuel s
  | fuel + 1, s, second_chance =>
    let v := tune_probes env s
    match slope_loop env base_miss_ratio fuel v.2 v.1.1 v.1.2.1 v.1.2.2.1 v.1.2.2.2.1
        v.1.2.2.2.2.1 v.1.2.2.2.2.2 with
    | MonResult.exited s1 => MonResult.exited s1
    | MonResult.no_fuel s1 => MonResult.no_fuel s1
    | MonResult.done SlopeExit.ret s1 => MonResult.done TuneExit.workload_change s1
    | MonResult.done SlopeExit.brk s1 =>
      let s2 : MonState :=
        { s1 with events := s1.events ++ [MonEvent.intensity_check
            ( monitor_query_load_admit s1)] }
      if monitor_query_load_admit s1 = 1 then
        if second_chance then tune_loop env base_miss_ratio fuel s2 false
        else MonResult.done TuneExit.intensity s2
      else tune_loop env base_miss_ratio fuel s2 second_chance

/-- The function `monitor_tune_load_admit`; `second_chance` starts as `true`. -/
def monitor_tune_load_admit (env : MonEnv) (base_miss_ratio : ℚ) (fuel : Nat)
    (s : MonState) : MonResult TuneExit :=
  tune_loop env base_miss_ratio fuel s true

/-- The function `monitor_func`: the main loop of the monitor thread. -/
def monitor_func (env : MonEnv) : Nat → MonState → MonResult Unit
  | 0, s => MonResult.no_fuel s
  | fuel + 1, s =>
    match monitor_wait_stable env fuel
        ( monitor_set_load_admit ( monitor_set_data_admit s true) 1) with
    | MonResult.exited s1 => MonResult.exited s1
    | MonResult.no_fuel s1 => MonResult.no_fuel s1
    | MonResult.done base_miss_ratio s1 =>
      match monitor_tune_load_admit env base_miss_ratio fuel
          ( monitor_set_data_admit s1 false) with
      | MonResult.exited s2 => MonResult.exited s2
      | MonResult.no_fuel s2 => MonResult.no_fuel s2
      | MonResult.done _ s2 => monitor_func env fuel s2

/-- State of the switches left by `ocf_mngt_mf_monitor_init` before the monitor thread
is created: `global_data_admit = true`, `global_load_admit = 1.0`. -/
def ocf_mngt_mf_monitor_init : MonState :=
  { global_data_admit := true, global_load_admit := 1, tick := 0, slept_us := 0,
    events := [] }

/-- The event is a throughput probe made at observation `k0` or later. -/
def is_probe_from (k0 : Nat) : MonEvent → Bool
  | MonEvent.probe t _ _ _ => decide (k0 ≤ t)
  | _ => false

/-- Number of throughput probes in a list of events made at observation `k0` or later. -/
def probes_from (k0 : Nat) (es : List MonEvent) : Nat := es.countP (is_probe_from k0)

/-- The event is not a write to `load_admit`, or it writes a value in `[0, 1]`. -/
def write_in_range : MonEvent → Bool
  | MonEvent.set_load v => decide (0 ≤ v ∧ v ≤ 1)
  | _ => true

/-- Every value written to `load_admit` in a list of events lies in `[0, 1]`. -/
def writes_in_range (es : List MonEvent) : Bool := es.all write_in_range

/-- The event is an intensity check that found `load_admit == 1.0`. -/
def is_full_check : MonEvent → Bool
  | MonEvent.intensity_check v => decide (v = 1)
  | _ => false

/-- Number of intensity checks in a list of events that found `load_admit == 1.0`. -/
def full_checks (es : List MonEvent) : Nat := es.countP is_full_check

/-- The events of `s` are those of `s0` followed by events that all satisfy `P`. -/
def extends_by (P : MonEvent → Bool) (s0 s : MonState) : Prop :=
  ∃ es, s.events = s0.events ++ es ∧ es.all P = true

/-- The function returned to its caller. -/
def MonResult.returned {α : Type} : MonResult α → Bool
  | MonResult.done _ _ => true
  | _ => false

/-- The function returned or the thread exited: the run of the model is complete. -/
def MonResult.finished {α : Type} : MonResult α → Bool
  | MonResult.no_fuel _ => false
  | _ => true

/-- The slope-following loop ended with `break`. -/
def MonResult.broke : MonResult SlopeExit → Bool
  | MonResult.done SlopeExit.brk _ => true
  | _ => false

/-- A sample environment: throughput 10 at every fourth observation and 5 otherwise, a
miss ratio that is 0 up to observation 3 and 1 from observation 4 on, never stopped. -/
def rise_env : MonEnv :=
  { throughput := fun k => if k % 4 = 0 then 10 else 5,
    miss_ratio := fun k => if 4 ≤ k then 1 else 0,
    should_stop := fun _ => false }

/-- A sample state at the entry of tuning: `data_admit` off, `load_admit = 0.5`. -/
def rise_start : MonState :=
  { global_data_admit := false, global_load_admit := 1 / 2, tick := 0, slept_us := 0,
    events := [] }

/-- A sample environment for a rise during a window shift: throughput 10 at observation 1
and 5 otherwise (so that from `load_admit = 0.5` the first decision shifts up), a miss
ratio that is 0 up to observation 3 and 1 from observation 4 on, never stopped. -/
def shift_env : MonEnv :=
  { throughput := fun k => if k = 1 then 10 else 5,
    miss_ratio := fun k => if 4 ≤ k then 1 else 0,
    should_stop := fun _ => false }

/-- Events of the slope-following loop and of the throughput probes when `data_admit` has
the value `d`: writes of `load_admit`, sleeps, probes and tune-site samples that observe
`data_admit = d`, and the exit of the thread. -/
def slope_event (d : Bool) : MonEvent → Bool
  | MonEvent.set_load _ => true
  | MonEvent.usleep _ => true
  | MonEvent.thread_exit => true
  | MonEvent.probe _ d' _ _ => d' == d
  | MonEvent.sample site _ d' _ _ => decide (site = Site.tune) && (d' == d)
  | MonEvent.set_data _ => false
  | MonEvent.intensity_check _ => false

/-- Events of `monitor_tune_load_admit` when `data_admit` has the value `d`: those of the
slope-following loop and the intensity checks. -/
def tune_event (d : Bool) : MonEvent → Bool
  | MonEvent.intensity_check _ => true
  | e => slope_event d e

/-- Events of `monitor_wait_stable` in the fallback phase: sleeps, the exit of the thread,
and wait-site samples that observe `data_admit = true` and `load_admit = 1.0`. -/
def wait_event : MonEvent → Bool
  | MonEvent.usleep _ => true
  | MonEvent.thread_exit => true
  | MonEvent.sample site _ d l _ => decide (site = Site.wait_stable) && d && decide (l = 1)
  | _ => false

/-- The switch invariant of the two phases, as a property of one event: a sample taken by
`monitor_wait_stable` observes `data_admit = true` and `load_admit = 1.0`; a sample or
probe taken by `monitor_tune_load_admit` observes `data_admit = false`. -/
def phase_event : MonEvent → Bool
  | MonEvent.sample Site.wait_stable _ d l _ => d && decide (l = 1)
  | MonEvent.sample Site.tune _ d _ _ => !d
  | MonEvent.probe _ d _ _ => !d
  | _ => true

/-- The function returned through the intensity check. -/
def MonResult.ended_by_intensity : MonResult TuneExit → Bool
  | MonResult.done TuneExit.intensity _ => true
  | _ => false

/-- A sample environment with constant throughput and miss ratio, never stopped. -/
def steady_env : MonEnv :=
  { throughput := fun _ => 5, miss_ratio := fun _ => 0, should_stop := fun _ => false }

/-- The branch chosen by one decision of the slope-following loop from the three probe
values: the chain `if (tp2 >= tp1 && tp2 >= tp3) ... if (tp3 >= tp1 && tp3 >= tp2) ...
if (tp1 >= tp2 && tp1 >= tp3) ...` of `monitor_tune_load_admit`. -/
inductive SlopeBranch where
  | stay
  | up
  | down
  | undecided
deriving DecidableEq, Repr

/-- The chain of comparisons of the slope-following loop. -/
def slope_branch (tp1 tp2 tp3 : ℚ) : SlopeBranch :=
  if tp2 ≥ tp1 ∧ tp2 ≥ tp3 then SlopeBranch.stay
  else if tp3 ≥ tp1 ∧ tp3 ≥ tp2 then SlopeBranch.up
  else if tp1 ≥ tp2 ∧ tp1 ≥ tp3 then SlopeBranch.down
  else SlopeBranch.undecided

/-- The local variables of the slope-following loop at a decision. -/
structure SlopeWindow where
  la1 : ℚ
  la2 : ℚ
  la3 : ℚ
  tp1 : ℚ
  tp2 : ℚ
  tp3 : ℚ

/-- The slope-following loop with a record of its decisions: the same loop as
`slope_loop`, returning in addition the window `(la1, la2, la3, tp1, tp2, tp3)` at every
iteration that passes the workload change check, in order. -/
def slope_loop_traced (env : MonEnv) (base_miss_ratio : ℚ) :
    Nat → MonState → ℚ → ℚ → ℚ → ℚ → ℚ → ℚ → MonResult SlopeExit × List SlopeWindow
  | 0, s, _, _, _, _, _, _ => (MonResult.no_fuel s, [])
  | fuel + 1, s, la1, la2, la3, tp1, tp2, tp3 =>
    match _get_miss_ratio env Site.tune s with
    | MonResult.exited s1 => (MonResult.exited s1, [])
    | MonResult.no_fuel s1 => (MonResult.no_fuel s1, [])
    | MonResult.done miss_ratio s1 =>
      if miss_ratio > base_miss_ratio + WORKLOAD_CHANGE_THRESHOLD then
        (MonResult.done SlopeExit.ret s1, [])
      else
        let w : SlopeWindow := ⟨la1, la2, la3, tp1, tp2, tp3⟩
        if tp2 ≥ tp1 ∧ tp2 ≥ tp3 then
          (MonResult.done SlopeExit.brk ( monitor_set_load_admit s1 la2), [w])
        else if tp3 ≥ tp1 ∧ tp3 ≥ tp2 then
          if la3 ≥ 1 then
            (MonResult.done SlopeExit.brk ( monitor_set_load_admit s1 1), [w])
          else
            let p := probe_upper env s1 (la3 + LOAD_ADMIT_TUNING_STEP)
            let r := slope_loop_traced env base_miss_ratio fuel p.2 la2 la3
              (la3 + LOAD_ADMIT_TUNING_STEP) tp2 tp3 p.1
            (r.1, w :: r.2)
        else if tp1 ≥ tp2 ∧ tp1 ≥ tp3 then
          if la1 ≤ 0 then
            (MonResult.done SlopeExit.brk ( monitor_set_load_admit s1 0), [w])
          else
            let p := probe_lower env s1 (la1 - LOAD_ADMIT_TUNING_STEP)
            let r := slope_loop_traced env base_miss_ratio fuel p.2
              (la1 - LOAD_ADMIT_TUNING_STEP) la1 la2 p.1 tp1 tp2
            (r.1, w :: r.2)
        else
          let r := slope_loop_traced env base_miss_ratio fuel s1 la1 la2 la3 tp1 tp2 tp3
          (r.1, w :: r.2)

/-- The decisions of the slope-following loop of one pass of `monitor_tune_load_admit`
entered in state `s`: the loop is started on the window measured by `tune_probes`. -/
def pass_windows (env : MonEnv) (base_miss_ratio : ℚ) (fuel : Nat) (s : MonState) :
    List SlopeWindow :=
  let v := tune_probes env s
  (slope_loop_traced env base_miss_ratio fuel v.2 v.1.1 v.1.2.1 v.1.2.2.1 v.1.2.2.2.1
    v.1.2.2.2.2.1 v.1.2.2.2.2.2).2

/-- The decision at window `w` shifts the window up: the upper neighbour wins and
`la3 < 1.0`. -/
def shifts_up (w : SlopeWindow) : Bool :=
  decide (slope_branch w.tp1 w.tp2 w.tp3 = SlopeBranch.up ∧ w.la3 < 1)

/-- The decision at window `w` shifts the window down: the lower neighbour wins and
`la1 > 0.0`. -/
def shifts_down (w : SlopeWindow) : Bool :=
  decide (slope_branch w.tp1 w.tp2 w.tp3 = SlopeBranch.down ∧ 0 < w.la1)

/-- Value computed by `_get_throughput` at time `cur_time_ms` from the contents of the
cache log and of the core log: the sum of the two queries over the last
`MEASURE_THROUGHPUT_INTERVAL_US / 1000.0` milliseconds. -/
def get_throughput_value (cache core : DeviceLog) (cur_time_ms : ℚ) : Option ℚ :=
  let begin_time_ms := cur_time_ms - (MEASURE_THROUGHPUT_INTERVAL_US : ℚ) / 1000
  match cache_log_query_throughput cache begin_time_ms cur_time_ms,
      core_log_query_throughput core begin_time_ms cur_time_ms with
  | some a, some b => some (a + b)
  | _, _ => none

/-- The miss ratios sampled by `monitor_wait_stable` in a list of events, in order. -/
def wait_samples : List MonEvent → List ℚ
  | [] => []
  | MonEvent.sample Site.wait_stable _ _ _ v :: es => v :: wait_samples es
  | _ :: es => wait_samples es

/-- The samples `vals` taken after a sample `last` end the wait with value `m`: every
sample but the final one differs from the sample before it by more than
`WAIT_STABLE_THRESHOLD`, the final one differs by at most `WAIT_STABLE_THRESHOLD`, and `m`
is the final one. -/
def stable_run (last : ℚ) : List ℚ → ℚ → Prop
  | [], _ => False
  | [v], m => m = v ∧ |v - last| ≤ WAIT_STABLE_THRESHOLD
  | v :: w :: rest, m => |v - last| > WAIT_STABLE_THRESHOLD ∧ stable_run v (w :: rest) m

/-- The samples `vals` taken after a sample `last` do not end the wait: each of them
differs from the sample before it by more than `WAIT_STABLE_THRESHOLD`. -/
def unstable_run (last : ℚ) : List ℚ → Prop
  | [] => True
  | v :: rest => |v - last| > WAIT_STABLE_THRESHOLD ∧ unstable_run v rest

/-- The slope-following loop ended with `return` (workload change). -/
def MonResult.slope_returned : MonResult SlopeExit → Bool
  | MonResult.done SlopeExit.ret _ => true
  | _ => false

/-- The function returned through the workload change check. -/
def MonResult.ended_by_change : MonResult TuneExit → Bool
  | MonResult.done TuneExit.workload_change _ => true
  | _ => false

/-- Rule of the workload change check on the events of a run, where `changed` tells
whether the run ended by the `return` of the workload change check and `starved` whether
it ended because the fuel of the model ran out: a tune-site sample above `limit` is the
last event and `changed` holds; a tune-site sample at or below `limit` is the last event
only when `starved` holds. -/
def change_rule (limit : ℚ) (changed starved : Bool) : List MonEvent → Bool
  | [] => true
  | MonEvent.sample Site.tune _ _ _ m :: rest =>
    if limit < m then rest.isEmpty && changed
    else (!rest.isEmpty || starved) && change_rule limit changed starved rest
  | _ :: rest => change_rule limit changed starved rest

/-- The event is not a miss-ratio sample. -/
def no_sample : MonEvent → Bool
  | MonEvent.sample _ _ _ _ _ => false
  | _ => true

/-- The event is not a tune-site sample above `limit`. -/
def calm_event (limit : ℚ) : MonEvent → Bool
  | MonEvent.sample Site.tune _ _ _ m => decide (m ≤ limit)
  | _ => true

/-- State after a miss-ratio sample taken at `site` with `should_stop` clear. -/
def after_sample (env : MonEnv) (site : Site) (s : MonState) : MonState :=
  { s with tick := s.tick + 1,
           events := s.events ++ [MonEvent.sample site s.tick s.global_data_admit
             s.global_load_admit (env.miss_ratio s.tick)] }

/-- A sample environment for the upper clamp: throughput 10 at observation 1 and 5
otherwise, a miss ratio that is 0 up to observation 5 and 1 from observation 6 on, never
stopped. -/
def clamp_env : MonEnv :=
  { throughput := fun k => if k = 1 then 10 else 5,
    miss_ratio := fun k => if 6 ≤ k then 1 else 0,
    should_stop := fun _ => false }

/-- A sample state at the entry of tuning: `data_admit` off, `load_admit = 0.98`. -/
def clamp_start : MonState :=
  { global_data_admit := false, global_load_admit := 98 / 100, tick := 0, slept_us := 0,
    events := [] }

/-- Invariant of the window of the slope-following loop when every measured throughput
is non-negative: the three ratios are consecutive, `la2` is in `[0, 1]`, `tp2` is a
measured value, and each neighbour carries the mark `-0.1` exactly when it lies outside
`[0, 1]`. -/
def window_ok (w : SlopeWindow) : Prop :=
  w.la1 = w.la2 - LOAD_ADMIT_TUNING_STEP ∧ w.la3 = w.la2 + LOAD_ADMIT_TUNING_STEP ∧
  0 ≤ w.la2 ∧ w.la2 ≤ 1 ∧ 0 ≤ w.tp2 ∧
  (if w.la3 > 1 then w.tp3 = -(1 / 10) else 0 ≤ w.tp3) ∧
  (if w.la1 < 0 then w.tp1 = -(1 / 10) else 0 ≤ w.tp1)

/-- A sample environment without I/O: throughput 0, miss ratio 0, never stopped. -/
def idle_env : MonEnv :=
  { throughput := fun _ => 0, miss_ratio := fun _ => 0, should_stop := fun _ => false }

/-- A sample environment with rising throughput: `k + 1` at observation `k`, except 0 at
observation 2; miss ratio 0, never stopped. -/
def climb_env : MonEnv :=
  { throughput := fun k => if k = 2 then 0 else (k : ℚ) + 1,
    miss_ratio := fun _ => 0,
    should_stop := fun _ => false }

/-- A sample state at the entry of tuning: `data_admit` off, `load_admit = 0.97`. -/
def climb_start : MonState :=
  { global_data_admit := false, global_load_admit := 97 / 100, tick := 0, slept_us := 0,
    events := [] }

/-! ## Cache volume submission queue (`contexts/ul-exp/src/cache/cache-vol.c`)

The submission queue of the cache volume and its worker thread, as a transition system.
A run is a list of scheduling choices: a call of `cache_vol_submit_io` by some thread, or
one step of the worker thread `_submit_thread_func`.  The worker is cut at the points
where other threads can interleave: after the semaphore wait, after the stop check, after
the critical section that removes the queue head, and after the processing of the
request.  The submitter's critical section (`list_add_tail` and the semaphore post, under
`submit_queue_lock`) is one step.  `cache_vol_force_stop` is not part of the runs. -/

/-- Direction of an I/O (`io->dir`). -/
inductive ocf_dir where
  | OCF_READ
  | OCF_WRITE
deriving DecidableEq, Repr

/-- The fields of `struct ocf_io` used by the queue, with an identity `id` standing for
the address of the structure. -/
structure ocf_io where
  id : Nat
  addr : Nat
  bytes : Nat
  dir : ocf_dir
deriving DecidableEq, Repr

/-- Calls observed on the device, in program order. -/
inductive VolEvent where
  | list_add_tail (io : ocf_io)
  | list_del (io : ocf_io)
  | _submit_write_io (io : ocf_io)
  | _submit_read_io (io : ocf_io)
  | io_end (io : ocf_io) (error : Int)
deriving DecidableEq, Repr

/-- Position of the worker thread in the loop of `_submit_thread_func`. -/
inductive WorkerPc where
  | waiting
  | woke
  | locking
  | processing (io : ocf_io)
  | ending (io : ocf_io)
  | exited
deriving DecidableEq, Repr

/-- State of the device: the queue `submit_queue`, the count of the semaphore
`submit_queue_sem`, the flag `should_stop`, the position of the worker, and the calls
made so far. -/
structure VolState where
  submit_queue : List ocf_io
  submit_queue_sem : Nat
  should_stop : Bool
  worker : WorkerPc
  events : List VolEvent

/-- State left by `cache_vol_open`: empty queue, semaphore 0, `should_stop = 0`, worker
thread started. -/
def cache_vol_open : VolState :=
  { submit_queue := [], submit_queue_sem := 0, should_stop := false,
    worker := WorkerPc.waiting, events := [] }

/-- The function `cache_vol_submit_io`; `malloc_ok` tells whether the allocation of the
queue entry succeeds.  The result is `none` when `flashsim_page_size` is 0 (the remainder
is undefined). -/
def cache_vol_submit_io (flashsim_page_size : Nat) (io : ocf_io) (malloc_ok : Bool)
    (s : VolState) : Option VolState :=
  if flashsim_page_size = 0 then none
  else if io.addr % flashsim_page_size ≠ 0 then
    some { s with events := s.events ++ [VolEvent.io_end io 1] }
  else if malloc_ok = false then some s
  else
    some { s with submit_queue := s.submit_queue ++ [io],
                  submit_queue_sem := s.submit_queue_sem + 1,
                  events := s.events ++ [VolEvent.list_add_tail io] }

/-- One step of the worker thread `_submit_thread_func`.  A worker waiting on a
semaphore of count 0 stays where it is. -/
def _submit_thread_func (s : VolState) : VolState :=
  match s.worker with
  | WorkerPc.waiting =>
    if s.submit_queue_sem = 0 then s
    else { s with submit_queue_sem := s.submit_queue_sem - 1, worker := WorkerPc.woke }
  | WorkerPc.woke =>
    if s.should_stop then
      { s with submit_queue_sem := s.submit_queue_sem + 1, worker := WorkerPc.exited }
    else { s with worker := WorkerPc.locking }
  | WorkerPc.locking =>
    match s.submit_queue with
    | [] => { s with worker := WorkerPc.waiting }
    | io :: rest =>
      { s with submit_queue := rest, worker := WorkerPc.processing io,
               events := s.events ++ [VolEvent.list_del io] }
  | WorkerPc.processing io =>
    { s with worker := WorkerPc.ending io,
             events := s.events ++ [match io.dir with
               | ocf_dir.OCF_WRITE => VolEvent._submit_write_io io
               | ocf_dir.OCF_READ => VolEvent._submit_read_io io] }
  | WorkerPc.ending io =>
    { s with worker := WorkerPc.waiting, events := s.events ++ [VolEvent.io_end io 0] }
  | WorkerPc.exited => s

/-- A scheduling choice: a submission by some thread, or a step of the worker. -/
inductive VolAction where
  | submit (io : ocf_io) (malloc_ok : Bool)
  | worker_step
deriving DecidableEq, Repr

/-- Effect of one scheduling choice. -/
def vol_step (flashsim_page_size : Nat) (s : VolState) : VolAction → Option VolState
  | VolAction.submit io malloc_ok => cache_vol_submit_io flashsim_page_size io malloc_ok s
  | VolAction.worker_step => some (_submit_thread_func s)

/-- Effect of an interleaving, from left to right. -/
def vol_run (flashsim_page_size : Nat) : List VolAction → VolState → Option VolState
  | [], s => some s
  | a :: as, s =>
    match vol_step flashsim_page_size s a with
    | none => none
    | some s1 => vol_run flashsim_page_size as s1

/-- The I/Os enqueued, in order. -/
def enqueued (es : List VolEvent) : List ocf_io :=
  es.filterMap (fun e => match e with
    | VolEvent.list_add_tail io => some io
    | _ => none)

/-- The I/Os dequeued by the worker, in order. -/
def dequeued (es : List VolEvent) : List ocf_io :=
  es.filterMap (fun e => match e with
    | VolEvent.list_del io => some io
    | _ => none)

/-- The I/Os completed by the worker (`io->end(io, 0)`), in order. -/
def completed (es : List VolEvent) : List ocf_io :=
  es.filterMap (fun e => match e with
    | VolEvent.io_end io 0 => some io
    | _ => none)

/-- A sample interleaving: two submissions, three worker steps, a third submission, and
eight more worker steps. -/
def sample_acts : List VolAction :=
  [VolAction.submit { id := 1, addr := 0, bytes := 4096, dir := ocf_dir.OCF_READ } true,
   VolAction.submit { id := 2, addr := 8192, bytes := 4096, dir := ocf_dir.OCF_WRITE } true,
   VolAction.worker_step, VolAction.worker_step, VolAction.worker_step,
   VolAction.submit { id := 3, addr := 4096, bytes := 4096, dir := ocf_dir.OCF_READ } true,
   VolAction.worker_step, VolAction.worker_step, VolAction.worker_step,
   VolAction.worker_step, VolAction.worker_step, VolAction.worker_step,
   VolAction.worker_step, VolAction.worker_step]

/-! ## Throughput log under concurrent pushes and queries

`cache_log_push_entry` and `cache_log_query_throughput` run in several threads on one
log, each under `cache_log_lock`.  A run is a list of scheduling choices: a thread starts
a call, or a thread takes its next step.  The push is cut after every access to the
shared variables (each field of the entry is written by a step of its own), the query
after every read.  The same model serves the core log, whose code is identical. -/

/-- Position of a thread inside `cache_log_push_entry`: before the write lock, before
`pos` is computed, before the write of `finish_time_ms`, of `bytes`, of `tail`, before
the two updates of `head`, and before the unlock. -/
inductive PushPc where
  | lock
  | pos
  | time (pos : Int)
  | bytes (pos : Int)
  | tail (pos : Int)
  | wrap
  | clamp
  | unlock
deriving DecidableEq

/-- Position of a thread inside `cache_log_query_throughput`: before the read lock,
before the test of `head`, at the top of the loop body with the index `i` of the
previous iteration, before the second comparison (the value `t1` of the first read of
`finish_time_ms` in hand), before the read of `bytes` (both reads of `finish_time_ms` in
hand), at the loop condition, and before the unlock. -/
inductive QueryPc where
  | lock
  | check
  | test1 (i : Int)
  | test2 (i : Int) (t1 : ℚ)
  | bytes (i : Int) (t1 t2 : ℚ)
  | cond (i : Int)
  | unlock
deriving DecidableEq

/-- What a thread is doing: nothing, a push with arguments `finish_time_ms` and `bytes`,
or a query with arguments `begin_time_ms` and `end_time_ms` and the running sum
`kilobytes`. -/
inductive LogThread where
  | idle
  | push (pc : PushPc) (finish_time_ms : ℚ) (bytes : Nat)
  | query (pc : QueryPc) (begin_time_ms end_time_ms : ℚ) (kilobytes : ℚ)

/-- Observations of a run: a push has written both fields of its entry; a query has
finished an iteration of its scan, having read at index `i` the field `finish_time_ms`
once (`t1`) or twice (`t1`, `t2`) and possibly the field `bytes`; a query returned. -/
inductive LogEvent where
  | wrote (finish_time_ms : ℚ) (bytes : Nat)
  | read (tid : Nat) (i : Int) (t1 : ℚ) (t2 : Option ℚ) (bytes : Option Nat)
  | returned (tid : Nat) (throughput : ℚ)

/-- State of the log and its threads: the log variables, the holder of the write lock,
the holders of the read lock, the threads, and the observations so far. -/
structure ConcLog where
  log : DeviceLog
  writer : Option Nat
  readers : List Nat
  threads : Nat → LogThread
  events : List LogEvent

/-- State after the setup of the log, all threads idle, lock free. -/
def conc_setup (mem : Int → cache_log_entry) : ConcLog :=
  { log := log_setup mem, writer := none, readers := [], threads := fun _ => LogThread.idle,
    events := [] }

/-- Modelled from the spec: `env_rwlock_write_lock` is not under src/; the rwlock admits
a "single writer at a time, many readers", so the write lock can be taken when no thread
holds the lock in either mode. -/
def write_lock_free (s : ConcLog) : Bool := s.writer.isNone && s.readers.isEmpty

/-- Modelled from the spec: `env_rwlock_read_lock` is not under src/; the rwlock admits
a "single writer at a time, many readers", so the read lock can be taken when no thread
holds the write lock. -/
def read_lock_free (s : ConcLog) : Bool := s.writer.isNone

/-- One step of thread `tid` inside `cache_log_push_entry`; `none` is an array access out
of bounds.  A thread waiting for the lock stays where it is. -/
def push_step (s : ConcLog) (tid : Nat) (pc : PushPc) (t : ℚ) (b : Nat) : Option ConcLog :=
  match pc with
  | PushPc.lock =>
    if write_lock_free s then
      some { s with writer := some tid,
                    threads := Function.update s.threads tid (LogThread.push PushPc.pos t b) }
    else some s
  | PushPc.pos =>
    some { s with
      threads := Function.update s.threads tid
        (LogThread.push (PushPc.time (Int.tmod (s.log.tail + 1) CACHE_LOG_SIZE)) t b) }
  | PushPc.time pos =>
    if 0 ≤ pos ∧ pos < CACHE_LOG_SIZE then
      some { s with
        log :=
          { s.log with
            log := Function.update s.log.log pos
              { s.log.log pos with finish_time_ms := t } },
        threads := Function.update s.threads tid (LogThread.push (PushPc.bytes pos) t b) }
    else none
  | PushPc.bytes pos =>
    if 0 ≤ pos ∧ pos < CACHE_LOG_SIZE then
      some { s with
        log :=
          { s.log with
            log := Function.update s.log.log pos
              { s.log.log pos with bytes := b } },
        threads := Function.update s.threads tid (LogThread.push (PushPc.tail pos) t b),
        events := s.events ++ [LogEvent.wrote t b] }
    else none
  | PushPc.tail pos =>
    some { s with log := { s.log with tail := pos },
                  threads := Function.update s.threads tid (LogThread.push PushPc.wrap t b) }
  | PushPc.wrap =>
    some { s with
      log :=
        { s.log with
          head :=
            if s.log.tail = s.log.head then Int.tmod (s.log.head + 1) CACHE_LOG_SIZE
            else s.log.head },
      threads := Function.update s.threads tid (LogThread.push PushPc.clamp t b) }
  | PushPc.clamp =>
    some { s with
      log := { s.log with head := if s.log.head < 0 then 0 else s.log.head },
      threads := Function.update s.threads tid (LogThread.push PushPc.unlock t b) }
  | PushPc.unlock =>
    some { s with writer := none,
                  threads := Function.update s.threads tid LogThread.idle }

/-- One step of thread `tid` inside `cache_log_query_throughput`; `none` is an array
access out of bounds.  A thread waiting for the lock stays where it is. -/
def query_step (s : ConcLog) (tid : Nat) (pc : QueryPc) (t0 t1 : ℚ) (kb : ℚ) :
    Option ConcLog :=
  match pc with
  | QueryPc.lock =>
    if read_lock_free s then
      some { s with
        readers := tid :: s.readers,
        threads := Function.update s.threads tid (LogThread.query QueryPc.check t0 t1 kb) }
    else some s
  | QueryPc.check =>
    some { s with
      threads := Function.update s.threads tid
        (LogThread.query (if 0 ≤ s.log.head then QueryPc.test1 (s.log.tail + 1)
          else QueryPc.unlock) t0 t1 kb) }
  | QueryPc.test1 i =>
    let i := if i = 0 then CACHE_LOG_SIZE - 1 else i - 1
    if 0 ≤ i ∧ i < CACHE_LOG_SIZE then
      if (s.log.log i).finish_time_ms ≤ t0 then
        some { s with
          threads := Function.update s.threads tid (LogThread.query QueryPc.unlock t0 t1 kb),
          events := s.events ++
            [LogEvent.read tid i (s.log.log i).finish_time_ms none none] }
      else
        some { s with
          threads := Function.update s.threads tid
            (LogThread.query (QueryPc.test2 i (s.log.log i).finish_time_ms) t0 t1 kb) }
    else none
  | QueryPc.test2 i r1 =>
    if 0 ≤ i ∧ i < CACHE_LOG_SIZE then
      if (s.log.log i).finish_time_ms ≤ t1 then
        some { s with
          threads := Function.update s.threads tid
            (LogThread.query (QueryPc.bytes i r1 (s.log.log i).finish_time_ms) t0 t1 kb) }
      else
        some { s with
          threads := Function.update s.threads tid
            (LogThread.query (QueryPc.cond i) t0 t1 kb),
          events := s.events ++
            [LogEvent.read tid i r1 (some (s.log.log i).finish_time_ms) none] }
    else none
  | QueryPc.bytes i r1 r2 =>
    if 0 ≤ i ∧ i < CACHE_LOG_SIZE then
      some { s with
        threads := Function.update s.threads tid
          (LogThread.query (QueryPc.cond i) t0 t1 (kb + ((s.log.log i).bytes : ℚ) / 1024)),
        events := s.events ++
          [LogEvent.read tid i r1 (some r2) (some (s.log.log i).bytes)] }
    else none
  | QueryPc.cond i =>
    some { s with
      threads := Function.update s.threads tid
        (LogThread.query (if i ≠ s.log.head then QueryPc.test1 i else QueryPc.unlock)
          t0 t1 kb) }
  | QueryPc.unlock =>
    some { s with readers := s.readers.filter (fun r => r ≠ tid),
                  threads := Function.update s.threads tid LogThread.idle,
                  events := s.events ++ [LogEvent.returned tid ((kb * 1000) / (t1 - t0))] }

/-- A scheduling choice: thread `tid` calls `cache_log_push_entry`, or calls
`cache_log_query_throughput`, or takes its next step. -/
inductive LogAction where
  | call_push (tid : Nat) (finish_time_ms : ℚ) (bytes : Nat)
  | call_query (tid : Nat) (begin_time_ms end_time_ms : ℚ)
  | step (tid : Nat)

/-- Effect of one scheduling choice; a call by a thread that is inside a call is
ignored. -/
def conc_step (s : ConcLog) : LogAction → Option ConcLog
  | LogAction.call_push tid t b =>
    match s.threads tid with
    | LogThread.idle =>
      some { s with
        threads := Function.update s.threads tid (LogThread.push PushPc.lock t b) }
    | _ => some s
  | LogAction.call_query tid t0 t1 =>
    match s.threads tid with
    | LogThread.idle =>
      some { s with
        threads := Function.update s.threads tid (LogThread.query QueryPc.lock t0 t1 0) }
    | _ => some s
  | LogAction.step tid =>
    match s.threads tid with
    | LogThread.idle => some s
    | LogThread.push pc t b => push_step s tid pc t b
    | LogThread.query pc t0 t1 kb => query_step s tid pc t0 t1 kb

/-- Effect of a schedule, from left to right. -/
def conc_run : List LogAction → ConcLog → Option ConcLog
  | [], s => some s
  | a :: rest, s =>
    match conc_step s a with
    | none => none
    | some s1 => conc_run rest s1

/-- The entries written in full by pushes in a list of observations, in order. -/
def written (es : List LogEvent) : List cache_log_entry :=
  es.filterMap (fun e => match e with
    | LogEvent.wrote t b => some ⟨t, b⟩
    | _ => none)

/-- The values read in one iteration of a query are the fields of the entry `e`. -/
def read_matches (t1 : ℚ) (t2 : Option ℚ) (b : Option Nat) (e : cache_log_entry) : Prop :=
  t1 = e.finish_time_ms ∧ (∀ v, t2 = some v → v = e.finish_time_ms) ∧
    (∀ v, b = some v → v = e.bytes)

/-- Every iteration of every query in the observations read the fields of one entry that
a push wrote in full. -/
def no_torn_read (es : List LogEvent) : Prop :=
  ∀ tid i t1 t2 b, LogEvent.read tid i t1 t2 b ∈ es →
    ∃ e ∈ written es, read_matches t1 t2 b e

/-- The thread holds the write lock. -/
def holds_write : LogThread → Bool
  | LogThread.push PushPc.lock _ _ => false
  | LogThread.push _ _ _ => true
  | _ => false

/-- The thread holds the read lock. -/
def holds_read : LogThread → Bool
  | LogThread.query QueryPc.lock _ _ _ => false
  | LogThread.query _ _ _ _ => true
  | _ => false

/-- The log variables as the thread holding the write lock has left them so far, in terms
of the log `m0` at the moment the lock was taken, which satisfies the ring invariant for
the entries `es0` written before. -/
def writer_ok (log : DeviceLog) (es : List cache_log_entry) : LogThread → Prop
  | LogThread.push pc t b =>
    ∃ m0 es0, ring_inv m0 es0 ∧
      match pc with
      | PushPc.lock => False
      | PushPc.pos => log = m0 ∧ es = es0
      | PushPc.time p =>
        log = m0 ∧ es = es0 ∧ p = Int.tmod (m0.tail + 1) CACHE_LOG_SIZE
      | PushPc.bytes p =>
        log = { m0 with
                log := Function.update m0.log p
                  { m0.log p with finish_time_ms := t } } ∧
          es = es0 ∧ p = Int.tmod (m0.tail + 1) CACHE_LOG_SIZE
      | PushPc.tail p =>
        log = { m0 with log := Function.update m0.log p ⟨t, b⟩ } ∧
          es = es0 ++ [⟨t, b⟩] ∧ p = Int.tmod (m0.tail + 1) CACHE_LOG_SIZE
      | PushPc.wrap =>
        log = { log := Function.update m0.log
                         (Int.tmod (m0.tail + 1) CACHE_LOG_SIZE) ⟨t, b⟩,
                head := m0.head, tail := Int.tmod (m0.tail + 1) CACHE_LOG_SIZE } ∧
          es = es0 ++ [⟨t, b⟩]
      | PushPc.clamp =>
        log = { log := Function.update m0.log
                         (Int.tmod (m0.tail + 1) CACHE_LOG_SIZE) ⟨t, b⟩,
                head := if Int.tmod (m0.tail + 1) CACHE_LOG_SIZE = m0.head
                          then Int.tmod (m0.head + 1) CACHE_LOG_SIZE else m0.head,
                tail := Int.tmod (m0.tail + 1) CACHE_LOG_SIZE } ∧
          es = es0 ++ [⟨t, b⟩]
      | PushPc.unlock =>
        cache_log_push_entry m0 t b = some log ∧ es = es0 ++ [⟨t, b⟩]
  | _ => False

/-- The scan position of a thread inside a query, in terms of the entries `es` written so
far: the index it holds is the slot of the `k`-th newest retained entry, and the values
it has in hand are fields of that slot. -/
def reader_ok (log : DeviceLog) (es : List cache_log_entry) : LogThread → Prop
  | LogThread.query pc _ _ _ =>
    match pc with
    | QueryPc.test1 i =>
      ∃ k r : Nat, k + (r + 1) = min es.length 120000 ∧
        (if i = 0 then (119999 : Int) else i - 1) = ((es.length : Int) - 1 - k) % 120000
    | QueryPc.test2 i t1 =>
      ∃ k : Nat, k < min es.length 120000 ∧ i = ((es.length : Int) - 1 - k) % 120000 ∧
        t1 = (log.log i).finish_time_ms
    | QueryPc.bytes i t1 t2 =>
      ∃ k : Nat, k < min es.length 120000 ∧ i = ((es.length : Int) - 1 - k) % 120000 ∧
        t1 = (log.log i).finish_time_ms ∧ t2 = (log.log i).finish_time_ms
    | QueryPc.cond i =>
      ∃ k : Nat, k < min es.length 120000 ∧ i = ((es.length : Int) - 1 - k) % 120000
    | _ => True
  | _ => True

/-- Invariant of the concurrent log: the lock state agrees with the positions of the
threads; while no thread holds the write lock the log satisfies the ring invariant for
the entries written so far and every query is at a retained entry; the thread holding the
write lock is part-way through its push; and no read so far was torn. -/
def conc_inv (s : ConcLog) : Prop :=
  (∀ tid, tid ∈ s.readers ↔ holds_read (s.threads tid) = true) ∧
  (∀ tid, s.writer = some tid ↔ holds_write (s.threads tid) = true) ∧
  (s.writer ≠ none → s.readers = []) ∧
  (match s.writer with
    | none => ring_inv s.log (written s.events) ∧
        ∀ tid, reader_ok s.log (written s.events) (s.threads tid)
    | some w => writer_ok s.log (written s.events) (s.threads w)) ∧
  no_torn_read s.events

/-- A sample schedule: thread 0 pushes `(10, 2048)`; then it pushes `(20, 1024)` while
thread 1 queries the window `(5, 25]` and has to wait for the write lock to be
released. -/
def sample_schedule : List LogAction :=
  [LogAction.call_push 0 10 2048] ++ List.replicate 8 (LogAction.step 0) ++
  [LogAction.call_push 0 20 1024, LogAction.call_query 1 5 25,
   LogAction.step 0, LogAction.step 0, LogAction.step 0, LogAction.step 1, LogAction.step 1,
   LogAction.step 0, LogAction.step 0, LogAction.step 0, LogAction.step 0, LogAction.step 0,
   LogAction.step 0] ++ List.replicate 12 (LogAction.step 1)

/-! ## Theorems: device throughput log -/

theorem ring_inv_setup (mem : Int → cache_log_entry) : ring_inv (log_setup mem) [] := by
  refine ⟨fun _ => ⟨rfl, rfl⟩, fun h => absurd rfl h, ?_⟩
  intro k x _ h
  simp at h

theorem tmod_log_size (a : Int) (h : 0 ≤ a) : Int.tmod a 120000 = a % 120000 :=
  Int.tmod_eq_emod h (by norm_num)

theorem ring_inv_push (s : DeviceLog) (es : List cache_log_entry) (t : ℚ) (b : Nat)
    (h : ring_inv s es) :
    ∃ s', cache_log_push_entry s t b = some s' ∧ ring_inv s' (es ++ [⟨t, b⟩]) := by
  obtain ⟨h0, h1, h2⟩ := h
  have hlen : (((es ++ [(⟨t, b⟩ : cache_log_entry)]).length : Nat) : Int)
      = (es.length : Int) + 1 := by simp
  have hst : (es = [] ∧ s.head = -1 ∧ s.tail = -1) ∨
      (1 ≤ es.length ∧ s.tail = ((es.length : Int) - 1) % 120000 ∧
        s.head = if (es.length : Int) ≤ 120000 then 0 else (es.length : Int) % 120000) := by
    by_cases he : es = []
    · exact Or.inl ⟨he, h0 he⟩
    · exact Or.inr ⟨List.length_pos.mpr he, h1 he⟩
  have hnn : 0 ≤ s.tail + 1 := by
    rcases hst with ⟨_, _, h⟩ | ⟨_, h, _⟩ <;> omega
  have hhn : 0 ≤ s.head + 1 := by
    rcases hst with ⟨_, h, _⟩ | ⟨_, _, h⟩
    · omega
    · rw [h]; split_ifs <;> omega
  have hpos : Int.tmod (s.tail + 1) 120000 = (es.length : Int) % 120000 := by
    rw [tmod_log_size _ hnn]
    rcases hst with ⟨he, _, h⟩ | ⟨_, h, _⟩
    · subst he; simp [h]
    · omega
  unfold cache_log_push_entry
  simp only [CACHE_LOG_SIZE, hpos, tmod_log_size _ hhn]
  have hr : 0 ≤ (es.length : Int) % 120000 ∧ (es.length : Int) % 120000 < 120000 := by omega
  rw [if_pos hr]
  refine ⟨_, rfl, ?_, ?_, ?_⟩
  · intro he; simp at he
  · intro _
    rw [hlen]
    dsimp only
    refine ⟨by omega, ?_⟩
    rcases hst with ⟨he, h, _⟩ | ⟨hl, _, h⟩
    · subst he; simp [h]
    · simp only [h]
      split_ifs <;> omega
  · intro k x hk hx
    rw [hlen]
    dsimp only
    simp only [List.reverse_append, List.reverse_cons, List.reverse_nil, List.nil_append,
      List.singleton_append] at hx
    cases k with
    | zero =>
      simp only [List.getElem?_cons_zero, Option.some.injEq] at hx
      subst hx
      have : ((es.length : Int) + 1 - 1 - ((0 : Nat) : Int)) % 120000
          = (es.length : Int) % 120000 := by simp
      rw [this, Function.update_same]
    | succ j =>
      simp only [List.getElem?_cons_succ] at hx
      have hj : j < es.length := by
        obtain ⟨hlt, _⟩ := List.getElem?_eq_some.mp hx
        simpa using hlt
      have hjk : ((j : Int) + 1) < 120000 := by exact_mod_cast hk
      have e1 : ((es.length : Int) + 1 - 1 - ((j + 1 : Nat) : Int)) % 120000
          = ((es.length : Int) - 1 - j) % 120000 := by
        push_cast; congr 1; ring
      rw [e1, Function.update_noteq (by omega)]
      exact h2 j x (by omega) hx
theorem query_loop_scan (s : DeviceLog) (es : List cache_log_entry) (hinv : ring_inv s es)
    (t0 t1 : ℚ) :
    ∀ (r k : Nat) (i : Int) (fuel : Nat) (kb : ℚ),
      k + (r + 1) = min es.length 120000 → r + 1 ≤ fuel →
      (if i = 0 then (119999 : Int) else i - 1) = ((es.length : Int) - 1 - k) % 120000 →
      cache_log_query_loop s t0 t1 fuel i kb
        = some (scan_entries t0 t1 ((es.reverse.take (min es.length 120000)).drop k) kb) := by
  obtain ⟨_, h1, h2⟩ := hinv
  intro r
  induction r with
  | zero =>
    intro k i fuel kb hk hf hi
    have hne : es ≠ [] := by
      intro he; subst he; simp at hk
    obtain ⟨_, hh⟩ := h1 hne
    have hkl : k < (es.reverse.take (min es.length 120000)).length := by
      simp only [List.length_take, List.length_reverse]; omega
    have hx : es.reverse[k]? = some ((es.reverse.take (min es.length 120000))[k]) := by
      rw [List.getElem_take]
      exact List.getElem?_eq_getElem _
    have hlog := h2 k _ (by omega) hx
    have hnil : (es.reverse.take (min es.length 120000)).drop (k + 1) = [] := by
      apply List.drop_eq_nil_of_le
      simp only [List.length_take, List.length_reverse]; omega
    rw [List.drop_eq_getElem_cons hkl, hnil]
    obtain ⟨f, rfl⟩ : ∃ f, fuel = f + 1 := ⟨fuel - 1, by omega⟩
    unfold cache_log_query_loop
    simp only [CACHE_LOG_SIZE]
    have hi2 : (if i = 0 then (120000 : Int) - 1 else i - 1)
        = ((es.length : Int) - 1 - k) % 120000 := by
      rw [← hi]; split_ifs <;> norm_num
    rw [hi2, if_pos (by omega), hlog]
    have hhd : ((es.length : Int) - 1 - k) % 120000 = s.head := by
      rw [hh]; split_ifs <;> omega
    simp only [scan_entries, hhd, ne_eq, not_true_eq_false, if_false]
    split_ifs <;> rfl
  | succ r ih =>
    intro k i fuel kb hk hf hi
    have hne : es ≠ [] := by
      intro he; subst he; simp at hk
    obtain ⟨_, hh⟩ := h1 hne
    have hkl : k < (es.reverse.take (min es.length 120000)).length := by
      simp only [List.length_take, List.length_reverse]; omega
    have hx : es.reverse[k]? = some ((es.reverse.take (min es.length 120000))[k]) := by
      rw [List.getElem_take]
      exact List.getElem?_eq_getElem _
    have hlog := h2 k _ (by omega) hx
    rw [List.drop_eq_getElem_cons hkl]
    obtain ⟨f, rfl⟩ : ∃ f, fuel = f + 1 := ⟨fuel - 1, by omega⟩
    unfold cache_log_query_loop
    simp only [CACHE_LOG_SIZE]
    have hi2 : (if i = 0 then (120000 : Int) - 1 else i - 1)
        = ((es.length : Int) - 1 - k) % 120000 := by
      rw [← hi]; split_ifs <;> norm_num
    rw [hi2, if_pos (by omega), hlog]
    have hhd : ((es.length : Int) - 1 - k) % 120000 ≠ s.head := by
      rw [hh]; split_ifs <;> omega
    have hnext : (if ((es.length : Int) - 1 - k) % 120000 = 0 then (119999 : Int)
        else ((es.length : Int) - 1 - k) % 120000 - 1)
        = ((es.length : Int) - 1 - (k + 1 : Nat)) % 120000 := by
      split_ifs <;> omega
    simp only [scan_entries, if_pos hhd]
    split_ifs
    · rfl
    · exact ih (k + 1) _ f _ (by omega) (by omega) hnext
    · exact ih (k + 1) _ f _ (by omega) (by omega) hnext
theorem log_size_toNat : CACHE_LOG_SIZE.toNat = 120000 := rfl

theorem in_window_nil_of_le (t0 t1 : ℚ) (L : List cache_log_entry)
    (h : ∀ y ∈ L, y.finish_time_ms ≤ t0) : in_window t0 t1 L = [] := by
  unfold in_window
  rw [List.filter_eq_nil_iff]
  intro y hy
  have := h y hy
  simp only [decide_eq_true_eq, not_and, not_le]
  intro h2
  exact absurd h2 (not_lt.mpr this)

theorem scan_entries_sorted (t0 t1 : ℚ) (L : List cache_log_entry) :
    ∀ kb : ℚ, L.Pairwise (fun a b => b.finish_time_ms ≤ a.finish_time_ms) →
      scan_entries t0 t1 L kb = kb + window_kilobytes t0 t1 L := by
  induction L with
  | nil => intro kb _; simp [scan_entries, window_kilobytes, in_window]
  | cons x rest ih =>
    intro kb hp
    obtain ⟨hx, hrest⟩ := List.pairwise_cons.mp hp
    by_cases h0 : x.finish_time_ms ≤ t0
    · have hnil : in_window t0 t1 (x :: rest) = [] := by
        apply in_window_nil_of_le
        intro y hy
        rcases List.mem_cons.mp hy with rfl | hy
        · exact h0
        · exact le_trans (hx y hy) h0
      simp [scan_entries, h0, window_kilobytes, hnil]
    · have h0lt : t0 < x.finish_time_ms := not_le.mp h0
      rw [scan_entries, if_neg h0, ih _ hrest]
      by_cases h1 : x.finish_time_ms ≤ t1
      · have : in_window t0 t1 (x :: rest) = x :: in_window t0 t1 rest := by
          unfold in_window
          rw [List.filter_cons_of_pos]
          simp [h0lt, h1]
        simp only [window_kilobytes, this, if_pos h1, List.map_cons, List.sum_cons]
        ring
      · have : in_window t0 t1 (x :: rest) = in_window t0 t1 rest := by
          unfold in_window
          rw [List.filter_cons_of_neg]
          simp [h1]
        simp only [window_kilobytes, this, if_neg h1]

theorem window_kilobytes_reverse (t0 t1 : ℚ) (L : List cache_log_entry) :
    window_kilobytes t0 t1 L.reverse = window_kilobytes t0 t1 L := by
  simp only [window_kilobytes, in_window, List.filter_reverse, List.map_reverse,
    List.sum_reverse]

theorem take_reverse_retained (es : List cache_log_entry) :
    es.reverse.take (min es.length 120000) = (retained es).reverse := by
  unfold retained
  have hm : min es.length 120000 = es.length - (es.length - 120000) := by omega
  rw [log_size_toNat, List.reverse_drop, hm]
theorem ring_inv_push_all (es : List cache_log_entry) :
    ∀ (pre : List cache_log_entry) (s : DeviceLog), ring_inv s pre →
      ∃ s', cache_log_push_all s es = some s' ∧ ring_inv s' (pre ++ es) := by
  induction es with
  | nil => intro pre s h; exact ⟨s, rfl, by simpa using h⟩
  | cons e es ih =>
    intro pre s h
    obtain ⟨s1, hs1, hinv1⟩ := ring_inv_push s pre e.finish_time_ms e.bytes h
    obtain ⟨s2, hs2, hinv2⟩ := ih (pre ++ [e]) s1 hinv1
    refine ⟨s2, ?_, by simpa using hinv2⟩
    simp only [cache_log_push_all, hs1, Option.some_bind, hs2]

theorem query_of_ring_inv (s : DeviceLog) (es : List cache_log_entry)
    (hinv : ring_inv s es) (hm : monotone_times es) (t0 t1 : ℚ) :
    cache_log_query_throughput s t0 t1
      = some (window_kilobytes t0 t1 (retained es) * 1000 / (t1 - t0)) := by
  unfold cache_log_query_throughput
  by_cases he : es = []
  · obtain ⟨hh, _⟩ := hinv.1 he
    subst he
    simp [hh, retained, window_kilobytes, in_window]
  · obtain ⟨ht, hh⟩ := hinv.2.1 he
    have hl : 1 ≤ es.length := List.length_pos.mpr he
    have hh0 : 0 ≤ s.head := by rw [hh]; split_ifs <;> omega
    have hdec : (if s.tail + 1 = 0 then (119999 : Int) else s.tail + 1 - 1)
        = ((es.length : Int) - 1 - (0 : Nat)) % 120000 := by
      rw [if_neg (by omega)]; simp [ht]
    have hloop := query_loop_scan s es hinv t0 t1 (min es.length 120000 - 1) 0 (s.tail + 1)
      120000 0 (by omega) (by omega) hdec
    have hsorted : (retained es).reverse.Pairwise
        (fun a b => b.finish_time_ms ≤ a.finish_time_ms) := by
      rw [List.pairwise_reverse]
      exact List.Pairwise.sublist (List.drop_sublist _ _) hm
    rw [if_pos hh0, log_size_toNat, hloop, List.drop_zero, take_reverse_retained,
      scan_entries_sorted _ _ _ _ hsorted, window_kilobytes_reverse]
    simp

theorem core_log_push_entry_eq :
    core_log_push_entry = cache_log_push_entry := rfl

theorem core_log_push_all_eq (es : List cache_log_entry) :
    ∀ s, core_log_push_all s es = cache_log_push_all s es := by
  induction es with
  | nil => intro s; rfl
  | cons e es ih =>
    intro s
    simp only [core_log_push_all, cache_log_push_all, core_log_push_entry_eq]
    congr 1
    funext t
    exact ih t

theorem core_log_query_loop_eq (s : DeviceLog) (t0 t1 : ℚ) (fuel : Nat) :
    ∀ (i : Int) (kb : ℚ),
      core_log_query_loop s t0 t1 fuel i kb = cache_log_query_loop s t0 t1 fuel i kb := by
  induction fuel with
  | zero => intro i kb; rfl
  | succ f ih =>
    intro i kb
    simp only [core_log_query_loop, cache_log_query_loop, CORE_LOG_SIZE, CACHE_LOG_SIZE, ih]

theorem core_log_query_throughput_eq (s : DeviceLog) (t0 t1 : ℚ) :
    core_log_query_throughput s t0 t1 = cache_log_query_throughput s t0 t1 := by
  simp only [core_log_query_throughput, cache_log_query_throughput, CORE_LOG_SIZE,
    CACHE_LOG_SIZE, core_log_query_loop_eq]

theorem push_all_then_query (mem : Int → cache_log_entry) (es : List cache_log_entry)
    (hm : monotone_times es) (t0 t1 : ℚ) :
    ∃ s, cache_log_push_all (log_setup mem) es = some s ∧
      core_log_push_all (log_setup mem) es = some s ∧
      cache_log_query_throughput s t0 t1
        = some (window_kilobytes t0 t1 (retained es) * 1000 / (t1 - t0)) ∧
      core_log_query_throughput s t0 t1
        = some (window_kilobytes t0 t1 (retained es) * 1000 / (t1 - t0)) := by
  obtain ⟨s, hs, hinv⟩ := ring_inv_push_all es [] (log_setup mem) (ring_inv_setup mem)
  rw [List.nil_append] at hinv
  have hq := query_of_ring_inv s es hinv hm t0 t1
  exact ⟨s, hs, by rw [core_log_push_all_eq, hs], hq,
    by rw [core_log_query_throughput_eq, hq]⟩
theorem query_after_eq (mem : Int → cache_log_entry) (es : List cache_log_entry)
    (hm : monotone_times es) (t0 t1 : ℚ) :
    cache_log_query_after mem es t0 t1
        = some (window_kilobytes t0 t1 (retained es) * 1000 / (t1 - t0)) ∧
      core_log_query_after mem es t0 t1
        = some (window_kilobytes t0 t1 (retained es) * 1000 / (t1 - t0)) := by
  obtain ⟨s, h1, h2, h3, h4⟩ := push_all_then_query mem es hm t0 t1
  simp only [cache_log_query_after, core_log_query_after, h1, h2, Option.some_bind, h3, h4,
    and_self]

theorem window_kilobytes_eq_bytes (t0 t1 : ℚ) (es : List cache_log_entry) :
    window_kilobytes t0 t1 es = (window_bytes t0 t1 es : ℚ) / 1024 := by
  unfold window_kilobytes window_bytes
  induction in_window t0 t1 es with
  | nil => simp
  | cons x rest ih =>
    simp only [List.map_cons, List.sum_cons, Nat.cast_add, ih]
    ring

theorem retained_of_le (es : List cache_log_entry) (h : es.length ≤ 120000) :
    retained es = es := by
  unfold retained
  rw [log_size_toNat, Nat.sub_eq_zero_of_le h, List.drop_zero]

theorem retained_length (es : List cache_log_entry) :
    (retained es).length = min es.length 120000 := by
  unfold retained
  rw [log_size_toNat, List.length_drop]
  omega

theorem retained_suffix (es : List cache_log_entry) :
    es.take (es.length - 120000) ++ retained es = es := by
  unfold retained
  rw [log_size_toNat, List.take_append_drop]

theorem monotone_replicate (n : Nat) (x : cache_log_entry) :
    monotone_times (List.replicate n x) := by
  unfold monotone_times
  rw [List.pairwise_replicate]
  exact Or.inr le_rfl

theorem window_bytes_replicate (t0 t1 : ℚ) (n : Nat) (x : cache_log_entry)
    (h : t0 < x.finish_time_ms ∧ x.finish_time_ms ≤ t1) :
    window_bytes t0 t1 (List.replicate n x) = n * x.bytes := by
  simp [window_bytes, in_window, List.filter_replicate, h]

theorem retained_replicate (n : Nat) (x : cache_log_entry) :
    retained (List.replicate n x) = List.replicate (min n 120000) x := by
  unfold retained
  have hm : min n 120000 = n - (n - 120000) := by omega
  rw [log_size_toNat, List.length_replicate, List.drop_replicate, hm]
/-- C1 (amended): for every sequence of at most 120000 pushes with non-decreasing
finish times onto a freshly set-up throughput log (cache or core, whatever the initial
memory), and every window `t0 < t1`, the query returns
`(sum of bytes over all pushed entries with t0 < t ≤ t1) * 1000 / (t1 - t0) / 1024`. -/
theorem query_throughput_all_pushed (mem : Int → cache_log_entry)
    (es : List cache_log_entry) (t0 t1 : ℚ) (hm : monotone_times es)
    (hlen : es.length ≤ 120000) (_ht : t0 < t1) :
    cache_log_query_after mem es t0 t1
        = some ((window_bytes t0 t1 es : ℚ) * 1000 / (t1 - t0) / 1024) ∧
      core_log_query_after mem es t0 t1
        = some ((window_bytes t0 t1 es : ℚ) * 1000 / (t1 - t0) / 1024) := by
  have hq := query_after_eq mem es hm t0 t1
  rw [retained_of_le es hlen, window_kilobytes_eq_bytes] at hq
  have e : (window_bytes t0 t1 es : ℚ) / 1024 * 1000 / (t1 - t0)
      = (window_bytes t0 t1 es : ℚ) * 1000 / (t1 - t0) / 1024 := by ring
  rw [e] at hq
  exact hq

/-- Witness for C1 (amended): two pushes `(10, 2048)`, `(20, 1024)` and the window
`(5, 25]`. -/
theorem query_throughput_all_pushed_witness :
    monotone_times [⟨10, 2048⟩, ⟨20, 1024⟩] ∧
      ([⟨10, 2048⟩, ⟨20, 1024⟩] : List cache_log_entry).length ≤ 120000 ∧
      (5 : ℚ) < 25 ∧
      cache_log_query_after zero_mem [⟨10, 2048⟩, ⟨20, 1024⟩] 5 25
        = some ((window_bytes 5 25 [⟨10, 2048⟩, ⟨20, 1024⟩] : ℚ) * 1000 / (25 - 5) / 1024) ∧
      core_log_query_after zero_mem [⟨10, 2048⟩, ⟨20, 1024⟩] 5 25
        = some ((window_bytes 5 25 [⟨10, 2048⟩, ⟨20, 1024⟩] : ℚ) * 1000 / (25 - 5) / 1024) :=
  have hm : monotone_times [⟨10, 2048⟩, ⟨20, 1024⟩] := by
    norm_num [monotone_times]
  ⟨hm, by simp, by norm_num,
    query_throughput_all_pushed zero_mem [⟨10, 2048⟩, ⟨20, 1024⟩] 5 25 hm (by simp)
      (by norm_num)⟩

/-- C1 (counterexample): after 120001 pushes of 1024 bytes at time 1, the window
`(0, 2]` contains all 120001 pushed entries, so the claimed value is
`120001 * 1024 * 1000 / 2 / 1024 = 60000500`, but the query returns `60000000`:
the oldest entry was overwritten. -/
theorem query_throughput_all_pushed_overfull :
    monotone_times overfull_pushes ∧ (0 : ℚ) < 2 ∧
      cache_log_query_after zero_mem overfull_pushes 0 2 = some 60000000 ∧
      (window_bytes 0 2 overfull_pushes : ℚ) * 1000 / (2 - 0) / 1024 = 60000500 ∧
      cache_log_query_after zero_mem overfull_pushes 0 2
        ≠ some ((window_bytes 0 2 overfull_pushes : ℚ) * 1000 / (2 - 0) / 1024) := by
  have hm : monotone_times overfull_pushes := monotone_replicate _ _
  have hq := (query_after_eq zero_mem overfull_pushes hm 0 2).1
  have hr : retained overfull_pushes = List.replicate 120000 ⟨1, 1024⟩ := by
    have hmin : min 120001 120000 = 120000 := by omega
    unfold overfull_pushes
    rw [retained_replicate, hmin]
  have hw : window_bytes 0 2 (List.replicate 120000 (⟨1, 1024⟩ : cache_log_entry))
      = 120000 * 1024 :=
    window_bytes_replicate 0 2 120000 ⟨1, 1024⟩ (by norm_num)
  have hw2 : window_bytes 0 2 overfull_pushes = 120001 * 1024 :=
    window_bytes_replicate 0 2 120001 ⟨1, 1024⟩ (by norm_num)
  rw [hr, window_kilobytes_eq_bytes, hw] at hq
  have hv : ((120000 * 1024 : Nat) : ℚ) / 1024 * 1000 / (2 - 0) = 60000000 := by norm_num
  rw [hv] at hq
  have hc : (window_bytes 0 2 overfull_pushes : ℚ) * 1000 / (2 - 0) / 1024 = 60000500 := by
    rw [hw2]; norm_num
  refine ⟨hm, by norm_num, hq, hc, ?_⟩
  rw [hq, hc]
  norm_num

/-- C2: for every sequence of pushes with non-decreasing finish times onto a freshly
set-up throughput log and every window `t0 < t1`, the query equals the windowed sum
(`bytes / 1024` over entries with `t0 < t ≤ t1`, times `1000 / (t1 - t0)`) taken over
`retained es`, which is exactly the suffix of the `min N 120000` most recent pushes;
the empty log gives 0; and the pushes `(100, 4096)`, `(200, 4096)`, `(300, 8192)` with
`query(50, 350)` give `160 / 3`. -/
theorem query_throughput_retained (mem : Int → cache_log_entry)
    (es : List cache_log_entry) (t0 t1 : ℚ) (hm : monotone_times es) (_ht : t0 < t1) :
    (cache_log_query_after mem es t0 t1
        = some (window_kilobytes t0 t1 (retained es) * 1000 / (t1 - t0)) ∧
      core_log_query_after mem es t0 t1
        = some (window_kilobytes t0 t1 (retained es) * 1000 / (t1 - t0))) ∧
      ((retained es).length = min es.length 120000 ∧
        es.take (es.length - 120000) ++ retained es = es) ∧
      cache_log_query_after mem [] t0 t1 = some 0 ∧
      cache_log_query_after mem [⟨100, 4096⟩, ⟨200, 4096⟩, ⟨300, 8192⟩] 50 350
        = some (160 / 3) := by
  refine ⟨query_after_eq mem es hm t0 t1, ⟨retained_length es, retained_suffix es⟩, ?_, ?_⟩
  · have h := (query_after_eq mem [] (by simp [monotone_times]) t0 t1).1
    rw [h]
    simp [retained, window_kilobytes, in_window]
  · have h := (query_after_eq mem [⟨100, 4096⟩, ⟨200, 4096⟩, ⟨300, 8192⟩]
      (by norm_num [monotone_times]) 50 350).1
    rw [h, retained_of_le _ (by simp)]
    norm_num [window_kilobytes, in_window]

/-- Witness for C2: three pushes at times 1, 2, 3 and the window `(1, 3]`. -/
theorem query_throughput_retained_witness :
    monotone_times [⟨1, 512⟩, ⟨2, 1024⟩, ⟨3, 2048⟩] ∧ (1 : ℚ) < 3 ∧
      cache_log_query_after zero_mem [⟨1, 512⟩, ⟨2, 1024⟩, ⟨3, 2048⟩] 1 3
        = some (window_kilobytes 1 3 (retained [⟨1, 512⟩, ⟨2, 1024⟩, ⟨3, 2048⟩]) * 1000
            / (3 - 1)) :=
  have hm : monotone_times [⟨1, 512⟩, ⟨2, 1024⟩, ⟨3, 2048⟩] := by
    norm_num [monotone_times]
  ⟨hm, by norm_num,
    (query_throughput_retained zero_mem [⟨1, 512⟩, ⟨2, 1024⟩, ⟨3, 2048⟩] 1 3 hm
      (by norm_num)).1.1⟩

/-! ## Theorems: MFWA read engine -/

theorem int_lor_eq_zero (a b : Int) : Int.lor a b = 0 ↔ a = 0 ∧ b = 0 := by
  cases a with
  | ofNat m =>
    cases b with
    | ofNat n =>
      simp only [Int.lor, Int.ofNat_eq_coe]
      constructor
      · intro h
        have h2 : m ||| n = 0 := by exact_mod_cast h
        have hm : m = 0 := by
          apply Nat.eq_of_testBit_eq
          intro i
          have := congrArg (fun x => Nat.testBit x i) h2
          simp only [Nat.testBit_lor, Nat.zero_testBit, Bool.or_eq_false_iff] at this
          simp [this.1]
        have hn : n = 0 := by
          apply Nat.eq_of_testBit_eq
          intro i
          have := congrArg (fun x => Nat.testBit x i) h2
          simp only [Nat.testBit_lor, Nat.zero_testBit, Bool.or_eq_false_iff] at this
          simp [this.2]
        subst hm hn
        exact ⟨rfl, rfl⟩
      · rintro ⟨h1, h2⟩
        have hm : m = 0 := by exact_mod_cast h1
        have hn : n = 0 := by exact_mod_cast h2
        subst hm hn
        rfl
    | negSucc n => simp [Int.lor]
  | negSucc m =>
    cases b with
    | ofNat n => simp [Int.lor]
    | negSucc n => simp [Int.lor]

/-- C3: `ocf_read_mfwa_get_lock_type` returns the read lock for a hit with
`load_admit_allowed`, the write lock for a miss with `data_admit_allowed`, and no lock
for a hit without `load_admit_allowed` and for a miss without `data_admit_allowed`;
every other field of the request, the other captured flag included, is arbitrary. -/
theorem get_lock_type_table (req : ocf_request) :
    ocf_read_mfwa_get_lock_type { req with hit := true, load_admit_allowed := true }
        = ocf_engine_lock_type.ocf_engine_lock_read ∧
      ocf_read_mfwa_get_lock_type { req with hit := false, data_admit_allowed := true }
        = ocf_engine_lock_type.ocf_engine_lock_write ∧
      ocf_read_mfwa_get_lock_type { req with hit := true, load_admit_allowed := false }
        = ocf_engine_lock_type.ocf_engine_lock_none ∧
      ocf_read_mfwa_get_lock_type { req with hit := false, data_admit_allowed := false }
        = ocf_engine_lock_type.ocf_engine_lock_none := by
  simp [ocf_read_mfwa_get_lock_type]
theorem deliver_append (o : Outcomes) (a b : List Call) :
    ∀ req : ocf_request, deliver o (a ++ b) req
      = ((deliver o b (deliver o a req).1).1,
          (deliver o a req).2 ++ (deliver o b (deliver o a req).1).2) := by
  induction a with
  | nil => intro req; simp [deliver]
  | cons x xs ih =>
    intro req
    cases x <;> simp [deliver, ih]

theorem deliver_entry_calls (o : Outcomes) (req : ocf_request) :
    deliver o entry_calls req = (req, []) := rfl

theorem deliver_req_put (o : Outcomes) (req : ocf_request) :
    deliver o [Call.ocf_req_put] req = (req, []) := rfl

theorem ocf_read_mfwa_acquired (c : Consts) (o : Outcomes) (req : ocf_request)
    (hb : o.pending_read_misses_list_blocked = false) (hme : o.mapping_error = false)
    (hl : 0 ≤ o.lock) (ha : o.lock = c.OCF_LOCK_ACQUIRED) :
    ocf_read_mfwa c o req
      = ((_ocf_read_mfwa_do c o.alloc_ok o.mlock_ret
            (prepare_clines_info o (capture_admission c o req))).1,
          entry_calls ++ (_ocf_read_mfwa_do c o.alloc_ok o.mlock_ret
            (prepare_clines_info o (capture_admission c o req))).2 ++ [Call.ocf_req_put]) := by
  have hme2 : (prepare_clines_info o (capture_admission c o req)).mapping_error = false := hme
  have hl2 : o.lock ≥ 0 := hl
  have ha2 : ¬ (o.lock ≠ c.OCF_LOCK_ACQUIRED) := fun h => h ha
  unfold ocf_read_mfwa
  simp only [hb, Bool.false_eq_true, if_false, hme2, Bool.not_false, if_true, if_pos hl2,
    if_neg ha2]

theorem ocf_read_mfwa_waiting (c : Consts) (o : Outcomes) (req : ocf_request)
    (hb : o.pending_read_misses_list_blocked = false) (hme : o.mapping_error = false)
    (hl : 0 ≤ o.lock) (ha : o.lock ≠ c.OCF_LOCK_ACQUIRED) :
    ocf_read_mfwa c o req
      = (prepare_clines_info o (capture_admission c o req),
          entry_calls ++ [Call.ocf_req_put]) := by
  have hme2 : (prepare_clines_info o (capture_admission c o req)).mapping_error = false := hme
  have hl2 : o.lock ≥ 0 := hl
  unfold ocf_read_mfwa
  simp only [hb, Bool.false_eq_true, if_false, hme2, Bool.not_false, if_true, if_pos hl2,
    if_pos ha]

theorem handle_read_perm (c : Consts) (o : Outcomes) (req : ocf_request)
    (hb : o.pending_read_misses_list_blocked = false) (hme : o.mapping_error = false)
    (hl : 0 ≤ o.lock) :
    List.Perm (handle_read c o req).2
      (entry_calls ++ [Call.ocf_req_put]
        ++ (do_and_complete c o (prepare_clines_info o (capture_admission c o req))).2) := by
  have hl2 : decide (o.lock ≥ 0) = true := decide_eq_true hl
  by_cases ha : o.lock = c.OCF_LOCK_ACQUIRED
  · have hw : decide (o.lock ≠ c.OCF_LOCK_ACQUIRED) = false := by simp [ha]
    simp only [handle_read, ocf_read_mfwa_acquired c o req hb hme hl ha, hb, hme, hl2, hw,
      Bool.not_false, Bool.and_true, Bool.and_false, Bool.false_eq_true, if_false,
      do_and_complete, deliver_append, deliver_entry_calls, deliver_req_put, List.append_nil,
      List.nil_append]
    simp only [deliver, List.append_nil, List.append_assoc]
    apply List.Perm.append_left
    rw [← List.append_assoc, ← List.append_assoc]
    apply List.Perm.append_right
    exact List.perm_append_comm
  · have hw : decide (o.lock ≠ c.OCF_LOCK_ACQUIRED) = true := by simp [ha]
    simp only [handle_read, ocf_read_mfwa_waiting c o req hb hme hl ha, hb, hme, hl2, hw,
      Bool.not_false, Bool.and_true, if_true,
      do_and_complete, deliver_append, deliver_entry_calls, deliver_req_put, List.append_nil,
      List.nil_append, List.append_assoc]
    exact List.Perm.refl _
theorem forall_lt_succ_shift (P : Nat → Prop) (k n : Nat) :
    (∀ j, j < n + 1 → P (k + j)) ↔ (P k ∧ ∀ j, j < n → P (k + 1 + j)) := by
  constructor
  · intro h
    refine ⟨by simpa using h 0 (by omega), fun j hj => ?_⟩
    have := h (j + 1) (by omega)
    rwa [show k + (j + 1) = k + 1 + j by omega] at this
  · rintro ⟨h0, h1⟩ j hj
    cases j with
    | zero => simpa using h0
    | succ i =>
      have := h1 i (by omega)
      rwa [show k + 1 + i = k + (i + 1) by omega] at this

theorem to_cache_cmpl_spec (req : ocf_request) (e : Int) :
    ((_ocf_read_mfwa_to_cache_cmpl req e).1.error = 0 ↔ (req.error = 0 ∧ e = 0)) ∧
      (_ocf_read_mfwa_to_cache_cmpl req e).1.req_remaining = req.req_remaining - 1 ∧
      ∃ m, (_ocf_read_mfwa_to_cache_cmpl req e).2
        = List.replicate m Call.inc_fallback_pt_error_counter ++
          (if req.req_remaining - 1 = 0 then
            (if req.error = 0 ∧ e = 0 then
              [Call.ocf_req_unlock, Call.complete 0, Call.ocf_req_put]
            else [Call.ocf_core_stats_cache_error_update, Call.ocf_engine_push_req_front_pt])
          else []) := by
  by_cases he : e = 0
  · by_cases hr : req.error = 0
    · by_cases hz : req.req_remaining - 1 = 0
      · exact ⟨by simp [_ocf_read_mfwa_to_cache_cmpl, he, hr, hz],
          by simp [_ocf_read_mfwa_to_cache_cmpl, he, hr, hz],
          0, by simp [_ocf_read_mfwa_to_cache_cmpl, he, hr, hz]⟩
      · exact ⟨by simp [_ocf_read_mfwa_to_cache_cmpl, he, hr, hz],
          by simp [_ocf_read_mfwa_to_cache_cmpl, he, hr, hz],
          0, by simp [_ocf_read_mfwa_to_cache_cmpl, he, hr, hz]⟩
    · by_cases hz : req.req_remaining - 1 = 0
      · exact ⟨by simp [_ocf_read_mfwa_to_cache_cmpl, he, hr, hz],
          by simp [_ocf_read_mfwa_to_cache_cmpl, he, hr, hz],
          1, by simp [_ocf_read_mfwa_to_cache_cmpl, he, hr, hz]⟩
      · exact ⟨by simp [_ocf_read_mfwa_to_cache_cmpl, he, hr, hz],
          by simp [_ocf_read_mfwa_to_cache_cmpl, he, hr, hz],
          1, by simp [_ocf_read_mfwa_to_cache_cmpl, he, hr, hz]⟩
  · have hl : ¬ (Int.lor req.error e = 0) := by
      rw [int_lor_eq_zero]; exact fun h => he h.2
    by_cases hz : req.req_remaining - 1 = 0
    · exact ⟨by simp [_ocf_read_mfwa_to_cache_cmpl, he, hl, hz],
        by simp [_ocf_read_mfwa_to_cache_cmpl, he, hl, hz],
        1, by simp [_ocf_read_mfwa_to_cache_cmpl, he, hl, hz]⟩
    · exact ⟨by simp [_ocf_read_mfwa_to_cache_cmpl, he, hl, hz],
        by simp [_ocf_read_mfwa_to_cache_cmpl, he, hl, hz],
        1, by simp [_ocf_read_mfwa_to_cache_cmpl, he, hl, hz]⟩

theorem deliver_n_succ (cmpl : Cmpl) (err : Nat → Int) (n k : Nat) (req : ocf_request) :
    deliver_n cmpl err (n + 1) k req
      = ((deliver_n cmpl err n (k + 1) (run_cmpl cmpl req (err k)).1).1,
          (run_cmpl cmpl req (err k)).2
            ++ (deliver_n cmpl err n (k + 1) (run_cmpl cmpl req (err k)).1).2) := rfl

theorem deliver_n_cache (err : Nat → Int) :
    ∀ (n k : Nat) (req : ocf_request), req.req_remaining = (n : Int) + 1 →
      ∃ m, (deliver_n Cmpl.to_cache_cmpl err (n + 1) k req).2
        = List.replicate m Call.inc_fallback_pt_error_counter ++
          (if req.error = 0 ∧ ∀ j, j < n + 1 → err (k + j) = 0 then
            [Call.ocf_req_unlock, Call.complete 0, Call.ocf_req_put]
          else [Call.ocf_core_stats_cache_error_update, Call.ocf_engine_push_req_front_pt]) := by
  intro n
  induction n with
  | zero =>
    intro k req hrem
    obtain ⟨_, _, m, hm⟩ := to_cache_cmpl_spec req (err k)
    have hall : (∀ j, j < 0 + 1 → err (k + j) = 0) ↔ err k = 0 := by
      constructor
      · intro h; simpa using h 0 (by omega)
      · intro h j hj
        have : j = 0 := by omega
        subst this; simpa using h
    have hz : req.req_remaining - 1 = 0 := by rw [hrem]; simp
    refine ⟨m, ?_⟩
    rw [deliver_n_succ]
    simp only [run_cmpl, deliver_n, List.append_nil, hm, if_pos hz, hall]
  | succ n ih =>
    intro k req hrem
    obtain ⟨herr, hrem1, m, hm⟩ := to_cache_cmpl_spec req (err k)
    have hz : ¬ (req.req_remaining - 1 = 0) := by rw [hrem]; push_cast; omega
    have hrem2 : (_ocf_read_mfwa_to_cache_cmpl req (err k)).1.req_remaining = (n : Int) + 1 := by
      rw [hrem1, hrem]; push_cast; ring
    obtain ⟨m2, hm2⟩ := ih (k + 1) _ hrem2
    refine ⟨m + m2, ?_⟩
    rw [deliver_n_succ]
    simp only [run_cmpl]
    rw [hm, hm2, if_neg hz, List.append_nil, ← List.append_assoc, ← List.replicate_add]
    congr 1
    have hcond : ((_ocf_read_mfwa_to_cache_cmpl req (err k)).1.error = 0
          ∧ ∀ j, j < n + 1 → err (k + 1 + j) = 0)
        ↔ (req.error = 0 ∧ ∀ j, j < n + 1 + 1 → err (k + j) = 0) := by
      rw [herr, forall_lt_succ_shift (fun i => err i = 0) k (n + 1)]
      tauto
    by_cases hc : req.error = 0 ∧ ∀ j, j < n + 1 + 1 → err (k + j) = 0
    · rw [if_pos hc, if_pos (hcond.mpr hc)]
    · rw [if_neg hc, if_neg (fun h => hc (hcond.mp h))]
theorem deliver_do_entry (o : Outcomes) (req r : ocf_request) :
    deliver o (do_entry req) r = (r, []) := by
  unfold do_entry
  cases req.re_part <;> rfl

theorem deliver_do_tail (o : Outcomes) (r : ocf_request) :
    deliver o do_tail r = (r, []) := rfl

theorem deliver_to_cache (o : Outcomes) (n : Nat) (r : ocf_request) :
    deliver o [Call.submit_to_cache, Call.ocf_submit_cache_reqs n Cmpl.to_cache_cmpl] r
      = deliver_n Cmpl.to_cache_cmpl o.cache_error n 0 r := by
  simp [deliver]

theorem deliver_to_core (o : Outcomes) (p : Bool) (cmpl : Cmpl) (r : ocf_request) :
    deliver o [Call.submit_to_core p, Call.ocf_submit_volume_req cmpl] r
      = run_cmpl cmpl r o.core_error := by
  simp [deliver]

theorem deliver_pt (o : Outcomes) (r : ocf_request) :
    deliver o [Call.ocf_read_pt_do] r = (r, []) := rfl

theorem deliver_clean (o : Outcomes) (r : ocf_request) :
    deliver o [Call.ocf_req_hash_lock_rd, Call.ocf_engine_clean,
      Call.ocf_req_hash_unlock_rd, Call.ocf_req_put] r = (r, []) := rfl

theorem deliver_valid_map (o : Outcomes) (r : ocf_request) :
    deliver o [Call.ocf_req_hash_lock_rd, Call.ocf_set_valid_map_info,
      Call.ocf_req_hash_unlock_rd] r = (r, []) := rfl

theorem deliver_no_submit (o : Outcomes) (cs : List Call)
    (h : ∀ x ∈ cs, is_cache_submit x = false ∧ is_core_submit x = false) :
    ∀ r, deliver o cs r = (r, []) := by
  induction cs with
  | nil => intro r; rfl
  | cons x xs ih =>
    intro r
    have hx := h x (List.mem_cons_self _ _)
    have hxs := ih (fun y hy => h y (List.mem_cons_of_mem _ hy))
    cases x <;> simp_all [deliver, is_cache_submit, is_core_submit]

theorem deliver_marker_alloc (o : Outcomes) (r : ocf_request) :
    deliver o [Call.submit_to_core true, Call.ctx_data_alloc] r = (r, []) := rfl

theorem deliver_marker_mlock (o : Outcomes) (r : ocf_request) :
    deliver o [Call.submit_to_core true, Call.ctx_data_alloc, Call.ctx_data_mlock] r
      = (r, []) := rfl

theorem deliver_promote_submit (o : Outcomes) (r : ocf_request) :
    deliver o [Call.submit_to_core true, Call.ctx_data_alloc, Call.ctx_data_mlock,
      Call.ocf_submit_volume_req Cmpl.to_core_cmpl_do_promote] r
      = run_cmpl Cmpl.to_core_cmpl_do_promote r o.core_error := by
  simp [deliver]

theorem do_promote_calls (r : ocf_request) (e : Int) :
    ∃ (fe : Int) (nn : Bool),
      (_ocf_read_mfwa_to_core_cmpl_do_promote r e).2
          = [Call.complete fe, Call.ocf_core_stats_core_error_update, Call.ctx_data_free nn,
              Call.ocf_engine_invalidate]
        ∨ (_ocf_read_mfwa_to_core_cmpl_do_promote r e).2
          = [Call.ctx_data_cpy, Call.complete fe, Call.ocf_engine_backfill]
        ∨ (_ocf_read_mfwa_to_core_cmpl_do_promote r e).2 = [] := by
  simp only [_ocf_read_mfwa_to_core_cmpl_do_promote]
  split_ifs <;>
    first
    | exact ⟨_, _, Or.inl rfl⟩
    | exact ⟨_, false, Or.inr (Or.inl rfl)⟩
    | exact ⟨0, false, Or.inr (Or.inr rfl)⟩

theorem no_promote_calls (r : ocf_request) (e : Int) :
    ∃ (fe : Int) (nn : Bool),
      (_ocf_read_mfwa_to_core_cmpl_no_promote r e).2
          = [Call.complete fe, Call.ocf_core_stats_core_error_update, Call.ctx_data_free nn,
              Call.ocf_engine_invalidate]
        ∨ (_ocf_read_mfwa_to_core_cmpl_no_promote r e).2
          = [Call.complete fe, Call.ocf_req_put]
        ∨ (_ocf_read_mfwa_to_core_cmpl_no_promote r e).2 = [] := by
  simp only [_ocf_read_mfwa_to_core_cmpl_no_promote]
  split_ifs <;>
    first
    | exact ⟨_, _, Or.inl rfl⟩
    | exact ⟨_, false, Or.inr (Or.inl rfl)⟩
    | exact ⟨0, false, Or.inr (Or.inr rfl)⟩

theorem dac_cache (c : Consts) (o : Outcomes) (req : ocf_request)
    (h1 : req.hit = true) (h2 : req.load_admit_allowed = true) :
    (do_and_complete c o req).2
      = do_entry req
        ++ [Call.submit_to_cache, Call.ocf_submit_cache_reqs req.io_count Cmpl.to_cache_cmpl]
        ++ do_tail
        ++ (deliver_n Cmpl.to_cache_cmpl o.cache_error req.io_count 0
            { req with req_remaining := (req.io_count : Int) }).2 := by
  simp only [do_and_complete, _ocf_read_mfwa_do, h1, h2, if_true,
    _ocf_read_mfwa_submit_to_cache, deliver_append, deliver_do_entry, deliver_do_tail,
    deliver_to_cache, List.nil_append, List.append_nil, List.append_assoc]

theorem dac_core_no_promote (c : Consts) (o : Outcomes) (req : ocf_request)
    (h : (req.hit = true ∧ req.load_admit_allowed = false)
      ∨ (req.hit = false ∧ req.data_admit_allowed = false)) :
    (do_and_complete c o req).2
      = do_entry req
        ++ [Call.submit_to_core false, Call.ocf_submit_volume_req Cmpl.to_core_cmpl_no_promote]
        ++ do_tail
        ++ (_ocf_read_mfwa_to_core_cmpl_no_promote { req with req_remaining := 1 }
            o.core_error).2 := by
  rcases h with ⟨h1, h2⟩ | ⟨h1, h2⟩ <;>
    simp only [do_and_complete, _ocf_read_mfwa_do, h1, h2, if_true, if_false,
      Bool.false_eq_true, _ocf_read_mfwa_submit_to_core, deliver_append, deliver_do_entry,
      deliver_do_tail, deliver_to_core, run_cmpl, List.nil_append, List.append_nil, List.append_assoc]

theorem dac_pt (c : Consts) (o : Outcomes) (req : ocf_request)
    (h1 : req.hit = false) (h2 : req.data_admit_allowed = true) (h3 : req.rd_locked = true) :
    (do_and_complete c o req).2 = do_entry req ++ [Call.ocf_read_pt_do] := by
  simp only [do_and_complete, _ocf_read_mfwa_do, h1, h2, h3, if_true, if_false,
    Bool.false_eq_true, deliver_append, deliver_do_entry, deliver_pt, List.append_nil]

theorem dac_clean (c : Consts) (o : Outcomes) (req : ocf_request)
    (h1 : req.hit = false) (h2 : req.data_admit_allowed = true) (h3 : req.rd_locked = false)
    (h4 : req.dirty_any = true) :
    (do_and_complete c o req).2
      = do_entry req ++ [Call.ocf_req_hash_lock_rd, Call.ocf_engine_clean,
          Call.ocf_req_hash_unlock_rd, Call.ocf_req_put] := by
  simp only [do_and_complete, _ocf_read_mfwa_do, h1, h2, h3, h4, if_true, if_false,
    Bool.false_eq_true, deliver_append, deliver_do_entry, deliver_clean, List.append_nil]

theorem dac_promote (c : Consts) (o : Outcomes) (req : ocf_request)
    (h1 : req.hit = false) (h2 : req.data_admit_allowed = true) (h3 : req.rd_locked = false)
    (h4 : req.dirty_any = false) :
    (do_and_complete c o req).2
      = do_entry req
        ++ [Call.ocf_req_hash_lock_rd, Call.ocf_set_valid_map_info,
            Call.ocf_req_hash_unlock_rd, Call.submit_to_core true, Call.ctx_data_alloc]
        ++ (if o.alloc_ok = false then
              (_ocf_read_mfwa_to_core_cmpl_do_promote
                { req with req_remaining := 1, cp_data := false } (-c.OCF_ERR_NO_MEM)).2
                ++ do_tail
            else if o.mlock_ret ≠ 0 then
              [Call.ctx_data_mlock]
                ++ (_ocf_read_mfwa_to_core_cmpl_do_promote
                  { req with req_remaining := 1, cp_data := true } (-c.OCF_ERR_NO_MEM)).2
                ++ do_tail
            else
              [Call.ctx_data_mlock, Call.ocf_submit_volume_req Cmpl.to_core_cmpl_do_promote]
                ++ do_tail
                ++ (_ocf_read_mfwa_to_core_cmpl_do_promote
                  { req with req_remaining := 1, cp_data := true } o.core_error).2) := by
  have hfail : ∀ (r : ocf_request) (e : Int), deliver o
      (_ocf_read_mfwa_to_core_cmpl_do_promote r e).2
      (_ocf_read_mfwa_to_core_cmpl_do_promote r e).1
      = ((_ocf_read_mfwa_to_core_cmpl_do_promote r e).1, []) := by
    intro r e
    obtain ⟨fe, nn, h | h | h⟩ := do_promote_calls r e <;> rw [h] <;> rfl
  cases ha : o.alloc_ok
  · simp only [do_and_complete, _ocf_read_mfwa_do, h1, h2, h3, h4, ha, if_true, if_false,
      Bool.false_eq_true, _ocf_read_mfwa_submit_to_core, Bool.not_false, deliver_append,
      deliver_do_entry, deliver_do_tail, deliver_valid_map, deliver_marker_alloc, hfail]
    simp
  · by_cases hm : o.mlock_ret = 0
    · simp only [do_and_complete, _ocf_read_mfwa_do, h1, h2, h3, h4, ha, hm, if_true,
        if_false, Bool.false_eq_true, _ocf_read_mfwa_submit_to_core, Bool.not_true,
        ne_eq, not_true_eq_false, deliver_append,
        deliver_do_entry, deliver_do_tail, deliver_valid_map, deliver_promote_submit,
        run_cmpl]
      simp [hm]
    · simp only [do_and_complete, _ocf_read_mfwa_do, h1, h2, h3, h4, ha, hm, if_true,
        if_false, Bool.false_eq_true, _ocf_read_mfwa_submit_to_core, Bool.not_true,
        ne_eq, not_false_eq_true, deliver_append,
        deliver_do_entry, deliver_do_tail, deliver_valid_map, deliver_marker_mlock, hfail]
      simp [hm]
theorem count_calls_append (p : Call → Bool) (a b : List Call) :
    count_calls p (a ++ b) = count_calls p a + count_calls p b := by
  simp [count_calls]

theorem cache_reads_append (a b : List Call) :
    cache_reads (a ++ b) = cache_reads a + cache_reads b := by
  simp [cache_reads]

theorem count_calls_perm (p : Call → Bool) {a b : List Call} (h : List.Perm a b) :
    count_calls p a = count_calls p b := by
  unfold count_calls
  exact h.countP_eq p

theorem cache_reads_perm {a b : List Call} (h : List.Perm a b) :
    cache_reads a = cache_reads b := by
  unfold cache_reads
  exact (h.map cache_read_size).sum_eq

theorem count_do_entry (p : Call → Bool) (req : ocf_request)
    (h1 : p Call.ocf_req_get = false) (h2 : p Call.ocf_req_hash_lock_wr = false)
    (h3 : p Call.ocf_part_move = false) (h4 : p Call.ocf_req_hash_unlock_wr = false) :
    count_calls p (do_entry req) = 0 := by
  unfold do_entry count_calls
  cases req.re_part <;> simp [h1, h2, h3, h4]

theorem cache_reads_do_entry (req : ocf_request) : cache_reads (do_entry req) = 0 := by
  unfold do_entry
  cases req.re_part <;> rfl

theorem sample_admit_zero : load_admit_allow sample_consts 0 0 = true := by
  simp [load_admit_allow]

theorem zero_admit_trace :
    (handle_read sample_consts zero_admit_outcomes fresh_req).2
      = [Call.ocf_io_start, Call.ocf_req_get, Call.monitor_query_data_admit,
          Call.monitor_query_load_admit, Call.rand, Call.ocf_engine_prepare_clines,
          Call.ocf_req_get, Call.submit_to_cache,
          Call.ocf_submit_cache_reqs 1 Cmpl.to_cache_cmpl,
          Call.ocf_engine_update_request_stats, Call.ocf_engine_update_block_stats,
          Call.ocf_req_put, Call.ocf_req_put, Call.ocf_req_unlock, Call.complete 0,
          Call.ocf_req_put] := by
  simp [handle_read, ocf_read_mfwa, zero_admit_outcomes, sample_outcomes, sample_consts,
    fresh_req, capture_admission, prepare_clines_info, load_admit_allow, data_admit_allow,
    _ocf_read_mfwa_do, _ocf_read_mfwa_submit_to_cache, do_entry, do_tail, entry_calls,
    deliver, deliver_n, run_cmpl, _ocf_read_mfwa_to_cache_cmpl]
theorem no_promote_calls_last (r : ocf_request) (e : Int) (h : r.req_remaining = 1) :
    ∃ (fe : Int) (nn : Bool),
      (_ocf_read_mfwa_to_core_cmpl_no_promote r e).2
          = [Call.complete fe, Call.ocf_core_stats_core_error_update, Call.ctx_data_free nn,
              Call.ocf_engine_invalidate]
        ∨ (_ocf_read_mfwa_to_core_cmpl_no_promote r e).2
          = [Call.complete fe, Call.ocf_req_put] := by
  simp only [_ocf_read_mfwa_to_core_cmpl_no_promote]
  split_ifs <;>
    first
    | exact ⟨_, _, Or.inl rfl⟩
    | exact ⟨_, false, Or.inr rfl⟩
    | (exfalso; simp_all)

theorem do_promote_calls_last (r : ocf_request) (e : Int) (h : r.req_remaining = 1) :
    ∃ (fe : Int) (nn : Bool),
      (_ocf_read_mfwa_to_core_cmpl_do_promote r e).2
          = [Call.complete fe, Call.ocf_core_stats_core_error_update, Call.ctx_data_free nn,
              Call.ocf_engine_invalidate]
        ∨ (_ocf_read_mfwa_to_core_cmpl_do_promote r e).2
          = [Call.ctx_data_cpy, Call.complete fe, Call.ocf_engine_backfill] := by
  simp only [_ocf_read_mfwa_to_core_cmpl_do_promote]
  split_ifs <;>
    first
    | exact ⟨_, _, Or.inl rfl⟩
    | exact ⟨_, false, Or.inr rfl⟩
    | (exfalso; simp_all)

theorem do_entry_counts (req : ocf_request) :
    count_calls is_cache_submit (do_entry req) = 0 ∧
      count_calls is_core_submit (do_entry req) = 0 ∧
      count_calls is_alloc (do_entry req) = 0 ∧
      count_calls is_set_valid_map (do_entry req) = 0 ∧
      count_calls is_backfill (do_entry req) = 0 ∧
      count_calls is_pass_through (do_entry req) = 0 ∧
      count_calls is_clean (do_entry req) = 0 ∧
      count_calls is_complete (do_entry req) = 0 :=
  ⟨count_do_entry _ req rfl rfl rfl rfl, count_do_entry _ req rfl rfl rfl rfl,
    count_do_entry _ req rfl rfl rfl rfl, count_do_entry _ req rfl rfl rfl rfl,
    count_do_entry _ req rfl rfl rfl rfl, count_do_entry _ req rfl rfl rfl rfl,
    count_do_entry _ req rfl rfl rfl rfl, count_do_entry _ req rfl rfl rfl rfl⟩

theorem dac_no_promote_counts (c : Consts) (o : Outcomes) (req : ocf_request)
    (h : (req.hit = true ∧ req.load_admit_allowed = false)
      ∨ (req.hit = false ∧ req.data_admit_allowed = false)) :
    cache_reads (do_and_complete c o req).2 = 0 ∧
      count_calls is_cache_submit (do_and_complete c o req).2 = 0 ∧
      count_calls is_core_submit (do_and_complete c o req).2 = 1 ∧
      count_calls is_alloc (do_and_complete c o req).2 = 0 ∧
      count_calls is_set_valid_map (do_and_complete c o req).2 = 0 ∧
      count_calls is_backfill (do_and_complete c o req).2 = 0 ∧
      count_calls is_pass_through (do_and_complete c o req).2 = 0 ∧
      count_calls is_clean (do_and_complete c o req).2 = 0 ∧
      count_calls is_complete (do_and_complete c o req).2 = 1 := by
  rw [dac_core_no_promote c o req h]
  obtain ⟨fe, nn, hs | hs⟩ :=
    no_promote_calls_last { req with req_remaining := 1 } o.core_error rfl <;>
  · rw [hs]
    obtain ⟨p1, p2, p3, p4, p5, p6, p7, p8⟩ := do_entry_counts req
    simp only [count_calls_append, cache_reads_append, cache_reads_do_entry,
      p1, p2, p3, p4, p5, p6, p7, p8]
    exact ⟨rfl, rfl, rfl, rfl, rfl, rfl, rfl, rfl, rfl⟩
theorem count_replicate_fallback (p : Call → Bool) (m : Nat)
    (h : p Call.inc_fallback_pt_error_counter = false) :
    count_calls p (List.replicate m Call.inc_fallback_pt_error_counter) = 0 := by
  simp [count_calls, List.countP_replicate, h]

theorem cache_reads_replicate_fallback (m : Nat) :
    cache_reads (List.replicate m Call.inc_fallback_pt_error_counter) = 0 := by
  simp [cache_reads, cache_read_size]

theorem dac_cache_counts (c : Consts) (o : Outcomes) (req : ocf_request)
    (h1 : req.hit = true) (h2 : req.load_admit_allowed = true) (hn : 1 ≤ req.io_count) :
    cache_reads (do_and_complete c o req).2 = req.io_count ∧
      count_calls is_cache_submit (do_and_complete c o req).2 = 1 ∧
      count_calls is_core_submit (do_and_complete c o req).2 = 0 ∧
      count_calls is_clean (do_and_complete c o req).2 = 0 ∧
      count_calls is_pass_through (do_and_complete c o req).2
        = (if req.error = 0 ∧ ∀ j, j < req.io_count → o.cache_error j = 0 then 0 else 1) ∧
      count_calls is_complete (do_and_complete c o req).2
        = (if req.error = 0 ∧ ∀ j, j < req.io_count → o.cache_error j = 0 then 1 else 0) := by
  obtain ⟨n, hn2⟩ : ∃ n, req.io_count = n + 1 := ⟨req.io_count - 1, by omega⟩
  rw [dac_cache c o req h1 h2]
  obtain ⟨m, hm⟩ := deliver_n_cache o.cache_error n 0
    { req with req_remaining := (req.io_count : Int) } (by simp [hn2])
  rw [hn2] at hm ⊢
  rw [hm]
  obtain ⟨p1, p2, p3, p4, p5, p6, p7, p8⟩ := do_entry_counts req
  simp only [count_calls_append, cache_reads_append, cache_reads_do_entry,
    p1, p2, p3, p4, p5, p6, p7, p8, cache_reads_replicate_fallback,
    count_replicate_fallback is_cache_submit m rfl,
    count_replicate_fallback is_core_submit m rfl,
    count_replicate_fallback is_clean m rfl,
    count_replicate_fallback is_pass_through m rfl,
    count_replicate_fallback is_complete m rfl, Nat.zero_add]
  by_cases hc : req.error = 0 ∧ ∀ j, j < n + 1 → o.cache_error j = 0
  · simp only [if_pos hc]
    exact ⟨by simp [cache_reads, cache_read_size, do_tail], rfl, rfl, rfl, rfl, rfl⟩
  · simp only [if_neg hc]
    exact ⟨by simp [cache_reads, cache_read_size, do_tail], rfl, rfl, rfl, rfl, rfl⟩

theorem dac_pt_counts (c : Consts) (o : Outcomes) (req : ocf_request)
    (h1 : req.hit = false) (h2 : req.data_admit_allowed = true) (h3 : req.rd_locked = true) :
    cache_reads (do_and_complete c o req).2 = 0 ∧
      count_calls is_core_submit (do_and_complete c o req).2 = 0 ∧
      count_calls is_clean (do_and_complete c o req).2 = 0 ∧
      count_calls is_pass_through (do_and_complete c o req).2 = 1 ∧
      count_calls is_complete (do_and_complete c o req).2 = 0 := by
  rw [dac_pt c o req h1 h2 h3]
  obtain ⟨p1, p2, p3, p4, p5, p6, p7, p8⟩ := do_entry_counts req
  simp only [count_calls_append, cache_reads_append, cache_reads_do_entry,
    p1, p2, p3, p4, p5, p6, p7, p8]
  exact ⟨rfl, rfl, rfl, rfl, rfl⟩

theorem dac_clean_counts (c : Consts) (o : Outcomes) (req : ocf_request)
    (h1 : req.hit = false) (h2 : req.data_admit_allowed = true) (h3 : req.rd_locked = false)
    (h4 : req.dirty_any = true) :
    cache_reads (do_and_complete c o req).2 = 0 ∧
      count_calls is_core_submit (do_and_complete c o req).2 = 0 ∧
      count_calls is_clean (do_and_complete c o req).2 = 1 ∧
      count_calls is_pass_through (do_and_complete c o req).2 = 0 ∧
      count_calls is_complete (do_and_complete c o req).2 = 0 := by
  rw [dac_clean c o req h1 h2 h3 h4]
  obtain ⟨p1, p2, p3, p4, p5, p6, p7, p8⟩ := do_entry_counts req
  simp only [count_calls_append, cache_reads_append, cache_reads_do_entry,
    p1, p2, p3, p4, p5, p6, p7, p8]
  exact ⟨rfl, rfl, rfl, rfl, rfl⟩

theorem dac_promote_counts (c : Consts) (o : Outcomes) (req : ocf_request)
    (h1 : req.hit = false) (h2 : req.data_admit_allowed = true) (h3 : req.rd_locked = false)
    (h4 : req.dirty_any = false) :
    cache_reads (do_and_complete c o req).2 = 0 ∧
      count_calls is_core_submit (do_and_complete c o req).2
        = (if o.alloc_ok = true ∧ o.mlock_ret = 0 then 1 else 0) ∧
      count_calls is_clean (do_and_complete c o req).2 = 0 ∧
      count_calls is_pass_through (do_and_complete c o req).2 = 0 ∧
      count_calls is_complete (do_and_complete c o req).2 = 1 := by
  rw [dac_promote c o req h1 h2 h3 h4]
  obtain ⟨p1, p2, p3, p4, p5, p6, p7, p8⟩ := do_entry_counts req
  cases ha : o.alloc_ok
  · obtain ⟨fe, nn, hs | hs⟩ := do_promote_calls_last
      { req with req_remaining := 1, cp_data := false } (-c.OCF_ERR_NO_MEM) rfl <;>
    · simp only [Bool.false_eq_true, false_and, if_false, if_true, hs, count_calls_append,
        cache_reads_append, cache_reads_do_entry, p1, p2, p3, p4, p5, p6, p7, p8]
      exact ⟨rfl, rfl, rfl, rfl, rfl⟩
  · by_cases hm : o.mlock_ret = 0
    · obtain ⟨fe, nn, hs | hs⟩ := do_promote_calls_last
        { req with req_remaining := 1, cp_data := true } o.core_error rfl <;>
      · simp only [Bool.true_eq_false, hm, if_false, ne_eq, not_true_eq_false, true_and,
          if_true, hs, count_calls_append, cache_reads_append, cache_reads_do_entry,
          p1, p2, p3, p4, p5, p6, p7, p8]
        exact ⟨rfl, rfl, rfl, rfl, rfl⟩
    · obtain ⟨fe, nn, hs | hs⟩ := do_promote_calls_last
        { req with req_remaining := 1, cp_data := true } (-c.OCF_ERR_NO_MEM) rfl <;>
      · simp only [Bool.true_eq_false, hm, if_false, ne_eq, not_false_eq_true, true_and,
          if_true, hs, count_calls_append, cache_reads_append, cache_reads_do_entry,
          p1, p2, p3, p4, p5, p6, p7, p8]
        exact ⟨rfl, rfl, rfl, rfl, rfl⟩
theorem handle_read_count (p : Call → Bool) (c : Consts) (o : Outcomes) (req : ocf_request)
    (hb : o.pending_read_misses_list_blocked = false) (hme : o.mapping_error = false)
    (hl : 0 ≤ o.lock) :
    count_calls p (handle_read c o req).2
      = count_calls p (entry_calls ++ [Call.ocf_req_put])
        + count_calls p
            (do_and_complete c o (prepare_clines_info o (capture_admission c o req))).2 := by
  rw [count_calls_perm p (handle_read_perm c o req hb hme hl), count_calls_append]

theorem handle_read_cache_reads (c : Consts) (o : Outcomes) (req : ocf_request)
    (hb : o.pending_read_misses_list_blocked = false) (hme : o.mapping_error = false)
    (hl : 0 ≤ o.lock) :
    cache_reads (handle_read c o req).2
      = cache_reads
          (do_and_complete c o (prepare_clines_info o (capture_admission c o req))).2 := by
  rw [cache_reads_perm (handle_read_perm c o req hb hme hl), cache_reads_append]
  have : cache_reads (entry_calls ++ [Call.ocf_req_put]) = 0 := rfl
  rw [this, Nat.zero_add]

theorem handle_read_bypass (c : Consts) (o : Outcomes) (req : ocf_request)
    (hb : o.pending_read_misses_list_blocked = true) :
    (handle_read c o req).2 = [Call.ocf_io_start, Call.pt_read] := by
  simp [handle_read, ocf_read_mfwa, hb, deliver]

theorem handle_read_mapping_error (c : Consts) (o : Outcomes) (req : ocf_request)
    (hb : o.pending_read_misses_list_blocked = false) (hme : o.mapping_error = true) :
    (handle_read c o req).2
      = entry_calls ++ [Call.ocf_req_clear, Call.pt_read, Call.ocf_req_put] := by
  have hme2 : (prepare_clines_info o (capture_admission c o req)).mapping_error = true := hme
  simp [handle_read, ocf_read_mfwa, hb, hme, hme2, deliver, entry_calls]

theorem handle_read_lock_error (c : Consts) (o : Outcomes) (req : ocf_request)
    (hb : o.pending_read_misses_list_blocked = false) (hme : o.mapping_error = false)
    (hl : o.lock < 0) :
    (handle_read c o req).2
      = entry_calls ++ [Call.complete o.lock, Call.ocf_req_put, Call.ocf_req_put] := by
  have hme2 : (prepare_clines_info o (capture_admission c o req)).mapping_error = false := hme
  have hl2 : ¬ (o.lock ≥ 0) := by omega
  have hl3 : ¬ (0 ≤ o.lock) := by omega
  simp [handle_read, ocf_read_mfwa, hb, hme, hme2, hl2, hl3, deliver, entry_calls]

theorem load_admit_allow_zero (c : Consts) (r : Nat) (h1 : 1 ≤ r) (h2 : r ≤ c.RAND_MAX) :
    load_admit_allow c 0 r = false := by
  unfold load_admit_allow
  rw [decide_eq_false_iff_not, not_le]
  have hr : (0 : ℚ) < (r : ℚ) := by exact_mod_cast h1
  have hm : (0 : ℚ) < (c.RAND_MAX : ℚ) := by
    have : 0 < c.RAND_MAX := by omega
    exact_mod_cast this
  exact div_pos hr hm

theorem load_admit_allow_one (c : Consts) (r : Nat) (h1 : 0 < c.RAND_MAX)
    (h2 : r ≤ c.RAND_MAX) : load_admit_allow c 1 r = true := by
  unfold load_admit_allow
  rw [decide_eq_true_iff]
  have hm : (0 : ℚ) < (c.RAND_MAX : ℚ) := by exact_mod_cast h1
  rw [div_le_one hm]
  exact_mod_cast h2
theorem spilled_hit_counts (c : Consts) (o : Outcomes) (req : ocf_request)
    (h : spilled_hit c o) :
    (capture_admission c o req).load_admit_allowed = false ∧
      cache_reads (handle_read c o req).2 = 0 ∧
      count_calls is_cache_submit (handle_read c o req).2 = 0 ∧
      count_calls is_core_submit (handle_read c o req).2 = 1 := by
  obtain ⟨hla, hr1, hr2, hhit, hb, hme, hl⟩ := h
  have hcap : (capture_admission c o req).load_admit_allowed = false := by
    simp only [capture_admission, hla]
    exact load_admit_allow_zero c o.rand hr1 hr2
  have hroute : ((prepare_clines_info o (capture_admission c o req)).hit = true
      ∧ (prepare_clines_info o (capture_admission c o req)).load_admit_allowed = false)
      ∨ ((prepare_clines_info o (capture_admission c o req)).hit = false
      ∧ (prepare_clines_info o (capture_admission c o req)).data_admit_allowed = false) :=
    Or.inl ⟨hhit, hcap⟩
  obtain ⟨q1, q2, q3, _⟩ := dac_no_promote_counts c o _ hroute
  refine ⟨hcap, ?_, ?_, ?_⟩
  · rw [handle_read_cache_reads c o req hb hme hl, q1]
  · rw [handle_read_count _ c o req hb hme hl, q2]; rfl
  · rw [handle_read_count _ c o req hb hme hl, q3]; rfl

/-- C5 (amended): with `load_admit` published as 0.0, for every value in
`1 .. RAND_MAX` that `rand()` returns, a read that is a hit (and reaches `do(R)`) gets
`load_admit_allowed = false` and is submitted to the core and not to the cache: a
sequence of such hits gives no cache read and one core read per hit. -/
theorem load_admit_zero_spills_hits (c : Consts) (os : List Outcomes) (req : ocf_request)
    (h : ∀ o ∈ os, spilled_hit c o) :
    (∀ o ∈ os, load_admit_allow c o.load_admit_switch o.rand = false
        ∧ (capture_admission c o req).load_admit_allowed = false
        ∧ cache_reads (handle_read c o req).2 = 0
        ∧ count_calls is_core_submit (handle_read c o req).2 = 1) ∧
      cache_reads (handle_reads c os req) = 0 ∧
      count_calls is_core_submit (handle_reads c os req) = os.length := by
  induction os with
  | nil => exact ⟨fun o ho => absurd ho (List.not_mem_nil o), rfl, rfl⟩
  | cons o rest ih =>
    have ho := h o (List.mem_cons_self _ _)
    obtain ⟨i1, i2, i3⟩ := ih (fun x hx => h x (List.mem_cons_of_mem _ hx))
    obtain ⟨q0, q1, _, q3⟩ := spilled_hit_counts c o req ho
    refine ⟨?_, ?_, ?_⟩
    · intro x hx
      rcases List.mem_cons.mp hx with rfl | hx
      · refine ⟨?_, q0, q1, q3⟩
        rw [ho.1]
        exact load_admit_allow_zero c x.rand ho.2.1 ho.2.2.1
      · exact i1 x hx
    · simp only [handle_reads, cache_reads_append, q1, i2]
    · simp only [handle_reads, count_calls_append, q3, i3, List.length_cons]
      omega

theorem spilled_hit_sample : spilled_hit sample_consts spilled_hit_outcomes := by
  simp [spilled_hit, spilled_hit_outcomes, sample_outcomes, sample_consts]

/-- Witness for C5 (amended): 1000 hits with `load_admit = 0.0` and `rand() = 1` give no
cache read and 1000 core reads. -/
theorem load_admit_zero_spills_hits_witness :
    (∀ o ∈ List.replicate 1000 spilled_hit_outcomes, spilled_hit sample_consts o) ∧
      cache_reads (handle_reads sample_consts (List.replicate 1000 spilled_hit_outcomes)
        fresh_req) = 0 ∧
      count_calls is_core_submit (handle_reads sample_consts
        (List.replicate 1000 spilled_hit_outcomes) fresh_req) = 1000 :=
  have h : ∀ o ∈ List.replicate 1000 spilled_hit_outcomes, spilled_hit sample_consts o := by
    intro o ho
    rw [(List.mem_replicate.mp ho).2]
    exact spilled_hit_sample
  ⟨h, (load_admit_zero_spills_hits sample_consts _ fresh_req h).2.1,
    (load_admit_zero_spills_hits sample_consts
      (List.replicate 1000 spilled_hit_outcomes) fresh_req h).2.2.trans
      (List.length_replicate _ _)⟩

/-- C5 (counterexample): with `load_admit` published as 0.0 and `rand()` returning 0,
the comparison `0 / RAND_MAX <= 0.0` holds, the hit gets `load_admit_allowed = true`
and is submitted to the cache (one cache read) and not to the core. -/
theorem load_admit_zero_rand_zero_admits :
    zero_admit_outcomes.load_admit_switch = 0 ∧ zero_admit_outcomes.rand ≤ sample_consts.RAND_MAX ∧
      zero_admit_outcomes.hit = true ∧
      load_admit_allow sample_consts zero_admit_outcomes.load_admit_switch zero_admit_outcomes.rand
        = true ∧
      (capture_admission sample_consts zero_admit_outcomes fresh_req).load_admit_allowed
        = true ∧
      cache_reads (handle_read sample_consts zero_admit_outcomes fresh_req).2 = 1 ∧
      count_calls is_core_submit (handle_read sample_consts zero_admit_outcomes fresh_req).2
        = 0 := by
  rw [zero_admit_trace]
  refine ⟨rfl, by simp [zero_admit_outcomes, sample_outcomes, sample_consts], rfl, ?_, ?_,
    rfl, rfl⟩
  · simp [load_admit_allow, zero_admit_outcomes, sample_outcomes]
  · simp [capture_admission, load_admit_allow, zero_admit_outcomes, sample_outcomes]
/-- C6: with `load_admit` published as 1.0, for every value `0 .. RAND_MAX` that
`rand()` returns, a read that is a hit (and reaches `do(R)`, on a request without a
prior error) gets `load_admit_allowed = true`; when no cache sub-read fails it is
served by `io_count` reads submitted to the cache, no read is submitted to the core
and the request is not handed to pass-through. -/
theorem load_admit_one_serves_hit_from_cache (c : Consts) (o : Outcomes) (req : ocf_request)
    (hla : o.load_admit_switch = 1) (hmax : 0 < c.RAND_MAX) (hr : o.rand ≤ c.RAND_MAX)
    (hhit : o.hit = true) (hb : o.pending_read_misses_list_blocked = false)
    (hme : o.mapping_error = false) (hl : 0 ≤ o.lock) (he : req.error = 0)
    (hok : ∀ j, j < o.io_count → o.cache_error j = 0) :
    load_admit_allow c o.load_admit_switch o.rand = true ∧
      (capture_admission c o req).load_admit_allowed = true ∧
      cache_reads (handle_read c o req).2 = o.io_count ∧
      count_calls is_core_submit (handle_read c o req).2 = 0 ∧
      count_calls is_pass_through (handle_read c o req).2 = 0 := by
  have hallow : load_admit_allow c o.load_admit_switch o.rand = true := by
    rw [hla]; exact load_admit_allow_one c o.rand hmax hr
  have hcap : (prepare_clines_info o (capture_admission c o req)).load_admit_allowed = true :=
    hallow
  have hh : (prepare_clines_info o (capture_admission c o req)).hit = true := hhit
  have herr : (prepare_clines_info o (capture_admission c o req)).error = 0 := he
  have hio : (prepare_clines_info o (capture_admission c o req)).io_count = o.io_count := rfl
  refine ⟨hallow, hallow, ?_, ?_, ?_⟩
  · rw [handle_read_cache_reads c o req hb hme hl]
    by_cases hn : 1 ≤ o.io_count
    · rw [(dac_cache_counts c o _ hh hcap hn).1, hio]
    · have hz : o.io_count = 0 := by omega
      rw [dac_cache c o _ hh hcap, hio, hz]
      simp only [cache_reads_append, cache_reads_do_entry]
      rfl
  · rw [handle_read_count _ c o req hb hme hl]
    by_cases hn : 1 ≤ o.io_count
    · rw [(dac_cache_counts c o _ hh hcap hn).2.2.1]; rfl
    · have hz : o.io_count = 0 := by omega
      rw [dac_cache c o _ hh hcap, hio, hz]
      simp only [count_calls_append, (do_entry_counts _).2.1]
      rfl
  · rw [handle_read_count _ c o req hb hme hl]
    by_cases hn : 1 ≤ o.io_count
    · rw [(dac_cache_counts c o _ hh hcap hn).2.2.2.2.1, hio, if_pos ⟨herr, hok⟩]; rfl
    · have hz : o.io_count = 0 := by omega
      rw [dac_cache c o _ hh hcap, hio, hz]
      simp only [count_calls_append, (do_entry_counts _).2.2.2.2.2.1]
      rfl

/-- Witness for C6: the sample one-line hit with `load_admit = 1.0` and `rand() = 5`. -/
theorem load_admit_one_serves_hit_from_cache_witness :
    sample_outcomes.load_admit_switch = 1 ∧ 0 < sample_consts.RAND_MAX ∧
      sample_outcomes.rand ≤ sample_consts.RAND_MAX ∧ sample_outcomes.hit = true ∧
      cache_reads (handle_read sample_consts sample_outcomes fresh_req).2
        = sample_outcomes.io_count ∧
      count_calls is_core_submit (handle_read sample_consts sample_outcomes fresh_req).2
        = 0 :=
  have h := load_admit_one_serves_hit_from_cache sample_consts sample_outcomes fresh_req rfl
    (by simp [sample_consts]) (by simp [sample_consts, sample_outcomes]) rfl rfl rfl
    (by simp [sample_outcomes]) rfl (fun _ _ => rfl)
  ⟨rfl, by simp [sample_consts], by simp [sample_consts, sample_outcomes], rfl, h.2.2.1,
    h.2.2.2.1⟩

theorem lock_none_iff (req : ocf_request) :
    ocf_read_mfwa_get_lock_type req = ocf_engine_lock_type.ocf_engine_lock_none
      ↔ ((req.hit = true ∧ req.load_admit_allowed = false)
        ∨ (req.hit = false ∧ req.data_admit_allowed = false)) := by
  unfold ocf_read_mfwa_get_lock_type
  cases req.hit <;> cases req.load_admit_allowed <;> cases req.data_admit_allowed <;> simp

/-- C7: for every request that takes no line lock (a miss with `data_admit_allowed`
false, or a hit with `load_admit_allowed` false), whatever the core completion status,
`do(R)` and the completion submit exactly one read to the core, issue no cache read,
allocate no promotion buffer, do not set the valid-bits map and schedule no
backfill. -/
theorem no_lock_request_reads_core_only (c : Consts) (o : Outcomes) (req : ocf_request)
    (h : ocf_read_mfwa_get_lock_type req = ocf_engine_lock_type.ocf_engine_lock_none) :
    count_calls is_core_submit (do_and_complete c o req).2 = 1 ∧
      cache_reads (do_and_complete c o req).2 = 0 ∧
      count_calls is_cache_submit (do_and_complete c o req).2 = 0 ∧
      count_calls is_alloc (do_and_complete c o req).2 = 0 ∧
      count_calls is_set_valid_map (do_and_complete c o req).2 = 0 ∧
      count_calls is_backfill (do_and_complete c o req).2 = 0 := by
  obtain ⟨q1, q2, q3, q4, q5, q6, _⟩ :=
    dac_no_promote_counts c o req ((lock_none_iff req).mp h)
  exact ⟨q3, q1, q2, q4, q5, q6⟩

/-- Witness for C7: a miss with `data_admit_allowed` false whose core read fails. -/
theorem no_lock_request_reads_core_only_witness :
    ocf_read_mfwa_get_lock_type fresh_req = ocf_engine_lock_type.ocf_engine_lock_none ∧
      count_calls is_core_submit
        (do_and_complete sample_consts { sample_outcomes with core_error := -5 } fresh_req).2
        = 1 ∧
      count_calls is_backfill
        (do_and_complete sample_consts { sample_outcomes with core_error := -5 } fresh_req).2
        = 0 :=
  have h := no_lock_request_reads_core_only sample_consts
    { sample_outcomes with core_error := -5 } fresh_req rfl
  ⟨rfl, h.1, h.2.2.2.2.2⟩
/-- C8 (amended): for every request that is a hit with `load_admit_allowed = true`
(reaching `do(R)` with no prior error and `io_count >= 1`), the engine itself submits no
read to the core, whatever the outcome of the cache sub-reads; when every cache
sub-read succeeds the request is not handed to pass-through either, and when some
sub-read reports an error it is handed to pass-through exactly once (pushed to the
front of the pass-through queue). -/
theorem admitted_hit_core_reads (c : Consts) (o : Outcomes) (req : ocf_request)
    (hhit : o.hit = true) (hla : load_admit_allow c o.load_admit_switch o.rand = true)
    (hb : o.pending_read_misses_list_blocked = false) (hme : o.mapping_error = false)
    (hl : 0 ≤ o.lock) (he : req.error = 0) (hn : 1 ≤ o.io_count) :
    count_calls is_core_submit (handle_read c o req).2 = 0 ∧
      count_calls is_pass_through (handle_read c o req).2
        = (if ∀ j, j < o.io_count → o.cache_error j = 0 then 0 else 1) := by
  have hcap : (prepare_clines_info o (capture_admission c o req)).load_admit_allowed = true :=
    hla
  have hh : (prepare_clines_info o (capture_admission c o req)).hit = true := hhit
  have herr : (prepare_clines_info o (capture_admission c o req)).error = 0 := he
  have hio : (prepare_clines_info o (capture_admission c o req)).io_count = o.io_count := rfl
  obtain ⟨_, _, q3, _, q5, _⟩ := dac_cache_counts c o _ hh hcap (hio ▸ hn)
  refine ⟨?_, ?_⟩
  · rw [handle_read_count _ c o req hb hme hl, q3]; rfl
  · rw [handle_read_count _ c o req hb hme hl, q5, hio]
    by_cases hok : ∀ j, j < o.io_count → o.cache_error j = 0
    · rw [if_pos ⟨herr, hok⟩, if_pos hok]; rfl
    · rw [if_neg (fun h => hok h.2), if_neg hok]; rfl

theorem sample_admit_one (r : Nat) (h : r ≤ 2147483647) :
    load_admit_allow sample_consts 1 r = true :=
  load_admit_allow_one sample_consts r (by simp [sample_consts]) (by simpa [sample_consts] using h)

/-- Witness for C8 (amended): the sample one-line hit, every cache sub-read
succeeding. -/
theorem admitted_hit_core_reads_witness :
    sample_outcomes.hit = true ∧
      load_admit_allow sample_consts sample_outcomes.load_admit_switch sample_outcomes.rand = true ∧
      count_calls is_core_submit (handle_read sample_consts sample_outcomes fresh_req).2 = 0 :=
  ⟨rfl, sample_admit_one 5 (by norm_num),
    (admitted_hit_core_reads sample_consts sample_outcomes fresh_req rfl
      (sample_admit_one 5 (by norm_num)) rfl rfl (by simp [sample_outcomes]) rfl
      (by simp [sample_outcomes])).1⟩

theorem cache_error_trace :
    (handle_read sample_consts cache_error_outcomes fresh_req).2
      = [Call.ocf_io_start, Call.ocf_req_get, Call.monitor_query_data_admit,
          Call.monitor_query_load_admit, Call.rand, Call.ocf_engine_prepare_clines,
          Call.ocf_req_get, Call.submit_to_cache,
          Call.ocf_submit_cache_reqs 1 Cmpl.to_cache_cmpl,
          Call.ocf_engine_update_request_stats, Call.ocf_engine_update_block_stats,
          Call.ocf_req_put, Call.ocf_req_put, Call.inc_fallback_pt_error_counter,
          Call.ocf_core_stats_cache_error_update, Call.ocf_engine_push_req_front_pt] := by
  have hlor : ¬ (Int.lor 0 (-5) = 0) := by
    rw [int_lor_eq_zero]; simp
  have h5 : (5 : ℚ) / 2147483647 ≤ 1 := by norm_num
  simp [handle_read, ocf_read_mfwa, cache_error_outcomes, sample_outcomes, sample_consts,
    fresh_req, capture_admission, prepare_clines_info, load_admit_allow, data_admit_allow,
    _ocf_read_mfwa_do, _ocf_read_mfwa_submit_to_cache, do_entry, do_tail, entry_calls,
    deliver, deliver_n, run_cmpl, _ocf_read_mfwa_to_cache_cmpl, hlor, h5]

/-- C8 (counterexample): a one-line hit with `load_admit_allowed = true` whose cache
read fails with status -5 is pushed to the front of the pass-through queue, which
serves it from the core. -/
theorem admitted_hit_cache_error_goes_to_core :
    cache_error_outcomes.hit = true ∧
      (capture_admission sample_consts cache_error_outcomes fresh_req).load_admit_allowed
        = true ∧
      (handle_read sample_consts cache_error_outcomes fresh_req).2.filter is_pass_through
        = [Call.ocf_engine_push_req_front_pt] ∧
      count_calls is_pass_through (handle_read sample_consts cache_error_outcomes fresh_req).2
        ≠ 0 := by
  rw [cache_error_trace]
  refine ⟨rfl, ?_, rfl, by decide⟩
  exact sample_admit_one 5 (by norm_num)
theorem dac_completion (c : Consts) (o : Outcomes) (r : ocf_request) (hn : 1 ≤ r.io_count) :
    count_calls is_complete (do_and_complete c o r).2
      = (if count_calls is_pass_through (do_and_complete c o r).2
            + count_calls is_clean (do_and_complete c o r).2 = 0 then 1 else 0) := by
  cases hh : r.hit
  · cases hd : r.data_admit_allowed
    · obtain ⟨_, _, _, _, _, _, q7, q8, q9⟩ := dac_no_promote_counts c o r (Or.inr ⟨hh, hd⟩)
      rw [q7, q8, q9]; rfl
    · cases hr : r.rd_locked
      · cases hy : r.dirty_any
        · obtain ⟨_, _, q3, q4, q5⟩ := dac_promote_counts c o r hh hd hr hy
          rw [q3, q4, q5]; rfl
        · obtain ⟨_, _, q3, q4, q5⟩ := dac_clean_counts c o r hh hd hr hy
          rw [q3, q4, q5]; rfl
      · obtain ⟨_, _, q3, q4, q5⟩ := dac_pt_counts c o r hh hd hr
        rw [q3, q4, q5]; rfl
  · cases hl : r.load_admit_allowed
    · obtain ⟨_, _, _, _, _, _, q7, q8, q9⟩ := dac_no_promote_counts c o r (Or.inl ⟨hh, hl⟩)
      rw [q7, q8, q9]; rfl
    · obtain ⟨_, _, _, q4, q5, q6⟩ := dac_cache_counts c o r hh hl hn
      rw [q4, q5, q6]
      by_cases hc : r.error = 0 ∧ ∀ j, j < r.io_count → o.cache_error j = 0
      · simp only [if_pos hc]; rfl
      · simp only [if_neg hc]; rfl

/-- C9: for every read request and every outcome of the external calls (with
`io_count >= 1`), the engine invokes the caller's completion at most once over the
whole handling of the request; it invokes it exactly once when the request is not
handed to pass-through or to clean, and not at all when it is. -/
theorem completion_fires_at_most_once (c : Consts) (o : Outcomes) (req : ocf_request)
    (hn : 1 ≤ o.io_count) :
    count_calls is_complete (handle_read c o req).2 ≤ 1 ∧
      count_calls is_complete (handle_read c o req).2
        = (if count_calls is_pass_through (handle_read c o req).2
              + count_calls is_clean (handle_read c o req).2 = 0 then 1 else 0) := by
  have key : count_calls is_complete (handle_read c o req).2
      = (if count_calls is_pass_through (handle_read c o req).2
            + count_calls is_clean (handle_read c o req).2 = 0 then 1 else 0) := by
    cases hb : o.pending_read_misses_list_blocked
    · cases hme : o.mapping_error
      · by_cases hl : 0 ≤ o.lock
        · rw [handle_read_count _ c o req hb hme hl, handle_read_count _ c o req hb hme hl,
            handle_read_count _ c o req hb hme hl,
            dac_completion c o (prepare_clines_info o (capture_admission c o req)) hn]
          have e1 : count_calls is_complete (entry_calls ++ [Call.ocf_req_put]) = 0 := rfl
          have e2 : count_calls is_pass_through (entry_calls ++ [Call.ocf_req_put]) = 0 := rfl
          have e3 : count_calls is_clean (entry_calls ++ [Call.ocf_req_put]) = 0 := rfl
          rw [e1, e2, e3]
          simp only [Nat.zero_add]
        · rw [handle_read_lock_error c o req hb hme (by omega)]
          rfl
      · rw [handle_read_mapping_error c o req hb hme]
        rfl
    · rw [handle_read_bypass c o req hb]
      rfl
  refine ⟨?_, key⟩
  rw [key]
  split_ifs <;> omega

/-- Witness for C9: the sample one-line hit served from the cache completes exactly
once. -/
theorem completion_fires_at_most_once_witness :
    1 ≤ sample_outcomes.io_count ∧
      count_calls is_complete (handle_read sample_consts sample_outcomes fresh_req).2 ≤ 1 :=
  ⟨by simp [sample_outcomes],
    (completion_fires_at_most_once sample_consts sample_outcomes fresh_req
      (by simp [sample_outcomes])).1⟩

/-- C11: for every promoting miss whose core read completes with a non-zero error `e`,
the promoting completion invokes the caller's completion with exactly `e`, frees the
promotion buffer exactly once and clears the pointer, calls metadata invalidation
exactly once, and neither copies data into the promotion buffer nor schedules
backfill; over `do(R)` and the completion these are the only completion, free,
invalidate, copy or backfill calls. -/
theorem promote_core_error (c : Consts) (o : Outcomes) (req : ocf_request)
    (h1 : req.hit = false) (h2 : req.data_admit_allowed = true) (h3 : req.rd_locked = false)
    (h4 : req.dirty_any = false) (ha : o.alloc_ok = true) (hm : o.mlock_ret = 0)
    (he : o.core_error ≠ 0) :
    (_ocf_read_mfwa_to_core_cmpl_do_promote
        { req with req_remaining := 1, cp_data := true } o.core_error).2
      = [Call.complete o.core_error, Call.ocf_core_stats_core_error_update,
          Call.ctx_data_free true, Call.ocf_engine_invalidate] ∧
      (_ocf_read_mfwa_to_core_cmpl_do_promote
        { req with req_remaining := 1, cp_data := true } o.core_error).1.cp_data = false ∧
      (do_and_complete c o req).2.filter is_core_outcome
        = [Call.complete o.core_error, Call.ctx_data_free true, Call.ocf_engine_invalidate] := by
  have hc : (_ocf_read_mfwa_to_core_cmpl_do_promote
        { req with req_remaining := 1, cp_data := true } o.core_error).2
      = [Call.complete o.core_error, Call.ocf_core_stats_core_error_update,
          Call.ctx_data_free true, Call.ocf_engine_invalidate] := by
    simp [_ocf_read_mfwa_to_core_cmpl_do_promote, he]
  refine ⟨hc, by simp [_ocf_read_mfwa_to_core_cmpl_do_promote, he], ?_⟩
  rw [dac_promote c o req h1 h2 h3 h4, hc]
  have hp : (do_entry req).filter is_core_outcome = [] := by
    unfold do_entry
    cases req.re_part <;> rfl
  simp only [ha, hm, Bool.true_eq_false, if_false, ne_eq, not_true_eq_false,
    List.filter_append, hp, List.nil_append]
  rfl

/-- Witness for C11: the sample promoting miss, core read failing with status -5. -/
theorem promote_core_error_witness :
    promote_error_outcomes.core_error ≠ 0 ∧
      (do_and_complete sample_consts promote_error_outcomes
          { fresh_req with data_admit_allowed := true }).2.filter is_core_outcome
        = [Call.complete promote_error_outcomes.core_error, Call.ctx_data_free true,
            Call.ocf_engine_invalidate] :=
  ⟨by simp [promote_error_outcomes],
    (promote_core_error sample_consts promote_error_outcomes
      { fresh_req with data_admit_allowed := true } rfl rfl rfl rfl rfl rfl
      (by simp [promote_error_outcomes])).2.2⟩

/-- C12: when `_ocf_read_mfwa_submit_to_core` is called with `promote = true` and the
allocation of the promotion buffer fails or `ctx_data_mlock` fails, no read is
submitted to the core and the request is finished as a core error with code
`-OCF_ERR_NO_MEM` (a non-zero constant): the caller's completion fires once with
`-OCF_ERR_NO_MEM`, `ctx_data_free` is called once on the buffer pointer (NULL when the
allocation failed), the pointer is cleared and metadata invalidation is called
once. -/
theorem promote_no_mem (c : Consts) (alloc_ok : Bool) (mlock_ret : Int) (req : ocf_request)
    (hc : c.OCF_ERR_NO_MEM ≠ 0) (hfail : alloc_ok = false ∨ mlock_ret ≠ 0) :
    (_ocf_read_mfwa_submit_to_core c alloc_ok mlock_ret req true).2
      = [Call.submit_to_core true, Call.ctx_data_alloc]
        ++ (if alloc_ok then [Call.ctx_data_mlock] else [])
        ++ [Call.complete (-c.OCF_ERR_NO_MEM), Call.ocf_core_stats_core_error_update,
            Call.ctx_data_free alloc_ok, Call.ocf_engine_invalidate] ∧
      count_calls is_core_submit
        (_ocf_read_mfwa_submit_to_core c alloc_ok mlock_ret req true).2 = 0 ∧
      (_ocf_read_mfwa_submit_to_core c alloc_ok mlock_ret req true).1.cp_data = false ∧
      (_ocf_read_mfwa_submit_to_core c alloc_ok mlock_ret req true).1.error
        = -c.OCF_ERR_NO_MEM ∧
      (_ocf_read_mfwa_submit_to_core c alloc_ok mlock_ret req true).1.core_error = true := by
  have hn : ¬ (-c.OCF_ERR_NO_MEM = 0) := by omega
  cases alloc_ok
  · simp [_ocf_read_mfwa_submit_to_core, _ocf_read_mfwa_to_core_cmpl_do_promote, hc,
      count_calls, is_core_submit]
  · have hm : mlock_ret ≠ 0 := by
      rcases hfail with h | h
      · exact absurd h (by simp)
      · exact h
    simp [_ocf_read_mfwa_submit_to_core, _ocf_read_mfwa_to_core_cmpl_do_promote, hc, hm,
      count_calls, is_core_submit]

/-- Witness for C12: allocation failure with the sample constants. -/
theorem promote_no_mem_witness :
    sample_consts.OCF_ERR_NO_MEM ≠ 0 ∧
      count_calls is_core_submit
        (_ocf_read_mfwa_submit_to_core sample_consts false 0 fresh_req true).2 = 0 ∧
      (_ocf_read_mfwa_submit_to_core sample_consts false 0 fresh_req true).1.error
        = -sample_consts.OCF_ERR_NO_MEM :=
  have h := promote_no_mem sample_consts false 0 fresh_req (by simp [sample_consts])
    (Or.inl rfl)
  ⟨by simp [sample_consts], h.2.1, h.2.2.2.1⟩
theorem deliver_n_snoc (cmpl : Cmpl) (err : Nat → Int) :
    ∀ (n k : Nat) (req : ocf_request),
      deliver_n cmpl err (n + 1) k req
        = ((run_cmpl cmpl (deliver_n cmpl err n k req).1 (err (k + n))).1,
            (deliver_n cmpl err n k req).2
              ++ (run_cmpl cmpl (deliver_n cmpl err n k req).1 (err (k + n))).2) := by
  intro n
  induction n with
  | zero =>
    intro k req
    simp [deliver_n]
  | succ n ih =>
    intro k req
    rw [deliver_n_succ cmpl err (n + 1) k req, ih (k + 1), deliver_n_succ cmpl err n k req]
    simp only [List.append_assoc]
    rw [show k + 1 + n = k + (n + 1) by omega]

theorem deliver_n_cache_pending (err : Nat → Int) :
    ∀ (n k d : Nat) (req : ocf_request), req.req_remaining = (n : Int) + d + 1 →
      (∃ m, (deliver_n Cmpl.to_cache_cmpl err n k req).2
          = List.replicate m Call.inc_fallback_pt_error_counter) ∧
        (deliver_n Cmpl.to_cache_cmpl err n k req).1.req_remaining = (d : Int) + 1 ∧
        ((deliver_n Cmpl.to_cache_cmpl err n k req).1.error = 0
          ↔ (req.error = 0 ∧ ∀ j, j < n → err (k + j) = 0)) := by
  intro n
  induction n with
  | zero =>
    intro k d req hrem
    refine ⟨⟨0, rfl⟩, ?_, ?_⟩
    · simpa [deliver_n] using hrem
    · simp [deliver_n]
  | succ n ih =>
    intro k d req hrem
    obtain ⟨herr, hrem1, m, hm⟩ := to_cache_cmpl_spec req (err k)
    have hz : ¬ (req.req_remaining - 1 = 0) := by rw [hrem]; push_cast; omega
    have hrem2 : (_ocf_read_mfwa_to_cache_cmpl req (err k)).1.req_remaining
        = (n : Int) + d + 1 := by
      rw [hrem1, hrem]; push_cast; ring
    obtain ⟨⟨m2, hm2⟩, hr2, he2⟩ := ih (k + 1) d _ hrem2
    rw [deliver_n_succ]
    simp only [run_cmpl]
    refine ⟨⟨m + m2, ?_⟩, hr2, ?_⟩
    · rw [hm, hm2, if_neg hz, List.append_nil, ← List.replicate_add]
    · rw [he2, herr, forall_lt_succ_shift (fun i => err i = 0) k n]
      tauto

/-- C13: for a hit submitted to the cache as `n + 1 = io_count` sub-reads (request error
initially 0), the calls of the first `n` sub-completions contain no terminal call (no
unlock, caller completion, reference drop, cache-error record or push to pass-through),
and the last sub-completion performs exactly one terminal action: when every
sub-completion reported 0 it releases the lock once, invokes the caller's completion
once with 0 and drops the reference once; when some sub-completion reported a non-zero
error it records the cache read error once and pushes the request once to the front of
the pass-through queue, with no caller completion, unlock or reference drop. -/
theorem cache_fan_out_terminal (err : Nat → Int) (req : ocf_request) (n : Nat)
    (hn : req.io_count = n + 1) (he : req.error = 0) :
    (deliver_n Cmpl.to_cache_cmpl err (n + 1) 0 (_ocf_read_mfwa_submit_to_cache req).1).2
      = (deliver_n Cmpl.to_cache_cmpl err n 0 (_ocf_read_mfwa_submit_to_cache req).1).2
        ++ (_ocf_read_mfwa_to_cache_cmpl
            (deliver_n Cmpl.to_cache_cmpl err n 0 (_ocf_read_mfwa_submit_to_cache req).1).1
            (err n)).2 ∧
      (deliver_n Cmpl.to_cache_cmpl err n 0
          (_ocf_read_mfwa_submit_to_cache req).1).2.filter is_cache_terminal = [] ∧
      (_ocf_read_mfwa_to_cache_cmpl
          (deliver_n Cmpl.to_cache_cmpl err n 0 (_ocf_read_mfwa_submit_to_cache req).1).1
          (err n)).2.filter is_cache_terminal
        = (if ∀ j, j < n + 1 → err j = 0 then
            [Call.ocf_req_unlock, Call.complete 0, Call.ocf_req_put]
          else [Call.ocf_core_stats_cache_error_update, Call.ocf_engine_push_req_front_pt]) := by
  have hrem : (_ocf_read_mfwa_submit_to_cache req).1.req_remaining = (n : Int) + (0 : Nat) + 1 := by
    simp [_ocf_read_mfwa_submit_to_cache, hn]
  have herr0 : (_ocf_read_mfwa_submit_to_cache req).1.error = 0 := he
  obtain ⟨⟨m, hm⟩, hr, hz⟩ := deliver_n_cache_pending err n 0 0 _ hrem
  obtain ⟨_, _, m2, hm2⟩ := to_cache_cmpl_spec
    (deliver_n Cmpl.to_cache_cmpl err n 0 (_ocf_read_mfwa_submit_to_cache req).1).1 (err n)
  have hfil : ∀ k : Nat, (List.replicate k Call.inc_fallback_pt_error_counter).filter
      is_cache_terminal = [] := by
    intro k
    rw [List.filter_eq_nil_iff]
    intro x hx
    rw [(List.mem_replicate.mp hx).2]
    simp [is_cache_terminal]
  refine ⟨?_, ?_, ?_⟩
  · rw [deliver_n_snoc]
    simp [run_cmpl]
  · rw [hm, hfil]
  · rw [hm2, List.filter_append, hfil, List.nil_append, hr]
    simp only [Nat.cast_zero, zero_add, sub_self, if_true]
    have hcond : ((deliver_n Cmpl.to_cache_cmpl err n 0
          (_ocf_read_mfwa_submit_to_cache req).1).1.error = 0 ∧ err n = 0)
        ↔ ∀ j, j < n + 1 → err j = 0 := by
      rw [hz, herr0]
      constructor
      · rintro ⟨⟨_, h1⟩, h2⟩ j hj
        by_cases hjn : j < n
        · simpa using h1 j hjn
        · have : j = n := by omega
          rw [this]; exact h2
      · intro h
        exact ⟨⟨rfl, fun j hj => by simpa using h j (by omega)⟩, h n (by omega)⟩
    by_cases hc : ∀ j, j < n + 1 → err j = 0
    · rw [if_pos hc, if_pos (hcond.mpr hc)]; rfl
    · rw [if_neg hc, if_neg (fun h => hc (hcond.mp h))]; rfl

/-- Witness for C13: a two-line hit whose second cache sub-read fails. -/
theorem cache_fan_out_terminal_witness :
    ({ fresh_req with io_count := 2 } : ocf_request).io_count = 1 + 1 ∧
      ({ fresh_req with io_count := 2 } : ocf_request).error = 0 ∧
      (deliver_n Cmpl.to_cache_cmpl (fun k => if k = 1 then -5 else 0) 1 0
          (_ocf_read_mfwa_submit_to_cache { fresh_req with io_count := 2 }).1).2.filter
          is_cache_terminal = [] :=
  ⟨rfl, rfl,
    (cache_fan_out_terminal (fun k => if k = 1 then -5 else 0)
      { fresh_req with io_count := 2 } 1 rfl rfl).2.1⟩
theorem read_mfwa_dispatch_aux (c : Consts) (o : Outcomes) (req : ocf_request) :
      ocf_read_mfwa c o req
        = (if o.pending_read_misses_list_blocked = true then
            (req, [Call.ocf_io_start, Call.pt_read])
          else if o.mapping_error = true then
            (prepare_clines_info o (capture_admission c o req),
              entry_calls ++ [Call.ocf_req_clear, Call.pt_read, Call.ocf_req_put])
          else if o.lock < 0 then
            (prepare_clines_info o (capture_admission c o req),
              entry_calls ++ [Call.complete o.lock, Call.ocf_req_put, Call.ocf_req_put])
          else if o.lock = c.OCF_LOCK_ACQUIRED then
            ((_ocf_read_mfwa_do c o.alloc_ok o.mlock_ret
                (prepare_clines_info o (capture_admission c o req))).1,
              entry_calls
                ++ (_ocf_read_mfwa_do c o.alloc_ok o.mlock_ret
                    (prepare_clines_info o (capture_admission c o req))).2
                ++ [Call.ocf_req_put])
          else
            (prepare_clines_info o (capture_admission c o req),
              entry_calls ++ [Call.ocf_req_put])) := by
  cases hb : o.pending_read_misses_list_blocked
  · cases hme : o.mapping_error
    · have hme2 : (prepare_clines_info o (capture_admission c o req)).mapping_error = false :=
        hme
      by_cases hl : o.lock < 0
      · have hl2 : ¬ (o.lock ≥ 0) := by omega
        simp only [ocf_read_mfwa, hb, hme2, Bool.false_eq_true, if_false, Bool.not_false,
          if_true, hl, hl2]
      · by_cases ha : o.lock = c.OCF_LOCK_ACQUIRED
        · rw [ocf_read_mfwa_acquired c o req hb hme (by omega) ha]
          simp only [Bool.false_eq_true, if_false]
          rw [if_neg hl, if_pos ha]
        · rw [ocf_read_mfwa_waiting c o req hb hme (by omega) ha]
          simp only [Bool.false_eq_true, if_false]
          rw [if_neg hl, if_neg ha]
    · have hme2 : (prepare_clines_info o (capture_admission c o req)).mapping_error = true :=
        hme
      simp only [ocf_read_mfwa, hb, hme2, Bool.false_eq_true, if_false, Bool.not_true,
        if_true]
  · simp only [ocf_read_mfwa, hb, if_true]

/-- C14: `ocf_read_mfwa` dispatches on the bypass flag, `mapping_error` and the lock
status and always returns 0.  Bypassed: only `ocf_io_start` and the pass-through read.
Mapping error: `ocf_req_clear` and the pass-through read, whatever the lock status.
Negative lock status: the caller's completion once with that status, no `do(R)`.
Lock acquired: `do(R)`.  Lock not acquired: nothing further (the request waits for
resume).  Every non-bypassed path ends with the final `ocf_req_put`. -/
theorem read_mfwa_dispatch (c : Consts) (o : Outcomes) (req : ocf_request) :
    ocf_read_mfwa_return o = 0 ∧
      ocf_read_mfwa c o req
        = (if o.pending_read_misses_list_blocked = true then
            (req, [Call.ocf_io_start, Call.pt_read])
          else if o.mapping_error = true then
            (prepare_clines_info o (capture_admission c o req),
              entry_calls ++ [Call.ocf_req_clear, Call.pt_read, Call.ocf_req_put])
          else if o.lock < 0 then
            (prepare_clines_info o (capture_admission c o req),
              entry_calls ++ [Call.complete o.lock, Call.ocf_req_put, Call.ocf_req_put])
          else if o.lock = c.OCF_LOCK_ACQUIRED then
            ((_ocf_read_mfwa_do c o.alloc_ok o.mlock_ret
                (prepare_clines_info o (capture_admission c o req))).1,
              entry_calls
                ++ (_ocf_read_mfwa_do c o.alloc_ok o.mlock_ret
                    (prepare_clines_info o (capture_admission c o req))).2
                ++ [Call.ocf_req_put])
          else
            (prepare_clines_info o (capture_admission c o req),
              entry_calls ++ [Call.ocf_req_put])) :=
  ⟨by simp [ocf_read_mfwa_return], read_mfwa_dispatch_aux c o req⟩

theorem deliver_switch_free (o o2 : Outcomes) (h1 : o2.cache_error = o.cache_error)
    (h2 : o2.core_error = o.core_error) (cs : List Call) :
    ∀ r, deliver o2 cs r = deliver o cs r := by
  induction cs with
  | nil => intro r; rfl
  | cons x xs ih =>
    intro r
    cases x <;> simp [deliver, ih, h1, h2]

theorem dac_query_counts (c : Consts) (o : Outcomes) (r : ocf_request) :
    count_calls is_data_query (do_and_complete c o r).2 = 0 ∧
      count_calls is_load_query (do_and_complete c o r).2 = 0 := by
  have hp1 := count_do_entry is_data_query r rfl rfl rfl rfl
  have hp2 := count_do_entry is_load_query r rfl rfl rfl rfl
  have hnp : ∀ (q : ocf_request) (e : Int),
      count_calls is_data_query (_ocf_read_mfwa_to_core_cmpl_no_promote q e).2 = 0 ∧
      count_calls is_load_query (_ocf_read_mfwa_to_core_cmpl_no_promote q e).2 = 0 := by
    intro q e
    obtain ⟨fe, nn, h | h | h⟩ := no_promote_calls q e <;> rw [h] <;> exact ⟨rfl, rfl⟩
  have hdp : ∀ (q : ocf_request) (e : Int),
      count_calls is_data_query (_ocf_read_mfwa_to_core_cmpl_do_promote q e).2 = 0 ∧
      count_calls is_load_query (_ocf_read_mfwa_to_core_cmpl_do_promote q e).2 = 0 := by
    intro q e
    obtain ⟨fe, nn, h | h | h⟩ := do_promote_calls q e <;> rw [h] <;> exact ⟨rfl, rfl⟩
  cases hh : r.hit
  · cases hd : r.data_admit_allowed
    · rw [dac_core_no_promote c o r (Or.inr ⟨hh, hd⟩)]
      simp only [count_calls_append, hp1, hp2, (hnp _ _).1, (hnp _ _).2]
      exact ⟨rfl, rfl⟩
    · cases hr : r.rd_locked
      · cases hy : r.dirty_any
        · rw [dac_promote c o r hh hd hr hy]
          split_ifs <;>
            simp only [count_calls_append, hp1, hp2, (hdp _ _).1, (hdp _ _).2] <;>
            exact ⟨rfl, rfl⟩
        · rw [dac_clean c o r hh hd hr hy]
          simp only [count_calls_append, hp1, hp2]
          exact ⟨rfl, rfl⟩
      · rw [dac_pt c o r hh hd hr]
        simp only [count_calls_append, hp1, hp2]
        exact ⟨rfl, rfl⟩
  · cases hl : r.load_admit_allowed
    · rw [dac_core_no_promote c o r (Or.inl ⟨hh, hl⟩)]
      simp only [count_calls_append, hp1, hp2, (hnp _ _).1, (hnp _ _).2]
      exact ⟨rfl, rfl⟩
    · rw [dac_cache c o r hh hl]
      have hd : count_calls is_data_query (deliver_n Cmpl.to_cache_cmpl o.cache_error
            r.io_count 0 { r with req_remaining := (r.io_count : Int) }).2 = 0 ∧
          count_calls is_load_query (deliver_n Cmpl.to_cache_cmpl o.cache_error
            r.io_count 0 { r with req_remaining := (r.io_count : Int) }).2 = 0 := by
        by_cases hz : r.io_count = 0
        · rw [hz]
          exact ⟨rfl, rfl⟩
        · obtain ⟨n, hn⟩ : ∃ n, r.io_count = n + 1 := ⟨r.io_count - 1, by omega⟩
          obtain ⟨m, hm⟩ := deliver_n_cache o.cache_error n 0
            { r with req_remaining := (r.io_count : Int) } (by simp [hn])
          rw [hn] at hm ⊢
          rw [hm]
          simp only [count_calls_append, count_replicate_fallback is_data_query m rfl,
            count_replicate_fallback is_load_query m rfl]
          split_ifs <;> exact ⟨rfl, rfl⟩
      simp only [count_calls_append, hp1, hp2, hd.1, hd.2]
      exact ⟨rfl, rfl⟩
/-- C15: for a non-bypassed request `ocf_read_mfwa` begins with `ocf_io_start`,
`ocf_req_get`, one query of `data_admit`, one query of `load_admit` (and `rand()`), then
`ocf_engine_prepare_clines`, and over the whole handling (a later resume of `do(R)` and
all completions included) each switch is queried exactly once.  Afterwards the actions
depend on the request only: `do(R)` with its completions is the same under any other
current values of the two switches and of `rand()`, and the lock type is the same for
two requests that agree on hit/miss and on the two captured flags. -/
theorem admission_captured_once (c : Consts) (o : Outcomes) (req : ocf_request)
    (hb : o.pending_read_misses_list_blocked = false) :
    entry_calls = [Call.ocf_io_start, Call.ocf_req_get, Call.monitor_query_data_admit,
        Call.monitor_query_load_admit, Call.rand, Call.ocf_engine_prepare_clines] ∧
      entry_calls <+: (ocf_read_mfwa c o req).2 ∧
      count_calls is_data_query (handle_read c o req).2 = 1 ∧
      count_calls is_load_query (handle_read c o req).2 = 1 ∧
      (∀ (d : Bool) (l : ℚ) (r : Nat) (R : ocf_request),
        do_and_complete c
            { o with data_admit_switch := d, load_admit_switch := l, rand := r } R
          = do_and_complete c o R) ∧
      (∀ R1 R2 : ocf_request, R1.hit = R2.hit →
        R1.load_admit_allowed = R2.load_admit_allowed →
        R1.data_admit_allowed = R2.data_admit_allowed →
        ocf_read_mfwa_get_lock_type R1 = ocf_read_mfwa_get_lock_type R2) := by
  refine ⟨rfl, ?_, ?_, ?_, ?_, ?_⟩
  · rw [(read_mfwa_dispatch_aux c o req)]
    simp only [hb, Bool.false_eq_true, if_false]
    split_ifs
    · exact List.prefix_append _ _
    · exact List.prefix_append _ _
    · rw [List.append_assoc]; exact List.prefix_append _ _
    · exact List.prefix_append _ _
  · cases hme : o.mapping_error
    · by_cases hl : 0 ≤ o.lock
      · rw [handle_read_count _ c o req hb hme hl, (dac_query_counts c o _).1]; rfl
      · rw [handle_read_lock_error c o req hb hme (by omega)]; rfl
    · rw [handle_read_mapping_error c o req hb hme]; rfl
  · cases hme : o.mapping_error
    · by_cases hl : 0 ≤ o.lock
      · rw [handle_read_count _ c o req hb hme hl, (dac_query_counts c o _).2]; rfl
      · rw [handle_read_lock_error c o req hb hme (by omega)]; rfl
    · rw [handle_read_mapping_error c o req hb hme]; rfl
  · intro d l r R
    have h := deliver_switch_free o
      { o with data_admit_switch := d, load_admit_switch := l, rand := r } rfl rfl
    unfold do_and_complete
    simp only [h]
  · intro R1 R2 h1 h2 h3
    simp only [ocf_read_mfwa_get_lock_type, h1, h2, h3]

/-- Witness for C15: the sample one-line hit. -/
theorem admission_captured_once_witness :
    sample_outcomes.pending_read_misses_list_blocked = false ∧
      count_calls is_data_query (handle_read sample_consts sample_outcomes fresh_req).2 = 1 ∧
      count_calls is_load_query (handle_read sample_consts sample_outcomes fresh_req).2 = 1 :=
  have h := admission_captured_once sample_consts sample_outcomes fresh_req rfl
  ⟨rfl, h.2.2.1, h.2.2.2.1⟩

set_option maxHeartbeats 1000000 in
/-- C4: `_ocf_read_mfwa_do` takes exactly one routing action, the one the routing
table gives for `(hit, load_admit_allowed, data_admit_allowed, rd_locked, dirty_any)`:
submit to cache, submit to core without promotion, pass-through, clean, or submit to
core with promotion.  The valid-bits map is set exactly on the promoting route; the
cache submission happens exactly on the submit-to-cache route (with `io_count`
sub-requests); the non-promoting route submits one read to the core with the
no-promote completion, the promoting route one read with the promoting completion
when the promotion buffer could be allocated and locked; pass-through and clean
submit nothing. -/
theorem do_routing (c : Consts) (alloc_ok : Bool) (mlock_ret : Int) (req : ocf_request) :
    (_ocf_read_mfwa_do c alloc_ok mlock_ret req).2.filter is_route
        = [route_table req.hit req.load_admit_allowed req.data_admit_allowed req.rd_locked
            req.dirty_any] ∧
      count_calls is_set_valid_map (_ocf_read_mfwa_do c alloc_ok mlock_ret req).2
        = (if route_table req.hit req.load_admit_allowed req.data_admit_allowed req.rd_locked
            req.dirty_any = Call.submit_to_core true then 1 else 0) ∧
      (_ocf_read_mfwa_do c alloc_ok mlock_ret req).2.filter is_cache_submit
        = (if route_table req.hit req.load_admit_allowed req.data_admit_allowed req.rd_locked
            req.dirty_any = Call.submit_to_cache
          then [Call.ocf_submit_cache_reqs req.io_count Cmpl.to_cache_cmpl] else []) ∧
      (_ocf_read_mfwa_do c alloc_ok mlock_ret req).2.filter is_core_submit
        = (if route_table req.hit req.load_admit_allowed req.data_admit_allowed req.rd_locked
            req.dirty_any = Call.submit_to_core false
          then [Call.ocf_submit_volume_req Cmpl.to_core_cmpl_no_promote]
          else if route_table req.hit req.load_admit_allowed req.data_admit_allowed
              req.rd_locked req.dirty_any = Call.submit_to_core true
              ∧ alloc_ok = true ∧ mlock_ret = 0
          then [Call.ocf_submit_volume_req Cmpl.to_core_cmpl_do_promote] else []) := by
  obtain ⟨hit, re_part, dirty_any, me, ce, rd_locked, n, da, la, rem, err, cp⟩ := req
  cases hit <;> cases la <;> cases da <;> cases rd_locked <;> cases dirty_any <;>
    cases re_part <;> cases alloc_ok <;>
    first
    | exact ⟨rfl, rfl, rfl, rfl⟩
    | (by_cases hm : mlock_ret = 0 <;> by_cases hc : c.OCF_ERR_NO_MEM = 0 <;>
        by_cases he : err = 0 <;>
        simp [_ocf_read_mfwa_do, _ocf_read_mfwa_submit_to_core, do_entry, do_tail,
          _ocf_read_mfwa_to_core_cmpl_do_promote, route_table, is_route, is_set_valid_map,
          is_cache_submit, is_core_submit, count_calls, hm, hc, he])
set_option maxHeartbeats 1000000 in
/-- C10 (the code at the failing input): `_ocf_read_mfwa_do` takes its local
reference once on every branch, and drops it itself once on every branch except the
`rd_locked` switch to pass-through, where it returns right after `ocf_read_pt_do`
without `ocf_req_put`: for a miss with `data_admit_allowed` and `rd_locked` the calls
of `do(R)` contain one `ocf_req_get` and no `ocf_req_put`. -/
theorem do_reference_balance (c : Consts) (alloc_ok : Bool) (mlock_ret : Int)
    (req : ocf_request) :
    count_calls is_req_get (_ocf_read_mfwa_do c alloc_ok mlock_ret req).2 = 1 ∧
      count_calls is_req_put (_ocf_read_mfwa_do c alloc_ok mlock_ret req).2
        = (if req.hit = false ∧ req.data_admit_allowed = true ∧ req.rd_locked = true
            then 0 else 1) ∧
      count_calls is_req_get (_ocf_read_mfwa_do c alloc_ok mlock_ret
        { req with hit := false, data_admit_allowed := true, rd_locked := true }).2 = 1 ∧
      count_calls is_req_put (_ocf_read_mfwa_do c alloc_ok mlock_ret
        { req with hit := false, data_admit_allowed := true, rd_locked := true }).2 = 0 := by
  obtain ⟨hit, re_part, dirty_any, me, ce, rd_locked, n, da, la, rem, err, cp⟩ := req
  cases hit <;> cases la <;> cases da <;> cases rd_locked <;> cases dirty_any <;>
    cases re_part <;> cases alloc_ok <;>
    first
    | exact ⟨rfl, rfl, rfl, rfl⟩
    | (by_cases hm : mlock_ret = 0 <;> by_cases hc : c.OCF_ERR_NO_MEM = 0 <;>
        by_cases he : err = 0 <;>
        simp [_ocf_read_mfwa_do, _ocf_read_mfwa_submit_to_core, do_entry, do_tail,
          _ocf_read_mfwa_to_core_cmpl_do_promote, is_req_get, is_req_put, count_calls,
          hm, hc, he])


/-! ## Monitor: theorems -/

theorem extends_by_refl (P : MonEvent → Bool) (s : MonState) : extends_by P s s :=
  ⟨[], by simp, rfl⟩

theorem extends_by_trans {P : MonEvent → Bool} {s0 s1 s2 : MonState}
    (h1 : extends_by P s0 s1) (h2 : extends_by P s1 s2) : extends_by P s0 s2 := by
  obtain ⟨e1, he1, hp1⟩ := h1
  obtain ⟨e2, he2, hp2⟩ := h2
  exact ⟨e1 ++ e2, by rw [he2, he1, List.append_assoc], by
    rw [List.all_append, hp1, hp2]; rfl⟩

theorem extends_by_events {P : MonEvent → Bool} {s0 s : MonState} (es : List MonEvent)
    (h : s.events = s0.events ++ es) (hp : es.all P = true) : extends_by P s0 s :=
  ⟨es, h, hp⟩

theorem measure_events (env : MonEnv) (s : MonState) (la : ℚ) :
    (monitor_measure_throughput env s la).2.events = s.events ++
      [MonEvent.set_load la, MonEvent.usleep MEASURE_THROUGHPUT_INTERVAL_US,
       MonEvent.probe s.tick s.global_data_admit la (env.throughput s.tick)] := by
  simp [monitor_measure_throughput, _get_throughput, usleep, monitor_set_load_admit]

theorem measure_load (env : MonEnv) (s : MonState) (la : ℚ) :
    MonState.global_load_admit (monitor_measure_throughput env s la).2 = la := rfl

theorem measure_data (env : MonEnv) (s : MonState) (la : ℚ) :
    MonState.global_data_admit (monitor_measure_throughput env s la).2 =
      s.global_data_admit := rfl

theorem measure_tick (env : MonEnv) (s : MonState) (la : ℚ) :
    (monitor_measure_throughput env s la).2.tick = s.tick + 1 := rfl

theorem set_load_events (s : MonState) (v : ℚ) :
    MonState.events ( monitor_set_load_admit s v) = s.events ++ [MonEvent.set_load v] := rfl

theorem sample_events (env : MonEnv) (site : Site) (s : MonState)
    (h : env.should_stop s.tick = false) :
    _get_miss_ratio env site s = MonResult.done (env.miss_ratio s.tick)
      { s with tick := s.tick + 1,
               events := s.events ++ [MonEvent.sample site s.tick s.global_data_admit
                 s.global_load_admit (env.miss_ratio s.tick)] } := by
  simp [_get_miss_ratio, h]

theorem sample_exit (env : MonEnv) (site : Site) (s : MonState)
    (h : env.should_stop s.tick = true) :
    _get_miss_ratio env site s = MonResult.exited
      { s with tick := s.tick + 1, events := s.events ++ [MonEvent.thread_exit] } := by
  simp [_get_miss_ratio, h]

/-! ### Range of `load_admit` -/

theorem measure_range (env : MonEnv) (s : MonState) (la : ℚ) (h0 : 0 ≤ la) (h1 : la ≤ 1) :
    extends_by write_in_range s (monitor_measure_throughput env s la).2 :=
  extends_by_events _ (measure_events env s la) (by simp [write_in_range, h0, h1])

theorem set_load_range (s : MonState) (v : ℚ) (h0 : 0 ≤ v) (h1 : v ≤ 1) :
    extends_by write_in_range s ( monitor_set_load_admit s v) :=
  extends_by_events _ (set_load_events s v) (by simp [write_in_range, h0, h1])

theorem probe_upper_range (env : MonEnv) (s : MonState) (la : ℚ) (h0 : 0 ≤ la)
    (hs0 : 0 ≤ s.global_load_admit) (hs1 : s.global_load_admit ≤ 1) :
    extends_by write_in_range s (probe_upper env s la).2 ∧
      0 ≤ MonState.global_load_admit (probe_upper env s la).2 ∧
      MonState.global_load_admit (probe_upper env s la).2 ≤ 1 := by
  unfold probe_upper
  split_ifs with h
  · exact ⟨extends_by_refl _ _, hs0, hs1⟩
  · have h1 : la ≤ 1 := not_lt.mp h
    exact ⟨measure_range env s la h0 h1, by rw [measure_load]; exact h0,
      by rw [measure_load]; exact h1⟩

theorem probe_lower_range (env : MonEnv) (s : MonState) (la : ℚ) (h1 : la ≤ 1)
    (hs0 : 0 ≤ s.global_load_admit) (hs1 : s.global_load_admit ≤ 1) :
    extends_by write_in_range s (probe_lower env s la).2 ∧
      0 ≤ MonState.global_load_admit (probe_lower env s la).2 ∧
      MonState.global_load_admit (probe_lower env s la).2 ≤ 1 := by
  unfold probe_lower
  split_ifs with h
  · exact ⟨extends_by_refl _ _, hs0, hs1⟩
  · have h0 : 0 ≤ la := not_lt.mp h
    exact ⟨measure_range env s la h0 h1, by rw [measure_load]; exact h0,
      by rw [measure_load]; exact h1⟩

theorem slope_loop_range (env : MonEnv) (base : ℚ) :
    ∀ (fuel : Nat) (s : MonState) (la1 la2 la3 tp1 tp2 tp3 : ℚ),
      0 ≤ la2 → la2 ≤ 1 → 0 ≤ la3 → la1 ≤ 1 →
      0 ≤ s.global_load_admit → s.global_load_admit ≤ 1 →
      extends_by write_in_range s
          (slope_loop env base fuel s la1 la2 la3 tp1 tp2 tp3).state ∧
        0 ≤ MonState.global_load_admit
          (slope_loop env base fuel s la1 la2 la3 tp1 tp2 tp3).state ∧
        MonState.global_load_admit
          (slope_loop env base fuel s la1 la2 la3 tp1 tp2 tp3).state ≤ 1 := by
  intro fuel
  induction fuel with
  | zero =>
    intro s la1 la2 la3 tp1 tp2 tp3 h2 h2' h3 h1 hs hs'
    exact ⟨extends_by_refl _ _, hs, hs'⟩
  | succ f ih =>
    intro s la1 la2 la3 tp1 tp2 tp3 h2 h2' h3 h1 hs hs'
    unfold slope_loop
    by_cases hstop : env.should_stop s.tick = true
    · rw [sample_exit env _ s hstop]
      exact ⟨extends_by_events [MonEvent.thread_exit] rfl rfl, hs, hs'⟩
    · rw [sample_events env _ s (by simpa using hstop)]
      have e1 : extends_by write_in_range s
          { s with tick := s.tick + 1,
                   events := s.events ++ [MonEvent.sample Site.tune s.tick s.global_data_admit
                     s.global_load_admit (env.miss_ratio s.tick)] } :=
        extends_by_events [_] rfl rfl
      simp only []
      split_ifs with c1 c2 c3 c4 c5 c6
      · exact ⟨e1, hs, hs'⟩
      · exact ⟨extends_by_trans e1 (set_load_range _ _ h2 h2'), h2, h2'⟩
      · exact ⟨extends_by_trans e1 (set_load_range _ _ (by norm_num) (by norm_num)),
          by simp [MonResult.state, monitor_set_load_admit],
          by simp [MonResult.state, monitor_set_load_admit]⟩
      · have hstep : (0 : ℚ) ≤ LOAD_ADMIT_TUNING_STEP := by norm_num [LOAD_ADMIT_TUNING_STEP]
        have h3' : la3 ≤ 1 := le_of_lt (not_le.mp c4)
        obtain ⟨p1, p2, p3⟩ := probe_upper_range env
          { s with tick := s.tick + 1,
                   events := s.events ++ [MonEvent.sample Site.tune s.tick s.global_data_admit
                     s.global_load_admit (env.miss_ratio s.tick)] }
          (la3 + LOAD_ADMIT_TUNING_STEP) (by linarith) hs hs'
        obtain ⟨q1, q2, q3⟩ := ih _ la2 la3 (la3 + LOAD_ADMIT_TUNING_STEP) tp2 tp3
          (probe_upper env _ (la3 + LOAD_ADMIT_TUNING_STEP)).1 h3 h3' (by linarith) h2' p2 p3
        exact ⟨extends_by_trans e1 (extends_by_trans p1 q1), q2, q3⟩
      · exact ⟨extends_by_trans e1 (set_load_range _ _ (by norm_num) (by norm_num)),
          by simp [MonResult.state, monitor_set_load_admit],
          by simp [MonResult.state, monitor_set_load_admit]⟩
      · have hstep : (0 : ℚ) ≤ LOAD_ADMIT_TUNING_STEP := by norm_num [LOAD_ADMIT_TUNING_STEP]
        have h1' : 0 ≤ la1 := le_of_lt (not_le.mp c6)
        obtain ⟨p1, p2, p3⟩ := probe_lower_range env
          { s with tick := s.tick + 1,
                   events := s.events ++ [MonEvent.sample Site.tune s.tick s.global_data_admit
                     s.global_load_admit (env.miss_ratio s.tick)] }
          (la1 - LOAD_ADMIT_TUNING_STEP) (by linarith) hs hs'
        obtain ⟨q1, q2, q3⟩ := ih _ (la1 - LOAD_ADMIT_TUNING_STEP) la1 la2
          (probe_lower env _ (la1 - LOAD_ADMIT_TUNING_STEP)).1 tp1 tp2 h1' h1 h2
          (by linarith) p2 p3
        exact ⟨extends_by_trans e1 (extends_by_trans p1 q1), q2, q3⟩
      · obtain ⟨q1, q2, q3⟩ := ih
          { s with tick := s.tick + 1,
                   events := s.events ++ [MonEvent.sample Site.tune s.tick s.global_data_admit
                     s.global_load_admit (env.miss_ratio s.tick)] }
          la1 la2 la3 tp1 tp2 tp3 h2 h2' h3 h1 hs hs'
        exact ⟨extends_by_trans e1 q1, q2, q3⟩
theorem step_nonneg : (0 : ℚ) ≤ LOAD_ADMIT_TUNING_STEP := by norm_num [LOAD_ADMIT_TUNING_STEP]

theorem tune_probes_values (env : MonEnv) (s : MonState) :
    (tune_probes env s).1.1 = s.global_load_admit - LOAD_ADMIT_TUNING_STEP ∧
    (tune_probes env s).1.2.1 = s.global_load_admit ∧
    (tune_probes env s).1.2.2.1 = s.global_load_admit + LOAD_ADMIT_TUNING_STEP ∧
    MonState.global_load_admit (tune_probes env s).2 = s.global_load_admit :=
  ⟨rfl, rfl, rfl, rfl⟩

theorem tune_probes_range (env : MonEnv) (s : MonState)
    (hs0 : 0 ≤ s.global_load_admit) (hs1 : s.global_load_admit ≤ 1) :
    extends_by write_in_range s (tune_probes env s).2 := by
  have hstep := step_nonneg
  have m := measure_range env s s.global_load_admit hs0 hs1
  obtain ⟨p1, p2, p3⟩ := probe_upper_range env
    (monitor_measure_throughput env s s.global_load_admit).2
    (s.global_load_admit + LOAD_ADMIT_TUNING_STEP) (by linarith)
    (by rw [measure_load]; exact hs0) (by rw [measure_load]; exact hs1)
  obtain ⟨q1, q2, q3⟩ := probe_lower_range env
    (probe_upper env (monitor_measure_throughput env s s.global_load_admit).2
      (s.global_load_admit + LOAD_ADMIT_TUNING_STEP)).2
    (s.global_load_admit - LOAD_ADMIT_TUNING_STEP) (by linarith) p2 p3
  exact extends_by_trans m (extends_by_trans p1 (extends_by_trans q1
    (set_load_range _ _ hs0 hs1)))

theorem tune_loop_range (env : MonEnv) (base : ℚ) :
    ∀ (fuel : Nat) (s : MonState) (sc : Bool),
      0 ≤ s.global_load_admit → s.global_load_admit ≤ 1 →
      extends_by write_in_range s (tune_loop env base fuel s sc).state ∧
        0 ≤ MonState.global_load_admit (tune_loop env base fuel s sc).state ∧
        MonState.global_load_admit (tune_loop env base fuel s sc).state ≤ 1 := by
  intro fuel
  induction fuel with
  | zero =>
    intro s sc hs hs'
    exact ⟨extends_by_refl _ _, hs, hs'⟩
  | succ f ih =>
    intro s sc hs hs'
    have hstep := step_nonneg
    obtain ⟨v1, v2, v3, v4⟩ := tune_probes_values env s
    have tp := tune_probes_range env s hs hs'
    obtain ⟨q1, q2, q3⟩ := slope_loop_range env base f (tune_probes env s).2
      (tune_probes env s).1.1 (tune_probes env s).1.2.1 (tune_probes env s).1.2.2.1
      (tune_probes env s).1.2.2.2.1 (tune_probes env s).1.2.2.2.2.1
      (tune_probes env s).1.2.2.2.2.2
      (by rw [v2]; exact hs) (by rw [v2]; exact hs') (by rw [v3]; linarith)
      (by rw [v1]; linarith) (by rw [v4]; exact hs) (by rw [v4]; exact hs')
    unfold tune_loop
    simp only []
    generalize slope_loop env base f (tune_probes env s).2
      (tune_probes env s).1.1 (tune_probes env s).1.2.1 (tune_probes env s).1.2.2.1
      (tune_probes env s).1.2.2.2.1 (tune_probes env s).1.2.2.2.2.1
      (tune_probes env s).1.2.2.2.2.2 = r at q1 q2 q3
    cases r with
    | exited s1 => exact ⟨extends_by_trans tp q1, q2, q3⟩
    | no_fuel s1 => exact ⟨extends_by_trans tp q1, q2, q3⟩
    | done e s1 =>
      cases e with
      | ret => exact ⟨extends_by_trans tp q1, q2, q3⟩
      | brk =>
        simp only [MonResult.state] at q1 q2 q3
        have c : extends_by write_in_range s1
            { s1 with events := s1.events ++ [MonEvent.intensity_check
              ( monitor_query_load_admit s1)] } :=
          extends_by_events [_] rfl rfl
        have base1 := extends_by_trans tp (extends_by_trans q1 c)
        simp only []
        split_ifs with a b
        · obtain ⟨r1, r2, r3⟩ := ih
            { s1 with events := s1.events ++ [MonEvent.intensity_check
              ( monitor_query_load_admit s1)] } false q2 q3
          exact ⟨extends_by_trans base1 r1, r2, r3⟩
        · exact ⟨base1, q2, q3⟩
        · obtain ⟨r1, r2, r3⟩ := ih
            { s1 with events := s1.events ++ [MonEvent.intensity_check
              ( monitor_query_load_admit s1)] } sc q2 q3
          exact ⟨extends_by_trans base1 r1, r2, r3⟩

/-- C16: for every environment (throughput measurements, miss-ratio samples, stop flag) and
every amount of fuel, if `load_admit` is in `[0, 1]` when `monitor_tune_load_admit` is
entered, then every value written to `load_admit` by the function, in the events it
appends, is in `[0, 1]`, and so is the value of `load_admit` in the state it ends in
(whether it returned, the thread exited, or the fuel ran out). -/
theorem tune_load_admit_in_range (env : MonEnv) (base_miss_ratio : ℚ) (fuel : Nat)
    (s : MonState) (h0 : 0 ≤ s.global_load_admit) (h1 : s.global_load_admit ≤ 1) :
    ∃ es, ( monitor_tune_load_admit env base_miss_ratio fuel s).state.events = s.events ++ es ∧
      writes_in_range es = true ∧
      0 ≤ MonState.global_load_admit ( monitor_tune_load_admit env base_miss_ratio fuel s).state ∧
      MonState.global_load_admit ( monitor_tune_load_admit env base_miss_ratio fuel s).state ≤ 1 := by
  obtain ⟨⟨es, he, hp⟩, q2, q3⟩ := tune_loop_range env base_miss_ratio fuel s true h0 h1
  exact ⟨es, he, hp, q2, q3⟩
/-! ### Workload change -/

theorem measure_probes (env : MonEnv) (k0 : Nat) (s : MonState) (la : ℚ) :
    probes_from k0 (monitor_measure_throughput env s la).2.events =
      probes_from k0 s.events + (if k0 ≤ s.tick then 1 else 0) := by
  rw [measure_events]
  simp [probes_from, List.countP_append, List.countP_cons, is_probe_from]

theorem probe_upper_probes (env : MonEnv) (k0 : Nat) (s : MonState) (la : ℚ) :
    probes_from k0 (probe_upper env s la).2.events ≤
        probes_from k0 s.events + (if k0 ≤ s.tick then 1 else 0) ∧
      s.tick ≤ (probe_upper env s la).2.tick ∧
      probes_from k0 (probe_upper env s la).2.events + s.tick ≤
        probes_from k0 s.events + (probe_upper env s la).2.tick := by
  unfold probe_upper
  by_cases h : la > 1
  · rw [if_pos h]
    exact ⟨Nat.le_add_right _ _, le_refl _, le_refl _⟩
  · rw [if_neg h]
    refine ⟨le_of_eq (measure_probes env k0 s la), by rw [measure_tick]; omega, ?_⟩
    rw [measure_tick, measure_probes]
    split_ifs <;> omega

theorem probe_lower_probes (env : MonEnv) (k0 : Nat) (s : MonState) (la : ℚ) :
    probes_from k0 (probe_lower env s la).2.events ≤
        probes_from k0 s.events + (if k0 ≤ s.tick then 1 else 0) ∧
      s.tick ≤ (probe_lower env s la).2.tick ∧
      probes_from k0 (probe_lower env s la).2.events + s.tick ≤
        probes_from k0 s.events + (probe_lower env s la).2.tick := by
  unfold probe_lower
  by_cases h : la < 0
  · rw [if_pos h]
    exact ⟨Nat.le_add_right _ _, le_refl _, le_refl _⟩
  · rw [if_neg h]
    refine ⟨le_of_eq (measure_probes env k0 s la), by rw [measure_tick]; omega, ?_⟩
    rw [measure_tick, measure_probes]
    split_ifs <;> omega

theorem sampled_probes (k0 : Nat) (s : MonState) (e : MonEvent)
    (h : is_probe_from k0 e = false) :
    probes_from k0 (s.events ++ [e]) = probes_from k0 s.events := by
  simp [probes_from, List.countP_append, List.countP_cons, h]

theorem slope_loop_rise (env : MonEnv) (base : ℚ) (k0 : Nat)
    (hrise : ∀ k, k0 ≤ k → env.miss_ratio k > base + WORKLOAD_CHANGE_THRESHOLD) :
    ∀ (fuel : Nat) (s : MonState) (la1 la2 la3 tp1 tp2 tp3 : ℚ),
      1 ≤ fuel → k0 + 1 ≤ fuel + s.tick →
      (slope_loop env base fuel s la1 la2 la3 tp1 tp2 tp3).finished = true ∧
      ((∀ k, env.should_stop k = false) →
        (slope_loop env base fuel s la1 la2 la3 tp1 tp2 tp3).returned = true) ∧
      probes_from k0 (slope_loop env base fuel s la1 la2 la3 tp1 tp2 tp3).state.events ≤
        probes_from k0 s.events + (if k0 ≤ s.tick then 0 else 1) ∧
      ((slope_loop env base fuel s la1 la2 la3 tp1 tp2 tp3).broke = true →
        probes_from k0 (slope_loop env base fuel s la1 la2 la3 tp1 tp2 tp3).state.events ≤
          probes_from k0 s.events ∧
        (slope_loop env base fuel s la1 la2 la3 tp1 tp2 tp3).state.tick ≤ k0 ∧
        s.tick + 1 ≤ (slope_loop env base fuel s la1 la2 la3 tp1 tp2 tp3).state.tick) := by
  intro fuel
  induction fuel with
  | zero => intro s la1 la2 la3 tp1 tp2 tp3 h; omega
  | succ f ih =>
    intro s la1 la2 la3 tp1 tp2 tp3 _ hf
    unfold slope_loop
    by_cases hstop : env.should_stop s.tick = true
    · rw [sample_exit env _ s hstop]
      refine ⟨rfl, fun h => ?_, ?_, fun h => ?_⟩
      · rw [h] at hstop; exact absurd hstop (by simp)
      · simp only [MonResult.state]
        rw [sampled_probes k0 s MonEvent.thread_exit rfl]; exact Nat.le_add_right _ _
      · exact absurd h (by simp [MonResult.broke])
    · rw [sample_events env _ s (by simpa using hstop)]
      simp only []
      have e0 : probes_from k0 (s.events ++ [MonEvent.sample Site.tune s.tick
          s.global_data_admit s.global_load_admit (env.miss_ratio s.tick)]) =
          probes_from k0 s.events := sampled_probes k0 s _ rfl
      by_cases hk : k0 ≤ s.tick
      · rw [if_pos (hrise _ hk), if_pos hk]
        refine ⟨rfl, fun _ => rfl, ?_, fun h => ?_⟩
        · simp only [MonResult.state]
          rw [e0]; exact Nat.le_add_right _ _
        · exact absurd h (by simp [MonResult.broke])
      · rw [if_neg hk]
        have hf1 : 1 ≤ f := by omega
        have es : ∀ v, probes_from k0 (s.events ++ [MonEvent.sample Site.tune s.tick
            s.global_data_admit s.global_load_admit (env.miss_ratio s.tick)] ++
            [MonEvent.set_load v]) = probes_from k0 s.events := by
          intro v
          simp [probes_from, List.countP_append, List.countP_cons, is_probe_from]
        split_ifs with c1 c2 c3 c4 c5 c6
        · refine ⟨rfl, fun _ => rfl, ?_, fun h => ?_⟩
          · simp only [MonResult.state]; rw [e0]; exact Nat.le_add_right _ _
          · exact absurd h (by simp [MonResult.broke])
        · refine ⟨rfl, fun _ => rfl, ?_, fun _ => ⟨?_, ?_, ?_⟩⟩
          · simp only [MonResult.state, monitor_set_load_admit]; rw [es]
            exact Nat.le_add_right _ _
          · simp only [MonResult.state, monitor_set_load_admit]; rw [es]
          · simp only [MonResult.state, monitor_set_load_admit]; omega
          · simp only [MonResult.state, monitor_set_load_admit]; omega
        · refine ⟨rfl, fun _ => rfl, ?_, fun _ => ⟨?_, ?_, ?_⟩⟩
          · simp only [MonResult.state, monitor_set_load_admit]; rw [es]
            exact Nat.le_add_right _ _
          · simp only [MonResult.state, monitor_set_load_admit]; rw [es]
          · simp only [MonResult.state, monitor_set_load_admit]; omega
          · simp only [MonResult.state, monitor_set_load_admit]; omega
        · obtain ⟨p1, p2, _⟩ := probe_upper_probes env k0
            { s with tick := s.tick + 1,
                     events := s.events ++ [MonEvent.sample Site.tune s.tick
                       s.global_data_admit s.global_load_admit (env.miss_ratio s.tick)] }
            (la3 + LOAD_ADMIT_TUNING_STEP)
          simp only [] at p1 p2
          rw [e0] at p1
          obtain ⟨i1, i2, i3, i4⟩ := ih (probe_upper env
            { s with tick := s.tick + 1,
                     events := s.events ++ [MonEvent.sample Site.tune s.tick
                       s.global_data_admit s.global_load_admit (env.miss_ratio s.tick)] }
            (la3 + LOAD_ADMIT_TUNING_STEP)).2 la2 la3 (la3 + LOAD_ADMIT_TUNING_STEP) tp2 tp3
            (probe_upper env
            { s with tick := s.tick + 1,
                     events := s.events ++ [MonEvent.sample Site.tune s.tick
                       s.global_data_admit s.global_load_admit (env.miss_ratio s.tick)] }
            (la3 + LOAD_ADMIT_TUNING_STEP)).1 hf1 (by omega)
          refine ⟨i1, i2, ?_, fun h => ?_⟩
          · split_ifs at p1 i3 <;> omega
          · obtain ⟨j1, j2, j3⟩ := i4 h
            refine ⟨?_, j2, by omega⟩
            split_ifs at p1 <;> omega
        · refine ⟨rfl, fun _ => rfl, ?_, fun _ => ⟨?_, ?_, ?_⟩⟩
          · simp only [MonResult.state, monitor_set_load_admit]; rw [es]
            exact Nat.le_add_right _ _
          · simp only [MonResult.state, monitor_set_load_admit]; rw [es]
          · simp only [MonResult.state, monitor_set_load_admit]; omega
          · simp only [MonResult.state, monitor_set_load_admit]; omega
        · obtain ⟨p1, p2, _⟩ := probe_lower_probes env k0
            { s with tick := s.tick + 1,
                     events := s.events ++ [MonEvent.sample Site.tune s.tick
                       s.global_data_admit s.global_load_admit (env.miss_ratio s.tick)] }
            (la1 - LOAD_ADMIT_TUNING_STEP)
          simp only [] at p1 p2
          rw [e0] at p1
          obtain ⟨i1, i2, i3, i4⟩ := ih (probe_lower env
            { s with tick := s.tick + 1,
                     events := s.events ++ [MonEvent.sample Site.tune s.tick
                       s.global_data_admit s.global_load_admit (env.miss_ratio s.tick)] }
            (la1 - LOAD_ADMIT_TUNING_STEP)).2 (la1 - LOAD_ADMIT_TUNING_STEP) la1 la2
            (probe_lower env
            { s with tick := s.tick + 1,
                     events := s.events ++ [MonEvent.sample Site.tune s.tick
                       s.global_data_admit s.global_load_admit (env.miss_ratio s.tick)] }
            (la1 - LOAD_ADMIT_TUNING_STEP)).1 tp1 tp2 hf1 (by omega)
          refine ⟨i1, i2, ?_, fun h => ?_⟩
          · split_ifs at p1 i3 <;> omega
          · obtain ⟨j1, j2, j3⟩ := i4 h
            refine ⟨?_, j2, by omega⟩
            split_ifs at p1 <;> omega
        · obtain ⟨i1, i2, i3, i4⟩ := ih
            { s with tick := s.tick + 1,
                     events := s.events ++ [MonEvent.sample Site.tune s.tick
                       s.global_data_admit s.global_load_admit (env.miss_ratio s.tick)] }
            la1 la2 la3 tp1 tp2 tp3 hf1 (by simp only []; omega)
          simp only [] at i3 i4
          rw [e0] at i3 i4
          refine ⟨i1, i2, ?_, fun h => ?_⟩
          · split_ifs at i3 <;> omega
          · obtain ⟨j1, j2, j3⟩ := i4 h
            exact ⟨j1, j2, by omega⟩
theorem tune_probes_probes (env : MonEnv) (k0 : Nat) (s : MonState) :
    probes_from k0 (tune_probes env s).2.events ≤ probes_from k0 s.events + 3 ∧
      ((tune_probes env s).2.tick ≤ k0 →
        probes_from k0 (tune_probes env s).2.events ≤ probes_from k0 s.events) ∧
      s.tick + 1 ≤ (tune_probes env s).2.tick := by
  have m := measure_probes env k0 s s.global_load_admit
  have mt := measure_tick env s s.global_load_admit
  obtain ⟨p1, p2, p3⟩ := probe_upper_probes env k0
    (monitor_measure_throughput env s s.global_load_admit).2
    (s.global_load_admit + LOAD_ADMIT_TUNING_STEP)
  obtain ⟨q1, q2, q3⟩ := probe_lower_probes env k0
    (probe_upper env (monitor_measure_throughput env s s.global_load_admit).2
      (s.global_load_admit + LOAD_ADMIT_TUNING_STEP)).2
    (s.global_load_admit - LOAD_ADMIT_TUNING_STEP)
  have e : probes_from k0 (tune_probes env s).2.events =
      probes_from k0 (probe_lower env
        (probe_upper env (monitor_measure_throughput env s s.global_load_admit).2
          (s.global_load_admit + LOAD_ADMIT_TUNING_STEP)).2
        (s.global_load_admit - LOAD_ADMIT_TUNING_STEP)).2.events := by
    simp [tune_probes, monitor_query_load_admit, monitor_set_load_admit, probes_from,
      List.countP_append, List.countP_cons, is_probe_from]
  have t : (tune_probes env s).2.tick = (probe_lower env
        (probe_upper env (monitor_measure_throughput env s s.global_load_admit).2
          (s.global_load_admit + LOAD_ADMIT_TUNING_STEP)).2
        (s.global_load_admit - LOAD_ADMIT_TUNING_STEP)).2.tick := rfl
  rw [e, t]
  refine ⟨?_, fun h => ?_, by omega⟩
  · split_ifs at m p1 q1 <;> omega
  · split_ifs at m p1 q1 <;> omega

theorem tune_loop_rise (env : MonEnv) (base : ℚ) (k0 : Nat)
    (hrise : ∀ k, k0 ≤ k → env.miss_ratio k > base + WORKLOAD_CHANGE_THRESHOLD) :
    ∀ (fuel : Nat) (s : MonState) (sc : Bool),
      2 ≤ fuel → k0 + 2 ≤ fuel + s.tick →
      (tune_loop env base fuel s sc).finished = true ∧
      ((∀ k, env.should_stop k = false) → (tune_loop env base fuel s sc).returned = true) ∧
      probes_from k0 (tune_loop env base fuel s sc).state.events ≤
        probes_from k0 s.events + 3 := by
  intro fuel
  induction fuel with
  | zero => intro s sc h; omega
  | succ f ih =>
    intro s sc hf2 hf
    obtain ⟨t1, t2, t3⟩ := tune_probes_probes env k0 s
    obtain ⟨i1, i2, i3, i4⟩ := slope_loop_rise env base k0 hrise f (tune_probes env s).2
      (tune_probes env s).1.1 (tune_probes env s).1.2.1 (tune_probes env s).1.2.2.1
      (tune_probes env s).1.2.2.2.1 (tune_probes env s).1.2.2.2.2.1
      (tune_probes env s).1.2.2.2.2.2 (by omega) (by omega)
    unfold tune_loop
    simp only []
    generalize slope_loop env base f (tune_probes env s).2
      (tune_probes env s).1.1 (tune_probes env s).1.2.1 (tune_probes env s).1.2.2.1
      (tune_probes env s).1.2.2.2.1 (tune_probes env s).1.2.2.2.2.1
      (tune_probes env s).1.2.2.2.2.2 = r at i1 i2 i3 i4
    have key : probes_from k0 r.state.events ≤ probes_from k0 s.events + 3 := by
      split_ifs at i3 with c
      · have := t2
        by_cases c2 : (tune_probes env s).2.tick ≤ k0
        · have := t2 c2; omega
        · omega
      · have := t2 (by omega); omega
    cases r with
    | exited s1 => exact ⟨rfl, i2, key⟩
    | no_fuel s1 => exact absurd i1 (by simp [MonResult.finished])
    | done e s1 =>
      cases e with
      | ret => exact ⟨rfl, fun _ => rfl, key⟩
      | brk =>
        obtain ⟨j1, j2, j3⟩ := i4 rfl
        simp only [MonResult.state] at j1 j2 j3 key
        have t2' := t2 (by omega)
        have c0 : probes_from k0 (s1.events ++ [MonEvent.intensity_check
            ( monitor_query_load_admit s1)]) = probes_from k0 s1.events :=
          sampled_probes k0 s1 _ rfl
        simp only []
        split_ifs with a b
        · obtain ⟨r1, r2, r3⟩ := ih
            { s1 with events := s1.events ++ [MonEvent.intensity_check
              ( monitor_query_load_admit s1)] } false (by omega) (by simp only []; omega)
          simp only [] at r3
          rw [c0] at r3
          exact ⟨r1, r2, by omega⟩
        · refine ⟨rfl, fun _ => rfl, ?_⟩
          simp only [MonResult.state]
          rw [c0]; omega
        · obtain ⟨r1, r2, r3⟩ := ih
            { s1 with events := s1.events ++ [MonEvent.intensity_check
              ( monitor_query_load_admit s1)] } sc (by omega) (by simp only []; omega)
          simp only [] at r3
          rw [c0] at r3
          exact ⟨r1, r2, by omega⟩
theorem rise_run_events :
    ( monitor_tune_load_admit rise_env 0 3 rise_start) = MonResult.done TuneExit.workload_change
      { global_data_admit := false, global_load_admit := 1 / 2, tick := 8, slept_us := 150000,
        events := [
        MonEvent.set_load (1 / 2), MonEvent.usleep 25000, MonEvent.probe 0 false (1 / 2) 10,
        MonEvent.set_load (51 / 100), MonEvent.usleep 25000,
        MonEvent.probe 1 false (51 / 100) 5,
        MonEvent.set_load (49 / 100), MonEvent.usleep 25000,
        MonEvent.probe 2 false (49 / 100) 5,
        MonEvent.set_load (1 / 2), MonEvent.sample Site.tune 3 false (1 / 2) 0,
        MonEvent.set_load (1 / 2), MonEvent.intensity_check (1 / 2),
        MonEvent.set_load (1 / 2), MonEvent.usleep 25000, MonEvent.probe 4 false (1 / 2) 10,
        MonEvent.set_load (51 / 100), MonEvent.usleep 25000,
        MonEvent.probe 5 false (51 / 100) 5,
        MonEvent.set_load (49 / 100), MonEvent.usleep 25000,
        MonEvent.probe 6 false (49 / 100) 5,
        MonEvent.set_load (1 / 2), MonEvent.sample Site.tune 7 false (1 / 2) 1] } := by
  simp [ monitor_tune_load_admit, tune_loop, tune_probes, slope_loop, rise_env, rise_start,
    _get_miss_ratio, probe_upper, probe_lower, monitor_measure_throughput, _get_throughput,
    usleep, monitor_set_load_admit, monitor_query_load_admit, LOAD_ADMIT_TUNING_STEP,
    WORKLOAD_CHANGE_THRESHOLD, MEASURE_THROUGHPUT_INTERVAL_US]
  norm_num
/-! ### Events of the phases -/

theorem extends_by_mono {P Q : MonEvent → Bool} {s0 s : MonState}
    (hpq : ∀ e, P e = true → Q e = true) (h : extends_by P s0 s) : extends_by Q s0 s := by
  obtain ⟨es, he, hp⟩ := h
  refine ⟨es, he, ?_⟩
  rw [List.all_eq_true] at hp ⊢
  exact fun e hm => hpq e (hp e hm)

theorem measure_frame (env : MonEnv) (s : MonState) (la : ℚ) :
    extends_by (slope_event s.global_data_admit) s (monitor_measure_throughput env s la).2 :=
  extends_by_events _ (measure_events env s la) (by simp [slope_event])

theorem probe_upper_frame (env : MonEnv) (s : MonState) (la : ℚ) :
    extends_by (slope_event s.global_data_admit) s (probe_upper env s la).2 ∧
      MonState.global_data_admit (probe_upper env s la).2 = s.global_data_admit := by
  unfold probe_upper
  split_ifs with h
  · exact ⟨extends_by_refl _ _, rfl⟩
  · exact ⟨measure_frame env s la, rfl⟩

theorem probe_lower_frame (env : MonEnv) (s : MonState) (la : ℚ) :
    extends_by (slope_event s.global_data_admit) s (probe_lower env s la).2 ∧
      MonState.global_data_admit (probe_lower env s la).2 = s.global_data_admit := by
  unfold probe_lower
  split_ifs with h
  · exact ⟨extends_by_refl _ _, rfl⟩
  · exact ⟨measure_frame env s la, rfl⟩

theorem set_load_frame (s : MonState) (v : ℚ) :
    extends_by (slope_event s.global_data_admit) s ( monitor_set_load_admit s v) :=
  extends_by_events _ (set_load_events s v) rfl

theorem slope_loop_frame (env : MonEnv) (base : ℚ) :
    ∀ (fuel : Nat) (s : MonState) (la1 la2 la3 tp1 tp2 tp3 : ℚ),
      extends_by (slope_event s.global_data_admit) s
          (slope_loop env base fuel s la1 la2 la3 tp1 tp2 tp3).state ∧
        MonState.global_data_admit
          (slope_loop env base fuel s la1 la2 la3 tp1 tp2 tp3).state =
            s.global_data_admit := by
  intro fuel
  induction fuel with
  | zero =>
    intro s la1 la2 la3 tp1 tp2 tp3
    exact ⟨extends_by_refl _ _, rfl⟩
  | succ f ih =>
    intro s la1 la2 la3 tp1 tp2 tp3
    unfold slope_loop
    by_cases hstop : env.should_stop s.tick = true
    · rw [sample_exit env _ s hstop]
      exact ⟨extends_by_events [MonEvent.thread_exit] rfl rfl, rfl⟩
    · rw [sample_events env _ s (by simpa using hstop)]
      have e1 : extends_by (slope_event s.global_data_admit) s
          { s with tick := s.tick + 1,
                   events := s.events ++ [MonEvent.sample Site.tune s.tick s.global_data_admit
                     s.global_load_admit (env.miss_ratio s.tick)] } :=
        extends_by_events [_] rfl (by simp [slope_event])
      simp only []
      split_ifs with c1 c2 c3 c4 c5 c6
      · exact ⟨e1, rfl⟩
      · exact ⟨extends_by_trans e1 (set_load_frame _ _), rfl⟩
      · exact ⟨extends_by_trans e1 (set_load_frame _ _), rfl⟩
      · obtain ⟨p1, p2⟩ := probe_upper_frame env
          { s with tick := s.tick + 1,
                   events := s.events ++ [MonEvent.sample Site.tune s.tick s.global_data_admit
                     s.global_load_admit (env.miss_ratio s.tick)] }
          (la3 + LOAD_ADMIT_TUNING_STEP)
        obtain ⟨q1, q2⟩ := ih (probe_upper env
          { s with tick := s.tick + 1,
                   events := s.events ++ [MonEvent.sample Site.tune s.tick s.global_data_admit
                     s.global_load_admit (env.miss_ratio s.tick)] }
          (la3 + LOAD_ADMIT_TUNING_STEP)).2 la2 la3 (la3 + LOAD_ADMIT_TUNING_STEP) tp2 tp3
          (probe_upper env
          { s with tick := s.tick + 1,
                   events := s.events ++ [MonEvent.sample Site.tune s.tick s.global_data_admit
                     s.global_load_admit (env.miss_ratio s.tick)] }
          (la3 + LOAD_ADMIT_TUNING_STEP)).1
        rw [p2] at q1 q2
        exact ⟨extends_by_trans e1 (extends_by_trans p1 q1), q2⟩
      · exact ⟨extends_by_trans e1 (set_load_frame _ _), rfl⟩
      · obtain ⟨p1, p2⟩ := probe_lower_frame env
          { s with tick := s.tick + 1,
                   events := s.events ++ [MonEvent.sample Site.tune s.tick s.global_data_admit
                     s.global_load_admit (env.miss_ratio s.tick)] }
          (la1 - LOAD_ADMIT_TUNING_STEP)
        obtain ⟨q1, q2⟩ := ih (probe_lower env
          { s with tick := s.tick + 1,
                   events := s.events ++ [MonEvent.sample Site.tune s.tick s.global_data_admit
                     s.global_load_admit (env.miss_ratio s.tick)] }
          (la1 - LOAD_ADMIT_TUNING_STEP)).2 (la1 - LOAD_ADMIT_TUNING_STEP) la1 la2
          (probe_lower env
          { s with tick := s.tick + 1,
                   events := s.events ++ [MonEvent.sample Site.tune s.tick s.global_data_admit
                     s.global_load_admit (env.miss_ratio s.tick)] }
          (la1 - LOAD_ADMIT_TUNING_STEP)).1 tp1 tp2
        rw [p2] at q1 q2
        exact ⟨extends_by_trans e1 (extends_by_trans p1 q1), q2⟩
      · obtain ⟨q1, q2⟩ := ih
          { s with tick := s.tick + 1,
                   events := s.events ++ [MonEvent.sample Site.tune s.tick s.global_data_admit
                     s.global_load_admit (env.miss_ratio s.tick)] }
          la1 la2 la3 tp1 tp2 tp3
        exact ⟨extends_by_trans e1 q1, q2⟩

theorem tune_probes_frame (env : MonEnv) (s : MonState) :
    extends_by (slope_event s.global_data_admit) s (tune_probes env s).2 ∧
      MonState.global_data_admit (tune_probes env s).2 = s.global_data_admit := by
  have m := measure_frame env s s.global_load_admit
  obtain ⟨p1, p2⟩ := probe_upper_frame env
    (monitor_measure_throughput env s s.global_load_admit).2
    (s.global_load_admit + LOAD_ADMIT_TUNING_STEP)
  obtain ⟨q1, q2⟩ := probe_lower_frame env
    (probe_upper env (monitor_measure_throughput env s s.global_load_admit).2
      (s.global_load_admit + LOAD_ADMIT_TUNING_STEP)).2
    (s.global_load_admit - LOAD_ADMIT_TUNING_STEP)
  rw [measure_data] at p1 p2
  rw [p2] at q1 q2
  have w := set_load_frame (probe_lower env
    (probe_upper env (monitor_measure_throughput env s s.global_load_admit).2
      (s.global_load_admit + LOAD_ADMIT_TUNING_STEP)).2
    (s.global_load_admit - LOAD_ADMIT_TUNING_STEP)).2 s.global_load_admit
  rw [q2] at w
  exact ⟨extends_by_trans m (extends_by_trans p1 (extends_by_trans q1 w)), q2⟩

/-- One pass up to the end of the slope-following loop: the three probes and the loop
append no intensity check and no write of `data_admit`. -/
theorem pass_frame (env : MonEnv) (base : ℚ) (f : Nat) (s : MonState) :
    extends_by (slope_event s.global_data_admit) s
        (slope_loop env base f (tune_probes env s).2
          (tune_probes env s).1.1 (tune_probes env s).1.2.1 (tune_probes env s).1.2.2.1
          (tune_probes env s).1.2.2.2.1 (tune_probes env s).1.2.2.2.2.1
          (tune_probes env s).1.2.2.2.2.2).state ∧
      MonState.global_data_admit
        (slope_loop env base f (tune_probes env s).2
          (tune_probes env s).1.1 (tune_probes env s).1.2.1 (tune_probes env s).1.2.2.1
          (tune_probes env s).1.2.2.2.1 (tune_probes env s).1.2.2.2.2.1
          (tune_probes env s).1.2.2.2.2.2).state = s.global_data_admit := by
  obtain ⟨t1, t2⟩ := tune_probes_frame env s
  obtain ⟨q1, q2⟩ := slope_loop_frame env base f (tune_probes env s).2
    (tune_probes env s).1.1 (tune_probes env s).1.2.1 (tune_probes env s).1.2.2.1
    (tune_probes env s).1.2.2.2.1 (tune_probes env s).1.2.2.2.2.1
    (tune_probes env s).1.2.2.2.2.2
  rw [t2] at q1 q2
  exact ⟨extends_by_trans t1 q1, q2⟩
/-! ### Intensity check -/

theorem slope_event_no_check (d : Bool) (es : List MonEvent)
    (h : es.all (slope_event d) = true) : full_checks es = 0 := by
  rw [full_checks, List.countP_eq_zero]
  intro e he
  have := List.all_eq_true.mp h e he
  cases e <;> simp_all [slope_event, is_full_check]

theorem tune_loop_checks (env : MonEnv) (base : ℚ) :
    ∀ (fuel : Nat) (s : MonState) (sc : Bool),
      ∃ es, (tune_loop env base fuel s sc).state.events = s.events ++ es ∧
        full_checks es ≤ (if sc then 2 else 1) ∧
        (full_checks es = (if sc then 2 else 1) ↔
          (tune_loop env base fuel s sc).ended_by_intensity = true) ∧
        ((tune_loop env base fuel s sc).ended_by_intensity = true →
          ∃ pre, es = pre ++ [MonEvent.intensity_check 1]) := by
  intro fuel
  induction fuel with
  | zero =>
    intro s sc
    refine ⟨[], by simp [tune_loop, MonResult.state], by simp [full_checks], ?_, ?_⟩
    · cases sc <;> simp [full_checks, tune_loop, MonResult.ended_by_intensity]
    · simp [tune_loop, MonResult.ended_by_intensity]
  | succ f ih =>
    intro s sc
    obtain ⟨⟨es0, he0, hp0⟩, _⟩ := pass_frame env base f s
    have hc0 := slope_event_no_check _ es0 hp0
    unfold tune_loop
    simp only []
    generalize slope_loop env base f (tune_probes env s).2
      (tune_probes env s).1.1 (tune_probes env s).1.2.1 (tune_probes env s).1.2.2.1
      (tune_probes env s).1.2.2.2.1 (tune_probes env s).1.2.2.2.2.1
      (tune_probes env s).1.2.2.2.2.2 = r at he0
    have hsc : (0 : Nat) ≠ (if sc then 2 else 1) := by cases sc <;> simp
    have quiet : ∀ r0 : MonResult TuneExit, r0.state.events = s.events ++ es0 →
        r0.ended_by_intensity = false →
        ∃ es, r0.state.events = s.events ++ es ∧
          full_checks es ≤ (if sc then 2 else 1) ∧
          (full_checks es = (if sc then 2 else 1) ↔ r0.ended_by_intensity = true) ∧
          (r0.ended_by_intensity = true →
            ∃ pre, es = pre ++ [MonEvent.intensity_check 1]) := by
      intro r0 h1 h2
      refine ⟨es0, h1, by rw [hc0]; exact Nat.zero_le _, ?_, ?_⟩
      · rw [hc0, h2]; simp [hsc]
      · rw [h2]; simp
    cases r with
    | exited s1 => exact quiet _ he0 rfl
    | no_fuel s1 => exact quiet _ he0 rfl
    | done e s1 =>
      cases e with
      | ret => exact quiet _ he0 rfl
      | brk =>
        simp only [MonResult.state] at he0
        simp only []
        by_cases a : monitor_query_load_admit s1 = 1
        · rw [if_pos a, a]
          cases sc with
          | true =>
            simp only [if_true]
            obtain ⟨es1, h1, h2, h3, h4⟩ := ih
              { s1 with events := s1.events ++ [MonEvent.intensity_check 1] } false
            simp only [Bool.false_eq_true, if_false] at h2 h3
            refine ⟨es0 ++ [MonEvent.intensity_check 1] ++ es1, ?_, ?_, ?_, ?_⟩
            · rw [h1, he0]; simp
            · simp only [full_checks, List.countP_append] at hc0 h2 ⊢
              rw [hc0]; simp [is_full_check]; omega
            · rw [← h3]
              simp only [full_checks, List.countP_append] at hc0 ⊢
              rw [hc0]; simp [is_full_check]; omega
            · intro h
              obtain ⟨pre, hpre⟩ := h4 h
              exact ⟨es0 ++ [MonEvent.intensity_check 1] ++ pre, by rw [hpre]; simp⟩
          | false =>
            simp only [Bool.false_eq_true, if_false]
            refine ⟨es0 ++ [MonEvent.intensity_check 1], ?_, ?_, ?_, ?_⟩
            · simp only [MonResult.state]; rw [he0]; simp
            · simp only [full_checks, List.countP_append] at hc0 ⊢
              rw [hc0]; simp [is_full_check]
            · simp only [full_checks, List.countP_append] at hc0 ⊢
              rw [hc0]; simp [is_full_check, MonResult.ended_by_intensity]
            · intro _; exact ⟨es0, rfl⟩
        · rw [if_neg a]
          obtain ⟨es1, h1, h2, h3, h4⟩ := ih
            { s1 with events := s1.events ++ [MonEvent.intensity_check
              ( monitor_query_load_admit s1)] } sc
          refine ⟨es0 ++ [MonEvent.intensity_check ( monitor_query_load_admit s1)] ++ es1,
            ?_, ?_, ?_, ?_⟩
          · rw [h1, he0]; simp
          · simp only [full_checks, List.countP_append] at hc0 h2 ⊢
            rw [hc0]; simpa [is_full_check, a] using h2
          · rw [← h3]
            simp only [full_checks, List.countP_append] at hc0 ⊢
            rw [hc0]; simp [is_full_check, a]
          · intro h
            obtain ⟨pre, hpre⟩ := h4 h
            exact ⟨es0 ++ [MonEvent.intensity_check ( monitor_query_load_admit s1)] ++ pre,
              by rw [hpre]; simp⟩

/-- C18: in the events appended by `monitor_tune_load_admit` at most two intensity checks
find `load_admit == 1.0`; the function returns through the intensity check exactly when
there are two of them, and then the second one is its last event (the return happens at
that check, after a check that found `1.0`); with fewer than two the function did not
return through the check. -/
theorem intensity_check_second_chance (env : MonEnv) (base_miss_ratio : ℚ) (fuel : Nat)
    (s : MonState) :
    ∃ es, ( monitor_tune_load_admit env base_miss_ratio fuel s).state.events = s.events ++ es ∧
      full_checks es ≤ 2 ∧
      (full_checks es = 2 ↔
        ( monitor_tune_load_admit env base_miss_ratio fuel s).ended_by_intensity = true) ∧
      (( monitor_tune_load_admit env base_miss_ratio fuel s).ended_by_intensity = true →
        ∃ pre, es = pre ++ [MonEvent.intensity_check 1]) := by
  obtain ⟨es, h1, h2, h3, h4⟩ := tune_loop_checks env base_miss_ratio fuel s true
  exact ⟨es, h1, h2, h3, h4⟩
/-! ### Switch invariant of the phases -/

theorem tune_loop_frame (env : MonEnv) (base : ℚ) :
    ∀ (fuel : Nat) (s : MonState) (sc : Bool),
      extends_by (tune_event s.global_data_admit) s (tune_loop env base fuel s sc).state ∧
        MonState.global_data_admit (tune_loop env base fuel s sc).state =
          s.global_data_admit := by
  intro fuel
  induction fuel with
  | zero => intro s sc; exact ⟨extends_by_refl _ _, rfl⟩
  | succ f ih =>
    intro s sc
    obtain ⟨p1, p2⟩ := pass_frame env base f s
    have p1' : extends_by (tune_event s.global_data_admit) s _ :=
      extends_by_mono (fun e h => by cases e <;> simp_all [tune_event, slope_event]) p1
    unfold tune_loop
    simp only []
    generalize slope_loop env base f (tune_probes env s).2
      (tune_probes env s).1.1 (tune_probes env s).1.2.1 (tune_probes env s).1.2.2.1
      (tune_probes env s).1.2.2.2.1 (tune_probes env s).1.2.2.2.2.1
      (tune_probes env s).1.2.2.2.2.2 = r at p1' p2
    cases r with
    | exited s1 => exact ⟨p1', p2⟩
    | no_fuel s1 => exact ⟨p1', p2⟩
    | done e s1 =>
      cases e with
      | ret => exact ⟨p1', p2⟩
      | brk =>
        simp only [MonResult.state] at p1' p2
        have c : extends_by (tune_event s.global_data_admit) s1
            { s1 with events := s1.events ++ [MonEvent.intensity_check
              ( monitor_query_load_admit s1)] } :=
          extends_by_events [_] rfl rfl
        have base1 := extends_by_trans p1' c
        have hd : tune_event s1.global_data_admit = tune_event s.global_data_admit := by
          rw [p2]
        simp only []
        split_ifs with a b
        · obtain ⟨r1, r2⟩ := ih
            { s1 with events := s1.events ++ [MonEvent.intensity_check
              ( monitor_query_load_admit s1)] } false
          simp only [] at r1 r2
          rw [hd] at r1
          exact ⟨extends_by_trans base1 r1, r2.trans p2⟩
        · exact ⟨base1, p2⟩
        · obtain ⟨r1, r2⟩ := ih
            { s1 with events := s1.events ++ [MonEvent.intensity_check
              ( monitor_query_load_admit s1)] } sc
          simp only [] at r1 r2
          rw [hd] at r1
          exact ⟨extends_by_trans base1 r1, r2.trans p2⟩

theorem wait_stable_loop_frame (env : MonEnv) :
    ∀ (fuel : Nat) (s : MonState) (last m : ℚ),
      s.global_data_admit = true → s.global_load_admit = 1 →
      extends_by wait_event s (wait_stable_loop env fuel s last m).state ∧
        MonState.global_data_admit (wait_stable_loop env fuel s last m).state = true ∧
        MonState.global_load_admit (wait_stable_loop env fuel s last m).state = 1 := by
  intro fuel
  induction fuel with
  | zero => intro s last m hd hl; exact ⟨extends_by_refl _ _, hd, hl⟩
  | succ f ih =>
    intro s last m hd hl
    unfold wait_stable_loop
    split_ifs with c
    · by_cases hstop : env.should_stop (usleep s WAIT_STABLE_SLEEP_INTERVAL_US).tick = true
      · rw [sample_exit env _ _ hstop]
        exact ⟨extends_by_events [MonEvent.usleep WAIT_STABLE_SLEEP_INTERVAL_US,
          MonEvent.thread_exit] (by simp [usleep, MonResult.state]) rfl, hd, hl⟩
      · rw [sample_events env _ _ (by simpa using hstop)]
        simp only []
        obtain ⟨r1, r2, r3⟩ := ih
          { usleep s WAIT_STABLE_SLEEP_INTERVAL_US with
            tick := (usleep s WAIT_STABLE_SLEEP_INTERVAL_US).tick + 1,
            events := (usleep s WAIT_STABLE_SLEEP_INTERVAL_US).events ++
              [MonEvent.sample Site.wait_stable (usleep s WAIT_STABLE_SLEEP_INTERVAL_US).tick
                (MonState.global_data_admit (usleep s WAIT_STABLE_SLEEP_INTERVAL_US))
                (MonState.global_load_admit (usleep s WAIT_STABLE_SLEEP_INTERVAL_US))
                (env.miss_ratio (usleep s WAIT_STABLE_SLEEP_INTERVAL_US).tick)] }
          m (env.miss_ratio (usleep s WAIT_STABLE_SLEEP_INTERVAL_US).tick) hd hl
        refine ⟨extends_by_trans (extends_by_events
          [MonEvent.usleep WAIT_STABLE_SLEEP_INTERVAL_US,
           MonEvent.sample Site.wait_stable s.tick true 1 (env.miss_ratio s.tick)]
          (by simp [usleep, hd, hl]) (by simp [wait_event])) r1, r2, r3⟩
    · exact ⟨extends_by_refl _ _, hd, hl⟩

theorem wait_stable_frame (env : MonEnv) (fuel : Nat) (s : MonState)
    (hd : s.global_data_admit = true) (hl : s.global_load_admit = 1) :
    extends_by wait_event s (monitor_wait_stable env fuel s).state ∧
      MonState.global_data_admit (monitor_wait_stable env fuel s).state = true ∧
      MonState.global_load_admit (monitor_wait_stable env fuel s).state = 1 := by
  unfold monitor_wait_stable
  by_cases hstop : env.should_stop s.tick = true
  · rw [sample_exit env _ _ hstop]
    exact ⟨extends_by_events [MonEvent.thread_exit] rfl rfl, hd, hl⟩
  · rw [sample_events env _ _ (by simpa using hstop)]
    simp only []
    obtain ⟨r1, r2, r3⟩ := wait_stable_loop_frame env fuel
      { s with tick := s.tick + 1,
               events := s.events ++ [MonEvent.sample Site.wait_stable s.tick
                 s.global_data_admit s.global_load_admit (env.miss_ratio s.tick)] }
      (-(1 / 10)) (env.miss_ratio s.tick) hd hl
    exact ⟨extends_by_trans (extends_by_events
      [MonEvent.sample Site.wait_stable s.tick true 1 (env.miss_ratio s.tick)]
      (by simp [hd, hl]) (by simp [wait_event])) r1, r2, r3⟩

theorem wait_event_phase (e : MonEvent) (h : wait_event e = true) : phase_event e = true := by
  cases e with
  | sample site t d l v => cases site <;> simp_all [wait_event, phase_event]
  | _ => simp_all [wait_event, phase_event]

theorem tune_event_phase (e : MonEvent) (h : tune_event false e = true) :
    phase_event e = true := by
  cases e with
  | sample site t d l v => cases site <;> simp_all [tune_event, slope_event, phase_event]
  | _ => simp_all [tune_event, slope_event, phase_event]

theorem monitor_func_frame (env : MonEnv) :
    ∀ (fuel : Nat) (s : MonState),
      extends_by phase_event s (monitor_func env fuel s).state := by
  intro fuel
  induction fuel with
  | zero => intro s; exact extends_by_refl _ _
  | succ f ih =>
    intro s
    have e0 : extends_by phase_event s
        ( monitor_set_load_admit ( monitor_set_data_admit s true) 1) :=
      extends_by_events [MonEvent.set_data true, MonEvent.set_load 1]
        (by simp [ monitor_set_load_admit, monitor_set_data_admit]) rfl
    obtain ⟨w1, w2, w3⟩ := wait_stable_frame env f
      ( monitor_set_load_admit ( monitor_set_data_admit s true) 1) rfl rfl
    have w1' := extends_by_trans e0 (extends_by_mono wait_event_phase w1)
    unfold monitor_func
    generalize monitor_wait_stable env f
      ( monitor_set_load_admit ( monitor_set_data_admit s true) 1) = r at w1' w2 w3
    cases r with
    | exited s1 => exact w1'
    | no_fuel s1 => exact w1'
    | done b s1 =>
      simp only [MonResult.state] at w1'
      have e1 : extends_by phase_event s1 ( monitor_set_data_admit s1 false) :=
        extends_by_events [MonEvent.set_data false] rfl rfl
      obtain ⟨t1, t2⟩ := tune_loop_frame env b f ( monitor_set_data_admit s1 false) true
      have t1' := extends_by_trans w1' (extends_by_trans e1
        (extends_by_mono tune_event_phase t1))
      simp only [ monitor_tune_load_admit]
      generalize tune_loop env b f ( monitor_set_data_admit s1 false) true = r2 at t1'
      cases r2 with
      | exited s2 => exact t1'
      | no_fuel s2 => exact t1'
      | done x s2 => exact extends_by_trans t1' (ih s2)
theorem monitor_func_iteration (env : MonEnv) (f : Nat) (s : MonState) :
    ∃ es, (monitor_func env (f + 1) s).state.events =
        s.events ++ [MonEvent.set_data true, MonEvent.set_load 1] ++ es ∧
      es.all phase_event = true := by
  have e0 : MonState.events ( monitor_set_load_admit ( monitor_set_data_admit s true) 1) =
      s.events ++ [MonEvent.set_data true, MonEvent.set_load 1] := by
    simp [ monitor_set_load_admit, monitor_set_data_admit]
  obtain ⟨w1, w2, w3⟩ := wait_stable_frame env f
    ( monitor_set_load_admit ( monitor_set_data_admit s true) 1) rfl rfl
  have w1' := extends_by_mono wait_event_phase w1
  unfold monitor_func
  generalize monitor_wait_stable env f
    ( monitor_set_load_admit ( monitor_set_data_admit s true) 1) = r at w1' w2 w3
  have fin : ∀ s3 : MonState,
      extends_by phase_event ( monitor_set_load_admit ( monitor_set_data_admit s true) 1) s3 →
      ∃ es, s3.events = s.events ++ [MonEvent.set_data true, MonEvent.set_load 1] ++ es ∧
        es.all phase_event = true := by
    intro s3 h
    obtain ⟨es, he, hp⟩ := h
    exact ⟨es, by rw [he, e0], hp⟩
  cases r with
  | exited s1 => exact fin _ w1'
  | no_fuel s1 => exact fin _ w1'
  | done b s1 =>
    simp only [MonResult.state] at w1'
    have e1 : extends_by phase_event s1 ( monitor_set_data_admit s1 false) :=
      extends_by_events [MonEvent.set_data false] rfl rfl
    obtain ⟨t1, t2⟩ := tune_loop_frame env b f ( monitor_set_data_admit s1 false) true
    have t1' := extends_by_trans w1' (extends_by_trans e1
      (extends_by_mono tune_event_phase t1))
    simp only [ monitor_tune_load_admit]
    generalize tune_loop env b f ( monitor_set_data_admit s1 false) true = r2 at t1'
    cases r2 with
    | exited s2 => exact fin _ t1'
    | no_fuel s2 => exact fin _ t1'
    | done x s2 => exact fin _ (extends_by_trans t1' (monitor_func_frame env f s2))

theorem rise_env_rises :
    ∀ k, 4 ≤ k → rise_env.miss_ratio k > 0 + WORKLOAD_CHANGE_THRESHOLD := by
  intro k hk
  simp only [rise_env, hk, if_true, WORKLOAD_CHANGE_THRESHOLD]
  norm_num

/-- Witness of C16: tuning from `load_admit = 0.5` in the sample environment. -/
theorem tune_load_admit_in_range_witness :
    ∃ es, ( monitor_tune_load_admit rise_env 0 3 rise_start).state.events =
        rise_start.events ++ es ∧
      writes_in_range es = true ∧
      0 ≤ MonState.global_load_admit ( monitor_tune_load_admit rise_env 0 3 rise_start).state ∧
      MonState.global_load_admit ( monitor_tune_load_admit rise_env 0 3 rise_start).state ≤ 1 :=
  tune_load_admit_in_range rise_env 0 3 rise_start (by norm_num [rise_start])
    (by norm_num [rise_start])

/-- C17 (as stated, refuted): in the sample environment the miss ratio is `0` at the
sample of observation 3 and above `base + 0.2` from observation 4 on; the function then
performs three throughput probes (observations 4, 5 and 6) before it samples the miss
ratio again and returns. -/
theorem tune_three_probes_after_rise :
    (∀ k, 4 ≤ k → rise_env.miss_ratio k > 0 + WORKLOAD_CHANGE_THRESHOLD) ∧
      ( monitor_tune_load_admit rise_env 0 3 rise_start).returned = true ∧
      probes_from 4 ( monitor_tune_load_admit rise_env 0 3 rise_start).state.events = 3 := by
  refine ⟨rise_env_rises, ?_, ?_⟩
  · rw [rise_run_events]; rfl
  · rw [rise_run_events]
    simp [MonResult.state, probes_from, is_probe_from]

theorem rise_in_slope_loop (env : MonEnv) (base : ℚ) (k0 : Nat)
    (hrise : ∀ k, k0 ≤ k → env.miss_ratio k > base + WORKLOAD_CHANGE_THRESHOLD)
    (sc : Bool) (f : Nat) (t : MonState)
    (hf : k0 + 1 ≤ f + (tune_probes env t).2.tick)
    (hb : (tune_probes env t).2.tick ≤ k0)
    (hk : k0 < (slope_loop env base f (tune_probes env t).2
      (tune_probes env t).1.1 (tune_probes env t).1.2.1 (tune_probes env t).1.2.2.1
      (tune_probes env t).1.2.2.2.1 (tune_probes env t).1.2.2.2.2.1
      (tune_probes env t).1.2.2.2.2.2).state.tick) :
    (tune_loop env base (f + 1) t sc).finished = true ∧
      ((∀ k, env.should_stop k = false) →
        (tune_loop env base (f + 1) t sc).returned = true) ∧
      (tune_loop env base (f + 1) t sc).state = (slope_loop env base f (tune_probes env t).2
        (tune_probes env t).1.1 (tune_probes env t).1.2.1 (tune_probes env t).1.2.2.1
        (tune_probes env t).1.2.2.2.1 (tune_probes env t).1.2.2.2.2.1
        (tune_probes env t).1.2.2.2.2.2).state ∧
      probes_from k0 (tune_loop env base (f + 1) t sc).state.events ≤
        probes_from k0 t.events + 1 := by
  obtain ⟨_, t2, _⟩ := tune_probes_probes env k0 t
  obtain ⟨i1, i2, i3, i4⟩ := slope_loop_rise env base k0 hrise f (tune_probes env t).2
    (tune_probes env t).1.1 (tune_probes env t).1.2.1 (tune_probes env t).1.2.2.1
    (tune_probes env t).1.2.2.2.1 (tune_probes env t).1.2.2.2.2.1
    (tune_probes env t).1.2.2.2.2.2 (by omega) (by omega)
  unfold tune_loop
  simp only []
  generalize slope_loop env base f (tune_probes env t).2
    (tune_probes env t).1.1 (tune_probes env t).1.2.1 (tune_probes env t).1.2.2.1
    (tune_probes env t).1.2.2.2.1 (tune_probes env t).1.2.2.2.2.1
    (tune_probes env t).1.2.2.2.2.2 = r at i1 i2 i3 i4 hk
  have key : probes_from k0 r.state.events ≤ probes_from k0 t.events + 1 := by
    have := t2 hb
    split_ifs at i3 <;> omega
  cases r with
  | exited s1 => exact ⟨rfl, i2, rfl, key⟩
  | no_fuel s1 => exact absurd i1 (by simp [MonResult.finished])
  | done e s1 =>
    cases e with
    | ret => exact ⟨rfl, fun _ => rfl, rfl, key⟩
    | brk =>
      obtain ⟨_, j2, _⟩ := i4 rfl
      simp only [MonResult.state] at j2 hk
      omega

theorem shift_env_rises :
    ∀ k, 4 ≤ k → shift_env.miss_ratio k > 0 + WORKLOAD_CHANGE_THRESHOLD := by
  intro k hk
  simp only [shift_env, hk, if_true, WORKLOAD_CHANGE_THRESHOLD]
  norm_num

theorem shift_probes_tick : (tune_probes shift_env rise_start).2.tick = 3 := by
  simp [tune_probes, shift_env, rise_start, probe_upper, probe_lower,
    monitor_measure_throughput, _get_throughput, usleep, monitor_set_load_admit,
    monitor_query_load_admit, LOAD_ADMIT_TUNING_STEP]
  norm_num

theorem shift_run_events :
    ( monitor_tune_load_admit shift_env 0 3 rise_start)
      = MonResult.done TuneExit.workload_change
      { global_data_admit := false, global_load_admit := 52 / 100, tick := 6,
        slept_us := 100000,
        events := [
        MonEvent.set_load (1 / 2), MonEvent.usleep 25000, MonEvent.probe 0 false (1 / 2) 5,
        MonEvent.set_load (51 / 100), MonEvent.usleep 25000,
        MonEvent.probe 1 false (51 / 100) 10,
        MonEvent.set_load (49 / 100), MonEvent.usleep 25000,
        MonEvent.probe 2 false (49 / 100) 5,
        MonEvent.set_load (1 / 2), MonEvent.sample Site.tune 3 false (1 / 2) 0,
        MonEvent.set_load (52 / 100), MonEvent.usleep 25000,
        MonEvent.probe 4 false (52 / 100) 5,
        MonEvent.sample Site.tune 5 false (52 / 100) 1] } := by
  simp [ monitor_tune_load_admit, tune_loop, tune_probes, slope_loop, shift_env, rise_start,
    _get_miss_ratio, probe_upper, probe_lower, monitor_measure_throughput, _get_throughput,
    usleep, monitor_set_load_admit, monitor_query_load_admit, LOAD_ADMIT_TUNING_STEP,
    WORKLOAD_CHANGE_THRESHOLD, MEASURE_THROUGHPUT_INTERVAL_US]
  norm_num

theorem shift_slope_tick :
    (slope_loop shift_env 0 2 (tune_probes shift_env rise_start).2
      (tune_probes shift_env rise_start).1.1 (tune_probes shift_env rise_start).1.2.1
      (tune_probes shift_env rise_start).1.2.2.1 (tune_probes shift_env rise_start).1.2.2.2.1
      (tune_probes shift_env rise_start).1.2.2.2.2.1
      (tune_probes shift_env rise_start).1.2.2.2.2.2).state.tick = 6 := by
  simp [tune_probes, slope_loop, shift_env, rise_start,
    _get_miss_ratio, probe_upper, probe_lower, monitor_measure_throughput, _get_throughput,
    usleep, monitor_set_load_admit, monitor_query_load_admit, LOAD_ADMIT_TUNING_STEP,
    WORKLOAD_CHANGE_THRESHOLD, MEASURE_THROUGHPUT_INTERVAL_US, MonResult.state]
  norm_num

/-- C17 (amended): if from observation `k0` on the miss ratio is above
`base_miss_ratio + 0.2`, then `monitor_tune_load_admit`, given fuel `k0 + 2` or more,
ends (it returns, or the thread exits), it returns when `should_stop` is never set, and
the events it appends contain at most three throughput probes made at observation `k0`
or later.  Moreover, in every outer pass of the function (the first one, from the entry
state with `second_chance = true`, or a later one, from any state `t`), when the rise
happens while the slope-following loop of that pass is running, that is, observation `k0`
is made after the three probes of the pass and before its slope-following loop ends (it
is a miss-ratio sample of the loop or the probe of a window shift), the function ends
where that loop ends, without another pass, and the events of the pass contain at most
one throughput probe made at observation `k0` or later. -/
theorem tune_returns_after_rise (env : MonEnv) (base_miss_ratio : ℚ) (k0 fuel : Nat)
    (s : MonState)
    (hrise : ∀ k, k0 ≤ k → env.miss_ratio k > base_miss_ratio + WORKLOAD_CHANGE_THRESHOLD)
    (hfuel : k0 + 2 ≤ fuel) :
    ( monitor_tune_load_admit env base_miss_ratio fuel s).finished = true ∧
      ((∀ k, env.should_stop k = false) →
        ( monitor_tune_load_admit env base_miss_ratio fuel s).returned = true) ∧
      probes_from k0 ( monitor_tune_load_admit env base_miss_ratio fuel s).state.events ≤
        probes_from k0 s.events + 3 ∧
      (∀ (second_chance : Bool) (f : Nat) (t : MonState),
        k0 + 1 ≤ f + (tune_probes env t).2.tick →
        (tune_probes env t).2.tick ≤ k0 →
        k0 < (slope_loop env base_miss_ratio f (tune_probes env t).2
          (tune_probes env t).1.1 (tune_probes env t).1.2.1 (tune_probes env t).1.2.2.1
          (tune_probes env t).1.2.2.2.1 (tune_probes env t).1.2.2.2.2.1
          (tune_probes env t).1.2.2.2.2.2).state.tick →
        (tune_loop env base_miss_ratio (f + 1) t second_chance).finished = true ∧
        ((∀ k, env.should_stop k = false) →
          (tune_loop env base_miss_ratio (f + 1) t second_chance).returned = true) ∧
        (tune_loop env base_miss_ratio (f + 1) t second_chance).state =
          (slope_loop env base_miss_ratio f (tune_probes env t).2
            (tune_probes env t).1.1 (tune_probes env t).1.2.1 (tune_probes env t).1.2.2.1
            (tune_probes env t).1.2.2.2.1 (tune_probes env t).1.2.2.2.2.1
            (tune_probes env t).1.2.2.2.2.2).state ∧
        probes_from k0 (tune_loop env base_miss_ratio (f + 1) t second_chance).state.events ≤
          probes_from k0 t.events + 1) :=
  ⟨(tune_loop_rise env base_miss_ratio k0 hrise fuel s true (by omega) (by omega)).1,
    (tune_loop_rise env base_miss_ratio k0 hrise fuel s true (by omega) (by omega)).2.1,
    (tune_loop_rise env base_miss_ratio k0 hrise fuel s true (by omega) (by omega)).2.2,
    fun sc f t hf hb hk => rise_in_slope_loop env base_miss_ratio k0 hrise sc f t hf hb hk⟩

/-- Witness of C17 (amended): tuning from `load_admit = 0.5` in the sample environment
`shift_env` with `k0 = 4`.  The three probes of the first pass are observations 0, 1, 2,
the first decision (observation 3) shifts the window up, the probe of the shift is
observation 4, where the miss ratio has risen, and the sample at observation 5 returns:
exactly one probe is made at observation 4 or later. -/
theorem tune_returns_after_rise_witness :
    (∀ k, 4 ≤ k → shift_env.miss_ratio k > 0 + WORKLOAD_CHANGE_THRESHOLD) ∧
      ( monitor_tune_load_admit shift_env 0 6 rise_start).finished = true ∧
      ( monitor_tune_load_admit shift_env 0 6 rise_start).returned = true ∧
      probes_from 4 ( monitor_tune_load_admit shift_env 0 6 rise_start).state.events ≤
        probes_from 4 rise_start.events + 3 ∧
      (tune_probes shift_env rise_start).2.tick ≤ 4 ∧
      ( monitor_tune_load_admit shift_env 0 3 rise_start).returned = true ∧
      probes_from 4 ( monitor_tune_load_admit shift_env 0 3 rise_start).state.events ≤
        probes_from 4 rise_start.events + 1 ∧
      probes_from 4 ( monitor_tune_load_admit shift_env 0 3 rise_start).state.events = 1 :=
  ⟨shift_env_rises,
    (tune_returns_after_rise shift_env 0 4 6 rise_start shift_env_rises (by decide)).1,
    (tune_returns_after_rise shift_env 0 4 6 rise_start shift_env_rises (by decide)).2.1
      (fun _ => rfl),
    (tune_returns_after_rise shift_env 0 4 6 rise_start shift_env_rises (by decide)).2.2.1,
    by rw [shift_probes_tick]; decide,
    ((tune_returns_after_rise shift_env 0 4 6 rise_start shift_env_rises (by decide)).2.2.2
      true 2 rise_start (by rw [shift_probes_tick])
      (by rw [shift_probes_tick]; decide)
      (by rw [shift_slope_tick]; decide)).2.1 (fun _ => rfl),
    ((tune_returns_after_rise shift_env 0 4 6 rise_start shift_env_rises (by decide)).2.2.2
      true 2 rise_start (by rw [shift_probes_tick])
      (by rw [shift_probes_tick]; decide)
      (by rw [shift_slope_tick]; decide)).2.2.2,
    by rw [shift_run_events]; simp [MonResult.state, probes_from, is_probe_from]⟩

/-- C19: `ocf_mngt_mf_monitor_init` leaves `data_admit = true` and `load_admit = 1.0`;
every iteration of `monitor_func` starts by writing `data_admit = true` and
`load_admit = 1.0`, and in the events that follow every sample taken by
`monitor_wait_stable` observes `data_admit = true` and `load_admit = 1.0` and every sample
or probe taken during tuning observes `data_admit = false`; `monitor_tune_load_admit`
appends no write of `data_admit`, all its observations see the value of `data_admit` it
was entered with, and it ends with that value. -/
theorem monitor_phases_keep_switches (env : MonEnv) (fuel : Nat) (s t : MonState)
    (base_miss_ratio : ℚ) :
    ( ocf_mngt_mf_monitor_init.global_data_admit = true ∧
      ocf_mngt_mf_monitor_init.global_load_admit = 1) ∧
    (∃ es, (monitor_func env (fuel + 1) s).state.events =
        s.events ++ [MonEvent.set_data true, MonEvent.set_load 1] ++ es ∧
      es.all phase_event = true) ∧
    (∃ es, ( monitor_tune_load_admit env base_miss_ratio fuel t).state.events = t.events ++ es ∧
      es.all (tune_event t.global_data_admit) = true) ∧
    MonState.global_data_admit ( monitor_tune_load_admit env base_miss_ratio fuel t).state =
      t.global_data_admit :=
  ⟨⟨rfl, rfl⟩, monitor_func_iteration env fuel s,
    (tune_loop_frame env base_miss_ratio fuel t true).1,
    (tune_loop_frame env base_miss_ratio fuel t true).2⟩
theorem steady_run_ends_by_intensity :
    ( monitor_tune_load_admit steady_env 0 3
      ( monitor_set_data_admit ocf_mngt_mf_monitor_init false)).ended_by_intensity = true ∧
    full_checks ( monitor_tune_load_admit steady_env 0 3
      ( monitor_set_data_admit ocf_mngt_mf_monitor_init false)).state.events = 2 := by
  simp [ monitor_tune_load_admit, tune_loop, tune_probes, slope_loop, steady_env,
    ocf_mngt_mf_monitor_init, monitor_set_data_admit,
    _get_miss_ratio, probe_upper, probe_lower, monitor_measure_throughput, _get_throughput,
    usleep, monitor_set_load_admit, monitor_query_load_admit, LOAD_ADMIT_TUNING_STEP,
    WORKLOAD_CHANGE_THRESHOLD, MEASURE_THROUGHPUT_INTERVAL_US, MonResult.ended_by_intensity,
    MonResult.state, full_checks, is_full_check, List.countP_cons]
  norm_num
  simp [List.countP_cons, is_full_check]


/-! ## Cache volume submission queue: theorems -/

theorem sample_acts_run :
    (vol_run 4096 sample_acts cache_vol_open).map (fun s => (completed s.events).map ocf_io.id)
      = some [1, 2] ∧
    (vol_run 4096 sample_acts cache_vol_open).map (fun s => (dequeued s.events).map ocf_io.id)
      = some [1, 2] ∧
    (vol_run 4096 sample_acts cache_vol_open).map (fun s => (enqueued s.events).map ocf_io.id)
      = some [1, 2, 3] := by
  decide

theorem query_of_ring_inv_scan (s : DeviceLog) (es : List cache_log_entry)
    (hinv : ring_inv s es) (t0 t1 : ℚ) :
    cache_log_query_throughput s t0 t1
      = some (scan_entries t0 t1 (retained es).reverse 0 * 1000 / (t1 - t0)) := by
  unfold cache_log_query_throughput
  by_cases he : es = []
  · obtain ⟨hh, _⟩ := hinv.1 he
    subst he
    simp [hh, retained, scan_entries]
  · obtain ⟨ht, hh⟩ := hinv.2.1 he
    have hl : 1 ≤ es.length := List.length_pos.mpr he
    have hh0 : 0 ≤ s.head := by rw [hh]; split_ifs <;> omega
    have hdec : (if s.tail + 1 = 0 then (119999 : Int) else s.tail + 1 - 1)
        = ((es.length : Int) - 1 - (0 : Nat)) % 120000 := by
      rw [if_neg (by omega)]; simp [ht]
    have hloop := query_loop_scan s es hinv t0 t1 (min es.length 120000 - 1) 0 (s.tail + 1)
      120000 0 (by omega) (by omega) hdec
    rw [if_pos hh0, log_size_toNat, hloop, List.drop_zero, take_reverse_retained]
    simp

theorem scan_entries_sorted_then_old (t0 t1 : ℚ) (A B : List cache_log_entry)
    (hB : ∀ y ∈ B, y.finish_time_ms ≤ t0) :
    ∀ kb : ℚ, A.Pairwise (fun a b => b.finish_time_ms ≤ a.finish_time_ms) →
      scan_entries t0 t1 (A ++ B) kb = kb + window_kilobytes t0 t1 A := by
  induction A with
  | nil =>
    intro kb _
    cases B with
    | nil => simp [scan_entries, window_kilobytes, in_window]
    | cons b rest =>
      simp [scan_entries, hB b (List.mem_cons_self _ _), window_kilobytes, in_window]
  | cons x rest ih =>
    intro kb hp
    obtain ⟨hx, hrest⟩ := List.pairwise_cons.mp hp
    by_cases h0 : x.finish_time_ms ≤ t0
    · have hnil : in_window t0 t1 (x :: rest) = [] := by
        apply in_window_nil_of_le
        intro y hy
        rcases List.mem_cons.mp hy with rfl | hy
        · exact h0
        · exact le_trans (hx y hy) h0
      simp [scan_entries, h0, window_kilobytes, hnil]
    · have h0lt : t0 < x.finish_time_ms := not_le.mp h0
      rw [List.cons_append, scan_entries, if_neg h0, ih _ hrest]
      by_cases h1 : x.finish_time_ms ≤ t1
      · have : in_window t0 t1 (x :: rest) = x :: in_window t0 t1 rest := by
          unfold in_window
          rw [List.filter_cons_of_pos]
          simp [h0lt, h1]
        simp only [window_kilobytes, this, if_pos h1, List.map_cons, List.sum_cons]
        ring
      · have : in_window t0 t1 (x :: rest) = in_window t0 t1 rest := by
          unfold in_window
          rw [List.filter_cons_of_neg]
          simp [h1]
        simp only [window_kilobytes, this, if_neg h1]

theorem window_bytes_old_append (t0 t1 : ℚ) (A B : List cache_log_entry)
    (hA : ∀ y ∈ A, y.finish_time_ms ≤ t0) :
    window_bytes t0 t1 (A ++ B) = window_bytes t0 t1 B := by
  have h : in_window t0 t1 (A ++ B) = in_window t0 t1 B := by
    have hnil := in_window_nil_of_le t0 t1 A hA
    unfold in_window at hnil ⊢
    rw [List.filter_append, hnil, List.nil_append]
  simp only [window_bytes, h]

/-- C28: for every push sequence `es` of at most 120000 entries onto a freshly set-up
log whose finish times are non-decreasing from index `k` onward (`es.drop k`), and every
window `t0 < t1` with `t0` at or after every finish time pushed before index `k`
(`es.take k`), the query returns
`(sum of bytes over all pushed entries with t0 < t ≤ t1) * 1000 / (t1 - t0) / 1024`,
for the cache log and for the core log. -/
theorem query_after_clock_anomaly (mem : Int → cache_log_entry)
    (es : List cache_log_entry) (k : Nat) (t0 t1 : ℚ)
    (hm : monotone_times (es.drop k)) (hlen : es.length ≤ 120000) (_ht : t0 < t1)
    (hold : ∀ e ∈ es.take k, e.finish_time_ms ≤ t0) :
    cache_log_query_after mem es t0 t1
        = some ((window_bytes t0 t1 es : ℚ) * 1000 / (t1 - t0) / 1024) ∧
      core_log_query_after mem es t0 t1
        = some ((window_bytes t0 t1 es : ℚ) * 1000 / (t1 - t0) / 1024) := by
  obtain ⟨s, hs, hinv⟩ := ring_inv_push_all es [] (log_setup mem) (ring_inv_setup mem)
  rw [List.nil_append] at hinv
  have hq := query_of_ring_inv_scan s es hinv t0 t1
  have hsplit : (retained es).reverse = (es.drop k).reverse ++ (es.take k).reverse := by
    rw [retained_of_le es hlen, ← List.reverse_append, List.take_append_drop]
  have hsorted : (es.drop k).reverse.Pairwise
      (fun a b => b.finish_time_ms ≤ a.finish_time_ms) := by
    rw [List.pairwise_reverse]
    exact hm
  have hscan := scan_entries_sorted_then_old t0 t1 (es.drop k).reverse (es.take k).reverse
    (fun y hy => hold y (List.mem_reverse.mp hy)) 0 hsorted
  have hw : (window_bytes t0 t1 es : ℚ) = (window_bytes t0 t1 (es.drop k) : ℚ) := by
    have := window_bytes_old_append t0 t1 (es.take k) (es.drop k) hold
    rw [List.take_append_drop] at this
    rw [this]
  rw [hsplit, hscan, window_kilobytes_reverse, window_kilobytes_eq_bytes, ← hw] at hq
  have e : (0 + (window_bytes t0 t1 es : ℚ) / 1024) * 1000 / (t1 - t0)
      = (window_bytes t0 t1 es : ℚ) * 1000 / (t1 - t0) / 1024 := by ring
  rw [e] at hq
  constructor
  · simp only [cache_log_query_after, hs, Option.some_bind, hq]
  · have hs2 : core_log_push_all (log_setup mem) es = some s := by
      rw [core_log_push_all_eq, hs]
    simp only [core_log_query_after, hs2, Option.some_bind, core_log_query_throughput_eq, hq]

/-- Witness for C28: the clock jumps back from 50 to 10 after the first push; the window
`(50, 100]` holds the two later pushes at 60 and 70. -/
theorem query_after_clock_anomaly_witness :
    monotone_times (([⟨50, 512⟩, ⟨10, 1024⟩, ⟨60, 2048⟩, ⟨70, 4096⟩] :
        List cache_log_entry).drop 2) ∧
      (50 : ℚ) < 100 ∧
      cache_log_query_after zero_mem [⟨50, 512⟩, ⟨10, 1024⟩, ⟨60, 2048⟩, ⟨70, 4096⟩] 50 100
        = some ((window_bytes 50 100
            [⟨50, 512⟩, ⟨10, 1024⟩, ⟨60, 2048⟩, ⟨70, 4096⟩] : ℚ) * 1000 / (100 - 50) / 1024) :=
  ⟨by norm_num [monotone_times], by norm_num,
    (query_after_clock_anomaly zero_mem [⟨50, 512⟩, ⟨10, 1024⟩, ⟨60, 2048⟩, ⟨70, 4096⟩] 2
      50 100 (by norm_num [monotone_times]) (by simp) (by norm_num)
      (by intro e he; simp at he; rcases he with rfl | rfl <;> norm_num)).1⟩
theorem query_visits_spec (s : DeviceLog) (es : List cache_log_entry) (hinv : ring_inv s es)
    (t0 : ℚ) :
    ∀ (fuel r k : Nat) (i : Int),
      k + (r + 1) = min es.length 120000 →
      (if i = 0 then (119999 : Int) else i - 1) = ((es.length : Int) - 1 - k) % 120000 →
      ∃ m, m ≤ r + 1 ∧ cache_log_query_visits s t0 fuel i
        = (List.range m).map (fun j : Nat => ((es.length : Int) - 1 - (k + j : Nat)) % 120000) := by
  obtain ⟨_, h1, h2⟩ := hinv
  intro fuel
  induction fuel with
  | zero => intro r k i _ _; exact ⟨0, by omega, rfl⟩
  | succ f ih =>
    intro r k i hk hi
    have hne : es ≠ [] := by
      intro he; subst he; simp at hk
    obtain ⟨_, hh⟩ := h1 hne
    unfold cache_log_query_visits
    simp only [CACHE_LOG_SIZE]
    have hi2 : (if i = 0 then (120000 : Int) - 1 else i - 1)
        = ((es.length : Int) - 1 - k) % 120000 := by
      rw [← hi]; split_ifs <;> norm_num
    rw [hi2, if_pos (by omega)]
    by_cases hb : (s.log (((es.length : Int) - 1 - k) % 120000)).finish_time_ms ≤ t0
    · rw [if_pos hb]
      exact ⟨1, by omega, by simp [List.range_succ]⟩
    · rw [if_neg hb]
      by_cases hhd : ((es.length : Int) - 1 - k) % 120000 = s.head
      · rw [if_neg (by simpa using hhd)]
        exact ⟨1, by omega, by simp [List.range_succ]⟩
      · rw [if_pos hhd]
        have hr : 1 ≤ r := by
          by_contra hr0
          have : r = 0 := by omega
          subst this
          apply hhd
          rw [hh]; split_ifs <;> omega
        have hnext : (if ((es.length : Int) - 1 - k) % 120000 = 0 then (119999 : Int)
            else ((es.length : Int) - 1 - k) % 120000 - 1)
            = ((es.length : Int) - 1 - (k + 1 : Nat)) % 120000 := by
          split_ifs <;> omega
        obtain ⟨m, hm, hv⟩ := ih (r - 1) (k + 1) _ (by omega) hnext
        refine ⟨m + 1, by omega, ?_⟩
        rw [hv, List.range_succ_eq_map, List.map_cons, List.map_map]
        congr 1
        apply List.map_congr_left
        intro j _
        simp only [Function.comp]
        congr 2
        omega
theorem query_indices_spec (s : DeviceLog) (es : List cache_log_entry) (hinv : ring_inv s es)
    (t0 : ℚ) (fuel : Nat) :
    ∃ m, m ≤ min es.length 120000 ∧ cache_log_query_indices s t0 fuel
      = (List.range m).map (fun j : Nat => ((es.length : Int) - 1 - (j : Nat)) % 120000) := by
  unfold cache_log_query_indices
  by_cases he : es = []
  · obtain ⟨hh, _⟩ := hinv.1 he
    rw [if_neg (by omega)]
    exact ⟨0, by omega, rfl⟩
  · obtain ⟨ht, hh⟩ := hinv.2.1 he
    have hl : 1 ≤ es.length := List.length_pos.mpr he
    have hh0 : 0 ≤ s.head := by rw [hh]; split_ifs <;> omega
    have hdec : (if s.tail + 1 = 0 then (119999 : Int) else s.tail + 1 - 1)
        = ((es.length : Int) - 1 - (0 : Nat)) % 120000 := by
      rw [if_neg (by omega)]; simp [ht]
    obtain ⟨m, hm, hv⟩ := query_visits_spec s es hinv t0 fuel (min es.length 120000 - 1) 0
      (s.tail + 1) (by omega) hdec
    refine ⟨m, by omega, ?_⟩
    rw [if_pos hh0, hv]
    simp

theorem ring_indices_nodup (n m : Nat) (hm : m ≤ 120000) :
    ((List.range m).map (fun j : Nat => ((n : Int) - 1 - (j : Nat)) % 120000)).Nodup := by
  rw [List.nodup_map_iff_inj_on (List.nodup_range m)]
  intro a ha b hb hab
  rw [List.mem_range] at ha hb
  omega

/-- C29: for every sequence `es` of pushes onto a freshly set-up log (`head = tail = -1`,
any initial memory) every push succeeds, that is, writes at an index in `[0, 120000)`;
after the first push `head` and `tail` are in `[0, 120000)`; the next push writes at an
index in `[0, 120000)`; a query at that point (queries do not change the log) returns a
value within its 120000 steps of fuel; the indices it reads are in `[0, 120000)`,
pairwise different and at most `min (length es) 120000` many however many steps the
scan is allowed; and on the empty log it reads no entry.  The same holds for the core
log. -/
theorem log_indices_in_range (mem : Int → cache_log_entry) (es : List cache_log_entry)
    (t0 t1 : ℚ) (fuel : Nat) :
    ∃ s, cache_log_push_all (log_setup mem) es = some s ∧
      core_log_push_all (log_setup mem) es = some s ∧
      (es ≠ [] → (0 ≤ s.head ∧ s.head < 120000) ∧ (0 ≤ s.tail ∧ s.tail < 120000)) ∧
      (0 ≤ cache_log_push_index s ∧ cache_log_push_index s < 120000) ∧
      (∃ v, cache_log_query_throughput s t0 t1 = some v ∧
        core_log_query_throughput s t0 t1 = some v) ∧
      (∀ i ∈ cache_log_query_indices s t0 fuel, 0 ≤ i ∧ i < 120000) ∧
      (cache_log_query_indices s t0 fuel).Nodup ∧
      (cache_log_query_indices s t0 fuel).length ≤ min es.length 120000 ∧
      (es = [] → cache_log_query_indices s t0 fuel = []) := by
  obtain ⟨s, hs, hinv⟩ := ring_inv_push_all es [] (log_setup mem) (ring_inv_setup mem)
  rw [List.nil_append] at hinv
  obtain ⟨m, hm, hv⟩ := query_indices_spec s es hinv t0 fuel
  have hq := query_of_ring_inv_scan s es hinv t0 t1
  refine ⟨s, hs, by rw [core_log_push_all_eq, hs], ?_, ?_, ⟨_, hq, by
    rw [core_log_query_throughput_eq, hq]⟩, ?_, ?_, ?_, ?_⟩
  · intro he
    obtain ⟨ht, hh⟩ := hinv.2.1 he
    have hl : 1 ≤ es.length := List.length_pos.mpr he
    refine ⟨⟨?_, ?_⟩, ⟨?_, ?_⟩⟩
    · rw [hh]; split_ifs <;> omega
    · rw [hh]; split_ifs <;> omega
    · rw [ht]; omega
    · rw [ht]; omega
  · unfold cache_log_push_index
    simp only [CACHE_LOG_SIZE]
    by_cases he : es = []
    · obtain ⟨_, ht⟩ := hinv.1 he
      rw [ht]; decide
    · obtain ⟨ht, _⟩ := hinv.2.1 he
      have hl : 1 ≤ es.length := List.length_pos.mpr he
      rw [tmod_log_size _ (by rw [ht]; omega)]
      omega
  · intro i hi
    rw [hv, List.mem_map] at hi
    obtain ⟨j, _, rfl⟩ := hi
    omega
  · rw [hv]
    exact ring_indices_nodup es.length m (by omega)
  · rw [hv, List.length_map, List.length_range]
    exact hm
  · intro he
    subst he
    have : m = 0 := by simpa using hm
    rw [hv, this]
    rfl
/-- The entries read by the query loop are those at the indices of
`cache_log_query_visits`: whenever the loop returns, its value is the newest-first scan
over the entries at these indices. -/
theorem query_loop_reads_visits (s : DeviceLog) (t0 t1 : ℚ) :
    ∀ (fuel : Nat) (i : Int) (kb v : ℚ),
      cache_log_query_loop s t0 t1 fuel i kb = some v →
      v = scan_entries t0 t1 ((cache_log_query_visits s t0 fuel i).map s.log) kb := by
  intro fuel
  induction fuel with
  | zero => intro i kb v h; simp [cache_log_query_loop] at h
  | succ f ih =>
    intro i kb v h
    unfold cache_log_query_loop at h
    unfold cache_log_query_visits
    simp only [] at h ⊢
    generalize (if i = 0 then CACHE_LOG_SIZE - 1 else i - 1) = j at h ⊢
    by_cases c1 : 0 ≤ j ∧ j < CACHE_LOG_SIZE
    · rw [if_pos c1] at h ⊢
      by_cases c2 : (s.log j).finish_time_ms ≤ t0
      · rw [if_pos c2] at h ⊢
        simp only [List.map_cons, List.map_nil, scan_entries, if_pos c2]
        exact (Option.some.inj h).symm
      · rw [if_neg c2] at h ⊢
        by_cases c3 : j ≠ s.head
        · rw [if_pos c3] at h ⊢
          simp only [List.map_cons, scan_entries, if_neg c2]
          exact ih _ _ _ h
        · rw [if_neg c3] at h ⊢
          simp only [List.map_cons, List.map_nil, scan_entries, if_neg c2]
          exact (Option.some.inj h).symm
    · rw [if_neg c1] at h
      exact absurd h (by simp)
theorem query_loop_nonneg (s : DeviceLog) (t0 t1 : ℚ) :
    ∀ (fuel : Nat) (i : Int) (kb v : ℚ), 0 ≤ kb →
      cache_log_query_loop s t0 t1 fuel i kb = some v → 0 ≤ v := by
  intro fuel
  induction fuel with
  | zero => intro i kb v _ h; simp [cache_log_query_loop] at h
  | succ f ih =>
    intro i kb v hkb h
    unfold cache_log_query_loop at h
    simp only [] at h
    generalize (if i = 0 then CACHE_LOG_SIZE - 1 else i - 1) = j at h
    have hkb2 : 0 ≤ (if (s.log j).finish_time_ms ≤ t1 then kb + ((s.log j).bytes : ℚ) / 1024
        else kb) := by
      split_ifs
      · positivity
      · exact hkb
    by_cases c1 : 0 ≤ j ∧ j < CACHE_LOG_SIZE
    · rw [if_pos c1] at h
      by_cases c2 : (s.log j).finish_time_ms ≤ t0
      · rw [if_pos c2] at h
        cases h; exact hkb
      · rw [if_neg c2] at h
        by_cases c3 : j ≠ s.head
        · rw [if_pos c3] at h
          exact ih _ _ _ hkb2 h
        · rw [if_neg c3] at h
          cases h; exact hkb2
    · rw [if_neg c1] at h
      exact absurd h (by simp)

theorem query_throughput_nonneg (s : DeviceLog) (t0 t1 v : ℚ) (ht : t0 < t1)
    (h : cache_log_query_throughput s t0 t1 = some v) : 0 ≤ v := by
  unfold cache_log_query_throughput at h
  simp only [] at h
  have hd : 0 < t1 - t0 := by linarith
  by_cases hh : 0 ≤ s.head
  · rw [if_pos hh] at h
    cases hq : cache_log_query_loop s t0 t1 CACHE_LOG_SIZE.toNat (s.tail + 1) 0 with
    | none => rw [hq] at h; simp at h
    | some k =>
      rw [hq] at h
      simp only [Option.map_some'] at h
      cases h
      have := query_loop_nonneg s t0 t1 _ _ _ _ (le_refl 0) hq
      positivity
  · rw [if_neg hh] at h
    simp only [Option.map_some'] at h
    cases h
    simp

theorem get_throughput_nonneg (cache core : DeviceLog) (cur v : ℚ)
    (h : get_throughput_value cache core cur = some v) : 0 ≤ v := by
  unfold get_throughput_value at h
  simp only [] at h
  have ht : cur - (MEASURE_THROUGHPUT_INTERVAL_US : ℚ) / 1000 < cur := by
    norm_num [MEASURE_THROUGHPUT_INTERVAL_US]
  cases ha : cache_log_query_throughput cache
      (cur - (MEASURE_THROUGHPUT_INTERVAL_US : ℚ) / 1000) cur with
  | none => rw [ha] at h; simp at h
  | some a =>
    cases hb : core_log_query_throughput core
        (cur - (MEASURE_THROUGHPUT_INTERVAL_US : ℚ) / 1000) cur with
    | none => rw [ha, hb] at h; simp at h
    | some b =>
      rw [ha, hb] at h
      cases h
      rw [core_log_query_throughput_eq] at hb
      have := query_throughput_nonneg cache _ _ a ht ha
      have := query_throughput_nonneg core _ _ b ht hb
      linarith


/-! ## Monitor: stability detection -/

theorem wait_samples_append (a b : List MonEvent) :
    wait_samples (a ++ b) = wait_samples a ++ wait_samples b := by
  induction a with
  | nil => rfl
  | cons e rest ih =>
    cases e with
    | sample site t d l v => cases site <;> simp [wait_samples, ih]
    | _ => simp [wait_samples, ih]

theorem unstable_iff (m last : ℚ) :
    (m < last - WAIT_STABLE_THRESHOLD ∨ m > last + WAIT_STABLE_THRESHOLD) ↔
      |m - last| > WAIT_STABLE_THRESHOLD := by
  show _ ↔ WAIT_STABLE_THRESHOLD < |m - last|
  rw [lt_abs]
  constructor
  · rintro (h | h)
    · right; linarith
    · left; linarith
  · rintro (h | h)
    · right; linarith
    · left; linarith

theorem wait_stable_loop_samples (env : MonEnv) :
    ∀ (fuel : Nat) (s : MonState) (last m : ℚ),
      ∃ es, (wait_stable_loop env fuel s last m).state.events = s.events ++ es ∧
        (∀ m1 s1, wait_stable_loop env fuel s last m = MonResult.done m1 s1 →
          stable_run last (m :: wait_samples es) m1) ∧
        (∀ s1, wait_stable_loop env fuel s last m = MonResult.exited s1 →
          unstable_run last (m :: wait_samples es)) ∧
        (∀ s1, wait_stable_loop env fuel s last m = MonResult.no_fuel s1 →
          unstable_run last (m :: wait_samples es).dropLast) := by
  intro fuel
  induction fuel with
  | zero =>
    intro s last m
    refine ⟨[], by simp [wait_stable_loop, MonResult.state], ?_, ?_, ?_⟩
    · intro m1 s1 h; simp [wait_stable_loop] at h
    · intro s1 h; simp [wait_stable_loop] at h
    · intro s1 _; simp [wait_samples, unstable_run]
  | succ f ih =>
    intro s last m
    unfold wait_stable_loop
    by_cases c : m < last - WAIT_STABLE_THRESHOLD ∨ m > last + WAIT_STABLE_THRESHOLD
    · rw [if_pos c]
      have hu := (unstable_iff m last).mp c
      by_cases hstop : env.should_stop (usleep s WAIT_STABLE_SLEEP_INTERVAL_US).tick = true
      · rw [sample_exit env _ _ hstop]
        refine ⟨[MonEvent.usleep WAIT_STABLE_SLEEP_INTERVAL_US, MonEvent.thread_exit],
          by simp [usleep, MonResult.state], ?_, ?_, ?_⟩
        · intro m1 s1 h; simp at h
        · intro s1 _; simp [wait_samples, unstable_run, hu]
        · intro s1 h; simp at h
      · rw [sample_events env _ _ (by simpa using hstop)]
        simp only []
        obtain ⟨es, h0, h1, h2, h3⟩ := ih
          { usleep s WAIT_STABLE_SLEEP_INTERVAL_US with
            tick := (usleep s WAIT_STABLE_SLEEP_INTERVAL_US).tick + 1,
            events := (usleep s WAIT_STABLE_SLEEP_INTERVAL_US).events ++
              [MonEvent.sample Site.wait_stable (usleep s WAIT_STABLE_SLEEP_INTERVAL_US).tick
                (MonState.global_data_admit (usleep s WAIT_STABLE_SLEEP_INTERVAL_US))
                (MonState.global_load_admit (usleep s WAIT_STABLE_SLEEP_INTERVAL_US))
                (env.miss_ratio (usleep s WAIT_STABLE_SLEEP_INTERVAL_US).tick)] }
          m (env.miss_ratio (usleep s WAIT_STABLE_SLEEP_INTERVAL_US).tick)
        refine ⟨[MonEvent.usleep WAIT_STABLE_SLEEP_INTERVAL_US,
            MonEvent.sample Site.wait_stable s.tick s.global_data_admit s.global_load_admit
              (env.miss_ratio s.tick)] ++ es, ?_, ?_, ?_, ?_⟩
        · rw [h0]; simp [usleep]
        · intro m1 s1 h
          have := h1 m1 s1 h
          simpa [wait_samples_append, wait_samples, stable_run, usleep, hu] using this
        · intro s1 h
          have := h2 s1 h
          simpa [wait_samples_append, wait_samples, unstable_run, usleep, hu] using this
        · intro s1 h
          have := h3 s1 h
          simpa [wait_samples_append, wait_samples, unstable_run, usleep, hu,
            List.dropLast_cons₂] using this
    · rw [if_neg c]
      have hs : |m - last| ≤ WAIT_STABLE_THRESHOLD := by
        rw [← not_lt]
        exact fun h => c ((unstable_iff m last).mpr h)
      refine ⟨[], by simp [MonResult.state], ?_, ?_, ?_⟩
      · intro m1 s1 h
        cases h
        simp [wait_samples, stable_run, hs]
      · intro s1 h; simp at h
      · intro s1 h; simp at h

/-- C27: in the events appended by `monitor_wait_stable`, when it returns `m` the samples
it took form a stable run from `last = -0.1`: every sample but the final one differs from
the one before it by more than 0.0015, the final one by at most 0.0015, and `m` is the
final sample; when the thread exits every sample taken differs from the one before it by
more than 0.0015, and when the fuel runs out so does every sample but the one just
taken. -/
theorem wait_stable_returns_stable_sample (env : MonEnv) (fuel : Nat) (s : MonState) :
    ∃ es, ( monitor_wait_stable env fuel s).state.events = s.events ++ es ∧
      (∀ m s1, monitor_wait_stable env fuel s = MonResult.done m s1 →
        stable_run (-(1 / 10)) (wait_samples es) m) ∧
      (∀ s1, monitor_wait_stable env fuel s = MonResult.exited s1 →
        unstable_run (-(1 / 10)) (wait_samples es)) ∧
      (∀ s1, monitor_wait_stable env fuel s = MonResult.no_fuel s1 →
        unstable_run (-(1 / 10)) (wait_samples es).dropLast) := by
  unfold monitor_wait_stable
  by_cases hstop : env.should_stop s.tick = true
  · rw [sample_exit env _ _ hstop]
    refine ⟨[MonEvent.thread_exit], rfl, ?_, ?_, ?_⟩
    · intro m s1 h; simp at h
    · intro s1 _; simp [wait_samples, unstable_run]
    · intro s1 h; simp at h
  · rw [sample_events env _ _ (by simpa using hstop)]
    simp only []
    obtain ⟨es, h0, h1, h2, h3⟩ := wait_stable_loop_samples env fuel
      { s with tick := s.tick + 1,
               events := s.events ++ [MonEvent.sample Site.wait_stable s.tick
                 s.global_data_admit s.global_load_admit (env.miss_ratio s.tick)] }
      (-(1 / 10)) (env.miss_ratio s.tick)
    refine ⟨MonEvent.sample Site.wait_stable s.tick s.global_data_admit s.global_load_admit
      (env.miss_ratio s.tick) :: es, ?_, ?_, ?_, ?_⟩
    · rw [h0]; simp
    · intro m s1 h; simpa [wait_samples] using h1 m s1 h
    · intro s1 h; simpa [wait_samples] using h2 s1 h
    · intro s1 h; simpa [wait_samples] using h3 s1 h
/-! ## Monitor: workload change check -/

theorem change_rule_quiet (l : ℚ) (c n : Bool) (a b : List MonEvent)
    (ha : a.all no_sample = true) :
    change_rule l c n (a ++ b) = change_rule l c n b := by
  induction a with
  | nil => rfl
  | cons e rest ih =>
    rw [List.all_cons, Bool.and_eq_true] at ha
    cases e with
    | sample site t d la m => simp [no_sample] at ha
    | _ => simpa [change_rule] using ih ha.2

theorem change_rule_calm (l : ℚ) (c n : Bool) (a b : List MonEvent)
    (ha : a.all (calm_event l) = true) (hb : b ≠ []) :
    change_rule l c n (a ++ b) = change_rule l c n b := by
  induction a with
  | nil => rfl
  | cons e rest ih =>
    rw [List.all_cons, Bool.and_eq_true] at ha
    have hne : (rest ++ b).isEmpty = false := by
      cases rest <;> cases b <;> simp_all
    cases e with
    | sample site t d la m =>
      cases site with
      | wait_stable => simpa [change_rule] using ih ha.2
      | tune =>
        have hm : ¬ l < m := by
          have := ha.1
          simp only [calm_event, decide_eq_true_eq] at this
          exact not_lt.mpr this
        simp only [List.cons_append, change_rule, List.append_eq, if_neg hm, hne,
          Bool.not_false, Bool.true_or, Bool.true_and]
        exact ih ha.2
    | _ => simpa [change_rule] using ih ha.2

theorem change_rule_split (l : ℚ) (c n : Bool) :
    ∀ (pre es post : List MonEvent) (t : Nat) (d : Bool) (la m : ℚ),
      change_rule l c n es = true →
      es = pre ++ MonEvent.sample Site.tune t d la m :: post →
      (l < m → post = [] ∧ c = true) ∧ (m ≤ l → post = [] → n = true) := by
  intro pre
  induction pre with
  | nil =>
    intro es post t d la m h he
    subst he
    simp only [List.nil_append, change_rule] at h
    by_cases hm : l < m
    · rw [if_pos hm, Bool.and_eq_true, List.isEmpty_iff] at h
      exact ⟨fun _ => h, fun h2 => absurd hm (not_lt.mpr h2)⟩
    · rw [if_neg hm, Bool.and_eq_true] at h
      refine ⟨fun h2 => absurd h2 hm, fun _ hp => ?_⟩
      subst hp
      simpa using h.1
  | cons e rest ih =>
    intro es post t d la m h he
    subst he
    have hne : (rest ++ MonEvent.sample Site.tune t d la m :: post).isEmpty = false := by
      cases rest <;> simp
    have key : change_rule l c n (rest ++ MonEvent.sample Site.tune t d la m :: post)
        = true := by
      cases e with
      | sample site t1 d1 la1 m1 =>
        cases site with
        | wait_stable => simpa [change_rule] using h
        | tune =>
          simp only [List.cons_append, change_rule, List.append_eq] at h
          by_cases hm : l < m1
          · rw [if_pos hm, hne] at h
            simp at h
          · rw [if_neg hm, Bool.and_eq_true] at h
            exact h.2
      | _ => simpa [change_rule] using h
    exact ih _ post t d la m key rfl
theorem probe_upper_quiet (env : MonEnv) (s : MonState) (la : ℚ) :
    extends_by no_sample s (probe_upper env s la).2 := by
  unfold probe_upper
  split_ifs with h
  · exact extends_by_refl _ _
  · exact extends_by_events _ (measure_events env s la) (by simp [no_sample])

theorem probe_lower_quiet (env : MonEnv) (s : MonState) (la : ℚ) :
    extends_by no_sample s (probe_lower env s la).2 := by
  unfold probe_lower
  split_ifs with h
  · exact extends_by_refl _ _
  · exact extends_by_events _ (measure_events env s la) (by simp [no_sample])

theorem tune_probes_quiet (env : MonEnv) (s : MonState) :
    extends_by no_sample s (tune_probes env s).2 :=
  extends_by_trans (extends_by_events _ (measure_events env s s.global_load_admit)
      (by simp [no_sample]))
    (extends_by_trans (probe_upper_quiet env _ _)
      (extends_by_trans (probe_lower_quiet env _ _)
        (extends_by_events [MonEvent.set_load s.global_load_admit] rfl rfl)))

theorem no_sample_calm (l : ℚ) (es : List MonEvent) (h : es.all no_sample = true) :
    es.all (calm_event l) = true := by
  rw [List.all_eq_true] at h ⊢
  intro e he
  have := h e he
  cases e <;> simp_all [no_sample, calm_event]

theorem slope_loop_change_rule (env : MonEnv) (base : ℚ) :
    ∀ (fuel : Nat) (s : MonState) (la1 la2 la3 tp1 tp2 tp3 : ℚ),
      ∃ es, (slope_loop env base fuel s la1 la2 la3 tp1 tp2 tp3).state.events = s.events ++ es ∧
        change_rule (base + WORKLOAD_CHANGE_THRESHOLD)
          (slope_loop env base fuel s la1 la2 la3 tp1 tp2 tp3).slope_returned
          (!(slope_loop env base fuel s la1 la2 la3 tp1 tp2 tp3).finished) es = true ∧
        (es = [] → (slope_loop env base fuel s la1 la2 la3 tp1 tp2 tp3).finished = false) ∧
        ((slope_loop env base fuel s la1 la2 la3 tp1 tp2 tp3).slope_returned = false →
          es.all (calm_event (base + WORKLOAD_CHANGE_THRESHOLD)) = true) := by
  intro fuel
  induction fuel with
  | zero =>
    intro s la1 la2 la3 tp1 tp2 tp3
    exact ⟨[], by simp [slope_loop, MonResult.state], rfl, fun _ => rfl, fun _ => rfl⟩
  | succ f ih =>
    intro s la1 la2 la3 tp1 tp2 tp3
    unfold slope_loop
    by_cases hstop : env.should_stop s.tick = true
    · rw [sample_exit env _ s hstop]
      exact ⟨[MonEvent.thread_exit], rfl, rfl, by simp, fun _ => rfl⟩
    · rw [sample_events env _ s (by simpa using hstop)]
      simp only []
      by_cases c1 : env.miss_ratio s.tick > base + WORKLOAD_CHANGE_THRESHOLD
      · rw [if_pos c1]
        refine ⟨[MonEvent.sample Site.tune s.tick s.global_data_admit s.global_load_admit
          (env.miss_ratio s.tick)], rfl, ?_, by simp, ?_⟩
        · simp [change_rule, MonResult.slope_returned, gt_iff_lt.mp c1]
        · intro h; simp [MonResult.slope_returned] at h
      · rw [if_neg c1]
        have hm : ¬ base + WORKLOAD_CHANGE_THRESHOLD < env.miss_ratio s.tick := c1
        have hle : env.miss_ratio s.tick ≤ base + WORKLOAD_CHANGE_THRESHOLD := not_lt.mp c1
        have commit : ∀ v : ℚ,
            ∃ es, (MonResult.done SlopeExit.brk ( monitor_set_load_admit
                { s with tick := s.tick + 1,
                         events := s.events ++ [MonEvent.sample Site.tune s.tick
                           s.global_data_admit s.global_load_admit
                           (env.miss_ratio s.tick)] } v)).state.events = s.events ++ es ∧
              change_rule (base + WORKLOAD_CHANGE_THRESHOLD) false false es = true ∧
              (es = [] → False) ∧
              es.all (calm_event (base + WORKLOAD_CHANGE_THRESHOLD)) = true := by
          intro v
          refine ⟨[MonEvent.sample Site.tune s.tick s.global_data_admit s.global_load_admit
            (env.miss_ratio s.tick), MonEvent.set_load v],
            by simp [MonResult.state, monitor_set_load_admit], ?_, by simp, ?_⟩
          · simp [change_rule, hm]
          · simp [calm_event, hle]
        have shift : ∀ (s2 : MonState) (a1 a2 a3 b1 b2 b3 : ℚ),
            extends_by no_sample
              { s with tick := s.tick + 1,
                       events := s.events ++ [MonEvent.sample Site.tune s.tick
                         s.global_data_admit s.global_load_admit
                         (env.miss_ratio s.tick)] } s2 →
            ∃ es, (slope_loop env base f s2 a1 a2 a3 b1 b2 b3).state.events = s.events ++ es ∧
              change_rule (base + WORKLOAD_CHANGE_THRESHOLD)
                (slope_loop env base f s2 a1 a2 a3 b1 b2 b3).slope_returned
                (!(slope_loop env base f s2 a1 a2 a3 b1 b2 b3).finished) es = true ∧
              (es = [] → (slope_loop env base f s2 a1 a2 a3 b1 b2 b3).finished = false) ∧
              ((slope_loop env base f s2 a1 a2 a3 b1 b2 b3).slope_returned = false →
                es.all (calm_event (base + WORKLOAD_CHANGE_THRESHOLD)) = true) := by
          intro s2 a1 a2 a3 b1 b2 b3 hq
          obtain ⟨pe, hpe, hpq⟩ := hq
          obtain ⟨es, h0, h1, h2, h3⟩ := ih s2 a1 a2 a3 b1 b2 b3
          refine ⟨MonEvent.sample Site.tune s.tick s.global_data_admit s.global_load_admit
            (env.miss_ratio s.tick) :: (pe ++ es), ?_, ?_, by simp, ?_⟩
          · rw [h0, hpe]; simp
          · simp only [change_rule, if_neg hm, Bool.and_eq_true, Bool.or_eq_true,
              Bool.not_eq_true']
            refine ⟨?_, by rw [change_rule_quiet _ _ _ _ _ hpq]; exact h1⟩
            by_cases hemp : pe ++ es = []
            · right
              have : es = [] := (List.append_eq_nil.mp hemp).2
              simp [h2 this]
            · left
              cases hl : pe ++ es
              · exact absurd hl hemp
              · rfl
          · intro hr
            rw [List.all_cons, List.all_append, no_sample_calm _ pe hpq, h3 hr]
            simp [calm_event, hle]
        split_ifs with c2 c3 c4 c5 c6
        · obtain ⟨es, h0, h1, h2, h3⟩ := commit la2
          exact ⟨es, h0, h1, fun h => (h2 h).elim, fun _ => h3⟩
        · obtain ⟨es, h0, h1, h2, h3⟩ := commit 1
          exact ⟨es, h0, h1, fun h => (h2 h).elim, fun _ => h3⟩
        · exact shift _ _ _ _ _ _ _ (probe_upper_quiet env _ _)
        · obtain ⟨es, h0, h1, h2, h3⟩ := commit 0
          exact ⟨es, h0, h1, fun h => (h2 h).elim, fun _ => h3⟩
        · exact shift _ _ _ _ _ _ _ (probe_lower_quiet env _ _)
        · exact shift _ _ _ _ _ _ _ (extends_by_refl _ _)
theorem tune_loop_change_rule (env : MonEnv) (base : ℚ) :
    ∀ (fuel : Nat) (s : MonState) (sc : Bool),
      ∃ es, (tune_loop env base fuel s sc).state.events = s.events ++ es ∧
        change_rule (base + WORKLOAD_CHANGE_THRESHOLD)
          (tune_loop env base fuel s sc).ended_by_change
          (!(tune_loop env base fuel s sc).finished) es = true := by
  intro fuel
  induction fuel with
  | zero =>
    intro s sc
    exact ⟨[], by simp [tune_loop, MonResult.state], rfl⟩
  | succ f ih =>
    intro s sc
    obtain ⟨pe, hpe, hpq⟩ := tune_probes_quiet env s
    obtain ⟨es1, h0, h1, _, h3⟩ := slope_loop_change_rule env base f (tune_probes env s).2
      (tune_probes env s).1.1 (tune_probes env s).1.2.1 (tune_probes env s).1.2.2.1
      (tune_probes env s).1.2.2.2.1 (tune_probes env s).1.2.2.2.2.1
      (tune_probes env s).1.2.2.2.2.2
    unfold tune_loop
    simp only []
    generalize slope_loop env base f (tune_probes env s).2
      (tune_probes env s).1.1 (tune_probes env s).1.2.1 (tune_probes env s).1.2.2.1
      (tune_probes env s).1.2.2.2.1 (tune_probes env s).1.2.2.2.2.1
      (tune_probes env s).1.2.2.2.2.2 = r at h0 h1 h3
    have same : ∀ r0 : MonResult TuneExit, r0.state = r.state →
        r0.ended_by_change = r.slope_returned → r0.finished = r.finished →
        ∃ es, r0.state.events = s.events ++ es ∧
          change_rule (base + WORKLOAD_CHANGE_THRESHOLD) r0.ended_by_change
            (!r0.finished) es = true := by
      intro r0 e1 e2 e3
      refine ⟨pe ++ es1, by rw [e1, h0, hpe, List.append_assoc], ?_⟩
      rw [e2, e3, change_rule_quiet _ _ _ _ _ hpq]
      exact h1
    cases r with
    | exited s1 => exact same _ rfl rfl rfl
    | no_fuel s1 => exact same _ rfl rfl rfl
    | done e s1 =>
      cases e with
      | ret => exact same _ rfl rfl rfl
      | brk =>
        simp only [MonResult.state] at h0
        have hcalm := h3 rfl
        simp only []
        have after : ∀ (r0 : MonResult TuneExit) (es2 : List MonEvent),
            r0.state.events = s1.events ++ [MonEvent.intensity_check
              ( monitor_query_load_admit s1)] ++ es2 →
            change_rule (base + WORKLOAD_CHANGE_THRESHOLD) r0.ended_by_change
              (!r0.finished) es2 = true →
            ∃ es, r0.state.events = s.events ++ es ∧
              change_rule (base + WORKLOAD_CHANGE_THRESHOLD) r0.ended_by_change
                (!r0.finished) es = true := by
          intro r0 es2 e1 e2
          refine ⟨pe ++ (es1 ++ (MonEvent.intensity_check ( monitor_query_load_admit s1)
            :: es2)), ?_, ?_⟩
          · rw [e1, h0, hpe]; simp
          · rw [change_rule_quiet _ _ _ _ _ hpq,
              change_rule_calm _ _ _ _ _ hcalm (by simp)]
            simpa [change_rule] using e2
        split_ifs with a b
        · obtain ⟨es2, g0, g1⟩ := ih
            { s1 with events := s1.events ++ [MonEvent.intensity_check
              ( monitor_query_load_admit s1)] } false
          exact after _ es2 g0 g1
        · exact after _ [] (by simp [MonResult.state]) rfl
        · obtain ⟨es2, g0, g1⟩ := ih
            { s1 with events := s1.events ++ [MonEvent.intensity_check
              ( monitor_query_load_admit s1)] } sc
          exact after _ es2 g0 g1

/-- C23: in the events appended by `monitor_tune_load_admit`, a miss-ratio sample `m`
of the slope-following loop with `m > base_miss_ratio + 0.2` is the last event and the
function has returned through the workload change check (no probe and no write of
`load_admit` follows); a sample with `m ≤ base_miss_ratio + 0.2` is never the point of
return: it is followed by further events unless the run of the model was cut off by its
fuel. -/
theorem workload_change_check (env : MonEnv) (base_miss_ratio : ℚ) (fuel : Nat)
    (s : MonState) :
    ∃ es, ( monitor_tune_load_admit env base_miss_ratio fuel s).state.events
        = s.events ++ es ∧
      ∀ (pre post : List MonEvent) (t : Nat) (d : Bool) (la m : ℚ),
        es = pre ++ MonEvent.sample Site.tune t d la m :: post →
        (base_miss_ratio + WORKLOAD_CHANGE_THRESHOLD < m →
          post = [] ∧
          ( monitor_tune_load_admit env base_miss_ratio fuel s).ended_by_change = true) ∧
        (m ≤ base_miss_ratio + WORKLOAD_CHANGE_THRESHOLD → post = [] →
          ( monitor_tune_load_admit env base_miss_ratio fuel s).finished = false) := by
  obtain ⟨es, h0, h1⟩ := tune_loop_change_rule env base_miss_ratio fuel s true
  refine ⟨es, h0, ?_⟩
  intro pre post t d la m he
  obtain ⟨g1, g2⟩ := change_rule_split _ _ _ pre es post t d la m h1 he
  refine ⟨g1, fun hm hp => ?_⟩
  have := g2 hm hp
  simpa using this
/-! ## Monitor: decisions of the slope-following loop -/

theorem slope_branch_cases (tp1 tp2 tp3 : ℚ) :
    (slope_branch tp1 tp2 tp3 = SlopeBranch.stay ↔ tp2 ≥ tp1 ∧ tp2 ≥ tp3) ∧
      (slope_branch tp1 tp2 tp3 = SlopeBranch.up ↔ ¬(tp2 ≥ tp1 ∧ tp2 ≥ tp3) ∧ tp3 ≥ tp1) ∧
      (slope_branch tp1 tp2 tp3 = SlopeBranch.down ↔ tp1 > tp2 ∧ tp1 > tp3) ∧
      slope_branch tp1 tp2 tp3 ≠ SlopeBranch.undecided := by
  unfold slope_branch
  by_cases c1 : tp2 ≥ tp1 ∧ tp2 ≥ tp3
  · rw [if_pos c1]
    refine ⟨by simp [c1], by simp [c1], ?_, by simp⟩
    constructor
    · intro h; cases h
    · intro h; exact absurd c1.1 (not_le.mpr h.1)
  · rw [if_neg c1]
    by_cases c2 : tp3 ≥ tp1 ∧ tp3 ≥ tp2
    · rw [if_pos c2]
      refine ⟨by simp [c1], by simp [c1, c2.1], ?_, by simp⟩
      constructor
      · intro h; cases h
      · intro h; exact absurd c2.1 (not_le.mpr h.2)
    · rw [if_neg c2]
      have h31 : tp3 < tp1 := by
        by_contra h
        push_neg at h
        apply c2
        refine ⟨h, ?_⟩
        by_contra h2
        push_neg at h2
        exact c1 ⟨le_trans h (le_of_lt h2), le_of_lt h2⟩
      have h21 : tp2 < tp1 := by
        by_contra h
        push_neg at h
        exact c1 ⟨h, le_trans (le_of_lt h31) h⟩
      rw [if_pos ⟨le_of_lt h21, le_of_lt h31⟩]
      refine ⟨by simp [c1], ?_, by simp [h21, h31], by simp⟩
      constructor
      · intro h; cases h
      · intro h; exact absurd h.2 (not_le.mpr h31)

theorem slope_loop_decide (env : MonEnv) (base : ℚ) (f : Nat) (s : MonState)
    (la1 la2 la3 tp1 tp2 tp3 : ℚ) (hstop : env.should_stop s.tick = false)
    (hm : env.miss_ratio s.tick ≤ base + WORKLOAD_CHANGE_THRESHOLD) :
    slope_loop env base (f + 1) s la1 la2 la3 tp1 tp2 tp3 =
      match slope_branch tp1 tp2 tp3 with
      | SlopeBranch.stay =>
        MonResult.done SlopeExit.brk ( monitor_set_load_admit (after_sample env Site.tune s) la2)
      | SlopeBranch.up =>
        if la3 ≥ 1 then
          MonResult.done SlopeExit.brk ( monitor_set_load_admit (after_sample env Site.tune s) 1)
        else
          slope_loop env base f
            (probe_upper env (after_sample env Site.tune s) (la3 + LOAD_ADMIT_TUNING_STEP)).2
            la2 la3 (la3 + LOAD_ADMIT_TUNING_STEP) tp2 tp3
            (probe_upper env (after_sample env Site.tune s) (la3 + LOAD_ADMIT_TUNING_STEP)).1
      | SlopeBranch.down =>
        if la1 ≤ 0 then
          MonResult.done SlopeExit.brk ( monitor_set_load_admit (after_sample env Site.tune s) 0)
        else
          slope_loop env base f
            (probe_lower env (after_sample env Site.tune s) (la1 - LOAD_ADMIT_TUNING_STEP)).2
            (la1 - LOAD_ADMIT_TUNING_STEP) la1 la2
            (probe_lower env (after_sample env Site.tune s) (la1 - LOAD_ADMIT_TUNING_STEP)).1
            tp1 tp2
      | SlopeBranch.undecided =>
        slope_loop env base f (after_sample env Site.tune s) la1 la2 la3 tp1 tp2 tp3 := by
  conv_lhs => unfold slope_loop
  rw [sample_events env _ s hstop]
  simp only []
  rw [if_neg (not_lt.mpr hm)]
  unfold slope_branch after_sample
  split_ifs <;> rfl

theorem slope_loop_traced_fst (env : MonEnv) (base : ℚ) :
    ∀ (fuel : Nat) (s : MonState) (la1 la2 la3 tp1 tp2 tp3 : ℚ),
      (slope_loop_traced env base fuel s la1 la2 la3 tp1 tp2 tp3).1
        = slope_loop env base fuel s la1 la2 la3 tp1 tp2 tp3 := by
  intro fuel
  induction fuel with
  | zero => intro s la1 la2 la3 tp1 tp2 tp3; rfl
  | succ f ih =>
    intro s la1 la2 la3 tp1 tp2 tp3
    unfold slope_loop_traced slope_loop
    by_cases hstop : env.should_stop s.tick = true
    · rw [sample_exit env _ s hstop]
    · rw [sample_events env _ s (by simpa using hstop)]
      simp only []
      split_ifs
      · rfl
      · rfl
      · rfl
      · exact ih _ _ _ _ _ _ _
      · rfl
      · exact ih _ _ _ _ _ _ _
      · exact ih _ _ _ _ _ _ _
/-- C25: at a decision of the slope-following loop (a sample that passes the workload
change check) the branch is `stay` exactly when `tp2 ≥ tp1` and `tp2 ≥ tp3`, `up`
exactly when that fails and `tp3 ≥ tp1`, `down` exactly when `tp1 > tp2` and `tp1 > tp3`,
and never undecided, so exactly one of the three applies; and the loop does what the
branch says: `stay` commits `la2` and breaks, `up` clamps to 1.0 and breaks when
`la3 ≥ 1.0` and else shifts the window up, `down` clamps to 0.0 and breaks when
`la1 ≤ 0.0` and else shifts the window down. -/
theorem slope_decision_rule (env : MonEnv) (base_miss_ratio : ℚ) (f : Nat) (s : MonState)
    (la1 la2 la3 tp1 tp2 tp3 : ℚ) (hstop : env.should_stop s.tick = false)
    (hm : env.miss_ratio s.tick ≤ base_miss_ratio + WORKLOAD_CHANGE_THRESHOLD) :
    ((slope_branch tp1 tp2 tp3 = SlopeBranch.stay ↔ tp2 ≥ tp1 ∧ tp2 ≥ tp3) ∧
      (slope_branch tp1 tp2 tp3 = SlopeBranch.up ↔ ¬(tp2 ≥ tp1 ∧ tp2 ≥ tp3) ∧ tp3 ≥ tp1) ∧
      (slope_branch tp1 tp2 tp3 = SlopeBranch.down ↔ tp1 > tp2 ∧ tp1 > tp3) ∧
      slope_branch tp1 tp2 tp3 ≠ SlopeBranch.undecided) ∧
    slope_loop env base_miss_ratio (f + 1) s la1 la2 la3 tp1 tp2 tp3 =
      match slope_branch tp1 tp2 tp3 with
      | SlopeBranch.stay =>
        MonResult.done SlopeExit.brk ( monitor_set_load_admit (after_sample env Site.tune s) la2)
      | SlopeBranch.up =>
        if la3 ≥ 1 then
          MonResult.done SlopeExit.brk ( monitor_set_load_admit (after_sample env Site.tune s) 1)
        else
          slope_loop env base_miss_ratio f
            (probe_upper env (after_sample env Site.tune s) (la3 + LOAD_ADMIT_TUNING_STEP)).2
            la2 la3 (la3 + LOAD_ADMIT_TUNING_STEP) tp2 tp3
            (probe_upper env (after_sample env Site.tune s) (la3 + LOAD_ADMIT_TUNING_STEP)).1
      | SlopeBranch.down =>
        if la1 ≤ 0 then
          MonResult.done SlopeExit.brk ( monitor_set_load_admit (after_sample env Site.tune s) 0)
        else
          slope_loop env base_miss_ratio f
            (probe_lower env (after_sample env Site.tune s) (la1 - LOAD_ADMIT_TUNING_STEP)).2
            (la1 - LOAD_ADMIT_TUNING_STEP) la1 la2
            (probe_lower env (after_sample env Site.tune s) (la1 - LOAD_ADMIT_TUNING_STEP)).1
            tp1 tp2
      | SlopeBranch.undecided =>
        slope_loop env base_miss_ratio f (after_sample env Site.tune s) la1 la2 la3
          tp1 tp2 tp3 :=
  ⟨slope_branch_cases tp1 tp2 tp3,
    slope_loop_decide env base_miss_ratio f s la1 la2 la3 tp1 tp2 tp3 hstop hm⟩

/-- Witness for C25: a tie between `tp1` and `tp3` above `tp2` moves up. -/
theorem slope_decision_rule_witness :
    steady_env.should_stop rise_start.tick = false ∧
      steady_env.miss_ratio rise_start.tick ≤ 0 + WORKLOAD_CHANGE_THRESHOLD ∧
      (slope_branch 7 5 7 = SlopeBranch.up ↔ ¬((5 : ℚ) ≥ 7 ∧ (5 : ℚ) ≥ 7) ∧ (7 : ℚ) ≥ 7) :=
  ⟨rfl, by norm_num [steady_env, WORKLOAD_CHANGE_THRESHOLD],
    (slope_decision_rule steady_env 0 1 rise_start (49 / 100) (1 / 2) (51 / 100) 7 5 7 rfl
      (by norm_num [steady_env, WORKLOAD_CHANGE_THRESHOLD])).1.2.1⟩

theorem clamp_run_events :
    ( monitor_tune_load_admit clamp_env 0 3 clamp_start)
      = MonResult.done TuneExit.workload_change
      { global_data_admit := false, global_load_admit := 99 / 100, tick := 10,
        slept_us := 175000,
        events := [
        MonEvent.set_load (98 / 100), MonEvent.usleep 25000,
        MonEvent.probe 0 false (98 / 100) 5,
        MonEvent.set_load (99 / 100), MonEvent.usleep 25000,
        MonEvent.probe 1 false (99 / 100) 10,
        MonEvent.set_load (97 / 100), MonEvent.usleep 25000,
        MonEvent.probe 2 false (97 / 100) 5,
        MonEvent.set_load (98 / 100), MonEvent.sample Site.tune 3 false (98 / 100) 0,
        MonEvent.set_load 1, MonEvent.usleep 25000, MonEvent.probe 4 false 1 5,
        MonEvent.sample Site.tune 5 false 1 0,
        MonEvent.set_load (99 / 100), MonEvent.intensity_check (99 / 100),
        MonEvent.set_load (99 / 100), MonEvent.usleep 25000,
        MonEvent.probe 6 false (99 / 100) 5,
        MonEvent.set_load 1, MonEvent.usleep 25000, MonEvent.probe 7 false 1 5,
        MonEvent.set_load (98 / 100), MonEvent.usleep 25000,
        MonEvent.probe 8 false (98 / 100) 5,
        MonEvent.set_load (99 / 100), MonEvent.sample Site.tune 9 false (99 / 100) 1] } := by
  simp [ monitor_tune_load_admit, tune_loop, tune_probes, slope_loop, clamp_env, clamp_start,
    _get_miss_ratio, probe_upper, probe_lower, monitor_measure_throughput, _get_throughput,
    usleep, monitor_set_load_admit, monitor_query_load_admit, LOAD_ADMIT_TUNING_STEP,
    WORKLOAD_CHANGE_THRESHOLD, MEASURE_THROUGHPUT_INTERVAL_US]
  norm_num
/-- C24 (as stated, refuted): entered with `load_admit = 0.98` the first pass measures
`tp1 = 5`, `tp2 = 5`, `tp3 = 10` on the window `(0.97, 0.98, 0.99)`, so `tp3` is the
maximum and the upward shift makes the new `la3 = 0.99 + 0.01 ≥ 1.0`; the loop does not
clamp and break there: it probes `1.0`, samples the miss ratio again and ends by
committing `load_admit = 0.99`. -/
theorem shift_up_to_one_continues :
    (tune_probes clamp_env clamp_start).1 = (97 / 100, 98 / 100, 99 / 100, 5, 5, 10) ∧
      (99 / 100 : ℚ) + LOAD_ADMIT_TUNING_STEP ≥ 1 ∧
      slope_loop clamp_env 0 2 (tune_probes clamp_env clamp_start).2
          (97 / 100) (98 / 100) (99 / 100) 5 5 10
        = MonResult.done SlopeExit.brk
          { global_data_admit := false, global_load_admit := 99 / 100, tick := 6,
            slept_us := 100000,
            events := [
              MonEvent.set_load (98 / 100), MonEvent.usleep 25000,
              MonEvent.probe 0 false (98 / 100) 5,
              MonEvent.set_load (99 / 100), MonEvent.usleep 25000,
              MonEvent.probe 1 false (99 / 100) 10,
              MonEvent.set_load (97 / 100), MonEvent.usleep 25000,
              MonEvent.probe 2 false (97 / 100) 5,
              MonEvent.set_load (98 / 100), MonEvent.sample Site.tune 3 false (98 / 100) 0,
              MonEvent.set_load 1, MonEvent.usleep 25000, MonEvent.probe 4 false 1 5,
              MonEvent.sample Site.tune 5 false 1 0,
              MonEvent.set_load (99 / 100)] } := by
  refine ⟨?_, by norm_num [LOAD_ADMIT_TUNING_STEP], ?_⟩
  · simp [tune_probes, clamp_env, clamp_start, probe_upper, probe_lower,
      monitor_measure_throughput, _get_throughput, usleep, monitor_set_load_admit,
      monitor_query_load_admit, LOAD_ADMIT_TUNING_STEP]
    norm_num
  · simp [tune_probes, slope_loop, clamp_env, clamp_start,
      _get_miss_ratio, probe_upper, probe_lower, monitor_measure_throughput, _get_throughput,
      usleep, monitor_set_load_admit, monitor_query_load_admit, LOAD_ADMIT_TUNING_STEP,
      WORKLOAD_CHANGE_THRESHOLD, MEASURE_THROUGHPUT_INTERVAL_US]
    norm_num

/-- C24 (amended): at a decision of the slope-following loop where `tp3` is the maximum
and `tp2` is not (the `up` branch), for every value of the probes: when the current `la3`
is at least 1.0 the loop sets `load_admit` to 1.0 and ends there (clamp and break); when
`la3 < 1.0` it shifts the window up and continues, whatever the new `la3`. -/
theorem upper_clamp_rule (env : MonEnv) (base_miss_ratio : ℚ) (f : Nat) (s : MonState)
    (la1 la2 la3 tp1 tp2 tp3 : ℚ) (hstop : env.should_stop s.tick = false)
    (hm : env.miss_ratio s.tick ≤ base_miss_ratio + WORKLOAD_CHANGE_THRESHOLD)
    (h2 : ¬(tp2 ≥ tp1 ∧ tp2 ≥ tp3)) (h3 : tp3 ≥ tp1 ∧ tp3 ≥ tp2) :
    (la3 ≥ 1 →
      slope_loop env base_miss_ratio (f + 1) s la1 la2 la3 tp1 tp2 tp3
        = MonResult.done SlopeExit.brk
            ( monitor_set_load_admit (after_sample env Site.tune s) 1) ∧
      MonState.global_load_admit
        (slope_loop env base_miss_ratio (f + 1) s la1 la2 la3 tp1 tp2 tp3).state = 1 ∧
      (slope_loop env base_miss_ratio (f + 1) s la1 la2 la3 tp1 tp2 tp3).state.events
        = s.events ++ [MonEvent.sample Site.tune s.tick s.global_data_admit
            s.global_load_admit (env.miss_ratio s.tick), MonEvent.set_load 1]) ∧
    (la3 < 1 →
      slope_loop env base_miss_ratio (f + 1) s la1 la2 la3 tp1 tp2 tp3
        = slope_loop env base_miss_ratio f
            (probe_upper env (after_sample env Site.tune s) (la3 + LOAD_ADMIT_TUNING_STEP)).2
            la2 la3 (la3 + LOAD_ADMIT_TUNING_STEP) tp2 tp3
            (probe_upper env (after_sample env Site.tune s)
              (la3 + LOAD_ADMIT_TUNING_STEP)).1) := by
  have hb : slope_branch tp1 tp2 tp3 = SlopeBranch.up :=
    (slope_branch_cases tp1 tp2 tp3).2.1.mpr ⟨h2, h3.1⟩
  have hd := slope_loop_decide env base_miss_ratio f s la1 la2 la3 tp1 tp2 tp3 hstop hm
  rw [hb] at hd
  simp only [] at hd
  constructor
  · intro h
    rw [if_pos h] at hd
    rw [hd]
    exact ⟨rfl, rfl, by simp [MonResult.state, monitor_set_load_admit, after_sample]⟩
  · intro h
    rw [if_neg (not_le.mpr h)] at hd
    exact hd

/-- Witness for C24 (amended): the upper neighbour `la3 = 1.0` wins. -/
theorem upper_clamp_rule_witness :
    steady_env.should_stop rise_start.tick = false ∧
      steady_env.miss_ratio rise_start.tick ≤ 0 + WORKLOAD_CHANGE_THRESHOLD ∧
      MonState.global_load_admit
        (slope_loop steady_env 0 1 rise_start (98 / 100) (99 / 100) 1 5 5 10).state = 1 :=
  ⟨rfl, by norm_num [steady_env, WORKLOAD_CHANGE_THRESHOLD],
    ((upper_clamp_rule steady_env 0 0 rise_start (98 / 100) (99 / 100) 1 5 5 10 rfl
      (by norm_num [steady_env, WORKLOAD_CHANGE_THRESHOLD]) (by norm_num) (by norm_num)).1
      (by norm_num)).2.1⟩
/-! ## Monitor: the recorded decisions of a pass -/

theorem traced_exit (env : MonEnv) (base : ℚ) (f : Nat) (s : MonState)
    (la1 la2 la3 tp1 tp2 tp3 : ℚ) (hstop : env.should_stop s.tick = true) :
    slope_loop_traced env base (f + 1) s la1 la2 la3 tp1 tp2 tp3
      = (MonResult.exited { s with tick := s.tick + 1,
                                   events := s.events ++ [MonEvent.thread_exit] }, []) := by
  conv_lhs => unfold slope_loop_traced
  rw [sample_exit env _ s hstop]

theorem traced_ret (env : MonEnv) (base : ℚ) (f : Nat) (s : MonState)
    (la1 la2 la3 tp1 tp2 tp3 : ℚ) (hstop : env.should_stop s.tick = false)
    (hm : env.miss_ratio s.tick > base + WORKLOAD_CHANGE_THRESHOLD) :
    slope_loop_traced env base (f + 1) s la1 la2 la3 tp1 tp2 tp3
      = (MonResult.done SlopeExit.ret (after_sample env Site.tune s), []) := by
  conv_lhs => unfold slope_loop_traced
  rw [sample_events env _ s hstop]
  simp only []
  rw [if_pos hm]
  rfl

theorem traced_decide (env : MonEnv) (base : ℚ) (f : Nat) (s : MonState)
    (la1 la2 la3 tp1 tp2 tp3 : ℚ) (hstop : env.should_stop s.tick = false)
    (hm : ¬ env.miss_ratio s.tick > base + WORKLOAD_CHANGE_THRESHOLD) :
    slope_loop_traced env base (f + 1) s la1 la2 la3 tp1 tp2 tp3 =
      match slope_branch tp1 tp2 tp3 with
      | SlopeBranch.stay =>
        (MonResult.done SlopeExit.brk
          ( monitor_set_load_admit (after_sample env Site.tune s) la2),
          [⟨la1, la2, la3, tp1, tp2, tp3⟩])
      | SlopeBranch.up =>
        if la3 ≥ 1 then
          (MonResult.done SlopeExit.brk
            ( monitor_set_load_admit (after_sample env Site.tune s) 1),
            [⟨la1, la2, la3, tp1, tp2, tp3⟩])
        else
          ((slope_loop_traced env base f
            (probe_upper env (after_sample env Site.tune s) (la3 + LOAD_ADMIT_TUNING_STEP)).2
            la2 la3 (la3 + LOAD_ADMIT_TUNING_STEP) tp2 tp3
            (probe_upper env (after_sample env Site.tune s)
              (la3 + LOAD_ADMIT_TUNING_STEP)).1).1,
           ⟨la1, la2, la3, tp1, tp2, tp3⟩ :: (slope_loop_traced env base f
            (probe_upper env (after_sample env Site.tune s) (la3 + LOAD_ADMIT_TUNING_STEP)).2
            la2 la3 (la3 + LOAD_ADMIT_TUNING_STEP) tp2 tp3
            (probe_upper env (after_sample env Site.tune s)
              (la3 + LOAD_ADMIT_TUNING_STEP)).1).2)
      | SlopeBranch.down =>
        if la1 ≤ 0 then
          (MonResult.done SlopeExit.brk
            ( monitor_set_load_admit (after_sample env Site.tune s) 0),
            [⟨la1, la2, la3, tp1, tp2, tp3⟩])
        else
          ((slope_loop_traced env base f
            (probe_lower env (after_sample env Site.tune s) (la1 - LOAD_ADMIT_TUNING_STEP)).2
            (la1 - LOAD_ADMIT_TUNING_STEP) la1 la2
            (probe_lower env (after_sample env Site.tune s)
              (la1 - LOAD_ADMIT_TUNING_STEP)).1 tp1 tp2).1,
           ⟨la1, la2, la3, tp1, tp2, tp3⟩ :: (slope_loop_traced env base f
            (probe_lower env (after_sample env Site.tune s) (la1 - LOAD_ADMIT_TUNING_STEP)).2
            (la1 - LOAD_ADMIT_TUNING_STEP) la1 la2
            (probe_lower env (after_sample env Site.tune s)
              (la1 - LOAD_ADMIT_TUNING_STEP)).1 tp1 tp2).2)
      | SlopeBranch.undecided =>
        ((slope_loop_traced env base f (after_sample env Site.tune s)
            la1 la2 la3 tp1 tp2 tp3).1,
         ⟨la1, la2, la3, tp1, tp2, tp3⟩ :: (slope_loop_traced env base f
            (after_sample env Site.tune s) la1 la2 la3 tp1 tp2 tp3).2) := by
  conv_lhs => unfold slope_loop_traced
  rw [sample_events env _ s hstop]
  simp only []
  rw [if_neg hm]
  unfold slope_branch after_sample
  split_ifs <;> rfl
theorem measure_value (env : MonEnv) (s : MonState) (la : ℚ) :
    (monitor_measure_throughput env s la).1 = env.throughput s.tick := rfl

theorem probe_upper_value (env : MonEnv) (s : MonState) (la : ℚ)
    (henv : ∀ k, 0 ≤ env.throughput k) :
    if la > 1 then (probe_upper env s la).1 = -(1 / 10) else 0 ≤ (probe_upper env s la).1 := by
  unfold probe_upper
  by_cases h : la > 1
  · rw [if_pos h, if_pos h]
  · rw [if_neg h, if_neg h, measure_value]; exact henv _

theorem probe_lower_value (env : MonEnv) (s : MonState) (la : ℚ)
    (henv : ∀ k, 0 ≤ env.throughput k) :
    if la < 0 then (probe_lower env s la).1 = -(1 / 10) else 0 ≤ (probe_lower env s la).1 := by
  unfold probe_lower
  by_cases h : la < 0
  · rw [if_pos h, if_pos h]
  · rw [if_neg h, if_neg h, measure_value]; exact henv _

theorem window_ok_branch (w : SlopeWindow) (h : window_ok w) :
    (w.la3 > 1 → w.tp3 = -(1 / 10) ∧ slope_branch w.tp1 w.tp2 w.tp3 ≠ SlopeBranch.up) ∧
      (w.la1 < 0 → w.tp1 = -(1 / 10) ∧
        slope_branch w.tp1 w.tp2 w.tp3 ≠ SlopeBranch.down) := by
  obtain ⟨_, _, _, _, h2, h3, h1⟩ := h
  obtain ⟨_, hup, hdown, _⟩ := slope_branch_cases w.tp1 w.tp2 w.tp3
  constructor
  · intro hl
    rw [if_pos hl] at h3
    refine ⟨h3, fun hb => ?_⟩
    obtain ⟨hn, h31⟩ := hup.mp hb
    apply hn
    rw [h3] at h31 ⊢
    constructor <;> linarith
  · intro hl
    rw [if_pos hl] at h1
    refine ⟨h1, fun hb => ?_⟩
    obtain ⟨h12, _⟩ := hdown.mp hb
    rw [h1] at h12
    linarith

theorem traced_windows_ok (env : MonEnv) (base : ℚ) (henv : ∀ k, 0 ≤ env.throughput k) :
    ∀ (fuel : Nat) (s : MonState) (la1 la2 la3 tp1 tp2 tp3 : ℚ),
      window_ok ⟨la1, la2, la3, tp1, tp2, tp3⟩ →
      ∀ w ∈ (slope_loop_traced env base fuel s la1 la2 la3 tp1 tp2 tp3).2, window_ok w := by
  intro fuel
  induction fuel with
  | zero => intro s la1 la2 la3 tp1 tp2 tp3 _ w hw; simp [slope_loop_traced] at hw
  | succ f ih =>
    intro s la1 la2 la3 tp1 tp2 tp3 hok w hw
    have hstep : LOAD_ADMIT_TUNING_STEP = 1 / 100 := rfl
    by_cases hstop : env.should_stop s.tick = true
    · rw [traced_exit env base f s _ _ _ _ _ _ hstop] at hw
      simp at hw
    · have hstop' : env.should_stop s.tick = false := by simpa using hstop
      by_cases hm : env.miss_ratio s.tick > base + WORKLOAD_CHANGE_THRESHOLD
      · rw [traced_ret env base f s _ _ _ _ _ _ hstop' hm] at hw
        simp at hw
      · rw [traced_decide env base f s _ _ _ _ _ _ hstop' hm] at hw
        obtain ⟨hstay, hup, hdown, hund⟩ := slope_branch_cases tp1 tp2 tp3
        obtain ⟨e1, e3, g0, g1, g2, g3, g4⟩ := hok
        simp only [] at e1 e3 g0 g1 g2 g3 g4
        have hok' : window_ok ⟨la1, la2, la3, tp1, tp2, tp3⟩ :=
          ⟨e1, e3, g0, g1, g2, g3, g4⟩
        cases hb : slope_branch tp1 tp2 tp3 with
        | stay =>
          rw [hb] at hw
          simp only [List.mem_singleton] at hw
          rw [hw]; exact hok'
        | up =>
          rw [hb] at hw
          obtain ⟨hn, h31⟩ := hup.mp hb
          simp only [] at hw
          split_ifs at hw with c
          · simp only [List.mem_singleton] at hw
            rw [hw]; exact hok'
          · rcases List.mem_cons.mp hw with rfl | hw2
            · exact hok'
            · have c' : la3 < 1 := not_le.mp c
              have h32 : tp3 ≥ tp2 := by
                by_contra hc
                push_neg at hc
                exact hn ⟨by linarith, le_of_lt hc⟩
              rw [if_neg (not_lt.mpr (le_of_lt c'))] at g3
              refine ih _ _ _ _ _ _ _ ⟨?_, rfl, ?_, ?_, ?_, ?_, ?_⟩ w hw2
              · simp only []; rw [e3]; ring
              · simp only []; rw [e3, hstep]; linarith
              · simp only []; exact le_of_lt c'
              · simp only []; linarith
              · exact probe_upper_value env _ _ henv
              · simp only []
                rw [if_neg (not_lt.mpr g0)]; exact g2
        | down =>
          rw [hb] at hw
          obtain ⟨h12, h13⟩ := hdown.mp hb
          simp only [] at hw
          split_ifs at hw with c
          · simp only [List.mem_singleton] at hw
            rw [hw]; exact hok'
          · rcases List.mem_cons.mp hw with rfl | hw2
            · exact hok'
            · have c' : 0 < la1 := not_le.mp c
              rw [if_neg (not_lt.mpr (le_of_lt c'))] at g4
              refine ih _ _ _ _ _ _ _ ⟨rfl, ?_, ?_, ?_, ?_, ?_, ?_⟩ w hw2
              · simp only []; rw [e1]; ring
              · simp only []; exact le_of_lt c'
              · simp only []; rw [e1, hstep]; linarith
              · simp only []; linarith
              · simp only []
                rw [if_neg (not_lt.mpr g1)]; exact g2
              · exact probe_lower_value env _ _ henv
        | undecided => exact absurd hb hund
theorem tune_probes_ok (env : MonEnv) (s : MonState) (henv : ∀ k, 0 ≤ env.throughput k)
    (h0 : 0 ≤ s.global_load_admit) (h1 : s.global_load_admit ≤ 1) :
    window_ok ⟨(tune_probes env s).1.1, (tune_probes env s).1.2.1,
      (tune_probes env s).1.2.2.1, (tune_probes env s).1.2.2.2.1,
      (tune_probes env s).1.2.2.2.2.1, (tune_probes env s).1.2.2.2.2.2⟩ :=
  ⟨rfl, rfl, h0, h1, henv _, probe_upper_value env _ _ henv, probe_lower_value env _ _ henv⟩

/-- C26: every value `_get_throughput` computes from the two logs is non-negative, for
every content of the logs; and when every throughput the monitor measures is such a
value, then in a pass of `monitor_tune_load_admit` entered with `load_admit` in `[0, 1]`,
at every decision of the slope-following loop: if `la3 > 1.0` then `tp3` is the mark
`-0.1` and the move-up branch is not taken, and if `la1 < 0.0` then `tp1` is the mark
`-0.1` and the move-down branch is not taken. -/
theorem marked_probe_never_wins (env : MonEnv) (base_miss_ratio : ℚ) (fuel : Nat)
    (s : MonState)
    (hlogs : ∀ k, ∃ cache core cur,
      get_throughput_value cache core cur = some (env.throughput k))
    (h0 : 0 ≤ s.global_load_admit) (h1 : s.global_load_admit ≤ 1) :
    (∀ cache core cur v, get_throughput_value cache core cur = some v → 0 ≤ v) ∧
      ∀ w ∈ pass_windows env base_miss_ratio fuel s,
        (w.la3 > 1 → w.tp3 = -(1 / 10) ∧
          slope_branch w.tp1 w.tp2 w.tp3 ≠ SlopeBranch.up) ∧
        (w.la1 < 0 → w.tp1 = -(1 / 10) ∧
          slope_branch w.tp1 w.tp2 w.tp3 ≠ SlopeBranch.down) := by
  have henv : ∀ k, 0 ≤ env.throughput k := by
    intro k
    obtain ⟨cache, core, cur, h⟩ := hlogs k
    exact get_throughput_nonneg cache core cur _ h
  refine ⟨get_throughput_nonneg, fun w hw => ?_⟩
  exact window_ok_branch w
    (traced_windows_ok env base_miss_ratio henv fuel _ _ _ _ _ _ _
      (tune_probes_ok env s henv h0 h1) w hw)

theorem idle_env_from_logs :
    ∀ k, ∃ cache core cur, get_throughput_value cache core cur = some (idle_env.throughput k) := by
  intro k
  refine ⟨log_setup zero_mem, log_setup zero_mem, 0, ?_⟩
  simp [get_throughput_value, cache_log_query_throughput, core_log_query_throughput,
    log_setup, idle_env]

/-- Witness for C26: tuning from `load_admit = 1.0` with idle devices; the upper
neighbour `1.01` is marked. -/
theorem marked_probe_never_wins_witness :
    (0 : ℚ) ≤ ocf_mngt_mf_monitor_init.global_load_admit ∧
      ocf_mngt_mf_monitor_init.global_load_admit ≤ 1 ∧
      ∀ w ∈ pass_windows idle_env 0 3 ocf_mngt_mf_monitor_init,
        (w.la3 > 1 → w.tp3 = -(1 / 10) ∧
          slope_branch w.tp1 w.tp2 w.tp3 ≠ SlopeBranch.up) ∧
        (w.la1 < 0 → w.tp1 = -(1 / 10) ∧
          slope_branch w.tp1 w.tp2 w.tp3 ≠ SlopeBranch.down) :=
  ⟨by norm_num [ocf_mngt_mf_monitor_init], by norm_num [ocf_mngt_mf_monitor_init],
    (marked_probe_never_wins idle_env 0 3 ocf_mngt_mf_monitor_init idle_env_from_logs
      (by norm_num [ocf_mngt_mf_monitor_init]) (by norm_num [ocf_mngt_mf_monitor_init])).2⟩

theorem idle_pass_windows :
    pass_windows idle_env 0 3 ocf_mngt_mf_monitor_init
      = [⟨99 / 100, 1, 101 / 100, 0, 0, -(1 / 10)⟩] := by
  simp [pass_windows, slope_loop_traced, tune_probes, idle_env, ocf_mngt_mf_monitor_init,
    _get_miss_ratio, probe_upper, probe_lower, monitor_measure_throughput, _get_throughput,
    usleep, monitor_set_load_admit, monitor_query_load_admit, LOAD_ADMIT_TUNING_STEP,
    WORKLOAD_CHANGE_THRESHOLD, MEASURE_THROUGHPUT_INTERVAL_US]
  norm_num
/-! ## Monitor: direction of the window shifts -/

theorem up_needs_tp3_ge_tp2 (tp1 tp2 tp3 : ℚ)
    (hb : slope_branch tp1 tp2 tp3 = SlopeBranch.up) : tp3 ≥ tp2 ∧ tp3 ≥ tp1 := by
  obtain ⟨hn, h31⟩ := (slope_branch_cases tp1 tp2 tp3).2.1.mp hb
  refine ⟨?_, h31⟩
  by_contra hc
  push_neg at hc
  exact hn ⟨by linarith, le_of_lt hc⟩

theorem traced_up_mode (env : MonEnv) (base : ℚ) :
    ∀ (fuel n : Nat) (s : MonState) (la1 la2 la3 tp1 tp2 tp3 : ℚ),
      tp2 ≥ tp1 → 1 - (n : ℚ) * LOAD_ADMIT_TUNING_STEP ≤ la3 →
      (∀ w ∈ (slope_loop_traced env base fuel s la1 la2 la3 tp1 tp2 tp3).2,
        shifts_down w = false) ∧
      (slope_loop_traced env base fuel s la1 la2 la3 tp1 tp2 tp3).2.countP shifts_up ≤ n ∧
      (n + 1 ≤ fuel →
        (slope_loop_traced env base fuel s la1 la2 la3 tp1 tp2 tp3).1.finished = true) := by
  intro fuel
  induction fuel with
  | zero =>
    intro n s la1 la2 la3 tp1 tp2 tp3 _ _
    exact ⟨by simp [slope_loop_traced], by simp [slope_loop_traced], fun h => by omega⟩
  | succ f ih =>
    intro n s la1 la2 la3 tp1 tp2 tp3 h21 hn
    have hstep : LOAD_ADMIT_TUNING_STEP = 1 / 100 := rfl
    by_cases hstop : env.should_stop s.tick = true
    · rw [traced_exit env base f s _ _ _ _ _ _ hstop]
      exact ⟨by simp, by simp, fun _ => rfl⟩
    · have hstop' : env.should_stop s.tick = false := by simpa using hstop
      by_cases hm : env.miss_ratio s.tick > base + WORKLOAD_CHANGE_THRESHOLD
      · rw [traced_ret env base f s _ _ _ _ _ _ hstop' hm]
        exact ⟨by simp, by simp, fun _ => rfl⟩
      · rw [traced_decide env base f s _ _ _ _ _ _ hstop' hm]
        obtain ⟨hstay, hup, hdown, hund⟩ := slope_branch_cases tp1 tp2 tp3
        cases hb : slope_branch tp1 tp2 tp3 with
        | stay =>
          simp only []
          exact ⟨by simp [shifts_down, hb], by simp [shifts_up, hb], fun _ => rfl⟩
        | up =>
          simp only []
          by_cases c : la3 ≥ 1
          · rw [if_pos c]
            exact ⟨by simp [shifts_down, hb],
              by simp [shifts_up, hb, not_lt.mpr c], fun _ => rfl⟩
          · rw [if_neg c]
            have c' : la3 < 1 := not_le.mp c
            have hn1 : 1 ≤ n := by
              by_contra h0
              have : n = 0 := by omega
              subst this
              simp at hn
              linarith
            obtain ⟨h32, _⟩ := up_needs_tp3_ge_tp2 tp1 tp2 tp3 hb
            have hcast : ((n - 1 : Nat) : ℚ) = (n : ℚ) - 1 := by
              rw [Nat.cast_sub hn1]; simp
            obtain ⟨i1, i2, i3⟩ := ih (n - 1)
              (probe_upper env (after_sample env Site.tune s)
                (la3 + LOAD_ADMIT_TUNING_STEP)).2
              la2 la3 (la3 + LOAD_ADMIT_TUNING_STEP) tp2 tp3
              (probe_upper env (after_sample env Site.tune s)
                (la3 + LOAD_ADMIT_TUNING_STEP)).1 h32
              (by rw [hcast]; rw [hstep] at hn ⊢; linarith)
            refine ⟨?_, ?_, fun hf => i3 (by omega)⟩
            · intro w hw
              rcases List.mem_cons.mp hw with rfl | hw2
              · simp [shifts_down, hb]
              · exact i1 w hw2
            · rw [List.countP_cons]
              have : shifts_up ⟨la1, la2, la3, tp1, tp2, tp3⟩ = true := by
                simp [shifts_up, hb, c']
              rw [this]
              simp only [if_true]
              omega
        | down =>
          obtain ⟨h12, _⟩ := hdown.mp hb
          exact absurd h21 (not_le.mpr h12)
        | undecided => exact absurd hb hund

theorem traced_down_mode (env : MonEnv) (base : ℚ) :
    ∀ (fuel n : Nat) (s : MonState) (la1 la2 la3 tp1 tp2 tp3 : ℚ),
      tp2 > tp3 → la1 ≤ (n : ℚ) * LOAD_ADMIT_TUNING_STEP →
      (∀ w ∈ (slope_loop_traced env base fuel s la1 la2 la3 tp1 tp2 tp3).2,
        shifts_up w = false) ∧
      (slope_loop_traced env base fuel s la1 la2 la3 tp1 tp2 tp3).2.countP shifts_down ≤ n ∧
      (n + 1 ≤ fuel →
        (slope_loop_traced env base fuel s la1 la2 la3 tp1 tp2 tp3).1.finished = true) := by
  intro fuel
  induction fuel with
  | zero =>
    intro n s la1 la2 la3 tp1 tp2 tp3 _ _
    exact ⟨by simp [slope_loop_traced], by simp [slope_loop_traced], fun h => by omega⟩
  | succ f ih =>
    intro n s la1 la2 la3 tp1 tp2 tp3 h23 hn
    have hstep : LOAD_ADMIT_TUNING_STEP = 1 / 100 := rfl
    by_cases hstop : env.should_stop s.tick = true
    · rw [traced_exit env base f s _ _ _ _ _ _ hstop]
      exact ⟨by simp, by simp, fun _ => rfl⟩
    · have hstop' : env.should_stop s.tick = false := by simpa using hstop
      by_cases hm : env.miss_ratio s.tick > base + WORKLOAD_CHANGE_THRESHOLD
      · rw [traced_ret env base f s _ _ _ _ _ _ hstop' hm]
        exact ⟨by simp, by simp, fun _ => rfl⟩
      · rw [traced_decide env base f s _ _ _ _ _ _ hstop' hm]
        obtain ⟨hstay, hup, hdown, hund⟩ := slope_branch_cases tp1 tp2 tp3
        cases hb : slope_branch tp1 tp2 tp3 with
        | stay =>
          simp only []
          exact ⟨by simp [shifts_up, hb], by simp [shifts_down, hb], fun _ => rfl⟩
        | up =>
          obtain ⟨h32, _⟩ := up_needs_tp3_ge_tp2 tp1 tp2 tp3 hb
          exact absurd h32 (not_le.mpr h23)
        | down =>
          simp only []
          obtain ⟨h12, _⟩ := hdown.mp hb
          by_cases c : la1 ≤ 0
          · rw [if_pos c]
            exact ⟨by simp [shifts_up, hb],
              by simp [shifts_down, hb, not_lt.mpr c], fun _ => rfl⟩
          · rw [if_neg c]
            have c' : 0 < la1 := not_le.mp c
            have hn1 : 1 ≤ n := by
              by_contra h0
              have : n = 0 := by omega
              subst this
              simp at hn
              linarith
            have hcast : ((n - 1 : Nat) : ℚ) = (n : ℚ) - 1 := by
              rw [Nat.cast_sub hn1]; simp
            obtain ⟨i1, i2, i3⟩ := ih (n - 1)
              (probe_lower env (after_sample env Site.tune s)
                (la1 - LOAD_ADMIT_TUNING_STEP)).2
              (la1 - LOAD_ADMIT_TUNING_STEP) la1 la2
              (probe_lower env (after_sample env Site.tune s)
                (la1 - LOAD_ADMIT_TUNING_STEP)).1 tp1 tp2 h12
              (by rw [hcast]; rw [hstep] at hn ⊢; linarith)
            refine ⟨?_, ?_, fun hf => i3 (by omega)⟩
            · intro w hw
              rcases List.mem_cons.mp hw with rfl | hw2
              · simp [shifts_up, hb]
              · exact i1 w hw2
            · rw [List.countP_cons]
              have : shifts_down ⟨la1, la2, la3, tp1, tp2, tp3⟩ = true := by
                simp [shifts_down, hb, c']
              rw [this]
              simp only [if_true]
              omega
        | undecided => exact absurd hb hund
theorem traced_one_direction (env : MonEnv) (base : ℚ) (fuel : Nat) (s : MonState)
    (la1 la2 la3 tp1 tp2 tp3 : ℚ)
    (h3 : LOAD_ADMIT_TUNING_STEP ≤ la3) (h1 : la1 ≤ 1 - LOAD_ADMIT_TUNING_STEP) :
    (((∀ w ∈ (slope_loop_traced env base fuel s la1 la2 la3 tp1 tp2 tp3).2,
          shifts_down w = false) ∧
        (slope_loop_traced env base fuel s la1 la2 la3 tp1 tp2 tp3).2.countP shifts_up ≤ 99) ∨
      ((∀ w ∈ (slope_loop_traced env base fuel s la1 la2 la3 tp1 tp2 tp3).2,
          shifts_up w = false) ∧
        (slope_loop_traced env base fuel s la1 la2 la3 tp1 tp2 tp3).2.countP shifts_down
          ≤ 99)) ∧
      (100 ≤ fuel →
        (slope_loop_traced env base fuel s la1 la2 la3 tp1 tp2 tp3).1.finished = true) := by
  have hstep : LOAD_ADMIT_TUNING_STEP = 1 / 100 := rfl
  by_cases h21 : tp2 ≥ tp1
  · obtain ⟨i1, i2, i3⟩ := traced_up_mode env base fuel 99 s la1 la2 la3 tp1 tp2 tp3 h21
      (by rw [hstep] at h3 ⊢; push_cast; linarith)
    exact ⟨Or.inl ⟨i1, i2⟩, fun hf => i3 (by omega)⟩
  · cases fuel with
    | zero =>
      exact ⟨Or.inl ⟨by simp [slope_loop_traced], by simp [slope_loop_traced]⟩,
        fun h => by omega⟩
    | succ f =>
      by_cases hstop : env.should_stop s.tick = true
      · rw [traced_exit env base f s _ _ _ _ _ _ hstop]
        exact ⟨Or.inl ⟨by simp, by simp⟩, fun _ => rfl⟩
      · have hstop' : env.should_stop s.tick = false := by simpa using hstop
        by_cases hm : env.miss_ratio s.tick > base + WORKLOAD_CHANGE_THRESHOLD
        · rw [traced_ret env base f s _ _ _ _ _ _ hstop' hm]
          exact ⟨Or.inl ⟨by simp, by simp⟩, fun _ => rfl⟩
        · rw [traced_decide env base f s _ _ _ _ _ _ hstop' hm]
          obtain ⟨hstay, hup, hdown, hund⟩ := slope_branch_cases tp1 tp2 tp3
          cases hb : slope_branch tp1 tp2 tp3 with
          | stay => exact absurd (hstay.mp hb).1 h21
          | up =>
            simp only []
            by_cases c : la3 ≥ 1
            · rw [if_pos c]
              exact ⟨Or.inl ⟨by simp [shifts_down, hb],
                by simp [shifts_up, hb, not_lt.mpr c]⟩, fun _ => rfl⟩
            · rw [if_neg c]
              obtain ⟨h32, _⟩ := up_needs_tp3_ge_tp2 tp1 tp2 tp3 hb
              obtain ⟨i1, i2, i3⟩ := traced_up_mode env base f 98
                (probe_upper env (after_sample env Site.tune s)
                  (la3 + LOAD_ADMIT_TUNING_STEP)).2
                la2 la3 (la3 + LOAD_ADMIT_TUNING_STEP) tp2 tp3
                (probe_upper env (after_sample env Site.tune s)
                  (la3 + LOAD_ADMIT_TUNING_STEP)).1 h32
                (by rw [hstep] at h3 ⊢; push_cast; linarith)
              refine ⟨Or.inl ⟨?_, ?_⟩, fun hf => i3 (by omega)⟩
              · intro w hw
                rcases List.mem_cons.mp hw with rfl | hw2
                · simp [shifts_down, hb]
                · exact i1 w hw2
              · rw [List.countP_cons]
                split_ifs <;> omega
          | down =>
            simp only []
            obtain ⟨h12, _⟩ := hdown.mp hb
            by_cases c : la1 ≤ 0
            · rw [if_pos c]
              exact ⟨Or.inr ⟨by simp [shifts_up, hb],
                by simp [shifts_down, hb, not_lt.mpr c]⟩, fun _ => rfl⟩
            · rw [if_neg c]
              obtain ⟨i1, i2, i3⟩ := traced_down_mode env base f 98
                (probe_lower env (after_sample env Site.tune s)
                  (la1 - LOAD_ADMIT_TUNING_STEP)).2
                (la1 - LOAD_ADMIT_TUNING_STEP) la1 la2
                (probe_lower env (after_sample env Site.tune s)
                  (la1 - LOAD_ADMIT_TUNING_STEP)).1 tp1 tp2 h12
                (by rw [hstep] at h1 ⊢; push_cast; linarith)
              refine ⟨Or.inr ⟨?_, ?_⟩, fun hf => i3 (by omega)⟩
              · intro w hw
                rcases List.mem_cons.mp hw with rfl | hw2
                · simp [shifts_up, hb]
                · exact i1 w hw2
              · rw [List.countP_cons]
                split_ifs <;> omega
          | undecided => exact absurd hb hund

/-- C30: in a pass of `monitor_tune_load_admit` entered with `load_admit` in `[0, 1]`,
for every environment, the decisions of the slope-following loop never contain both a
shift up and a shift down, they contain at most 100 shifts, and with fuel for 101
iterations the loop ends by itself (commit, clamp, return, or exit of the thread). -/
theorem slope_loop_one_direction (env : MonEnv) (base_miss_ratio : ℚ) (fuel : Nat)
    (s : MonState) (h0 : 0 ≤ s.global_load_admit) (h1 : s.global_load_admit ≤ 1) :
    ((∃ w ∈ pass_windows env base_miss_ratio fuel s, shifts_up w = true) →
        ∀ w ∈ pass_windows env base_miss_ratio fuel s, shifts_down w = false) ∧
      ((∃ w ∈ pass_windows env base_miss_ratio fuel s, shifts_down w = true) →
        ∀ w ∈ pass_windows env base_miss_ratio fuel s, shifts_up w = false) ∧
      (pass_windows env base_miss_ratio fuel s).countP shifts_up
        + (pass_windows env base_miss_ratio fuel s).countP shifts_down ≤ 100 ∧
      (101 ≤ fuel →
        (slope_loop env base_miss_ratio fuel (tune_probes env s).2
          (tune_probes env s).1.1 (tune_probes env s).1.2.1 (tune_probes env s).1.2.2.1
          (tune_probes env s).1.2.2.2.1 (tune_probes env s).1.2.2.2.2.1
          (tune_probes env s).1.2.2.2.2.2).finished = true) := by
  have hstep : LOAD_ADMIT_TUNING_STEP = 1 / 100 := rfl
  obtain ⟨v1, v2, v3, _⟩ := tune_probes_values env s
  obtain ⟨hdir, hfin⟩ := traced_one_direction env base_miss_ratio fuel (tune_probes env s).2
    (tune_probes env s).1.1 (tune_probes env s).1.2.1 (tune_probes env s).1.2.2.1
    (tune_probes env s).1.2.2.2.1 (tune_probes env s).1.2.2.2.2.1
    (tune_probes env s).1.2.2.2.2.2
    (by rw [v3, hstep]; linarith) (by rw [v1, hstep]; linarith)
  rw [slope_loop_traced_fst] at hfin
  have hzero : ∀ (p : SlopeWindow → Bool) (l : List SlopeWindow),
      (∀ w ∈ l, p w = false) → l.countP p = 0 := by
    intro p l h
    rw [List.countP_eq_zero]
    intro w hw
    simp [h w hw]
  refine ⟨?_, ?_, ?_, fun hf => hfin (by omega)⟩
  · rintro ⟨w, hw, hu⟩
    rcases hdir with ⟨hd, _⟩ | ⟨hd, _⟩
    · exact hd
    · have := hd w hw
      rw [hu] at this
      exact absurd this (by simp)
  · rintro ⟨w, hw, hu⟩
    rcases hdir with ⟨hd, _⟩ | ⟨hd, _⟩
    · have := hd w hw
      rw [hu] at this
      exact absurd this (by simp)
    · exact hd
  · rcases hdir with ⟨hd, hc⟩ | ⟨hd, hc⟩
    · have := hzero shifts_down _ hd
      unfold pass_windows
      simp only [] at this ⊢
      omega
    · have := hzero shifts_up _ hd
      unfold pass_windows
      simp only [] at this ⊢
      omega

/-- Witness for C30: tuning from `load_admit = 0.5` in the sample environment. -/
theorem slope_loop_one_direction_witness :
    (0 : ℚ) ≤ rise_start.global_load_admit ∧ rise_start.global_load_admit ≤ 1 ∧
      (pass_windows rise_env 0 101 rise_start).countP shifts_up
        + (pass_windows rise_env 0 101 rise_start).countP shifts_down ≤ 100 :=
  ⟨by norm_num [rise_start], by norm_num [rise_start],
    (slope_loop_one_direction rise_env 0 101 rise_start (by norm_num [rise_start])
      (by norm_num [rise_start])).2.2.1⟩
set_option maxHeartbeats 1000000 in
theorem climb_pass_windows :
    pass_windows climb_env 0 3 climb_start
      = [⟨96 / 100, 97 / 100, 98 / 100, 0, 1, 2⟩, ⟨97 / 100, 98 / 100, 99 / 100, 1, 2, 5⟩,
          ⟨98 / 100, 99 / 100, 1, 2, 5, 7⟩] ∧
      (pass_windows climb_env 0 3 climb_start).countP shifts_up = 2 := by
  have e : pass_windows climb_env 0 3 climb_start
      = [⟨96 / 100, 97 / 100, 98 / 100, 0, 1, 2⟩, ⟨97 / 100, 98 / 100, 99 / 100, 1, 2, 5⟩,
          ⟨98 / 100, 99 / 100, 1, 2, 5, 7⟩] := by
    simp [pass_windows, slope_loop_traced, tune_probes, climb_env, climb_start,
      _get_miss_ratio, probe_upper, probe_lower, monitor_measure_throughput, _get_throughput,
      usleep, monitor_set_load_admit, monitor_query_load_admit, LOAD_ADMIT_TUNING_STEP,
      WORKLOAD_CHANGE_THRESHOLD, MEASURE_THROUGHPUT_INTERVAL_US]
    norm_num
  refine ⟨e, ?_⟩
  rw [e]
  simp [List.countP_cons, shifts_up, slope_branch]
  norm_num

theorem wait_stable_sample_run :
    ( monitor_wait_stable steady_env 2 ocf_mngt_mf_monitor_init).returned = true ∧
      wait_samples ( monitor_wait_stable steady_env 2 ocf_mngt_mf_monitor_init).state.events
        = [0, 0] := by
  simp [monitor_wait_stable, wait_stable_loop, steady_env, ocf_mngt_mf_monitor_init,
    _get_miss_ratio, usleep, WAIT_STABLE_THRESHOLD, WAIT_STABLE_SLEEP_INTERVAL_US,
    MonResult.returned, MonResult.state, wait_samples]
  norm_num [MonResult.returned, MonResult.state, wait_samples]


/-! ## Throughput log under concurrent pushes and queries: theorems -/

theorem written_append_wrote (es : List LogEvent) (t : ℚ) (b : Nat) :
    written (es ++ [LogEvent.wrote t b]) = written es ++ [⟨t, b⟩] := by
  simp [written, List.filterMap_append]

theorem written_append_read (es : List LogEvent) (tid : Nat) (i : Int) (t1 : ℚ)
    (t2 : Option ℚ) (b : Option Nat) :
    written (es ++ [LogEvent.read tid i t1 t2 b]) = written es := by
  simp [written, List.filterMap_append]

theorem written_append_returned (es : List LogEvent) (tid : Nat) (v : ℚ) :
    written (es ++ [LogEvent.returned tid v]) = written es := by
  simp [written, List.filterMap_append]

theorem no_torn_append_wrote (es : List LogEvent) (t : ℚ) (b : Nat)
    (h : no_torn_read es) : no_torn_read (es ++ [LogEvent.wrote t b]) := by
  intro tid i t1 t2 v hm
  rw [List.mem_append] at hm
  rcases hm with hm | hm
  · obtain ⟨e, he, hr⟩ := h tid i t1 t2 v hm
    exact ⟨e, by rw [written_append_wrote]; exact List.mem_append_left _ he, hr⟩
  · simp at hm

theorem no_torn_append_returned (es : List LogEvent) (tid : Nat) (v : ℚ)
    (h : no_torn_read es) : no_torn_read (es ++ [LogEvent.returned tid v]) := by
  intro tid1 i t1 t2 b hm
  rw [List.mem_append] at hm
  rcases hm with hm | hm
  · obtain ⟨e, he, hr⟩ := h tid1 i t1 t2 b hm
    exact ⟨e, by rw [written_append_returned]; exact he, hr⟩
  · simp at hm

theorem no_torn_append_read (es : List LogEvent) (tid : Nat) (i : Int) (t1 : ℚ)
    (t2 : Option ℚ) (b : Option Nat) (h : no_torn_read es)
    (hnew : ∃ e ∈ written es, read_matches t1 t2 b e) :
    no_torn_read (es ++ [LogEvent.read tid i t1 t2 b]) := by
  intro tid1 i1 r1 r2 v hm
  rw [written_append_read]
  rw [List.mem_append] at hm
  rcases hm with hm | hm
  · exact h tid1 i1 r1 r2 v hm
  · simp only [List.mem_singleton, LogEvent.read.injEq] at hm
    obtain ⟨_, _, rfl, rfl, rfl⟩ := hm
    exact hnew

theorem reader_ok_of_not_holding (log : DeviceLog) (es : List cache_log_entry)
    (th : LogThread) (h : holds_read th = false) : reader_ok log es th := by
  cases th with
  | idle => trivial
  | push pc t b => trivial
  | query pc t0 t1 kb => cases pc <;> simp_all [holds_read, reader_ok]

theorem ring_inv_pos_range (m : DeviceLog) (es : List cache_log_entry) (h : ring_inv m es) :
    0 ≤ Int.tmod (m.tail + 1) CACHE_LOG_SIZE ∧
      Int.tmod (m.tail + 1) CACHE_LOG_SIZE < CACHE_LOG_SIZE := by
  simp only [CACHE_LOG_SIZE]
  by_cases he : es = []
  · obtain ⟨_, ht⟩ := h.1 he
    rw [ht]; decide
  · obtain ⟨ht, _⟩ := h.2.1 he
    have hl : 1 ≤ es.length := List.length_pos.mpr he
    rw [tmod_log_size _ (by rw [ht]; omega)]
    omega

theorem ring_entry_at (m : DeviceLog) (es : List cache_log_entry) (h : ring_inv m es)
    (k : Nat) (hk : k < min es.length 120000) :
    m.log (((es.length : Int) - 1 - k) % 120000) ∈ es := by
  have hkl : k < es.reverse.length := by rw [List.length_reverse]; omega
  have hx : es.reverse[k]? = some (es.reverse[k]) := List.getElem?_eq_getElem hkl
  rw [h.2.2 k _ (by omega) hx]
  exact List.mem_reverse.mp (List.getElem_mem hkl)
theorem lock_maps_update (s : ConcLog) (tid : Nat) (th : LogThread)
    (h1 : ∀ x, x ∈ s.readers ↔ holds_read (s.threads x) = true)
    (h2 : ∀ x, s.writer = some x ↔ holds_write (s.threads x) = true)
    (hr : holds_read th = holds_read (s.threads tid))
    (hw : holds_write th = holds_write (s.threads tid)) :
    (∀ x, x ∈ s.readers ↔ holds_read (Function.update s.threads tid th x) = true) ∧
      (∀ x, s.writer = some x ↔ holds_write (Function.update s.threads tid th x) = true) := by
  constructor
  · intro x
    by_cases hx : x = tid
    · subst hx; rw [Function.update_same, hr]; exact h1 x
    · rw [Function.update_noteq hx]; exact h1 x
  · intro x
    by_cases hx : x = tid
    · subst hx; rw [Function.update_same, hw]; exact h2 x
    · rw [Function.update_noteq hx]; exact h2 x

/-- A step of the thread holding the write lock that keeps the lock: the invariant is
kept when the new position of the writer fits the new log. -/
theorem writer_step_inv (s : ConcLog) (tid : Nat) (th : LogThread) (log : DeviceLog)
    (evs : List LogEvent) (hinv : conc_inv s)
    (hold : holds_write (s.threads tid) = true)
    (hw : holds_write th = true) (hr : holds_read th = false)
    (hok : writer_ok s.log (written s.events) (s.threads tid) →
      writer_ok log (written evs) th)
    (htorn : no_torn_read s.events → no_torn_read evs) :
    conc_inv
      { s with
        log := log
        threads := Function.update s.threads tid th
        events := evs } := by
  obtain ⟨c1, c2, c3, c4, c5⟩ := hinv
  have hwr : s.writer = some tid := (c2 tid).mpr hold
  have hrd : holds_read (s.threads tid) = false := by
    have := c3 (by rw [hwr]; simp)
    have h := c1 tid
    rw [this] at h
    simpa using h
  obtain ⟨d1, d2⟩ := lock_maps_update s tid th c1 c2 (by rw [hr, hrd]) (by rw [hw, hold])
  refine ⟨d1, d2, c3, ?_, htorn c5⟩
  simp only [hwr] at c4 ⊢
  rw [Function.update_same]
  exact hok c4

theorem push_writer_steps (s : ConcLog) (tid : Nat) (pc : PushPc) (t : ℚ) (b : Nat)
    (hinv : conc_inv s) (hth : s.threads tid = LogThread.push pc t b)
    (hl : pc ≠ PushPc.lock) (hu : pc ≠ PushPc.unlock) :
    ∃ s1, push_step s tid pc t b = some s1 ∧ conc_inv s1 := by
  have hold : holds_write (s.threads tid) = true := by
    rw [hth]; cases pc <;> simp_all [holds_write]
  cases pc with
  | lock => exact absurd rfl hl
  | unlock => exact absurd rfl hu
  | pos =>
    refine ⟨_, rfl, ?_⟩
    have := writer_step_inv s tid
      (LogThread.push (PushPc.time (Int.tmod (s.log.tail + 1) CACHE_LOG_SIZE)) t b)
      s.log s.events hinv hold rfl rfl (by
        rw [hth]
        rintro ⟨m0, es0, hr, h1, h2⟩
        exact ⟨m0, es0, hr, h1, h2, by rw [h1]⟩) id
    exact this
  | time p =>
    have hp : 0 ≤ p ∧ p < CACHE_LOG_SIZE := by
      obtain ⟨c1, c2, c3, c4, c5⟩ := hinv
      have hwr : s.writer = some tid := (c2 tid).mpr hold
      simp only [hwr] at c4
      rw [hth] at c4
      obtain ⟨m0, es0, hr, _, _, h3⟩ := c4
      rw [h3]; exact ring_inv_pos_range m0 es0 hr
    refine ⟨_, if_pos hp, ?_⟩
    exact writer_step_inv s tid (LogThread.push (PushPc.bytes p) t b) _ s.events hinv hold
      rfl rfl (by
        rw [hth]
        rintro ⟨m0, es0, hr, h1, h2, h3⟩
        exact ⟨m0, es0, hr, by rw [h1], h2, h3⟩) id
  | bytes p =>
    have hp : 0 ≤ p ∧ p < CACHE_LOG_SIZE := by
      obtain ⟨c1, c2, c3, c4, c5⟩ := hinv
      have hwr : s.writer = some tid := (c2 tid).mpr hold
      simp only [hwr] at c4
      rw [hth] at c4
      obtain ⟨m0, es0, hr, _, _, h3⟩ := c4
      rw [h3]; exact ring_inv_pos_range m0 es0 hr
    refine ⟨_, if_pos hp, ?_⟩
    exact writer_step_inv s tid (LogThread.push (PushPc.tail p) t b) _ _ hinv hold
      rfl rfl (by
        rw [hth]
        rintro ⟨m0, es0, hr, h1, h2, h3⟩
        refine ⟨m0, es0, hr, ?_, by rw [written_append_wrote, h2], h3⟩
        rw [h1]
        simp only [Function.update_same, Function.update_idem]) (no_torn_append_wrote _ t b)
  | tail p =>
    refine ⟨_, rfl, ?_⟩
    exact writer_step_inv s tid (LogThread.push PushPc.wrap t b) _ s.events hinv hold
      rfl rfl (by
        rw [hth]
        rintro ⟨m0, es0, hr, h1, h2, h3⟩
        exact ⟨m0, es0, hr, by rw [h1, h3], h2⟩) id
  | wrap =>
    refine ⟨_, rfl, ?_⟩
    exact writer_step_inv s tid (LogThread.push PushPc.clamp t b) _ s.events hinv hold
      rfl rfl (by
        rw [hth]
        rintro ⟨m0, es0, hr, h1, h2⟩
        exact ⟨m0, es0, hr, by rw [h1], h2⟩) id
  | clamp =>
    refine ⟨_, rfl, ?_⟩
    exact writer_step_inv s tid (LogThread.push PushPc.unlock t b) _ s.events hinv hold
      rfl rfl (by
        rw [hth]
        rintro ⟨m0, es0, hr, h1, h2⟩
        refine ⟨m0, es0, hr, ?_, h2⟩
        have hp := ring_inv_pos_range m0 es0 hr
        rw [h1]
        simp only [cache_log_push_entry, if_pos hp]) id
theorem push_lock_inv (s : ConcLog) (tid : Nat) (t : ℚ) (b : Nat)
    (hinv : conc_inv s) (hth : s.threads tid = LogThread.push PushPc.lock t b) :
    ∃ s1, push_step s tid PushPc.lock t b = some s1 ∧ conc_inv s1 := by
  by_cases hf : write_lock_free s = true
  · refine ⟨_, if_pos hf, ?_⟩
    obtain ⟨c1, c2, c3, c4, c5⟩ := hinv
    simp only [write_lock_free, Bool.and_eq_true, Option.isNone_iff_eq_none,
      List.isEmpty_iff] at hf
    obtain ⟨hw, hr⟩ := hf
    simp only [hw] at c4
    refine ⟨?_, ?_, fun _ => hr, ?_, c5⟩
    · intro x
      by_cases hx : x = tid
      · subst hx
        simp only [Function.update_same, holds_read]
        rw [hr]; simp
      · simp only [Function.update_noteq hx]; exact c1 x
    · intro x
      by_cases hx : x = tid
      · subst hx
        simp [Function.update_same, holds_write]
      · simp only [Function.update_noteq hx]
        have := c2 x
        rw [hw] at this
        constructor
        · intro h; exact absurd (Option.some.inj h).symm hx
        · intro h; exact absurd (this.mpr h) (by simp)
    · simp only [Function.update_same]
      exact ⟨s.log, written s.events, c4.1, rfl, rfl⟩
  · exact ⟨s, if_neg hf, hinv⟩

theorem push_unlock_inv (s : ConcLog) (tid : Nat) (t : ℚ) (b : Nat)
    (hinv : conc_inv s) (hth : s.threads tid = LogThread.push PushPc.unlock t b) :
    ∃ s1, push_step s tid PushPc.unlock t b = some s1 ∧ conc_inv s1 := by
  refine ⟨_, rfl, ?_⟩
  obtain ⟨c1, c2, c3, c4, c5⟩ := hinv
  have hold : holds_write (s.threads tid) = true := by rw [hth]; rfl
  have hwr : s.writer = some tid := (c2 tid).mpr hold
  have hrd : s.readers = [] := c3 (by rw [hwr]; simp)
  simp only [hwr] at c4
  rw [hth] at c4
  obtain ⟨m0, es0, hr, h1, h2⟩ := c4
  obtain ⟨s1, hs1, hinv1⟩ := ring_inv_push m0 es0 t b hr
  rw [h1] at hs1
  have hlog : s.log = s1 := Option.some.inj hs1
  have hnot : ∀ x, holds_read (Function.update s.threads tid LogThread.idle x) = false := by
    intro x
    by_cases hx : x = tid
    · subst hx; simp [Function.update_same, holds_read]
    · rw [Function.update_noteq hx]
      have := c1 x
      rw [hrd] at this
      simpa using this
  refine ⟨?_, ?_, fun h => absurd rfl h, ?_, c5⟩
  · intro x
    simp only [hrd, hnot x]
    simp
  · intro x
    by_cases hx : x = tid
    · subst hx; simp [Function.update_same, holds_write]
    · simp only [Function.update_noteq hx]
      have := c2 x
      rw [hwr] at this
      constructor
      · intro h; simp at h
      · intro h
        exact absurd (Option.some.inj (this.mpr h)).symm hx
  · simp only []
    refine ⟨by rw [hlog, h2]; exact hinv1, fun x => ?_⟩
    exact reader_ok_of_not_holding _ _ _ (hnot x)

theorem push_step_inv (s : ConcLog) (tid : Nat) (pc : PushPc) (t : ℚ) (b : Nat)
    (hinv : conc_inv s) (hth : s.threads tid = LogThread.push pc t b) :
    ∃ s1, push_step s tid pc t b = some s1 ∧ conc_inv s1 := by
  by_cases hl : pc = PushPc.lock
  · subst hl; exact push_lock_inv s tid t b hinv hth
  · by_cases hu : pc = PushPc.unlock
    · subst hu; exact push_unlock_inv s tid t b hinv hth
    · exact push_writer_steps s tid pc t b hinv hth hl hu
theorem reader_has_no_writer (s : ConcLog) (tid : Nat) (hinv : conc_inv s)
    (hold : holds_read (s.threads tid) = true) : s.writer = none := by
  obtain ⟨c1, _, c3, _, _⟩ := hinv
  by_contra h
  have := c3 h
  have hm := (c1 tid).mpr hold
  rw [this] at hm
  simp at hm

/-- A step of a thread holding the read lock that keeps the lock and leaves the log
alone: the invariant is kept when the new position of the reader is at a retained entry
and the step's read (if any) was not torn. -/
theorem reader_step_inv (s : ConcLog) (tid : Nat) (th : LogThread) (evs : List LogEvent)
    (hinv : conc_inv s) (hold : holds_read (s.threads tid) = true)
    (hr : holds_read th = true) (hw : holds_write th = false)
    (hwritten : written evs = written s.events)
    (hok : ring_inv s.log (written s.events) →
      reader_ok s.log (written s.events) (s.threads tid) →
      reader_ok s.log (written s.events) th)
    (htorn : ring_inv s.log (written s.events) →
      reader_ok s.log (written s.events) (s.threads tid) →
      no_torn_read s.events → no_torn_read evs) :
    conc_inv
      { s with
        threads := Function.update s.threads tid th
        events := evs } := by
  have hwr := reader_has_no_writer s tid hinv hold
  obtain ⟨c1, c2, c3, c4, c5⟩ := hinv
  have hwo : holds_write (s.threads tid) = false := by
    have := c2 tid
    rw [hwr] at this
    cases h : holds_write (s.threads tid)
    · rfl
    · exact absurd (this.mpr h) (by simp)
  obtain ⟨d1, d2⟩ := lock_maps_update s tid th c1 c2 (by rw [hr, hold]) (by rw [hw, hwo])
  simp only [hwr] at c4
  obtain ⟨hring, hrd⟩ := c4
  refine ⟨d1, d2, c3, ?_, htorn hring (hrd tid) c5⟩
  simp only [hwr, hwritten]
  refine ⟨hring, fun x => ?_⟩
  by_cases hx : x = tid
  · subst hx; rw [Function.update_same]; exact hok hring (hrd x)
  · rw [Function.update_noteq hx]; exact hrd x

theorem query_lock_inv (s : ConcLog) (tid : Nat) (t0 t1 kb : ℚ)
    (hinv : conc_inv s) (hth : s.threads tid = LogThread.query QueryPc.lock t0 t1 kb) :
    ∃ s1, query_step s tid QueryPc.lock t0 t1 kb = some s1 ∧ conc_inv s1 := by
  by_cases hf : read_lock_free s = true
  · refine ⟨_, if_pos hf, ?_⟩
    obtain ⟨c1, c2, c3, c4, c5⟩ := hinv
    simp only [read_lock_free, Option.isNone_iff_eq_none] at hf
    simp only [hf] at c4
    refine ⟨?_, ?_, fun h => absurd hf h, ?_, c5⟩
    · intro x
      by_cases hx : x = tid
      · subst hx
        simp [Function.update_same, holds_read]
      · simp only [Function.update_noteq hx, List.mem_cons, hx, false_or]
        exact c1 x
    · intro x
      by_cases hx : x = tid
      · subst hx
        simp [Function.update_same, holds_write, hf]
      · simp only [Function.update_noteq hx]; exact c2 x
    · simp only [hf]
      refine ⟨c4.1, fun x => ?_⟩
      by_cases hx : x = tid
      · subst hx; rw [Function.update_same]; trivial
      · rw [Function.update_noteq hx]; exact c4.2 x
  · exact ⟨s, if_neg hf, hinv⟩

theorem query_unlock_inv (s : ConcLog) (tid : Nat) (t0 t1 kb : ℚ)
    (hinv : conc_inv s) (hth : s.threads tid = LogThread.query QueryPc.unlock t0 t1 kb) :
    ∃ s1, query_step s tid QueryPc.unlock t0 t1 kb = some s1 ∧ conc_inv s1 := by
  refine ⟨_, rfl, ?_⟩
  have hold : holds_read (s.threads tid) = true := by rw [hth]; rfl
  have hwr := reader_has_no_writer s tid hinv hold
  obtain ⟨c1, c2, c3, c4, c5⟩ := hinv
  simp only [hwr] at c4
  refine ⟨?_, ?_, fun h => absurd hwr h, ?_, no_torn_append_returned _ _ _ c5⟩
  · intro x
    by_cases hx : x = tid
    · subst hx
      simp [Function.update_same, holds_read]
    · simp only [Function.update_noteq hx, List.mem_filter, decide_eq_true_eq, ne_eq, hx,
        not_false_eq_true, and_true]
      exact c1 x
  · intro x
    by_cases hx : x = tid
    · subst hx
      simp [Function.update_same, holds_write, hwr]
    · simp only [Function.update_noteq hx]; exact c2 x
  · simp only [hwr, written_append_returned]
    refine ⟨c4.1, fun x => ?_⟩
    by_cases hx : x = tid
    · subst hx; rw [Function.update_same]; trivial
    · rw [Function.update_noteq hx]; exact c4.2 x
theorem query_check_inv (s : ConcLog) (tid : Nat) (t0 t1 kb : ℚ)
    (hinv : conc_inv s) (hth : s.threads tid = LogThread.query QueryPc.check t0 t1 kb) :
    ∃ s1, query_step s tid QueryPc.check t0 t1 kb = some s1 ∧ conc_inv s1 := by
  refine ⟨_, rfl, ?_⟩
  have hold : holds_read (s.threads tid) = true := by rw [hth]; rfl
  refine reader_step_inv s tid _ s.events hinv hold ?_ ?_ rfl ?_ (fun _ _ h => h)
  · split_ifs <;> rfl
  · split_ifs <;> rfl
  · intro hring _
    by_cases hh : 0 ≤ s.log.head
    · rw [if_pos hh]
      have hne : written s.events ≠ [] := by
        intro he
        have := (hring.1 he).1
        omega
      obtain ⟨ht, _⟩ := hring.2.1 hne
      have hl : 1 ≤ (written s.events).length := List.length_pos.mpr hne
      refine ⟨0, min (written s.events).length 120000 - 1, by omega, ?_⟩
      rw [if_neg (by omega)]
      simp [ht]
    · rw [if_neg hh]; trivial

theorem query_test1_inv (s : ConcLog) (tid : Nat) (i : Int) (t0 t1 kb : ℚ)
    (hinv : conc_inv s)
    (hth : s.threads tid = LogThread.query (QueryPc.test1 i) t0 t1 kb) :
    ∃ s1, query_step s tid (QueryPc.test1 i) t0 t1 kb = some s1 ∧ conc_inv s1 := by
  have hold : holds_read (s.threads tid) = true := by rw [hth]; rfl
  have hwr := reader_has_no_writer s tid hinv hold
  have c4 := hinv.2.2.2.1
  simp only [hwr] at c4
  obtain ⟨hring, hrd⟩ := c4
  have hme := hrd tid
  rw [hth] at hme
  obtain ⟨k, r, hk, hi⟩ := hme
  have hi2 : (if i = 0 then CACHE_LOG_SIZE - 1 else i - 1)
      = (((written s.events).length : Int) - 1 - k) % 120000 := by
    rw [← hi]; simp only [CACHE_LOG_SIZE]; split_ifs <;> norm_num
  have hrange : 0 ≤ (((written s.events).length : Int) - 1 - k) % 120000 ∧
      (((written s.events).length : Int) - 1 - k) % 120000 < CACHE_LOG_SIZE := by
    simp only [CACHE_LOG_SIZE]; omega
  have hmem := ring_entry_at s.log (written s.events) hring k (by omega)
  unfold query_step
  simp only []
  rw [hi2, if_pos hrange]
  by_cases hb : (s.log.log ((((written s.events).length : Int) - 1 - k) % 120000)).finish_time_ms
      ≤ t0
  · rw [if_pos hb]
    refine ⟨_, rfl, ?_⟩
    refine reader_step_inv s tid _ _ hinv hold rfl rfl (written_append_read _ _ _ _ _ _)
      (fun _ _ => trivial) ?_
    intro _ _ h
    exact no_torn_append_read _ _ _ _ _ _ h ⟨_, hmem, rfl, by simp, by simp⟩
  · rw [if_neg hb]
    refine ⟨_, rfl, ?_⟩
    refine reader_step_inv s tid _ s.events hinv hold rfl rfl rfl ?_ (fun _ _ h => h)
    intro _ _
    exact ⟨k, by omega, rfl, rfl⟩

theorem query_test2_inv (s : ConcLog) (tid : Nat) (i : Int) (r1 t0 t1 kb : ℚ)
    (hinv : conc_inv s)
    (hth : s.threads tid = LogThread.query (QueryPc.test2 i r1) t0 t1 kb) :
    ∃ s1, query_step s tid (QueryPc.test2 i r1) t0 t1 kb = some s1 ∧ conc_inv s1 := by
  have hold : holds_read (s.threads tid) = true := by rw [hth]; rfl
  have hwr := reader_has_no_writer s tid hinv hold
  have c4 := hinv.2.2.2.1
  simp only [hwr] at c4
  obtain ⟨hring, hrd⟩ := c4
  have hme := hrd tid
  rw [hth] at hme
  obtain ⟨k, hk, hi, h1⟩ := hme
  have hrange : 0 ≤ i ∧ i < CACHE_LOG_SIZE := by
    simp only [CACHE_LOG_SIZE]; omega
  have hmem := ring_entry_at s.log (written s.events) hring k hk
  rw [← hi] at hmem
  unfold query_step
  simp only []
  rw [if_pos hrange]
  by_cases hb : (s.log.log i).finish_time_ms ≤ t1
  · rw [if_pos hb]
    refine ⟨_, rfl, ?_⟩
    refine reader_step_inv s tid _ s.events hinv hold rfl rfl rfl ?_ (fun _ _ h => h)
    intro _ _
    exact ⟨k, hk, hi, h1, rfl⟩
  · rw [if_neg hb]
    refine ⟨_, rfl, ?_⟩
    refine reader_step_inv s tid _ _ hinv hold rfl rfl (written_append_read _ _ _ _ _ _)
      (fun _ _ => ⟨k, hk, hi⟩) ?_
    intro _ _ h
    exact no_torn_append_read _ _ _ _ _ _ h ⟨_, hmem, h1, by simp, by simp⟩

theorem query_bytes_inv (s : ConcLog) (tid : Nat) (i : Int) (r1 r2 t0 t1 kb : ℚ)
    (hinv : conc_inv s)
    (hth : s.threads tid = LogThread.query (QueryPc.bytes i r1 r2) t0 t1 kb) :
    ∃ s1, query_step s tid (QueryPc.bytes i r1 r2) t0 t1 kb = some s1 ∧ conc_inv s1 := by
  have hold : holds_read (s.threads tid) = true := by rw [hth]; rfl
  have hwr := reader_has_no_writer s tid hinv hold
  have c4 := hinv.2.2.2.1
  simp only [hwr] at c4
  obtain ⟨hring, hrd⟩ := c4
  have hme := hrd tid
  rw [hth] at hme
  obtain ⟨k, hk, hi, h1, h2⟩ := hme
  have hrange : 0 ≤ i ∧ i < CACHE_LOG_SIZE := by
    simp only [CACHE_LOG_SIZE]; omega
  have hmem := ring_entry_at s.log (written s.events) hring k hk
  rw [← hi] at hmem
  refine ⟨_, if_pos hrange, ?_⟩
  refine reader_step_inv s tid _ _ hinv hold rfl rfl (written_append_read _ _ _ _ _ _)
    (fun _ _ => ⟨k, hk, hi⟩) ?_
  intro _ _ h
  exact no_torn_append_read _ _ _ _ _ _ h ⟨_, hmem, h1, by simp [h2], by simp⟩

theorem query_cond_inv (s : ConcLog) (tid : Nat) (i : Int) (t0 t1 kb : ℚ)
    (hinv : conc_inv s)
    (hth : s.threads tid = LogThread.query (QueryPc.cond i) t0 t1 kb) :
    ∃ s1, query_step s tid (QueryPc.cond i) t0 t1 kb = some s1 ∧ conc_inv s1 := by
  refine ⟨_, rfl, ?_⟩
  have hold : holds_read (s.threads tid) = true := by rw [hth]; rfl
  refine reader_step_inv s tid _ s.events hinv hold ?_ ?_ rfl ?_ (fun _ _ h => h)
  · split_ifs <;> rfl
  · split_ifs <;> rfl
  · intro hring hme
    rw [hth] at hme
    obtain ⟨k, hk, hi⟩ := hme
    by_cases hh : i ≠ s.log.head
    · rw [if_pos hh]
      have hne : written s.events ≠ [] := by
        intro he; rw [he] at hk; simp at hk
      obtain ⟨_, hhd⟩ := hring.2.1 hne
      have hr : k + 1 < min (written s.events).length 120000 := by
        by_contra hc
        apply hh
        rw [hi, hhd]; split_ifs <;> omega
      refine ⟨k + 1, min (written s.events).length 120000 - (k + 2), by omega, ?_⟩
      rw [hi]
      split_ifs <;> omega
    · rw [if_neg hh]; trivial
theorem query_step_inv (s : ConcLog) (tid : Nat) (pc : QueryPc) (t0 t1 kb : ℚ)
    (hinv : conc_inv s) (hth : s.threads tid = LogThread.query pc t0 t1 kb) :
    ∃ s1, query_step s tid pc t0 t1 kb = some s1 ∧ conc_inv s1 := by
  cases pc with
  | lock => exact query_lock_inv s tid t0 t1 kb hinv hth
  | check => exact query_check_inv s tid t0 t1 kb hinv hth
  | test1 i => exact query_test1_inv s tid i t0 t1 kb hinv hth
  | test2 i r1 => exact query_test2_inv s tid i r1 t0 t1 kb hinv hth
  | bytes i r1 r2 => exact query_bytes_inv s tid i r1 r2 t0 t1 kb hinv hth
  | cond i => exact query_cond_inv s tid i t0 t1 kb hinv hth
  | unlock => exact query_unlock_inv s tid t0 t1 kb hinv hth

/-- A thread that holds no lock and moves to a position that holds no lock. -/
theorem call_inv (s : ConcLog) (tid : Nat) (th : LogThread) (hinv : conc_inv s)
    (hidle : s.threads tid = LogThread.idle)
    (hr : holds_read th = false) (hw : holds_write th = false) :
    conc_inv { s with threads := Function.update s.threads tid th } := by
  obtain ⟨c1, c2, c3, c4, c5⟩ := hinv
  obtain ⟨d1, d2⟩ := lock_maps_update s tid th c1 c2 (by rw [hr, hidle]; rfl)
    (by rw [hw, hidle]; rfl)
  refine ⟨d1, d2, c3, ?_, c5⟩
  cases hwr : s.writer with
  | none =>
    simp only [hwr] at c4 ⊢
    refine ⟨c4.1, fun x => ?_⟩
    by_cases hx : x = tid
    · subst hx; rw [Function.update_same]; exact reader_ok_of_not_holding _ _ _ hr
    · rw [Function.update_noteq hx]; exact c4.2 x
  | some w =>
    simp only [hwr] at c4 ⊢
    have hne : w ≠ tid := by
      intro h
      subst h
      have := (c2 w).mp hwr
      rw [hidle] at this
      simp [holds_write] at this
    rw [Function.update_noteq hne]
    exact c4

theorem conc_step_inv (s : ConcLog) (a : LogAction) (hinv : conc_inv s) :
    ∃ s1, conc_step s a = some s1 ∧ conc_inv s1 := by
  cases a with
  | call_push tid t b =>
    cases hth : s.threads tid with
    | idle =>
      have e : conc_step s (LogAction.call_push tid t b)
          = some { s with
              threads := Function.update s.threads tid (LogThread.push PushPc.lock t b) } := by
        simp only [conc_step, hth]
      exact ⟨_, e, call_inv s tid _ hinv hth rfl rfl⟩
    | push pc t2 b2 => exact ⟨s, by simp only [conc_step, hth], hinv⟩
    | query pc t0 t1 kb => exact ⟨s, by simp only [conc_step, hth], hinv⟩
  | call_query tid t0 t1 =>
    cases hth : s.threads tid with
    | idle =>
      have e : conc_step s (LogAction.call_query tid t0 t1)
          = some { s with
              threads := Function.update s.threads tid
                (LogThread.query QueryPc.lock t0 t1 0) } := by
        simp only [conc_step, hth]
      exact ⟨_, e, call_inv s tid _ hinv hth rfl rfl⟩
    | push pc t2 b2 => exact ⟨s, by simp only [conc_step, hth], hinv⟩
    | query pc t2 t3 kb => exact ⟨s, by simp only [conc_step, hth], hinv⟩
  | step tid =>
    cases hth : s.threads tid with
    | idle => exact ⟨s, by simp only [conc_step, hth], hinv⟩
    | push pc t b =>
      obtain ⟨s1, h1, h2⟩ := push_step_inv s tid pc t b hinv hth
      exact ⟨s1, by simp only [conc_step, hth, h1], h2⟩
    | query pc t0 t1 kb =>
      obtain ⟨s1, h1, h2⟩ := query_step_inv s tid pc t0 t1 kb hinv hth
      exact ⟨s1, by simp only [conc_step, hth, h1], h2⟩

theorem conc_inv_setup (mem : Int → cache_log_entry) : conc_inv (conc_setup mem) := by
  refine ⟨by simp [conc_setup, holds_read], by simp [conc_setup, holds_write],
    by simp [conc_setup], ?_, ?_⟩
  · simp only [conc_setup, written, List.filterMap_nil]
    exact ⟨ring_inv_setup mem, fun _ => trivial⟩
  · intro tid i t1 t2 b h
    simp [conc_setup] at h

theorem conc_run_inv :
    ∀ (acts : List LogAction) (s : ConcLog), conc_inv s →
      ∃ s1, conc_run acts s = some s1 ∧ conc_inv s1 := by
  intro acts
  induction acts with
  | nil => intro s h; exact ⟨s, rfl, h⟩
  | cons a rest ih =>
    intro s h
    obtain ⟨s1, h1, hinv1⟩ := conc_step_inv s a h
    obtain ⟨s2, h2, hinv2⟩ := ih s1 hinv1
    exact ⟨s2, by simp only [conc_run, h1, h2], hinv2⟩

/-- C22: for every initial memory and every schedule of calls and steps of concurrent
pushes and queries on one log, the run is defined (no access out of bounds) and in its
observations every iteration of every query read, in all the fields it read, the values
of one entry that some push had written in full: no read is torn. -/
theorem concurrent_reads_not_torn (mem : Int → cache_log_entry) (acts : List LogAction) :
    ∃ s, conc_run acts (conc_setup mem) = some s ∧
      ∀ tid i t1 t2 b, LogEvent.read tid i t1 t2 b ∈ s.events →
        ∃ e ∈ written s.events,
          t1 = e.finish_time_ms ∧ (∀ v, t2 = some v → v = e.finish_time_ms) ∧
            (∀ v, b = some v → v = e.bytes) := by
  obtain ⟨s, hs, hinv⟩ := conc_run_inv acts (conc_setup mem) (conc_inv_setup mem)
  exact ⟨s, hs, hinv.2.2.2.2⟩
theorem sample_schedule_events :
    (conc_run sample_schedule (conc_setup zero_mem)).map (fun s => s.events)
      = some [LogEvent.wrote 10 2048, LogEvent.wrote 20 1024,
          LogEvent.read 1 1 20 (some 20) (some 1024),
          LogEvent.read 1 0 10 (some 10) (some 2048),
          LogEvent.returned 1 150] := by
  have h1 : Int.tmod 1 120000 = 1 := by decide
  have h2 : ((1 : Int) = 0) = False := by simp
  have h3 : ((0 : Int) = 1) = False := by simp
  have h4 : (1 : Int) - 1 = 0 := by norm_num
  have h5 : ((2 : Int) = 0) = False := by simp
  have h6 : (2 : Int) - 1 = 1 := by norm_num
  norm_num [sample_schedule, conc_run, conc_step, conc_setup, push_step, query_step,
    write_lock_free, read_lock_free, log_setup, zero_mem, Function.update, CACHE_LOG_SIZE,
    List.replicate, h1, h2, h3, h4, h5, h6]

end NhcDemo
